import Mathlib

/-! Directory listing engine of airdcpp-webclient: tree model, sizes, filtering, dupe
propagation.

A shallow embedding of `airdcpp-core/airdcpp/DirectoryListing.cpp`.

Conventions of the embedding

* `std::string` is a `List Char`.
* `int64_t` sizes are `Int`. Signed overflow is undefined behaviour in C++, so sums are
  the mathematical sums; negative sizes (a peer may send them) are kept.
* A `Directory::Ptr` into a listing is the address of the node: the index of the node
  among its parent's children, followed by the address of the parent. The root has the
  empty address. The `parent` back-reference of a node is the tail of its address.
* Member functions that mutate a directory return the new directory.
* `DirectoryListing.h` is not part of the sources under study. What the code uses from it
  is a field of the records below, a definition modelled from the spec and marked so, or
  a parameter of the function that uses it (`nameMatch` for
  `operator==(Directory::Ptr, string)`, `isQueued` for `File::isQueued`).
-/

namespace DirectoryListing

/-- Modelled from the spec: the dupe status enumeration is declared outside the sources.
The six values are the ones `checkShareDupes` names: none, partial/full share dupe,
partial/full queue dupe, and the mixed share+queue status. -/
inductive DupeType where
  | DUPE_NONE
  | DUPE_SHARE_PARTIAL
  | DUPE_SHARE
  | DUPE_QUEUE_PARTIAL
  | DUPE_QUEUE
  | DUPE_SHARE_QUEUE
deriving DecidableEq, Repr, Inhabited

/-- Completeness state of a directory (`Directory::DirType`). -/
inductive DirType where
  | TYPE_NORMAL
  | TYPE_INCOMPLETE_CHILD
  | TYPE_INCOMPLETE_NOCHILD
deriving DecidableEq, Repr, Inhabited

/-- A content hash (`TTHValue`); only equality of hashes is ever used. -/
abbrev TTHValue := Nat

/-- The set `Directory::TTHSet` (`unordered_set<TTHValue>`): only insertion and
membership are used, so a list without order significance. -/
abbrev TTHSet := List TTHValue

/-- A file of the listing (`DirectoryListing::File`). -/
structure File where
  name : List Char
  size : Int
  tthRoot : TTHValue
  adls : Bool
  dupe : DupeType
  remoteDate : Nat
deriving DecidableEq, Repr, Inhabited

/-- The scalar members of `DirectoryListing::Directory`. The `adls` flag is the synthetic
flag of the spec (`getAdls()`). -/
structure DirInfo where
  name : List Char
  type : DirType
  partialSize : Int
  remoteDate : Nat
  updateDate : Nat
  loading : Bool
  dupe : DupeType
  adls : Bool
deriving DecidableEq, Repr, Inhabited

/-- A directory of the listing: its scalar members, its child directories and its files,
both in container order. -/
inductive Directory where
  | mk (info : DirInfo) (directories : List Directory) (files : List File)

instance : Inhabited Directory := ⟨Directory.mk default [] []⟩

namespace Directory

/-- The scalar members. -/
def info : Directory → DirInfo
  | mk i _ _ => i

/-- The member `directories`. -/
def directories : Directory → List Directory
  | mk _ ds _ => ds

/-- The member `files`. -/
def files : Directory → List File
  | mk _ _ fs => fs

/-- Accessor `getName()`. -/
def getName (d : Directory) : List Char := d.info.name

/-- Accessor `getDupe()`. -/
def getDupe (d : Directory) : DupeType := d.info.dupe

/-- Modelled from the spec: `getAdls()` is declared outside the sources; it reads the
synthetic ("ADLS") flag of the directory. -/
def getAdls (d : Directory) : Bool := d.info.adls

/-- Modelled from the spec: `isComplete()` is declared outside the sources; a directory is
complete when its completeness state is `Normal`. -/
def isComplete (d : Directory) : Bool := decide (d.info.type = DirType.TYPE_NORMAL)

/-- Accessor `getFileCount()`: the number of files of the directory itself. -/
def getFileCount (d : Directory) : Nat := d.files.length

end Directory

/-- The address of a node, standing for a `Directory::Ptr`: own index first, then the
address of the parent; `[]` is the root. -/
abbrev Ptr := List Nat

/-- The node a pointer refers to, if the address exists in the tree. -/
def deref (root : Directory) : Ptr → Option Directory
  | [] => some root
  | i :: par => (deref root par).bind (fun d => d.directories[i]?)

/-- `Directory::getPath`: the path of the parent, then the own name and a backslash; the
root (no parent) has the empty path. -/
def getPath (root : Directory) : Ptr → List Char
  | [] => []
  | i :: par =>
    getPath root par ++ (match deref root (i :: par) with
      | some d => d.getName
      | none => []) ++ ['\\']

/-- `std::string::find(char)`: the index of the first occurrence, `none` for `npos`. -/
def strFind (c : Char) : List Char → Option Nat
  | [] => none
  | x :: xs => if x = c then some 0 else (strFind c xs).map (· + 1)

/-- `std::find(directories.begin(), directories.end(), name)`: the first child that
`operator==` matches against the name, with its index (counted from `i`). -/
def findChild (nameMatch : List Char → List Char → Bool) (name : List Char) :
    List Directory → Nat → Option (Nat × Directory)
  | [], _ => none
  | d :: ds, i => if nameMatch d.getName name then some (i, d) else findChild nameMatch name ds (i + 1)

/-- `DirectoryListing::findDirectory(aName, current)`, where `cur` is the address of
`current`. Every recursive call works on a strictly shorter string, which the fuel counts.
A name without a backslash violates the `dcassert`; without the assertion the code keeps
descending with the same name and an `end` of `npos`, which never equals `size() - 1`, so it
ends in `nullptr`: the model returns `none` there. -/
def findDirectoryAux (nameMatch : List Char → List Char → Bool) :
    Nat → List Char → Directory → Ptr → Option Ptr
  | 0, _, _, _ => none
  | fuel + 1, aName, current, cur =>
    if aName.isEmpty then some []
    else
      match strFind '\\' aName with
      | none => none
      | some e =>
        match findChild nameMatch (aName.take e) current.directories 0 with
        | some (i, child) =>
          if e = aName.length - 1 then some (i :: cur)
          else findDirectoryAux nameMatch fuel (aName.drop (e + 1)) child (i :: cur)
        | none => none

/-- `findDirectory(aName, root)`: the search from the root, with fuel for every
character of the name. -/
def findDirectory (nameMatch : List Char → List Char → Bool) (root : Directory)
    (aName : List Char) : Option Ptr :=
  findDirectoryAux nameMatch (aName.length + 1) aName root []

/-- `Directory::getFilesSize`: the sizes of the own files, accumulated in order. -/
def getFilesSize (fs : List File) : Int :=
  fs.foldl (fun x f => x + f.size) 0

mutual
/-- `Directory::getTotalSize(countAdls)`. -/
def getTotalSize : Directory → Bool → Int
  | .mk info ds fs, countAdls =>
    if !(Directory.mk info ds fs).isComplete then info.partialSize
    else if !countAdls && (Directory.mk info ds fs).getAdls then 0
    else getTotalSizeLoop ds countAdls (Directory.mk info ds fs).getAdls (getFilesSize fs)
/-- The loop of `getTotalSize` over the child directories: `thisAdls` is `getAdls()` of the
directory that owns the loop, `x` the running total. -/
def getTotalSizeLoop : List Directory → Bool → Bool → Int → Int
  | [], _, _, x => x
  | d :: ds, countAdls, thisAdls, x =>
    if !countAdls && d.getAdls then getTotalSizeLoop ds countAdls thisAdls x
    else getTotalSizeLoop ds countAdls thisAdls (x + getTotalSize d thisAdls)
end

mutual
/-- `Directory::getTotalFileCount(countAdls)`. -/
def getTotalFileCount : Directory → Bool → Nat
  | .mk info ds fs, countAdls =>
    if !countAdls && (Directory.mk info ds fs).getAdls then 0
    else getTotalFileCountLoop ds countAdls (Directory.mk info ds fs).getAdls
      (Directory.mk info ds fs).getFileCount
/-- The loop of `getTotalFileCount` over the child directories: `thisAdls` is `getAdls()`
of the directory that owns the loop, `x` the running count. -/
def getTotalFileCountLoop : List Directory → Bool → Bool → Nat → Nat
  | [], _, _, x => x
  | d :: ds, countAdls, thisAdls, x =>
    if !countAdls && d.getAdls then getTotalFileCountLoop ds countAdls thisAdls x
    else getTotalFileCountLoop ds countAdls thisAdls (x + getTotalFileCount d thisAdls)
end

/-- The predicate `HashContained(l)`: the hash of the file is in the set. -/
def HashContained (l : TTHSet) (f : File) : Bool :=
  decide (f.tthRoot ∈ l)

/-- The predicate `DirectoryEmpty`: no file and no child directory. -/
def DirectoryEmpty (aDir : Directory) : Bool :=
  decide (aDir.getFileCount + aDir.directories.length = 0)

/-- The predicate `SizeLess`: the file is smaller than the configured threshold, where
`threshold` stands for `Util::convertSize(SETTING(SKIP_SUBTRACT), Util::KB)`. -/
def SizeLess (threshold : Int) (f : File) : Bool :=
  decide (f.size < threshold)

mutual
/-- `Directory::filterList(TTHSet& l)`: filter the children, erase the children that are
empty, erase the files whose hash is in `l`, and, when the setting `SKIP_SUBTRACT` is
positive and fewer than two files are left, erase the files below the threshold.
`erase(remove_if(...))` keeps the other elements in their order. -/
def filterList (SKIP_SUBTRACT threshold : Int) (l : TTHSet) : Directory → Directory
  | .mk info ds fs =>
    let ds1 := filterListDirs SKIP_SUBTRACT threshold l ds
    let ds2 := ds1.filter (fun d => !DirectoryEmpty d)
    let fs1 := fs.filter (fun f => !HashContained l f)
    let fs2 := if SKIP_SUBTRACT > 0 ∧ fs1.length < 2 then fs1.filter (fun f => !SizeLess threshold f) else fs1
    .mk info ds2 fs2
/-- The first loop of `filterList`: every child is filtered in place. -/
def filterListDirs (SKIP_SUBTRACT threshold : Int) (l : TTHSet) : List Directory → List Directory
  | [] => []
  | d :: ds => filterList SKIP_SUBTRACT threshold l d :: filterListDirs SKIP_SUBTRACT threshold l ds
end

mutual
/-- `Directory::getHashList(l)`: the hashes of the children's subtrees, then the hashes of
the own files, are inserted into `l`. -/
def getHashList : Directory → TTHSet → TTHSet
  | .mk _ ds fs, l => fs.foldl (fun acc f => acc.insert f.tthRoot) (getHashListDirs ds l)
/-- The loop of `getHashList` over the child directories. -/
def getHashListDirs : List Directory → TTHSet → TTHSet
  | [], l => l
  | d :: ds, l => getHashListDirs ds (getHashList d l)
end

/-- `Directory::filterList(DirectoryListing& dirList)`, called on `subject`: the hash list
of the root of the other listing is collected and the subject is filtered with it. -/
def filterListAgainst (SKIP_SUBTRACT threshold : Int) (dirListRoot subject : Directory) : Directory :=
  filterList SKIP_SUBTRACT threshold (getHashList dirListRoot []) subject

open DupeType in
/-- The body of the first loop of `Directory::checkShareDupes`: the new status of the
directory from its status `dupe`, the flag `first` and the `result` of the child. -/
def dirDupeStep (dupe : DupeType) (first : Bool) (result : DupeType) : DupeType :=
  if dupe = DUPE_NONE ∧ first = true then result
  else if result = DUPE_SHARE ∧ dupe = DUPE_NONE ∧ first = false then DUPE_SHARE_PARTIAL
  else if result = DUPE_SHARE_PARTIAL ∧ (dupe = DUPE_NONE ∨ dupe = DUPE_SHARE) ∧ first = false then
    DUPE_SHARE_PARTIAL
  else if result = DUPE_QUEUE ∧ dupe = DUPE_NONE ∧ first = false then DUPE_QUEUE_PARTIAL
  else if result = DUPE_QUEUE_PARTIAL ∧ (dupe = DUPE_NONE ∨ dupe = DUPE_QUEUE) ∧ first = false then
    DUPE_QUEUE_PARTIAL
  else if (dupe = DUPE_SHARE ∨ dupe = DUPE_SHARE_PARTIAL) ∧
      (result = DUPE_QUEUE ∨ result = DUPE_QUEUE_PARTIAL) then DUPE_SHARE_QUEUE
  else if (dupe = DUPE_QUEUE ∨ dupe = DUPE_QUEUE_PARTIAL) ∧
      (result = DUPE_SHARE ∨ result = DUPE_SHARE_PARTIAL) then DUPE_SHARE_QUEUE
  else if result = DUPE_SHARE_QUEUE then DUPE_SHARE_QUEUE
  else dupe

open DupeType in
/-- The body of the second loop of `Directory::checkShareDupes` for a file of positive
size: `dirsEmpty` is `directories.empty()`, `isQueued` is `File::isQueued`. -/
def fileDupeStep (isQueued : File → Bool) (dirsEmpty : Bool) (dupe : DupeType) (first : Bool)
    (f : File) : DupeType :=
  if dupe = DUPE_NONE ∧ f.dupe = DUPE_SHARE ∧ dirsEmpty = true ∧ first = true then DUPE_SHARE
  else if dupe = DUPE_NONE ∧ isQueued f = true ∧ dirsEmpty = true ∧ first = true then DUPE_QUEUE
  else if dupe = DUPE_NONE ∧ f.dupe = DUPE_SHARE ∧ dirsEmpty = false ∧ first = true then
    DUPE_SHARE_PARTIAL
  else if dupe = DUPE_NONE ∧ isQueued f = true ∧ dirsEmpty = false ∧ first = true then
    DUPE_QUEUE_PARTIAL
  else if dupe = DUPE_NONE ∧ f.dupe = DUPE_SHARE ∧ first = false then DUPE_SHARE_PARTIAL
  else if dupe = DUPE_NONE ∧ isQueued f = true ∧ first = false then DUPE_QUEUE_PARTIAL
  else if dupe = DUPE_SHARE ∧ f.dupe ≠ DUPE_SHARE then DUPE_SHARE_PARTIAL
  else if dupe = DUPE_QUEUE ∧ isQueued f = false then DUPE_QUEUE_PARTIAL
  else if (dupe = DUPE_SHARE ∨ dupe = DUPE_SHARE_PARTIAL) ∧ isQueued f = true then DUPE_SHARE_QUEUE
  else if (dupe = DUPE_QUEUE ∨ dupe = DUPE_QUEUE_PARTIAL) ∧ f.dupe = DUPE_SHARE then DUPE_SHARE_QUEUE
  else dupe

/-- The second loop of `Directory::checkShareDupes`, over the own files: a file whose
size is not positive is passed over and leaves `first` as it is. -/
def checkFilesLoop (isQueued : File → Bool) (dirsEmpty : Bool) : List File → DupeType → Bool → DupeType
  | [], dupe, _ => dupe
  | f :: fs, dupe, first =>
    if f.size > 0 then
      checkFilesLoop isQueued dirsEmpty fs (fileDupeStep isQueued dirsEmpty dupe first f) false
    else checkFilesLoop isQueued dirsEmpty fs dupe first

mutual
/-- `Directory::checkShareDupes`: the directory with the dupe status of every directory of
the subtree set; the value the C++ function returns is `getDupe` of the result. -/
def checkShareDupes (isQueued : File → Bool) : Directory → Directory
  | .mk info ds fs =>
    let r := checkDirsLoop isQueued ds info.dupe true
    .mk { info with dupe := checkFilesLoop isQueued ds.isEmpty fs r.2 true } r.1 fs
/-- The first loop of `Directory::checkShareDupes`, over the child directories: the
classified children and the status of the directory after the loop. -/
def checkDirsLoop (isQueued : File → Bool) : List Directory → DupeType → Bool → List Directory × DupeType
  | [], dupe, _ => ([], dupe)
  | d :: ds, dupe, first =>
    let r := checkDirsLoop isQueued ds
      (dirDupeStep dupe first (checkShareDupes isQueued d).getDupe) false
    (checkShareDupes isQueued d :: r.1, r.2)
end

/-- `DirectoryListing::checkShareDupes`: the root is classified and then its own status
is reset to `DUPE_NONE`. -/
def checkShareDupesListing (isQueued : File → Bool) (root : Directory) : Directory :=
  match checkShareDupes isQueued root with
  | .mk info ds fs => .mk { info with dupe := DupeType.DUPE_NONE } ds fs


mutual
/-- Equality of directories is decidable. -/
def Directory.decEq : (a b : Directory) → Decidable (a = b)
  | .mk i1 ds1 fs1, .mk i2 ds2 fs2 =>
    if hi : i1 = i2 then
      if hf : fs1 = fs2 then
        match Directory.decEqList ds1 ds2 with
        | isTrue hd => isTrue (by rw [hi, hf, hd])
        | isFalse hd => isFalse (by intro h; injection h with _ h2 _; exact hd h2)
      else isFalse (by intro h; injection h with _ _ h3; exact hf h3)
    else isFalse (by intro h; injection h with h1 _ _; exact hi h1)
/-- Equality of lists of directories is decidable. -/
def Directory.decEqList : (as bs : List Directory) → Decidable (as = bs)
  | [], [] => isTrue rfl
  | [], _ :: _ => isFalse (by intro h; cases h)
  | _ :: _, [] => isFalse (by intro h; cases h)
  | a :: as, b :: bs =>
    match Directory.decEq a b with
    | isTrue h1 =>
      match Directory.decEqList as bs with
      | isTrue h2 => isTrue (by rw [h1, h2])
      | isFalse h2 => isFalse (by intro h; injection h with _ h4; exact h2 h4)
    | isFalse h1 => isFalse (by intro h; injection h with h3 _; exact h1 h3)
end

instance : DecidableEq Directory := Directory.decEq

/-! ### Observations used to state the properties -/

mutual
/-- The files anywhere in a tree, in traversal order (own files, then the children's
subtrees), each with the names of the directories that lead from the top of the tree
to the directory holding it; `path` is the path of the directory itself. -/
def listFiles : Directory → List (List Char) → List (List (List Char) × File)
  | .mk _ ds fs, path => fs.map (fun f => (path, f)) ++ listFilesDirs ds path
/-- The files of the subtrees of the children of a directory whose path is `path`. -/
def listFilesDirs : List Directory → List (List Char) → List (List (List Char) × File)
  | [], _ => []
  | d :: ds, path => listFiles d (path ++ [d.getName]) ++ listFilesDirs ds path
end

mutual
/-- The directories of a tree: the directory itself and those of its children's subtrees. -/
def allDirs : Directory → List Directory
  | .mk info ds fs => .mk info ds fs :: allDirsList ds
/-- The directories of the subtrees of a list of children. -/
def allDirsList : List Directory → List Directory
  | [] => []
  | d :: ds => allDirs d ++ allDirsList ds
end

/-! ### Concrete listings -/

/-- The scalar members of a complete, real directory without dupe status. -/
def completeInfo (n : List Char) : DirInfo :=
  { name := n, type := DirType.TYPE_NORMAL, partialSize := 0, remoteDate := 0, updateDate := 0,
    loading := false, dupe := DupeType.DUPE_NONE, adls := false }

/-- A real file without dupe status. -/
def plainFile (n : List Char) (size : Int) (tth : TTHValue) : File :=
  { name := n, size := size, tthRoot := tth, adls := false, dupe := DupeType.DUPE_NONE,
    remoteDate := 0 }

/-- The directory `A/B/` of the scenario: file `f2` of size 20 with hash 2. -/
def scenarioB : Directory := .mk (completeInfo ['B']) [] [plainFile ['f', '2'] 20 2]

/-- The directory `A/` of the scenario: file `f1` of size 10 with hash 1, and `B/`. -/
def scenarioA : Directory := .mk (completeInfo ['A']) [scenarioB] [plainFile ['f', '1'] 10 1]

/-- The root of the scenario listing. -/
def scenarioRoot : Directory := .mk (completeInfo []) [scenarioA] []

/-- A complete synthetic directory holding one file of 5 bytes. -/
def adlsChild : Directory :=
  .mk { completeInfo ['M'] with adls := true } [] [plainFile ['m'] 5 7]

/-- A complete real directory whose only child is the synthetic directory `adlsChild`. -/
def adlsParent : Directory := .mk (completeInfo ['P']) [adlsChild] []

/-- An incomplete directory for which the peer announced 42 bytes, with one listed file. -/
def incompleteDir : Directory :=
  .mk { completeInfo ['I'] with type := DirType.TYPE_INCOMPLETE_CHILD, partialSize := 42 } []
    [plainFile ['i'] 7 9]

/-- A tree for the size threshold: `One/` holds a single small file, `Two/` holds two. -/
def thresholdTree : Directory :=
  .mk (completeInfo []) [
    .mk (completeInfo ['O', 'n', 'e']) [] [plainFile ['s'] 1 3],
    .mk (completeInfo ['T', 'w', 'o']) [] [plainFile ['a'] 1 4, plainFile ['b'] 2 5]] []

mutual
/-- The tree without its zero-byte files, at every depth. -/
def stripZeroByte : Directory → Directory
  | .mk info ds fs => .mk info (stripZeroByteDirs ds) (fs.filter (fun f => decide (f.size ≠ 0)))
/-- The children without their zero-byte files, at every depth. -/
def stripZeroByteDirs : List Directory → List Directory
  | [] => []
  | d :: ds => stripZeroByte d :: stripZeroByteDirs ds
end

/-- Modelled from the spec: `File::isQueued` is declared outside the sources; the instance
used for concrete listings takes a file as queued when its status is the queue status. -/
def isQueuedByStatus (f : File) : Bool := decide (f.dupe = DupeType.DUPE_QUEUE)

/-- A file of one byte with the given dupe status. -/
def dupeFile (n : List Char) (size : Int) (dupe : DupeType) : File :=
  { name := n, size := size, tthRoot := 0, adls := false, dupe := dupe, remoteDate := 0 }

/-- A directory whose single file is in the share. -/
def sharedDir : Directory := .mk (completeInfo ['S']) [] [dupeFile ['s'] 1 DupeType.DUPE_SHARE]

/-- A directory whose single file is in the queue. -/
def queuedDir : Directory := .mk (completeInfo ['Q']) [] [dupeFile ['q'] 1 DupeType.DUPE_QUEUE]

/-- A directory whose single file is no dupe. -/
def freshDir : Directory := .mk (completeInfo ['N']) [] [dupeFile ['n'] 1 DupeType.DUPE_NONE]

/-- A directory without files whose children are the given ones. -/
def parentOf (ds : List Directory) : Directory := .mk (completeInfo ['X']) ds []

/-- A directory without children whose files are the given ones. -/
def leafOf (fs : List File) : Directory := .mk (completeInfo ['X']) [] fs

/-! ### Paths: child indices and segments -/

/-- The node reached from `d` by a list of child indices, topmost index first. -/
def descendIdx : Directory → List Nat → Option Directory
  | d, [] => some d
  | d, i :: is =>
    match d.directories[i]? with
    | some c => descendIdx c is
    | none => none

/-- The names along a list of child indices below `d`, topmost first, each followed by a
backslash. -/
def pathOf : Directory → List Nat → List Char
  | _, [] => []
  | d, i :: is =>
    match d.directories[i]? with
    | some c => c.getName ++ '\\' :: pathOf c is
    | none => []

/-- Siblings that `std::find` tells apart: no name holds a backslash, every name is matched
against itself, and no child is matched against the name of a later sibling. -/
def siblingsDistinct (nameMatch : List Char → List Char → Bool) : List Directory → Bool
  | [] => true
  | d :: ds =>
    !decide ('\\' ∈ d.getName) && nameMatch d.getName d.getName &&
      ds.all (fun e => !nameMatch d.getName e.getName) && siblingsDistinct nameMatch ds

mutual
/-- A tree in which the children of every directory are told apart by their names. -/
def wellNamed (nameMatch : List Char → List Char → Bool) : Directory → Bool
  | .mk _ ds _ => siblingsDistinct nameMatch ds && wellNamedDirs nameMatch ds
/-- Every tree of the list is well named. -/
def wellNamedDirs (nameMatch : List Char → List Char → Bool) : List Directory → Bool
  | [] => true
  | d :: ds => wellNamed nameMatch d && wellNamedDirs nameMatch ds
end

/-- The segments of a path: the pieces that end at each backslash, in order (characters
after the last backslash belong to no segment). -/
def segments : List Char → List (List Char)
  | [] => []
  | c :: cs =>
    if c = '\\' then [] :: segments cs
    else
      match segments cs with
      | [] => []
      | s :: ss => (c :: s) :: ss

/-- The path spelled by a list of segments: each segment followed by a backslash. -/
def joinSegments : List (List Char) → List Char
  | [] => []
  | s :: ss => s ++ '\\' :: joinSegments ss

/-- The comparison of a directory with a name by equality of the names. -/
def exactMatch (a b : List Char) : Bool := decide (a = b)

/-- A root with two children of the same name `A`; the second holds a file. -/
def twinRoot : Directory :=
  .mk (completeInfo []) [.mk (completeInfo ['A']) [] [],
    .mk (completeInfo ['A']) [] [plainFile ['f'] 1 1]] []

/-- A root with one child whose name `a\b` holds a backslash. -/
def slashRoot : Directory := .mk (completeInfo []) [.mk (completeInfo ['a', '\\', 'b']) [] []] []

/-! ### Local search -/

/-- The parts of `SearchQuery` that `Directory::search` reads. The class is declared
outside the sources, so its matchers are the fields of this record. -/
structure SearchQuery where
  matchesDirectory : List Char → Bool
  matchesSize : Int → Bool
  matchesFile : List Char → Int → Nat → TTHValue → Bool
  maxResults : Nat

/-- The order of `std::string`: lexicographic by character code. -/
def strLess : List Char → List Char → Bool
  | _, [] => false
  | [], _ :: _ => true
  | a :: as, b :: bs =>
    if a.toNat < b.toNat then true
    else if b.toNat < a.toNat then false
    else strLess as bs

/-- The set `OrderedStringSet` (an ordered set of strings without duplicates), as the list
of its elements in order. -/
abbrev OrderedStringSet := List (List Char)

/-- The place of a new element in the ordered list: in front of the first greater one. -/
def orderedInsert (s : List Char) : OrderedStringSet → OrderedStringSet
  | [] => [s]
  | x :: xs => if strLess s x then s :: x :: xs else x :: orderedInsert s xs

/-- `OrderedStringSet::insert`: an element that is already there is not added again; a new
one is put in its place in the order. -/
def setInsert (s : List Char) (l : OrderedStringSet) : OrderedStringSet :=
  if s ∈ l then l else orderedInsert s l

/-- The path `getPath()` of a directory whose parent has the path `parentPath`; `none`
stands for a directory without parent (the root). -/
def ownPath (parentPath : Option (List Char)) (name : List Char) : List Char :=
  match parentPath with
  | none => []
  | some pp => pp ++ name ++ ['\\']

/-- The first step of `Directory::search`: when the name of the directory matches, the
path of the parent (the empty string without parent) is inserted, unless it is in the
set already or the total size of the directory does not match. -/
def searchNameStep (q : SearchQuery) (d : Directory) (parentPath : Option (List Char))
    (aResults : OrderedStringSet) : OrderedStringSet :=
  if q.matchesDirectory d.getName then
    if !decide (parentPath.getD [] ∈ aResults) && q.matchesSize (getTotalSize d false) then
      setInsert (parentPath.getD []) aResults
    else aResults
  else aResults

/-- The loop of `Directory::search` over the own files: at the first file that matches,
the path `getPath()` of the directory is inserted and the loop is left. -/
def searchFilesStep (q : SearchQuery) (fs : List File) (path : List Char)
    (aResults : OrderedStringSet) : OrderedStringSet :=
  if fs.any (fun f => q.matchesFile f.name f.size f.remoteDate f.tthRoot) then
    setInsert path aResults
  else aResults

mutual
/-- `Directory::search(aResults, aStrings)`: `parentPath` is `parent->getPath()` when there
is a parent. The result is the new content of `aResults`. -/
def search (q : SearchQuery) : Directory → Option (List Char) → OrderedStringSet → OrderedStringSet
  | .mk info ds fs, parentPath, aResults =>
    if (Directory.mk info ds fs).getAdls then aResults
    else
      searchDirs q ds (ownPath parentPath info.name)
        (searchFilesStep q fs (ownPath parentPath info.name)
          (searchNameStep q (Directory.mk info ds fs) parentPath aResults))
/-- The last loop of `Directory::search`, over the child directories of a directory whose
path is `path`: it returns as soon as the set holds `maxResults` entries or more after the
search of a child. -/
def searchDirs (q : SearchQuery) : List Directory → List Char → OrderedStringSet → OrderedStringSet
  | [], _, aResults => aResults
  | d :: ds, path, aResults =>
    if (search q d (some path) aResults).length ≥ q.maxResults then search q d (some path) aResults
    else searchDirs q ds path (search q d (some path) aResults)
end

mutual
/-- The paths the spec asks of a local search when no directory name matches: the path of
every directory outside synthetic subtrees that holds at least one matching file. -/
def matchingDirPaths (q : SearchQuery) : Directory → Option (List Char) → List (List Char)
  | .mk info ds fs, parentPath =>
    if (Directory.mk info ds fs).getAdls then []
    else
      (if fs.any (fun f => q.matchesFile f.name f.size f.remoteDate f.tthRoot) then
        [ownPath parentPath info.name] else []) ++
      matchingDirPathsDirs q ds (ownPath parentPath info.name)
/-- The matching paths in the subtrees of the children of a directory with path `path`. -/
def matchingDirPathsDirs (q : SearchQuery) : List Directory → List Char → List (List Char)
  | [], _ => []
  | d :: ds, path => matchingDirPaths q d (some path) ++ matchingDirPathsDirs q ds path
end

mutual
/-- The number of levels of a tree. -/
def height : Directory → Nat
  | .mk _ ds _ => 1 + heightDirs ds
/-- The greatest number of levels among the trees of a list. -/
def heightDirs : List Directory → Nat
  | [] => 0
  | d :: ds => max (height d) (heightDirs ds)
end

/-- A query for files named `n` that matches no directory name, with `maxResults` as given. -/
def fileNameQuery (n : List Char) (maxResults : Nat) : SearchQuery :=
  { matchesDirectory := fun _ => false, matchesSize := fun _ => true,
    matchesFile := fun name _ _ _ => decide (name = n), maxResults := maxResults }

/-- A chain of three directories `A/B/C/`, each holding one file. -/
def chainA : Directory :=
  .mk (completeInfo ['A']) [.mk (completeInfo ['B'])
    [.mk (completeInfo ['C']) [] [plainFile ['c'] 1 3]] [plainFile ['b'] 1 2]]
    [plainFile ['a'] 1 1]

/-- A root whose only child is the chain `A/B/C/`. -/
def chainRoot : Directory := .mk (completeInfo []) [chainA] []

/-- A query that matches every file and no directory name. -/
def anyFileQuery (maxResults : Nat) : SearchQuery :=
  { matchesDirectory := fun _ => false, matchesSize := fun _ => true,
    matchesFile := fun _ _ _ _ => true, maxResults := maxResults }

/-! ### The listing: navigation and distributed search -/

/-- The reload modes of `changeDirectory`. -/
inductive ReloadMode where
  | RELOAD_NONE
  | RELOAD_DIR
  | RELOAD_ALL
deriving DecidableEq, Repr, Inhabited

/-- The events a listing fires to its `DirectoryListingListener`s, with their arguments. -/
inductive ListenerEvent where
  | ChangeDirectory (path : List Char) (isSearchChange : Bool)
  | UpdateStatusMessage (message : List Char)
  | LoadingFailed (message : List Char)
  | SearchStarted
  | SearchFailed (timedOut : Bool)
  | LoadingStarted (changeDir : Bool)
  | LoadingFinished (start : Nat) (dir : List Char) (reloadList : Bool) (changeDir : Bool)
deriving DecidableEq, Repr, Inhabited

/-- The calls a listing makes to its collaborators and to its own task queue. -/
inductive Request where
  | addPartialListTask (xml base : List Char) (reloadAll : Bool)
  | addList (path : List Char)
  | directSearch (token : List Char) (dir : List Char)
deriving DecidableEq, Repr, Inhabited

/-- The summary `currentLocation`. -/
structure Location where
  directories : Nat
  files : Nat
  totalSize : Int
  directory : Option Ptr
deriving DecidableEq, Repr, Inhabited

/-- The registry `baseDirs`: lowercase path ↦ (directory, visited). A `Directory::Ptr` of
the registry can be null (`none`). Later entries of the list are older. -/
abbrev DirMap := List (List Char × Option Ptr × Bool)

/-- The members of `DirectoryListing` that the modelled operations read or write.
`searchListener` and `timerListener` say whether the listing is registered with the
`SearchManager` and the `TimerManager`; `hasCurSearch` says whether `curSearch` is non-null;
`curResult` is the position of the iterator in `searchResults`; `fired` and `requests` log
the events fired and the collaborator calls made, oldest first. -/
structure Listing where
  root : Directory
  baseDirs : DirMap
  partialList : Bool
  isOwnList : Bool
  isClientView : Bool
  closing : Bool
  currentLocation : Location
  lastResult : Nat
  maxResultCount : Int
  curResultCount : Int
  searchResults : OrderedStringSet
  curResult : Nat
  searchToken : List Char
  hasCurSearch : Bool
  searchListener : Bool
  timerListener : Bool
  fired : List ListenerEvent
  requests : List Request
deriving DecidableEq, Inhabited

/-- What the listing operations take from outside the sources: `operator==` of a directory
and a name, the state of the user (`isOnline()`, `isNMDC()`, the `ASCH` flag), the error, if
any, that `QueueManager::addList` throws, the text `STRING(USER_OFFLINE)`, the path
conversions `Util::toNmdcFile` and `Util::getNmdcParentDir`, the token `searchImpl` draws
and the paths a search of the own share returns. -/
structure Collaborators where
  nameMatch : List Char → List Char → Bool
  userOnline : Bool
  userNMDC : Bool
  userASCH : Bool
  addListError : Option (List Char)
  userOfflineText : List Char
  toNmdcFile : List Char → List Char
  getNmdcParentDir : List Char → List Char
  newToken : List Char
  shareSearch : List (List Char)

/-- A result delivered by the `SearchManager`: what `getToken()`, `getPath()`,
`getFilePath()` and `getType() == TYPE_DIRECTORY` return. -/
structure SearchResult where
  token : List Char
  path : List Char
  filePath : List Char
  isDirectory : Bool
deriving DecidableEq, Repr, Inhabited

/-- The list with its `n`-th element replaced by its image under `f`. -/
def modifyNth {α : Type} (f : α → α) : List α → Nat → List α
  | [], _ => []
  | x :: xs, 0 => f x :: xs
  | x :: xs, n + 1 => x :: modifyNth f xs n

/-- The tree with `f` applied to the node reached by a list of child indices, topmost
index first. -/
def modifyIdx (f : Directory → Directory) : List Nat → Directory → Directory
  | [], d => f d
  | i :: is, .mk info ds fs => .mk info (modifyNth (modifyIdx f is) ds i) fs

/-- The tree with `f` applied to the node at an address. -/
def modifyAt (root : Directory) (ptr : Ptr) (f : Directory → Directory) : Directory :=
  modifyIdx f ptr.reverse root

/-- Setter `setLoading`. -/
def Directory.setLoading (b : Bool) : Directory → Directory
  | .mk info ds fs => .mk { info with loading := b } ds fs

/-- Accessor `getLoading()`. -/
def Directory.getLoading (d : Directory) : Bool := d.info.loading

/-- `DirectoryListing::updateCurrentLocation`. -/
def updateCurrentLocation (L : Listing) (ptr : Ptr) (dir : Directory) : Listing :=
  { L with currentLocation :=
      { directories := dir.directories.length, files := dir.files.length,
        totalSize := getTotalSize dir false, directory := some ptr } }

/-- The directory `changeDirectory` goes to: `aPath.empty() ? root : findDirectory(aPath,
root)`, as an address; `none` is the null pointer. -/
def resolvePath (env : Collaborators) (L : Listing) (aPath : List Char) : Option Ptr :=
  if aPath.isEmpty then some [] else findDirectory env.nameMatch L.root aPath

/-- `DirectoryListing::changeDirectory(aPath, aReloadMode, aIsSearchChange)`: the new
state of the listing and the value returned. `addPartialListTask` is logged as a request:
a displayed listing queues it, a programmatic one runs it through `dispatch`, which lets
no exception out. An exception of `QueueManager::addList` is caught and reported. -/
def changeDirectory (env : Collaborators) (L : Listing) (aPath : List Char)
    (aReloadMode : ReloadMode) (aIsSearchChange : Bool) : Listing × Bool :=
  match resolvePath env L aPath with
  | none => (L, false)
  | some ptr =>
    match deref L.root ptr with
    | none => (L, false)
    | some dir =>
      if !L.partialList || dir.getLoading ||
          (dir.isComplete && decide (aReloadMode = ReloadMode.RELOAD_NONE)) then
        (updateCurrentLocation
          { L with fired := L.fired ++ [ListenerEvent.ChangeDirectory aPath aIsSearchChange] }
          ptr dir, true)
      else if L.isOwnList then
        (updateCurrentLocation
          { L with
            root := modifyAt L.root ptr (Directory.setLoading true)
            fired := L.fired ++ [ListenerEvent.ChangeDirectory aPath aIsSearchChange]
            requests := L.requests ++
              [Request.addPartialListTask aPath aPath (decide (aReloadMode = ReloadMode.RELOAD_ALL))] }
          ptr (dir.setLoading true), true)
      else if env.userOnline then
        (updateCurrentLocation
          { L with
            root := modifyAt L.root ptr (Directory.setLoading true)
            fired := L.fired ++ [ListenerEvent.ChangeDirectory aPath aIsSearchChange] ++
              (match env.addListError with
                | some e => [ListenerEvent.LoadingFailed e]
                | none => [])
            requests := L.requests ++ [Request.addList aPath] }
          ptr (dir.setLoading true), true)
      else
        (updateCurrentLocation
          { L with fired := L.fired ++ [ListenerEvent.UpdateStatusMessage env.userOfflineText] }
          ptr dir, true)

/-- `DirectoryListing::endSearch(timedOut)`. Dereferencing `curResult` when the result set
is empty is undefined in C++; the model reads the empty path there. -/
def endSearch (env : Collaborators) (L : Listing) (timedOut : Bool) : Listing :=
  if L.curResultCount = 0 then
    { L with searchListener := false, timerListener := false, hasCurSearch := false,
             fired := L.fired ++ [ListenerEvent.SearchFailed timedOut] }
  else
    (changeDirectory env
      { L with searchListener := false, timerListener := false, curResult := 0 }
      (L.searchResults.getD 0 []) ReloadMode.RELOAD_NONE true).1

/-- `DirectoryListing::supportsASCH`. -/
def supportsASCH (env : Collaborators) (L : Listing) : Bool :=
  !L.partialList || L.isOwnList || env.userASCH

/-- The path that `on(SearchManagerListener::SR)` inserts for a result. -/
def resultPath (env : Collaborators) (L : Listing) (aSR : SearchResult) : List Char :=
  if supportsASCH env L then aSR.path
  else if aSR.isDirectory then env.getNmdcParentDir aSR.path else aSR.filePath

/-- `DirectoryListing::on(SearchManagerListener::SR, aSR)`, where `now` is `GET_TICK()`. -/
def onSR (env : Collaborators) (L : Listing) (now : Nat) (aSR : SearchResult) : Listing :=
  if aSR.token = L.searchToken then
    let path := resultPath env L aSR
    let L1 : Listing :=
      { L with
        lastResult := now
        searchResults := setInsert path L.searchResults
        curResultCount := if path ∈ L.searchResults then L.curResultCount
          else L.curResultCount + 1 }
    if L1.maxResultCount = L1.curResultCount then { L1 with lastResult := 0 } else L1
  else L

/-- `DirectoryListing::on(ClientManagerListener::DirectSearchEnd, aToken, aResultCount)`. -/
def onDirectSearchEnd (env : Collaborators) (L : Listing) (aToken : List Char)
    (aResultCount : Int) : Listing :=
  if aToken = L.searchToken then
    if aResultCount = L.curResultCount then
      endSearch env { L with maxResultCount := aResultCount } false
    else { L with maxResultCount := aResultCount }
  else L

/-- `DirectoryListing::on(TimerManagerListener::Second, aTick)`: the sums are taken in
64-bit unsigned arithmetic. -/
def onSecond (env : Collaborators) (L : Listing) (aTick : Nat) : Listing :=
  if L.curResultCount = 0 then
    if (L.lastResult + 5000) % 2 ^ 64 < aTick then endSearch env L true else L
  else if (L.lastResult + 1000) % 2 ^ 64 < aTick then endSearch env L false
  else L

/-- The directory `searchImpl` searches locally: the root for an empty `aDir`, else what
`findDirectory` returns for the converted path; with the directory, the path of its parent
when it has one. -/
def searchStart (env : Collaborators) (L : Listing) (aDir : List Char) :
    Option (Directory × Option (List Char)) :=
  match (if aDir.isEmpty then some [] else findDirectory env.nameMatch L.root (env.toNmdcFile aDir)) with
  | none => none
  | some [] => some (L.root, none)
  | some (i :: par) =>
    match deref L.root (i :: par) with
    | some dir => some (dir, some (getPath L.root par))
    | none => none

/-- `DirectoryListing::searchImpl`, where `now` is `GET_TICK()` and `q` the query that
`SearchQuery::getSearch` builds. The three branches: own partial list (the share is
searched), other partial list of an ADC user (the search is sent to the peer and the
listing starts to listen to results and timer ticks), else the local search of the tree. -/
def searchImpl (env : Collaborators) (L : Listing) (now : Nat) (q : SearchQuery)
    (aDir : List Char) : Listing :=
  let L0 : Listing :=
    { L with
      lastResult := now
      maxResultCount := 0
      curResultCount := 0
      searchResults := []
      hasCurSearch := true
      fired := L.fired ++ [ListenerEvent.SearchStarted] }
  if L0.isOwnList && L0.partialList then
    let found := env.shareSearch.foldl (fun acc p => setInsert p acc) L0.searchResults
    endSearch env
      { L0 with searchResults := found, curResultCount := (found.length : Int),
                maxResultCount := (found.length : Int) } false
  else if L0.partialList && !env.userNMDC then
    { L0 with
      searchListener := true
      searchToken := env.newToken
      requests := L0.requests ++ [Request.directSearch env.newToken aDir]
      timerListener := true }
  else
    let found :=
      match searchStart env L0 aDir with
      | some (dir, parentPath) => search q dir parentPath L0.searchResults
      | none => L0.searchResults
    endSearch env
      { L0 with searchResults := found, curResultCount := (found.length : Int),
                maxResultCount := (found.length : Int) } false

/-- The callbacks of a distributed search, as the managers deliver them. -/
inductive SearchEvent where
  | SR (now : Nat) (aSR : SearchResult)
  | DirectSearchEnd (aToken : List Char) (aResultCount : Int)
  | Second (aTick : Nat)
deriving DecidableEq, Repr, Inhabited

/-- Delivery of a callback: `SR` and `Second` reach the listing only while it is registered
with the `SearchManager` and the `TimerManager`; the `ClientManager` always reaches it. -/
def deliver (env : Collaborators) (L : Listing) : SearchEvent → Listing
  | .SR now aSR => if L.searchListener then onSR env L now aSR else L
  | .DirectSearchEnd aToken aResultCount => onDirectSearchEnd env L aToken aResultCount
  | .Second aTick => if L.timerListener then onSecond env L aTick else L

/-- The state after a sequence of callbacks. -/
def deliverAll (env : Collaborators) (L : Listing) (evs : List SearchEvent) : Listing :=
  evs.foldl (deliver env) L

/-- Collaborators for concrete listings: names are compared by equality, the user is an
online ADC user with `ASCH`, `addList` succeeds, `/a/b/` converts to `a\b\`, and the
parent of a path is the path without its last segment. -/
def testCollaborators : Collaborators :=
  { nameMatch := exactMatch, userOnline := true, userNMDC := false, userASCH := true,
    addListError := none, userOfflineText := ['o', 'f', 'f', 'l', 'i', 'n', 'e'],
    toNmdcFile := fun p => (p.drop 1).map (fun c => if c = '/' then '\\' else c),
    getNmdcParentDir := fun p => joinSegments (segments p).dropLast,
    newToken := ['t', 'o', 'k'], shareSearch := [] }

/-- A listing around a tree, with nothing loaded, searched or fired yet. -/
def listingOf (root : Directory) (partialList : Bool) : Listing :=
  { root := root, baseDirs := [], partialList := partialList, isOwnList := false,
    isClientView := true, closing := false,
    currentLocation := { directories := 0, files := 0, totalSize := 0, directory := none },
    lastResult := 0, maxResultCount := 0, curResultCount := 0, searchResults := [],
    curResult := 0, searchToken := [], hasCurSearch := false, searchListener := false,
    timerListener := false, fired := [], requests := [] }

/-- A result of the peer for the token of `testCollaborators`. -/
def resultFor (path : List Char) : SearchResult :=
  { token := ['t', 'o', 'k'], path := path, filePath := path, isDirectory := true }

/-- A distributed search of the scenario listing, started at tick 10000. -/
def startedSearch : Listing :=
  searchImpl testCollaborators (listingOf scenarioRoot true) 10000 (anyFileQuery 100) []

/-- The state after the handlers of a list of results, delivered in order with their
arrival times. -/
def feedResults (env : Collaborators) (L : Listing) (srs : List (Nat × SearchResult)) : Listing :=
  srs.foldl (fun S x => onSR env S x.1 x.2) L

/-- The listing with the three members that `on(SearchManagerListener::SR)` writes
(`lastResult`, `searchResults`, `curResultCount`) blanked: two listings with the same
image differ in those members at most. -/
def searchRest (S : Listing) : Listing :=
  { S with lastResult := 0, searchResults := [], curResultCount := 0 }

/-- Three results of the peer with different paths, with their arrival times. -/
def threeResults : List (Nat × SearchResult) :=
  [(11000, resultFor ['A', '\\']), (11200, resultFor ['A', '\\', 'B', '\\']),
    (11400, resultFor ['C', '\\'])]

/-- The invariant of a running distributed search that started at tick `start`: while
the listing listens to the timer, the result count is the size of the result set, and with
no result yet `lastResult` is still the start tick. -/
def searchRunning (start : Nat) (S : Listing) : Prop :=
  S.timerListener = true →
    S.curResultCount = (S.searchResults.length : Int) ∧
    (S.curResultCount = 0 → S.lastResult = start)

/-! ### The XML loader -/

/-- The attributes of a tag (`StringPairList`): name and value pairs in document order. -/
abbrev Attribs := List (List Char × List Char)

/-- The callbacks of the XML reader: `startTag(name, attribs, simple)` and `endTag(name)`.
For a self-closing tag the reader calls `startTag` with `simple = true` and no `endTag`. -/
inductive XmlEvent where
  | startTag (name : List Char) (attribs : Attribs) (simple : Bool)
  | endTag (name : List Char)
deriving DecidableEq, Repr, Inhabited

/-- What the loader takes from outside the sources: `getAttrib` of the reader,
`Text::toLower`, `Util::toInt64`, `Util::toUInt32`, `Util::toAdcFile`, the tokens of
`StringTokenizer<string>(s, '/')`, the constructor of `TTHValue`, `AirUtil::checkFileDupe`,
`AirUtil::checkDirDupe`, the flag `SettingsManager::lanMode`, and the value `listDate` of the
default argument `aListDate` of `loadXML`, which is declared outside the sources. -/
structure LoaderEnv where
  getAttrib : Attribs → List Char → Nat → List Char
  toLower : List Char → List Char
  toInt64 : List Char → Int
  toUInt32 : List Char → Nat
  toAdcFile : List Char → List Char
  getTokens : List Char → List (List Char)
  tthValue : List Char → TTHValue
  checkFileDupe : TTHValue → DupeType
  checkDirDupe : List Char → Int → DupeType
  lanMode : Bool
  listDate : Nat

deriving instance DecidableEq for Except

/-- The ways a callback of the loader ends without returning: `AbortException`,
`SimpleXMLException` with its message, `std::out_of_range` of `substr`, and the use of a
null cursor, which is undefined in C++. -/
inductive LoadError where
  | abort
  | xml (message : List Char)
  | outOfRange
  | nullCursor
deriving DecidableEq, Repr, Inhabited

/-- The members of `ListLoader`, with the members of the listing it works on: the tree
`list->root`, the registry `list->baseDirs` and the flag `list->getClosing()`. The cursor
`cur` is an address of the tree, `none` for the null pointer. -/
structure ListLoader where
  root : Directory
  baseDirs : DirMap
  closing : Bool
  cur : Option Ptr
  baseLower : List Char
  base : List Char
  inListing : Bool
  updating : Bool
  checkDupe : Bool
  partialList : Bool
  dirsLoaded : Int
  listDate : Nat
deriving DecidableEq, Inhabited

/-- Tag name `FileListing`. -/
def sFileListing : List Char := ['F', 'i', 'l', 'e', 'L', 'i', 's', 't', 'i', 'n', 'g']
/-- Attribute name `Base`. -/
def sBase : List Char := ['B', 'a', 's', 'e']
/-- Attribute name `BaseDate`. -/
def sBaseDate : List Char := ['B', 'a', 's', 'e', 'D', 'a', 't', 'e']
/-- Tag name `Directory`. -/
def sDirectory : List Char := ['D', 'i', 'r', 'e', 'c', 't', 'o', 'r', 'y']
/-- Attribute name `Incomplete`. -/
def sIncomplete : List Char := ['I', 'n', 'c', 'o', 'm', 'p', 'l', 'e', 't', 'e']
/-- Attribute name `Children`. -/
def sChildren : List Char := ['C', 'h', 'i', 'l', 'd', 'r', 'e', 'n']
/-- Tag name `File`. -/
def sFile : List Char := ['F', 'i', 'l', 'e']
/-- Attribute name `Name`. -/
def sName : List Char := ['N', 'a', 'm', 'e']
/-- Attribute name `Size`. -/
def sSize : List Char := ['S', 'i', 'z', 'e']
/-- Attribute name `TTH`. -/
def sTTH : List Char := ['T', 'T', 'H']
/-- Attribute name `Date`. -/
def sDate : List Char := ['D', 'a', 't', 'e']

/-- `baseDirs.find(key)`: the entry of the key, if there is one. -/
def dirMapFind (key : List Char) : DirMap → Option (Option Ptr × Bool)
  | [] => none
  | (k, v) :: rest => if k = key then some v else dirMapFind key rest

/-- `baseDirs[key] = value`: the entry of the key is replaced, or added when there is none. -/
def dirMapSet (key : List Char) (value : Option Ptr × Bool) : DirMap → DirMap
  | [] => [(key, value)]
  | (k, v) :: rest => if k = key then (k, value) :: rest else (k, v) :: dirMapSet key value rest

/-- `baseDirs[key].second = true`: `operator[]` adds an entry with a null directory and
`false` when the key is absent, then the flag is set. -/
def dirMapVisit (key : List Char) (m : DirMap) : DirMap :=
  match dirMapFind key m with
  | some (d, _) => dirMapSet key (d, true) m
  | none => dirMapSet key (none, true) m

/-- `files.push_back(f)`. -/
def Directory.pushFile (f : File) : Directory → Directory
  | .mk info ds fs => .mk info ds (fs ++ [f])

/-- `directories.push_back(d)`. -/
def Directory.pushDir (c : Directory) : Directory → Directory
  | .mk info ds fs => .mk info (ds ++ [c]) fs

/-- Setter `setComplete()`: the completeness state becomes `TYPE_NORMAL`. -/
def Directory.setComplete : Directory → Directory
  | .mk info ds fs => .mk { info with type := DirType.TYPE_NORMAL } ds fs

/-- Setter `setRemoteDate`. -/
def Directory.setRemoteDate (t : Nat) : Directory → Directory
  | .mk info ds fs => .mk { info with remoteDate := t } ds fs

/-- Setter `setUpdateDate`. -/
def Directory.setUpdateDate (t : Nat) : Directory → Directory
  | .mk info ds fs => .mk { info with updateDate := t } ds fs

/-- Accessor `getParent()` of the node at an address: the tail, null for the root. -/
def getParent : Ptr → Option Ptr
  | [] => none
  | _ :: par => some par

/-- The constructor `File(aDir, aName, aSize, aTTH, checkDupe, aRemoteDate)`; the members it
does not set (`adls`, and `dupe` without the check) are `false` and `DUPE_NONE`. -/
def newFile (env : LoaderEnv) (aName : List Char) (aSize : Int) (aTTH : TTHValue)
    (checkDupe : Bool) (aRemoteDate : Nat) : File :=
  { name := aName, size := aSize, tthRoot := aTTH, adls := false,
    dupe := if checkDupe && decide (aSize > 0) then env.checkFileDupe aTTH
      else DupeType.DUPE_NONE,
    remoteDate := aRemoteDate }

/-- The constructor `Directory(aParent, aName, aType, aUpdateDate, checkDupe, aSize,
aRemoteDate)` for a parent with the path `parentPath`; the members it does not set
(`partialSize` for an empty `aSize`, `loading`, `adls`, and `dupe` without the check) are
0, `false` and `DUPE_NONE`. -/
def newDirectory (env : LoaderEnv) (parentPath : List Char) (aName : List Char)
    (aType : DirType) (aUpdateDate : Nat) (checkDupe : Bool) (aSize : List Char)
    (aRemoteDate : Nat) : Directory :=
  .mk
    { name := aName, type := aType,
      partialSize := if aSize.isEmpty then 0 else env.toInt64 aSize,
      remoteDate := aRemoteDate, updateDate := aUpdateDate, loading := false,
      dupe := if checkDupe then
          env.checkDirDupe (parentPath ++ aName ++ ['\\'])
            (if aSize.isEmpty then 0 else env.toInt64 aSize)
        else DupeType.DUPE_NONE,
      adls := false } [] []

/-- `find_if(cur->directories, name == curDirName)`: the index of the first child with
exactly that name (counted from `i`). -/
def findByName (curDirName : List Char) : List Directory → Nat → Option Nat
  | [], _ => none
  | d :: ds, i => if d.getName = curDirName then some i else findByName curDirName ds (i + 1)

/-- The loop of the listing root tag over the segments of the base path: each segment is
looked up among the children of the cursor; a missing one is created as
`TYPE_INCOMPLETE_CHILD` and registered with `visited = false`. The result is the tree,
the registry and the cursor; `none` when the cursor is null. -/
def resolveBase (env : LoaderEnv) (listDate : Nat) :
    List (List Char) → Directory → DirMap → Option Ptr → Option (Directory × DirMap × Option Ptr)
  | [], root, m, cur => some (root, m, cur)
  | curDirName :: rest, root, m, cur =>
    match cur with
    | none => none
    | some ptr =>
      match deref root ptr with
      | none => none
      | some d =>
        match findByName curDirName d.directories 0 with
        | some i => resolveBase env listDate rest root m (some (i :: ptr))
        | none =>
          resolveBase env listDate rest
            (modifyAt root ptr (Directory.pushDir
              (newDirectory env (getPath root ptr) curDirName DirType.TYPE_INCOMPLETE_CHILD
                listDate true [] 0)))
            (dirMapSet
              (env.toLower (env.toAdcFile (getPath root ptr ++ curDirName ++ ['\\'])))
              (some (d.directories.length :: ptr), false) m)
            (some (d.directories.length :: ptr))

/-- `ListLoader::endTag(name)`. The length passed to `substr` is computed in `size_t`. -/
def endTag (ll : ListLoader) (name : List Char) : Except LoadError ListLoader :=
  if ll.inListing then
    if name = sDirectory then
      match ll.cur with
      | none => .error LoadError.nullCursor
      | some ptr =>
        match deref ll.root ptr with
        | none => .error LoadError.nullCursor
        | some d =>
          .ok { ll with
            baseLower :=
              if ll.updating && d.isComplete then
                ll.baseLower.take
                  ((ll.baseLower.length + 2 ^ 64 - d.getName.length - 1) % 2 ^ 64)
              else ll.baseLower
            cur := getParent ptr }
    else if name = sFileListing then
      match ll.cur with
      | none => .error LoadError.nullCursor
      | some ptr =>
        match deref ll.root ptr with
        | none => .error LoadError.nullCursor
        | some _ =>
          .ok { ll with root := modifyAt ll.root ptr Directory.setComplete, inListing := false }
    else .ok ll
  else .ok ll

/-- The `File` branch of `ListLoader::startTag`. -/
def startFile (env : LoaderEnv) (ll : ListLoader) (attribs : Attribs) :
    Except LoadError ListLoader :=
  if (env.getAttrib attribs sName 0).isEmpty then .ok ll
  else if (env.getAttrib attribs sSize 1).isEmpty then .ok ll
  else if (env.getAttrib attribs sTTH 2).isEmpty && !env.lanMode then .ok ll
  else
    match ll.cur with
    | none => .error LoadError.nullCursor
    | some ptr =>
      match deref ll.root ptr with
      | none => .error LoadError.nullCursor
      | some _ =>
        .ok { ll with root := modifyAt ll.root ptr (Directory.pushFile
          (newFile env (env.getAttrib attribs sName 0)
            (env.toInt64 (env.getAttrib attribs sSize 1))
            (env.tthValue (env.getAttrib attribs sTTH 2)) ll.checkDupe
            (env.toUInt32 (env.getAttrib attribs sDate 3)))) }

/-- The type a `Directory` tag asks for, from its `Incomplete` and `Children` flags. -/
def tagDirType (incomp children : Bool) : DirType :=
  if incomp then
    (if children then DirType.TYPE_INCOMPLETE_CHILD else DirType.TYPE_INCOMPLETE_NOCHILD)
  else DirType.TYPE_NORMAL

/-- The end of the `Directory` branch of `ListLoader::startTag`, once the directory `d` of
the tag is known: it becomes the cursor, its lowercase name is appended to `baseLower` when
merging into a complete directory, and a self-closing tag is closed at once. -/
def enterDirectory (env : LoaderEnv) (ll : ListLoader) (d : Ptr) (n : List Char)
    (simple : Bool) : Except LoadError ListLoader :=
  match deref ll.root d with
  | none => .error LoadError.nullCursor
  | some dir =>
    if simple then
      endTag
        { ll with
          cur := some d
          baseLower := if ll.updating && dir.isComplete then
              ll.baseLower ++ env.toLower n ++ ['/'] else ll.baseLower }
        sDirectory
    else
      .ok { ll with
        cur := some d
        baseLower := if ll.updating && dir.isComplete then
            ll.baseLower ++ env.toLower n ++ ['/'] else ll.baseLower }

/-- The part of the `Directory` branch that creates a directory under the cursor and
registers it when merging a complete one. -/
def createDirectory (env : LoaderEnv) (ll : ListLoader) (attribs : Attribs) (n : List Char)
    (simple : Bool) : Except LoadError ListLoader :=
  match ll.cur with
  | none => .error LoadError.nullCursor
  | some ptr =>
    match deref ll.root ptr with
    | none => .error LoadError.nullCursor
    | some parent =>
      enterDirectory env
        { ll with
          root := modifyAt ll.root ptr (Directory.pushDir
            (newDirectory env (getPath ll.root ptr) n
              (tagDirType (decide (env.getAttrib attribs sIncomplete 1 = ['1']))
                (decide (env.getAttrib attribs sChildren 2 = ['1'])))
              ll.listDate (ll.partialList && ll.checkDupe) (env.getAttrib attribs sSize 2)
              (env.toUInt32 (env.getAttrib attribs sDate 3))))
          baseDirs :=
            if ll.updating && !decide (env.getAttrib attribs sIncomplete 1 = ['1']) then
              dirMapSet (ll.baseLower ++ env.toLower n ++ ['/'])
                (some (parent.directories.length :: ptr), true) ll.baseDirs
            else ll.baseDirs }
        (parent.directories.length :: ptr) n simple

/-- The `Directory` branch of `ListLoader::startTag`. -/
def startDirectory (env : LoaderEnv) (ll : ListLoader) (attribs : Attribs) (simple : Bool) :
    Except LoadError ListLoader :=
  if (env.getAttrib attribs sName 0).isEmpty then
    .error (LoadError.xml ['D', 'i', 'r', 'e', 'c', 't', 'o', 'r', 'y', ' ', 'm', 'i', 's', 's',
      'i', 'n', 'g', ' ', 'n', 'a', 'm', 'e', ' ', 'a', 't', 't', 'r', 'i', 'b', 'u', 't', 'e'])
  else if ll.updating then
    match dirMapFind (ll.baseLower ++ env.toLower (env.getAttrib attribs sName 0) ++ ['/'])
        ll.baseDirs with
    | some (some d, _) =>
      enterDirectory env
        { ll with
          dirsLoaded := ll.dirsLoaded + 1
          root := modifyAt ll.root d (fun dir =>
            Directory.setRemoteDate (env.toUInt32 (env.getAttrib attribs sDate 3))
              (if decide (env.getAttrib attribs sIncomplete 1 = ['1']) then dir
                else dir.setComplete)) }
        d (env.getAttrib attribs sName 0) simple
    | _ =>
      createDirectory env { ll with dirsLoaded := ll.dirsLoaded + 1 } attribs
        (env.getAttrib attribs sName 0) simple
  else createDirectory env ll attribs (env.getAttrib attribs sName 0) simple

/-- The base path after the listing root tag of a merge: the attribute `Base` when it has
at least one character and starts and ends with a slash, else the base the loader was
given. -/
def listingBase (env : LoaderEnv) (ll : ListLoader) (attribs : Attribs) : List Char :=
  if decide (1 ≤ (env.getAttrib attribs sBase 2).length) &&
      decide ((env.getAttrib attribs sBase 2).head? = some '/') &&
      decide ((env.getAttrib attribs sBase 2).getLast? = some '/')
  then env.getAttrib attribs sBase 2 else ll.base

/-- The loader after the listing root tag of a merge, once the base path is resolved to
the directory at `ptr` in the tree `root` with the registry `m`: the base is registered as
visited, the directory gets the dates of the list, and the loader is inside the listing. -/
def enterListing (env : LoaderEnv) (ll : ListLoader) (attribs : Attribs) (root : Directory)
    (m : DirMap) (ptr : Ptr) : ListLoader :=
  { ll with
    base := listingBase env ll attribs
    baseLower := env.toLower (listingBase env ll attribs)
    baseDirs := dirMapVisit (env.toLower (listingBase env ll attribs)) m
    root := modifyAt root ptr (fun dir =>
      Directory.setRemoteDate (env.toUInt32 (env.getAttrib attribs sBaseDate 3))
        (Directory.setUpdateDate ll.listDate dir))
    cur := some ptr
    inListing := true }

/-- The `FileListing` branch of `ListLoader::startTag`. `substr(1)` of an empty base throws
`std::out_of_range`. -/
def startListing (env : LoaderEnv) (ll : ListLoader) (attribs : Attribs) (simple : Bool) :
    Except LoadError ListLoader :=
  if ll.updating then
    if (listingBase env ll attribs).isEmpty then .error LoadError.outOfRange
    else
      match resolveBase env ll.listDate (env.getTokens ((listingBase env ll attribs).drop 1))
          ll.root ll.baseDirs ll.cur with
      | none => .error LoadError.nullCursor
      | some (_, _, none) => .error LoadError.nullCursor
      | some (root, m, some ptr) =>
        match deref root ptr with
        | none => .error LoadError.nullCursor
        | some _ =>
          if simple then endTag (enterListing env ll attribs root m ptr) sFileListing
          else .ok (enterListing env ll attribs root m ptr)
  else if simple then endTag { ll with inListing := true } sFileListing
  else .ok { ll with inListing := true }

/-- `ListLoader::startTag(name, attribs, simple)`. -/
def startTag (env : LoaderEnv) (ll : ListLoader) (name : List Char) (attribs : Attribs)
    (simple : Bool) : Except LoadError ListLoader :=
  if ll.closing then .error LoadError.abort
  else if ll.inListing then
    if name = sFile then startFile env ll attribs
    else if name = sDirectory then startDirectory env ll attribs simple
    else .ok ll
  else if name = sFileListing then startListing env ll attribs simple
  else .ok ll

/-- One callback of the reader. -/
def stepLoader (env : LoaderEnv) (ll : ListLoader) : XmlEvent → Except LoadError ListLoader
  | .startTag name attribs simple => startTag env ll name attribs simple
  | .endTag name => endTag ll name

/-- `SimpleXMLReader(&ll).parse(is)` for a document that the reader turns into the given
callbacks: they are made in order until one throws. The result is the loader as the last
completed callback left it, with the exception, if any. -/
def runLoader (env : LoaderEnv) : ListLoader → List XmlEvent → ListLoader × Option LoadError
  | ll, [] => (ll, none)
  | ll, ev :: evs =>
    match stepLoader env ll ev with
    | .ok ll' => runLoader env ll' evs
    | .error e => (ll, some e)

/-- The loader `loadXML` constructs: cursor at the root, outside the listing, nothing
counted. `dupesInFilelist` is `SETTING(DUPES_IN_FILELIST)`. -/
def initLoader (L : Listing) (updating : Bool) (aBase : List Char) (aListDate : Nat)
    (dupesInFilelist : Bool) : ListLoader :=
  { root := L.root, baseDirs := L.baseDirs, closing := L.closing, cur := some [],
    baseLower := [], base := aBase, inListing := false, updating := updating,
    checkDupe := !L.isOwnList && L.isClientView && dupesInFilelist,
    partialList := L.partialList, dirsLoaded := 0, listDate := aListDate }

/-- `DirectoryListing::loadXML(is, updating, aBase, aListDate)`: the listing afterwards, with
the value returned, or the exception that leaves the function. A `SimpleXMLException` is
caught (and logged); the others pass through. -/
def loadXML (env : LoaderEnv) (L : Listing) (events : List XmlEvent) (updating : Bool)
    (aBase : List Char) (aListDate : Nat) (dupesInFilelist : Bool) :
    Listing × Except LoadError Int :=
  match runLoader env (initLoader L updating aBase aListDate dupesInFilelist) events with
  | (ll, none) => ({ L with root := ll.root, baseDirs := ll.baseDirs }, .ok ll.dirsLoaded)
  | (ll, some (LoadError.xml _)) =>
    ({ L with root := ll.root, baseDirs := ll.baseDirs }, .ok ll.dirsLoaded)
  | (ll, some e) => ({ L with root := ll.root, baseDirs := ll.baseDirs }, .error e)

/-- `DirectoryListing::updateXML(xml, aBase)`: `loadXML` in merge mode with the default list
date. -/
def updateXML (env : LoaderEnv) (L : Listing) (events : List XmlEvent) (aBase : List Char)
    (dupesInFilelist : Bool) : Listing × Except LoadError Int :=
  loadXML env L events true aBase env.listDate dupesInFilelist

/-- A decimal number. -/
def parseDecimal (s : List Char) : Nat :=
  s.foldl (fun n c => n * 10 + (c.toNat - 48)) 0

/-- The tokens between slashes, with the rest after the last slash when it is not empty. -/
def slashTokens : List Char → List Char → List (List Char)
  | [], acc => if acc.isEmpty then [] else [acc.reverse]
  | c :: cs, acc => if c = '/' then acc.reverse :: slashTokens cs [] else slashTokens cs (c :: acc)

/-- A loader environment for concrete documents: the first attribute of a name is its
value, names are lowered character by character, numbers are decimal, `a\b\` converts to
`/a/b/`, nothing is a dupe, no LAN mode, list date 0. -/
def testLoaderEnv : LoaderEnv :=
  { getAttrib := fun attribs name _ =>
      match attribs.find? (fun p => decide (p.1 = name)) with
      | some p => p.2
      | none => [],
    toLower := fun s => s.map Char.toLower,
    toInt64 := fun s => (parseDecimal s : Int),
    toUInt32 := parseDecimal,
    toAdcFile := fun p => '/' :: p.map (fun c => if c = '\\' then '/' else c),
    getTokens := fun s => slashTokens s [],
    tthValue := parseDecimal,
    checkFileDupe := fun _ => DupeType.DUPE_NONE,
    checkDirDupe := fun _ _ => DupeType.DUPE_NONE,
    lanMode := false,
    listDate := 0 }

/-- The tag `<Directory Name="n">`. -/
def dirTag (n : List Char) : XmlEvent := .startTag sDirectory [(sName, n)] false

/-- The tag `<Directory Name="n" Incomplete="1"/>`. -/
def incompleteDirTag (n : List Char) : XmlEvent :=
  .startTag sDirectory [(sName, n), (sIncomplete, ['1'])] true

/-- The tag `<File Name="n" Size="size" TTH="tth"/>`. -/
def fileTag (n size tth : List Char) : XmlEvent :=
  .startTag sFile [(sName, n), (sSize, size), (sTTH, tth)] true

/-- The tag `<FileListing Base="base">`. -/
def listingTag (base : List Char) : XmlEvent := .startTag sFileListing [(sBase, base)] false

/-- A listing that was just opened: the root is an empty incomplete directory. -/
def emptyListing (partialList : Bool) : Listing :=
  listingOf (.mk { completeInfo [] with type := DirType.TYPE_INCOMPLETE_NOCHILD } [] [])
    partialList

/-- The document of the scenario: `A/` with `f1` (10 bytes, hash 1) and `B/` with `f2`
(20 bytes, hash 2). -/
def scenarioDocument : List XmlEvent :=
  [listingTag ['/'], dirTag ['A'], fileTag ['f', '1'] ['1', '0'] ['1'], dirTag ['B'],
    fileTag ['f', '2'] ['2', '0'] ['2'], .endTag sDirectory, .endTag sDirectory,
    .endTag sFileListing]


/-- Whether the callback is a `Directory` tag that the loader accepts in the state `ll`:
it is met inside the listing and has a non-empty `Name`. -/
def isAcceptedDirTag (env : LoaderEnv) (ll : ListLoader) : XmlEvent → Bool
  | .startTag name attribs _ =>
    ll.inListing && decide (name = sDirectory) && !(env.getAttrib attribs sName 0).isEmpty
  | .endTag _ => false

/-- The number of `Directory` tags accepted while the callbacks of a document are made,
up to the first callback that throws: each of them creates a directory or merges into a
registered one. -/
def acceptedDirTags (env : LoaderEnv) : ListLoader → List XmlEvent → Nat
  | _, [] => 0
  | ll, ev :: evs =>
    match stepLoader env ll ev with
    | .ok ll' => (if isAcceptedDirTag env ll ev then 1 else 0) + acceptedDirTags env ll' evs
    | .error _ => 0

/-- Well-nestedness of the callbacks between the listing root tag and its end: the number
of open `Directory` tags after the callbacks, starting with `d` open ones. The result is
`none` when a `Directory` end tag has no open `Directory` tag, when a `Directory` tag has
no `Name`, or when the listing root tag is ended in between. -/
def nestingDepth (env : LoaderEnv) : List XmlEvent → Nat → Option Nat
  | [], d => some d
  | .startTag name attribs simple :: rest, d =>
    if name = sDirectory then
      if (env.getAttrib attribs sName 0).isEmpty then none
      else if simple then nestingDepth env rest d
      else nestingDepth env rest (d + 1)
    else nestingDepth env rest d
  | .endTag name :: rest, d =>
    if name = sDirectory then
      match d with
      | 0 => none
      | d + 1 => nestingDepth env rest d
    else if name = sFileListing then none
    else nestingDepth env rest d

/-- The names of the child directories, in container order. -/
def Directory.childNames (d : Directory) : List (List Char) :=
  d.directories.map Directory.getName

/-- Whether the callback is the start of a listing root tag. -/
def isListingStart : XmlEvent → Bool
  | .startTag name _ _ => decide (name = sFileListing)
  | .endTag _ => false

/-- The tree of a partial list in which first `/Q/` and then `/Q/R/` was browsed. -/
def browsedTree : Directory :=
  .mk { completeInfo [] with type := DirType.TYPE_INCOMPLETE_NOCHILD }
    [.mk (completeInfo ['Q']) [.mk (completeInfo ['R']) [] []] []] []

/-- The partial list in which first `/Q/` and then `/Q/R/` was browsed: the registry holds
`/q/` with the directory `Q`, and `/q/r/` with a null directory. -/
def browsedListing : Listing :=
  { listingOf browsedTree true with
    baseDirs := [(['/', 'q', '/'], some [0], true), (['/', 'q', '/', 'r', '/'], none, true)] }

/-! ### The cursor of the search results -/

/-- `DirectoryListing::nextResult(prev)`: the new state of the listing and the value
returned. `curResult` is the position of the iterator in `searchResults`; the test
`distance(begin, curResult) == size() - 1` is made in `size_t`. Moving the iterator beyond
the last element and reading it where there is no element are undefined in C++: the model
returns `none` there. -/
def nextResult (env : Collaborators) (L : Listing) (prev : Bool) : Option (Listing × Bool) :=
  if prev then
    if L.curResult = 0 then some (L, false)
    else
      match L.searchResults[L.curResult - 1]? with
      | none => none
      | some path =>
        some ((changeDirectory env { L with curResult := L.curResult - 1 } path
          ReloadMode.RELOAD_NONE true).1, true)
  else
    if L.curResult % 2 ^ 64 = (L.searchResults.length + 2 ^ 64 - 1) % 2 ^ 64 then some (L, false)
    else
      match L.searchResults[L.curResult + 1]? with
      | none => none
      | some path =>
        some ((changeDirectory env { L with curResult := L.curResult + 1 } path
          ReloadMode.RELOAD_NONE true).1, true)

/-- The scenario listing after a search that found the paths `A\` and `A\B\`, with the
cursor on the first of them. -/
def searchedListing : Listing :=
  { listingOf scenarioRoot false with
    searchResults := [['A', '\\'], ['A', '\\', 'B', '\\']]
    curResultCount := 2
    maxResultCount := 2
    curResult := 0 }

/-! ### The bundle builder -/

/-- An entry of the plan (`BundleFileInfo`): target-relative path, content hash, size. -/
structure BundleFileInfo where
  file : List Char
  tth : TTHValue
  size : Int
deriving DecidableEq, Repr, Inhabited

/-- What `Directory::download` takes from outside the sources: the three-way comparison
`compare` of two names, the macro `PATH_SEPARATOR`, and `std::sort`. `std::sort` moves the
elements of a container and looks at them through the comparator only, so the order it
leaves is a matter of the names: `sortOrder names` lists the positions of the container in
the order their elements have after the sort. -/
structure DownloadEnv where
  compare : List Char → List Char → Int
  pathSeparator : Char
  sortOrder : List (List Char) → List Nat

/-- The elements of a container in the order that `order` gives to their positions. -/
def permute {α : Type} (order : List Nat) (l : List α) : List α :=
  order.filterMap (fun i => l[i]?)

mutual
/-- `Directory::download(aTarget, aFiles)`: the directory with its children and its files
sorted, at every depth, and the entries appended to `aFiles`. The source sorts the children
and visits them in the new order; what the visit of a child appends does not depend on the
moment of the visit, so the model visits the children in container order and arranges the
results in the sorted order. -/
def download (env : DownloadEnv) : List Char → Directory → Directory × List BundleFileInfo
  | aTarget, .mk info ds fs =>
    (.mk info
        ((permute (env.sortOrder (ds.map Directory.getName))
          (downloadDirs env aTarget ds)).map Prod.fst)
        (permute (env.sortOrder (fs.map File.name)) fs),
      ((permute (env.sortOrder (ds.map Directory.getName))
          (downloadDirs env aTarget ds)).map Prod.snd).flatten ++
        (permute (env.sortOrder (fs.map File.name)) fs).map
          (fun f => { file := aTarget ++ f.name, tth := f.tthRoot, size := f.size }))
/-- The visits of `Directory::download` to the children, in container order: the child
`d` is visited with the target `aTarget + d->getName() + PATH_SEPARATOR`. -/
def downloadDirs (env : DownloadEnv) :
    List Char → List Directory → List (Directory × List BundleFileInfo)
  | _, [] => []
  | aTarget, d :: ds =>
    download env (aTarget ++ d.getName ++ [env.pathSeparator]) d :: downloadDirs env aTarget ds
end

/-- The contract of `std::sort` with the comparator `Sort` (`compare(a, b) < 0` on the
names) for a container with the given names: the positions are permuted, and no element
stands before an element that the comparator puts in front of it. -/
def sortsNames (env : DownloadEnv) (names : List (List Char)) : Bool :=
  decide ((env.sortOrder names).Perm (List.range names.length)) &&
    decide ((env.sortOrder names).Pairwise
      (fun i j => ¬ (env.compare (names.getD j []) (names.getD i []) < 0)))

mutual
/-- The contract of `std::sort` holds for the children and the files of every directory
of the tree. -/
def sortsTree (env : DownloadEnv) : Directory → Bool
  | .mk _ ds fs =>
    sortsNames env (ds.map Directory.getName) && sortsNames env (fs.map File.name) &&
      sortsTreeDirs env ds
/-- The contract of `std::sort` holds in every tree of the list. -/
def sortsTreeDirs (env : DownloadEnv) : List Directory → Bool
  | [] => true
  | d :: ds => sortsTree env d && sortsTreeDirs env ds
end

/-- The path that a list of directory names spells with the separator: each name followed
by the separator. -/
def joinPath (sep : Char) : List (List Char) → List Char
  | [] => []
  | n :: ns => n ++ sep :: joinPath sep ns

/-- The entry of the plan for a file found under the directories `x.1` below the chosen
directory, for the target `aTarget`. -/
def entryAt (env : DownloadEnv) (aTarget : List Char) (x : List (List Char) × File) :
    BundleFileInfo :=
  { file := aTarget ++ joinPath env.pathSeparator x.1 ++ x.2.name, tth := x.2.tthRoot,
    size := x.2.size }

/-- The place of a position among positions kept in order: in front of the first position
that `less` puts behind it. -/
def insertPos (less : Nat → Nat → Bool) (i : Nat) : List Nat → List Nat
  | [] => [i]
  | j :: js => if less i j then i :: j :: js else j :: insertPos less i js

/-- A sort by insertion, as an order of positions: an instance of `sortOrder`. -/
def insertionOrder (compare : List Char → List Char → Int) (names : List (List Char)) :
    List Nat :=
  (List.range names.length).foldl
    (fun acc i => insertPos
      (fun a b => decide (compare (names.getD a []) (names.getD b []) < 0)) i acc) []

/-- Modelled from the spec: `compare` is declared outside the sources; the spec calls the
order of the names case-insensitive. The instance compares the lowercased names as
`std::string`s. -/
def compareNoCase (a b : List Char) : Int :=
  if strLess (a.map Char.toLower) (b.map Char.toLower) then -1
  else if strLess (b.map Char.toLower) (a.map Char.toLower) then 1
  else 0

/-- An environment for concrete downloads: names compared without case, `/` as the
separator, sorting by insertion. -/
def testDownloadEnv : DownloadEnv :=
  { compare := compareNoCase, pathSeparator := '/', sortOrder := insertionOrder compareNoCase }

/-- A call of `QueueManager::createDirectoryBundle`: the target, the plan, the priority and
the remote date of the directory. -/
structure BundleCall where
  target : List Char
  files : List BundleFileInfo
  prio : Nat
  date : Nat
deriving DecidableEq, Repr, Inhabited

/-- What `createBundle` and `downloadDirImpl` take from outside the sources: the setting
`SKIP_ZERO_BYTE`, the text `STRING(DIR_EMPTY)`, whether `createDirectoryBundle` returns a
bundle for a call, given the calls made before it (no bundle also stands for the
`std::bad_alloc` that `createBundle` catches), and `boost::regex_match` of a name against
`AirUtil::getReleaseRegBasic()`. -/
structure BundleEnv where
  skipZeroByte : Bool
  dirEmptyText : List Char
  bundleCreated : List BundleCall → BundleCall → Bool
  releaseMatch : List Char → Bool

/-- The call of `createDirectoryBundle` that `createBundle` makes for a directory, if it
makes one: none when the plan is empty, or when `SKIP_ZERO_BYTE` is set and no entry of the
plan has a positive size. -/
def bundleCallFor (denv : DownloadEnv) (benv : BundleEnv) (aTarget : List Char) (prio : Nat)
    (d : Directory) : Option BundleCall :=
  if (download denv [] d).2.isEmpty ||
      (benv.skipZeroByte && !(download denv [] d).2.any (fun f => decide (f.size > 0))) then
    none
  else some { target := aTarget, files := (download denv [] d).2, prio := prio,
              date := d.info.remoteDate }

/-- `DirectoryListing::createBundle(aDir, aTarget, prio, aAutoSearch)`: the new state of the
listing, the calls of `createDirectoryBundle` so far, and the value returned. The directory
is sorted by `download`; an empty plan is reported by `UpdateStatusMessage`. The log
messages and the notifications of the `AutoSearchManager` are not part of the state. A null
`aDir` is undefined in C++; the model changes nothing there. -/
def createBundle (denv : DownloadEnv) (benv : BundleEnv) (L : Listing) (calls : List BundleCall)
    (aDir : Ptr) (aTarget : List Char) (prio : Nat) : Listing × List BundleCall × Bool :=
  match deref L.root aDir with
  | none => (L, calls, false)
  | some d =>
    match bundleCallFor denv benv aTarget prio d with
    | none =>
      ({ L with
          root := modifyAt L.root aDir (fun _ => (download denv [] d).1)
          fired := L.fired ++
            [ListenerEvent.UpdateStatusMessage (benv.dirEmptyText ++ [' '] ++ d.getName)] },
        calls, false)
    | some call =>
      ({ L with root := modifyAt L.root aDir (fun _ => (download denv [] d).1) },
        calls ++ [call], benv.bundleCreated calls call)

/-- The loop of `downloadDirImpl` over the children of `aDir`, given by their positions:
each child is made a bundle of its own, with the target `aTarget + d->getName() +
PATH_SEPARATOR`; `queued` becomes true when a bundle is created. -/
def bundleEach (denv : DownloadEnv) (benv : BundleEnv) (aDir : Ptr) (aTarget : List Char)
    (prio : Nat) : List Nat → Listing → List BundleCall → Bool → Listing × List BundleCall × Bool
  | [], L, calls, queued => (L, calls, queued)
  | i :: rest, L, calls, queued =>
    bundleEach denv benv aDir aTarget prio rest
      (createBundle denv benv L calls (i :: aDir)
        (aTarget ++ ((deref L.root (i :: aDir)).map Directory.getName).getD [] ++
          [denv.pathSeparator]) prio).1
      (createBundle denv benv L calls (i :: aDir)
        (aTarget ++ ((deref L.root (i :: aDir)).map Directory.getName).getD [] ++
          [denv.pathSeparator]) prio).2.1
      (queued || (createBundle denv benv L calls (i :: aDir)
        (aTarget ++ ((deref L.root (i :: aDir)).map Directory.getName).getD [] ++
          [denv.pathSeparator]) prio).2.2)

/-- The test of `downloadDirImpl` for "a root directory containing release directories":
the name of the directory does not match the release pattern, it has no files, it has
child directories, and the name of every child matches the pattern. -/
def holdsReleaseDirs (benv : BundleEnv) (d : Directory) : Bool :=
  !benv.releaseMatch d.getName && d.files.isEmpty && !d.directories.isEmpty &&
    d.directories.all (fun c => benv.releaseMatch c.getName)

/-- `DirectoryListing::downloadDirImpl(aDir, aTarget, prio, aAutoSearch)`: the new state of
the listing, the calls of `createDirectoryBundle` so far, and the value returned. -/
def downloadDirImpl (denv : DownloadEnv) (benv : BundleEnv) (L : Listing)
    (calls : List BundleCall) (aDir : Ptr) (aTarget : List Char) (prio : Nat) :
    Listing × List BundleCall × Bool :=
  match deref L.root aDir with
  | none => (L, calls, false)
  | some d =>
    if holdsReleaseDirs benv d then
      bundleEach denv benv aDir aTarget prio (List.range d.directories.length) L calls false
    else createBundle denv benv L calls aDir aTarget prio

/-- The calls of `createDirectoryBundle` for a list of directories, each with the target
`aTarget`, its name and the separator. -/
def bundleCallsFor (denv : DownloadEnv) (benv : BundleEnv) (aTarget : List Char) (prio : Nat)
    (ds : List Directory) : List BundleCall :=
  ds.filterMap (fun c =>
    bundleCallFor denv benv (aTarget ++ c.getName ++ [denv.pathSeparator]) prio c)

/-- Whether `createDirectoryBundle` returns a bundle for one of the calls `new`, made in
order after the calls `calls`. -/
def anyCreated (benv : BundleEnv) : List BundleCall → List BundleCall → Bool
  | _, [] => false
  | calls, c :: rest => benv.bundleCreated calls c || anyCreated benv (calls ++ [c]) rest

/-- An environment for concrete bundles: zero-byte plans are skipped, every call returns a
bundle, and a name is a release name when it holds a hyphen. -/
def testBundleEnv : BundleEnv :=
  { skipZeroByte := true, dirEmptyText := ['e', 'm', 'p', 't', 'y'],
    bundleCreated := fun _ _ => true, releaseMatch := fun n => decide ('-' ∈ n) }

/-- A root whose child `music` holds the release directories `a-1` (one file) and `b-2`
(one file) and no files of its own. -/
def releaseRoot : Directory :=
  .mk (completeInfo [])
    [.mk (completeInfo ['m', 'u', 's', 'i', 'c'])
      [.mk (completeInfo ['b', '-', '2']) [] [plainFile ['y'] 2 12],
        .mk (completeInfo ['a', '-', '1']) [] [plainFile ['x'] 1 11]] []] []

/-! ### Serialisation in the schema of the spec -/

/-- Modelled from the spec: the writer of file lists is outside the sources. The record
holds the texts it puts in the attributes `Size` and `TTH`. -/
structure WriterEnv where
  sizeText : Int → List Char
  tthText : TTHValue → List Char

/-- Modelled from the spec: the tag `<File Name=".." Size=".." TTH=".."/>` of a file. -/
def fileEvent (w : WriterEnv) (f : File) : XmlEvent :=
  .startTag sFile [(sName, f.name), (sSize, w.sizeText f.size), (sTTH, w.tthText f.tthRoot)] true

mutual
/-- Modelled from the spec: the element of a complete directory in the schema:
`<Directory Name="..">`, the elements of its child directories, the tags of its files,
`</Directory>`. -/
def serializeDir (w : WriterEnv) : Directory → List XmlEvent
  | .mk info ds fs =>
    .startTag sDirectory [(sName, info.name)] false ::
      (serializeDirs w ds ++ (fs.map (fileEvent w) ++ [.endTag sDirectory]))
/-- Modelled from the spec: the elements of a list of directories, in order. -/
def serializeDirs (w : WriterEnv) : List Directory → List XmlEvent
  | [] => []
  | d :: ds => serializeDir w d ++ serializeDirs w ds
end

/-- Modelled from the spec: the document of a tree: the listing root tag, the elements of
the children of the root, the tags of the files of the root, the end of the listing root
tag. -/
def serializeListing (w : WriterEnv) (root : Directory) : List XmlEvent :=
  .startTag sFileListing [(sBase, ['/'])] false ::
    (serializeDirs w root.directories ++
      (root.files.map (fileEvent w) ++ [.endTag sFileListing]))

/-- The value of the first attribute with the given name, the empty string when there is
none: what `getAttrib` is taken to return for the tags of a serialised tree. -/
def attribLookup (attribs : Attribs) (name : List Char) : List Char :=
  match attribs.find? (fun p => decide (p.1 = name)) with
  | some p => p.2
  | none => []

/-- The name, size and hash of a file, the other members blanked. -/
def fileSkeleton (f : File) : File :=
  { name := f.name, size := f.size, tthRoot := f.tthRoot, adls := false,
    dupe := DupeType.DUPE_NONE, remoteDate := 0 }

mutual
/-- The structure of a tree: the names and completeness states of its directories, in
order, with the names, sizes and hashes of their files; the other members blanked. -/
def skeleton : Directory → Directory
  | .mk info ds fs =>
    .mk { name := info.name, type := info.type, partialSize := 0, remoteDate := 0,
          updateDate := 0, loading := false, dupe := DupeType.DUPE_NONE, adls := false }
      (skeletonDirs ds) (fs.map fileSkeleton)
/-- The structures of the trees of a list. -/
def skeletonDirs : List Directory → List Directory
  | [] => []
  | d :: ds => skeleton d :: skeletonDirs ds
end

/-- A file that the schema can carry: its name and the texts of its size and hash are not
empty, and the texts are read back as the size and the hash. -/
def serializableFile (env : LoaderEnv) (w : WriterEnv) (f : File) : Bool :=
  !f.name.isEmpty && !(w.sizeText f.size).isEmpty && !(w.tthText f.tthRoot).isEmpty &&
    decide (env.toInt64 (w.sizeText f.size) = f.size) &&
    decide (env.tthValue (w.tthText f.tthRoot) = f.tthRoot)

mutual
/-- A tree of complete directories with non-empty names whose files the schema can carry. -/
def serializable (env : LoaderEnv) (w : WriterEnv) : Directory → Bool
  | .mk info ds fs =>
    !info.name.isEmpty && decide (info.type = DirType.TYPE_NORMAL) &&
      fs.all (serializableFile env w) && serializableDirs env w ds
/-- Every tree of the list is serialisable. -/
def serializableDirs (env : LoaderEnv) (w : WriterEnv) : List Directory → Bool
  | [] => true
  | d :: ds => serializable env w d && serializableDirs env w ds
end

/-- A writer for concrete trees: sizes (not negative) and hashes in decimal. -/
def testWriterEnv : WriterEnv :=
  { sizeText := fun z => Nat.toDigits 10 z.toNat, tthText := fun h => Nat.toDigits 10 h }

/-- The directory after `files.push_back` of each file of a list, in order. -/
def Directory.pushFiles (fs : List File) (d : Directory) : Directory :=
  fs.foldl (fun acc f => Directory.pushFile f acc) d

/-- The directory after `directories.push_back` of each directory of a list, in order. -/
def Directory.pushDirs (ds : List Directory) (d : Directory) : Directory :=
  ds.foldl (fun acc c => Directory.pushDir c acc) d

/-- The file that the loader `ll` creates for the tag of the file `f`, when the texts of
the tag are read back as the size and hash of `f` and the tag has no `Date`. -/
def loadedFile (env : LoaderEnv) (ll : ListLoader) (f : File) : File :=
  newFile env f.name f.size f.tthRoot ll.checkDupe (env.toUInt32 [])

/-- The loader with another tree. -/
def ListLoader.withRoot (ll : ListLoader) (root : Directory) : ListLoader :=
  { ll with root := root }

/-! ### The partial-list reconciler -/

/-- What `loadPartialImpl` and `onLoadingFinished` take from outside the sources:
`AirUtil::isSub(key, baseDir, '/')`, `File::isQueued`, the setting `DUPES_IN_FILELIST`, the
member `matchADL` with `ADLSearchManager::matchListing` (as a change of the tree) and the
text `MATCHING_ADL`, and, for the own list, the callbacks of the document that
`ShareManager::generatePartialList` returns for a path (`none` for a null stream) with the
text `FILE_NOT_AVAILABLE`. -/
structure PartialEnv where
  isSub : List Char → List Char → Bool
  isQueued : File → Bool
  dupesInFilelist : Bool
  matchADL : Bool
  matchListing : Directory → Directory
  matchingAdlText : List Char
  generatePartialList : List Char → Option (List XmlEvent)
  fileNotAvailableText : List Char

/-- The exceptions that leave a task of the listing: those of the loader, and an
`Exception` with its message. -/
inductive TaskError where
  | load (e : LoadError)
  | exception (message : List Char)
deriving DecidableEq, Repr, Inhabited

/-- `Directory::clearAll()`. -/
def Directory.clearAll : Directory → Directory
  | .mk info _ _ => .mk info [] []

/-- Setter `setType`. -/
def Directory.setType (t : DirType) : Directory → Directory
  | .mk info ds fs => .mk { info with type := t } ds fs

/-- `DirectoryListing::onLoadingFinished(aStartTime, aDir, aReloadList, aChangeDir)`.
`onStateChanged()` is declared outside the sources and is not part of the state. -/
def onLoadingFinished (env : Collaborators) (penv : PartialEnv) (L : Listing) (aStartTime : Nat)
    (aDir : List Char) (aReloadList aChangeDir : Bool) : Listing :=
  let L1 : Listing :=
    if penv.matchADL then
      { L with
        fired := L.fired ++ [ListenerEvent.UpdateStatusMessage penv.matchingAdlText]
        root := penv.matchListing L.root }
    else L
  let L2 : Listing :=
    if !L1.isOwnList && penv.dupesInFilelist && L1.isClientView then
      { L1 with root := checkShareDupesListing penv.isQueued L1.root }
    else L1
  let L3 : Listing :=
    match findDirectory env.nameMatch L2.root aDir with
    | none => L2
    | some ptr =>
      match deref L2.root ptr with
      | none => L2
      | some dir =>
        updateCurrentLocation
          { L2 with root := modifyAt L2.root ptr (Directory.setLoading false) }
          ptr (dir.setLoading false)
  { L3 with
    fired := L3.fired ++ [ListenerEvent.LoadingFinished aStartTime aDir aReloadList aChangeDir] }

/-- The base path of `loadPartialImpl`. -/
def partialBaseDir (lenv : LoaderEnv) (L : Listing) (aBaseDir : List Char) (reloadAll : Bool) :
    List Char :=
  if L.isOwnList && reloadAll then ['/'] else lenv.toAdcFile aBaseDir

/-- The flag `reloading` of `loadPartialImpl`: a full reload is asked for, or the registry
holds the lowercase base path with `visited = true`. -/
def partialReloading (lenv : LoaderEnv) (L : Listing) (baseDir : List Char) (reloadAll : Bool) :
    Bool :=
  reloadAll ||
    (match dirMapFind (lenv.toLower baseDir) L.baseDirs with
      | some (_, visited) => visited
      | none => false)

/-- The block of `loadPartialImpl` that clears before a reload. For an empty base path or a
full reload the registry and the whole tree are cleared. Otherwise, when `findDirectory`
finds the base directory and it has children or files, the directory is cleared and the
registry entries whose key `isSub` puts under the base path are erased. Directories that
`clearAll` detaches are gone from the tree; a registry entry that still refers to one keeps
its address. -/
def clearForReload (env : Collaborators) (penv : PartialEnv) (L : Listing) (baseDir : List Char)
    (reloadAll : Bool) : Listing :=
  if baseDir.isEmpty || reloadAll then
    { L with
      baseDirs := []
      root := if baseDir.isEmpty then L.root.clearAll.setComplete
        else L.root.clearAll.setType DirType.TYPE_INCOMPLETE_CHILD }
  else
    match findDirectory env.nameMatch L.root (env.toNmdcFile baseDir) with
    | none => L
    | some ptr =>
      match deref L.root ptr with
      | none => L
      | some cur =>
        if !cur.directories.isEmpty || !cur.files.isEmpty then
          { L with
            root := modifyAt L.root ptr Directory.clearAll
            baseDirs := L.baseDirs.filter (fun e => !penv.isSub e.1 baseDir) }
        else L

/-- The state in which `loadPartialImpl` starts to load: `LoadingStarted` is fired, before
the clearing when a reload is in effect. -/
def partialPrepare (env : Collaborators) (lenv : LoaderEnv) (penv : PartialEnv) (L : Listing)
    (aBaseDir : List Char) (reloadAll : Bool) : Listing :=
  if partialReloading lenv L (partialBaseDir lenv L aBaseDir reloadAll) reloadAll then
    clearForReload env penv
      { L with fired := L.fired ++ [ListenerEvent.LoadingStarted false] }
      (partialBaseDir lenv L aBaseDir reloadAll) reloadAll
  else { L with fired := L.fired ++ [ListenerEvent.LoadingStarted true] }

/-- `DirectoryListing::loadPartialImpl(aXml, aBaseDir, reloadAll, changeDir, completionF)`,
where `events` are the callbacks of the document `aXml`: the new state of the listing, and
the exception, if one leaves the function. The completion callback is the caller's and is
not part of the state. -/
def loadPartialImpl (env : Collaborators) (lenv : LoaderEnv) (penv : PartialEnv) (L : Listing)
    (events : List XmlEvent) (aBaseDir : List Char) (reloadAll changeDir : Bool) :
    Listing × Except TaskError Unit :=
  if !L.partialList then (L, .ok ())
  else
    match
      (if L.isOwnList then
        match penv.generatePartialList
            (lenv.toAdcFile (env.toNmdcFile (partialBaseDir lenv L aBaseDir reloadAll))) with
        | none => none
        | some shareEvents =>
          some (loadXML lenv (partialPrepare env lenv penv L aBaseDir reloadAll) shareEvents true
            (lenv.toAdcFile (env.toNmdcFile (partialBaseDir lenv L aBaseDir reloadAll)))
            lenv.listDate penv.dupesInFilelist)
      else
        some (updateXML lenv (partialPrepare env lenv penv L aBaseDir reloadAll) events
          (partialBaseDir lenv L aBaseDir reloadAll) penv.dupesInFilelist)) with
    | none =>
      (partialPrepare env lenv penv L aBaseDir reloadAll,
        .error (TaskError.exception penv.fileNotAvailableText))
    | some (L2, .error e) => (L2, .error (TaskError.load e))
    | some (L2, .ok _) =>
      (onLoadingFinished env penv L2 0
        (env.toNmdcFile (partialBaseDir lenv L aBaseDir reloadAll))
        (reloadAll ||
          (partialReloading lenv L (partialBaseDir lenv L aBaseDir reloadAll) reloadAll &&
            decide (partialBaseDir lenv L aBaseDir reloadAll = ['/'])))
        changeDir, .ok ())

/-- An environment for concrete partial updates: a key is under a base path when it is
longer and starts with it, case ignored; no dupe marking, no ADL matching. -/
def testPartialEnv : PartialEnv :=
  { isSub := fun key base =>
      decide (base.length < key.length) &&
        decide ((key.take base.length).map Char.toLower = base.map Char.toLower),
    isQueued := isQueuedByStatus, dupesInFilelist := false, matchADL := false,
    matchListing := fun d => d, matchingAdlText := [],
    generatePartialList := fun _ => none, fileNotAvailableText := [] }
/-! ### Tags of a partial update -/

/-- A tag that is read without moving the cursor: a `File` tag, or a self-closing
`Directory` tag that has a `Name` and is marked `Incomplete`. -/
def flatItem (env : LoaderEnv) : XmlEvent → Bool
  | .startTag name attribs simple =>
    decide (name = sFile) ||
      (decide (name = sDirectory) && simple && !(env.getAttrib attribs sName 0).isEmpty &&
        decide (env.getAttrib attribs sIncomplete 1 = ['1']))
  | .endTag _ => false

/-- The file that a tag adds to the cursor: the one the `File` branch of `startTag`
constructs, when the tag is a `File` tag that is not faulty. -/
def payloadFile (env : LoaderEnv) (checkDupe : Bool) : XmlEvent → Option File
  | .startTag name attribs _ =>
    if name = sFile then
      if (env.getAttrib attribs sName 0).isEmpty then none
      else if (env.getAttrib attribs sSize 1).isEmpty then none
      else if (env.getAttrib attribs sTTH 2).isEmpty && !env.lanMode then none
      else
        some (newFile env (env.getAttrib attribs sName 0)
          (env.toInt64 (env.getAttrib attribs sSize 1))
          (env.tthValue (env.getAttrib attribs sTTH 2)) checkDupe
          (env.toUInt32 (env.getAttrib attribs sDate 3)))
    else none
  | .endTag _ => none

/-- The directory that a `Directory` tag creates under a cursor with the path
`parentPath`: the one the `Directory` branch of `startTag` constructs. -/
def payloadDir (env : LoaderEnv) (parentPath : List Char) (listDate : Nat) (checkDupe : Bool) :
    XmlEvent → Option Directory
  | .startTag name attribs _ =>
    if name = sFile then none
    else if name = sDirectory then
      some (newDirectory env parentPath (env.getAttrib attribs sName 0)
        (tagDirType (decide (env.getAttrib attribs sIncomplete 1 = ['1']))
          (decide (env.getAttrib attribs sChildren 2 = ['1'])))
        listDate checkDupe (env.getAttrib attribs sSize 2)
        (env.toUInt32 (env.getAttrib attribs sDate 3)))
    else none
  | .endTag _ => none

/-- The name of a `Directory` tag. -/
def payloadDirName (env : LoaderEnv) : XmlEvent → Option (List Char)
  | .startTag name attribs _ =>
    if name = sFile then none
    else if name = sDirectory then some (env.getAttrib attribs sName 0)
    else none
  | .endTag _ => none

/-- The loop of the listing root tag over the segments of the base path in the case that
every segment is found among the children of the cursor: the address it ends at, `none`
when a segment is missing. -/
def walkNames : List (List Char) → Directory → Ptr → Option Ptr
  | [], _, cur => some cur
  | curDirName :: rest, d, cur =>
    match findByName curDirName d.directories 0 with
    | none => none
    | some i =>
      match d.directories[i]? with
      | none => none
      | some c => walkNames rest c (i :: cur)

/-- The base directory `d` after a reload: its content is the directories `ds` and the
files `fs` of the payload, its dates are the list date and the `BaseDate`, it is complete
and not loading. -/
def reloadedDir (d : Directory) (updateDate remoteDate : Nat) (ds : List Directory)
    (fs : List File) : Directory :=
  .mk { d.info with
    updateDate := updateDate, remoteDate := remoteDate, type := DirType.TYPE_NORMAL,
    loading := false } ds fs

/-- A content test of `loadPartialImpl` before clearing: the directory has children or
files. -/
def Directory.hasContent (d : Directory) : Bool :=
  !d.directories.isEmpty || !d.files.isEmpty

/-- The directory with the given directories and files appended to its children and
files (`push_back` of each, in order). -/
def Directory.addEntries (ds : List Directory) (fs : List File) : Directory → Directory
  | .mk info ds0 fs0 => .mk info (ds0 ++ ds) (fs0 ++ fs)

/-! ### Partial lists as trees of elements -/

/-- An element of a partial list below the listing root tag: a `File` element, or a
`Directory` element with the elements it encloses. A self-closing element makes the one
callback `startTag(.., simple = true)`; the elements enclosed by a self-closing element do
not exist and are ignored. -/
inductive Entry where
  | file (attribs : Attribs) (simple : Bool)
  | dir (attribs : Attribs) (simple : Bool) (children : List Entry)

instance : Inhabited Entry := ⟨Entry.file [] true⟩

mutual
/-- The callbacks the reader makes for an element, in document order. -/
def Entry.events : Entry → List XmlEvent
  | .file a s => .startTag sFile a s :: (if s then [] else [.endTag sFile])
  | .dir a s cs =>
    if s then [.startTag sDirectory a true]
    else .startTag sDirectory a false :: (Entry.eventsList cs ++ [.endTag sDirectory])
/-- The callbacks for a list of elements. -/
def Entry.eventsList : List Entry → List XmlEvent
  | [] => []
  | e :: es => Entry.events e ++ Entry.eventsList es
end

/-- The document of a partial list: the listing root tag with its attributes, the elements,
and the end of the listing. -/
def listDocument (attribs : Attribs) (entries : List Entry) : List XmlEvent :=
  .startTag sFileListing attribs false :: (Entry.eventsList entries ++ [.endTag sFileListing])

mutual
/-- Every `Directory` element that is read has a `Name`. -/
def Entry.named (env : LoaderEnv) : Entry → Bool
  | .file _ _ => true
  | .dir a s cs => !(env.getAttrib a sName 0).isEmpty && (s || Entry.namedList env cs)
/-- Every `Directory` element of the list that is read has a `Name`. -/
def Entry.namedList (env : LoaderEnv) : List Entry → Bool
  | [] => true
  | e :: es => Entry.named env e && Entry.namedList env es
end

mutual
/-- The number of `Directory` tags that are read. -/
def Entry.dirCount : Entry → Nat
  | .file _ _ => 0
  | .dir _ s cs => 1 + (if s then 0 else Entry.dirCountList cs)
/-- The number of `Directory` tags of a list that are read. -/
def Entry.dirCountList : List Entry → Nat
  | [] => 0
  | e :: es => Entry.dirCount e + Entry.dirCountList es
end

/-- The file that a `File` element adds to the cursor, if it is not faulty. -/
def Entry.fileOf (env : LoaderEnv) (checkDupe : Bool) : Entry → Option File
  | .file a s => payloadFile env checkDupe (.startTag sFile a s)
  | .dir _ _ _ => none

/-- The files that the `File` elements of a list add to the cursor, in document order. -/
def Entry.filesOf (env : LoaderEnv) (checkDupe : Bool) (es : List Entry) : List File :=
  es.filterMap (Entry.fileOf env checkDupe)

mutual
/-- The directory that a `Directory` element creates under a cursor with the path
`parentPath`, with everything its enclosed elements create in it: what the constructor
gives for the attributes of the tag, with the directories and files of the enclosed
elements. `dirCheck` and `fileCheck` are the dupe-check flags of the two constructors. -/
def Entry.dirOf (env : LoaderEnv) (listDate : Nat) (dirCheck fileCheck : Bool) :
    Entry → List Char → Option Directory
  | .file _ _, _ => none
  | .dir a s cs, parentPath =>
    some (Directory.addEntries
      (if s then []
        else Entry.dirsOf env listDate dirCheck fileCheck cs
          (parentPath ++ env.getAttrib a sName 0 ++ ['\\']))
      (if s then [] else Entry.filesOf env fileCheck cs)
      (newDirectory env parentPath (env.getAttrib a sName 0)
        (tagDirType (decide (env.getAttrib a sIncomplete 1 = ['1']))
          (decide (env.getAttrib a sChildren 2 = ['1'])))
        listDate dirCheck (env.getAttrib a sSize 2) (env.toUInt32 (env.getAttrib a sDate 3))))
/-- The directories that the `Directory` elements of a list create under a cursor, in
document order. -/
def Entry.dirsOf (env : LoaderEnv) (listDate : Nat) (dirCheck fileCheck : Bool) :
    List Entry → List Char → List Directory
  | [], _ => []
  | e :: es, parentPath =>
    (Entry.dirOf env listDate dirCheck fileCheck e parentPath).toList ++
      Entry.dirsOf env listDate dirCheck fileCheck es parentPath
end

mutual
/-- The registry paths that the `Directory` tags of an element look up, in document order,
each with the flag that says whether the tag registers it (the tag is not marked
`Incomplete`), and the value of `baseLower` after the element, from its value before: a
complete directory appends its lowercase name and a slash on entry, and on leaving the
string is cut by `substr(0, size - name.length - 1)` as in `endTag`. -/
def Entry.walk (env : LoaderEnv) : Entry → List Char → List (List Char × Bool) × List Char
  | .file _ _, baseLower => ([], baseLower)
  | .dir a s cs, baseLower =>
    let inner :=
      if s then
        (([] : List (List Char × Bool)),
          if decide (env.getAttrib a sIncomplete 1 = ['1']) then baseLower
          else baseLower ++ env.toLower (env.getAttrib a sName 0) ++ ['/'])
      else
        Entry.walkList env cs
          (if decide (env.getAttrib a sIncomplete 1 = ['1']) then baseLower
            else baseLower ++ env.toLower (env.getAttrib a sName 0) ++ ['/'])
    ((baseLower ++ env.toLower (env.getAttrib a sName 0) ++ ['/'],
        !decide (env.getAttrib a sIncomplete 1 = ['1'])) :: inner.1,
      if decide (env.getAttrib a sIncomplete 1 = ['1']) then inner.2
      else inner.2.take
        ((inner.2.length + 2 ^ 64 - (env.getAttrib a sName 0).length - 1) % 2 ^ 64))
/-- The registry paths and the final `baseLower` for a list of elements. -/
def Entry.walkList (env : LoaderEnv) :
    List Entry → List Char → List (List Char × Bool) × List Char
  | [], baseLower => ([], baseLower)
  | e :: es, baseLower =>
    ((Entry.walk env e baseLower).1 ++
        (Entry.walkList env es (Entry.walk env e baseLower).2).1,
      (Entry.walkList env es (Entry.walk env e baseLower).2).2)
end

/-- The registry paths of a list of elements, read with the lowercase base path as
`baseLower`. -/
def Entry.keys (env : LoaderEnv) (baseLower : List Char) (es : List Entry) :
    List (List Char × Bool) :=
  (Entry.walkList env es baseLower).1

/-- The paths of a list that their tags register. -/
def registeredKeys (ks : List (List Char × Bool)) : List (List Char) :=
  (ks.filter (fun k => k.2)).map (fun k => k.1)

/-- No tag of the list looks up a path that is registered with a directory when the tag is
read: the path is none of `regs`, the paths registered with a directory before the list,
and none that an earlier tag of the list has registered. -/
def keysFresh : List (List Char) → List (List Char × Bool) → Bool
  | _, [] => true
  | regs, (k, c) :: rest =>
    !decide (k ∈ regs) && keysFresh (if c then k :: regs else regs) rest

/-- The paths that the registry holds with a directory that is not null. -/
def liveKeys (m : DirMap) : List (List Char) :=
  (m.filter (fun e => e.2.1.isSome)).map (fun e => e.1)

/-- The base path that the listing root tag of a merge settles on, for a loader that was
constructed with the base `aBase`: the attribute `Base` when it has at least one character
and starts and ends with a slash, else `aBase`. -/
def rootTagBase (env : LoaderEnv) (attribs : Attribs) (aBase : List Char) : List Char :=
  if decide (1 ≤ (env.getAttrib attribs sBase 2).length) &&
      decide ((env.getAttrib attribs sBase 2).head? = some '/') &&
      decide ((env.getAttrib attribs sBase 2).getLast? = some '/')
  then env.getAttrib attribs sBase 2 else aBase

mutual
/-- The tree with the dupe status of every directory blanked: what is left when the
statuses that `checkShareDupes` assigns are set aside. -/
def forgetDupes : Directory → Directory
  | .mk info ds fs => .mk { info with dupe := DupeType.DUPE_NONE } (forgetDupesList ds) fs
/-- The trees of a list with the dupe statuses of their directories blanked. -/
def forgetDupesList : List Directory → List Directory
  | [] => []
  | d :: ds => forgetDupes d :: forgetDupesList ds
end

/-- What `runLoader` does with the callbacks of an element in merge mode, stated for every
loader that is inside the listing with a live cursor `q`, whose registry holds a directory
only for paths of `regs`: when every `Directory` tag has a `Name` and looks up a fresh
path, the run ends without exception, the cursor is `q` again, the directory and the file
of the element are appended to the directory at `q`, `baseLower` and the count are as
`Entry.walk` and `Entry.dirCount` say, every entry of the registry afterwards is an entry
from before or has a path that a tag of the element registers, and a path that was
registered as visited still is. -/
def Entry.runsInMerge (env : LoaderEnv) (e : Entry) : Prop :=
  ∀ (ll : ListLoader) (q : Ptr) (Q : Directory) (regs : List (List Char)),
    ll.updating = true → ll.closing = false → ll.inListing = true → ll.cur = some q →
    deref ll.root q = some Q →
    (∀ x ∈ ll.baseDirs, x.2.1.isSome = true → x.1 ∈ regs) →
    Entry.named env e = true →
    keysFresh regs (Entry.walk env e ll.baseLower).1 = true →
    ∃ m', runLoader env ll (Entry.events e)
        = ({ ll with
            root := modifyAt ll.root q (Directory.addEntries
              (Entry.dirOf env ll.listDate (ll.partialList && ll.checkDupe) ll.checkDupe e
                (getPath ll.root q)).toList
              (Entry.fileOf env ll.checkDupe e).toList)
            baseDirs := m'
            baseLower := (Entry.walk env e ll.baseLower).2
            dirsLoaded := ll.dirsLoaded + (Entry.dirCount e : Int) }, none) ∧
      (∀ x ∈ m', x ∈ ll.baseDirs ∨ x.1 ∈ registeredKeys (Entry.walk env e ll.baseLower).1) ∧
      (∀ k d, dirMapFind k ll.baseDirs = some (d, true) → ∃ d', dirMapFind k m' = some (d', true))

/-- The same for the callbacks of a list of elements. -/
def Entry.listRunsInMerge (env : LoaderEnv) (es : List Entry) : Prop :=
  ∀ (ll : ListLoader) (q : Ptr) (Q : Directory) (regs : List (List Char)),
    ll.updating = true → ll.closing = false → ll.inListing = true → ll.cur = some q →
    deref ll.root q = some Q →
    (∀ x ∈ ll.baseDirs, x.2.1.isSome = true → x.1 ∈ regs) →
    Entry.namedList env es = true →
    keysFresh regs (Entry.walkList env es ll.baseLower).1 = true →
    ∃ m', runLoader env ll (Entry.eventsList es)
        = ({ ll with
            root := modifyAt ll.root q (Directory.addEntries
              (Entry.dirsOf env ll.listDate (ll.partialList && ll.checkDupe) ll.checkDupe es
                (getPath ll.root q))
              (Entry.filesOf env ll.checkDupe es))
            baseDirs := m'
            baseLower := (Entry.walkList env es ll.baseLower).2
            dirsLoaded := ll.dirsLoaded + (Entry.dirCountList es : Int) }, none) ∧
      (∀ x ∈ m', x ∈ ll.baseDirs ∨
        x.1 ∈ registeredKeys (Entry.walkList env es ll.baseLower).1) ∧
      (∀ k d, dirMapFind k ll.baseDirs = some (d, true) → ∃ d', dirMapFind k m' = some (d', true))

/-- Whether `onLoadingFinished` runs `checkShareDupes` over the listing. -/
def dupePassOn (penv : PartialEnv) (L : Listing) : Bool :=
  !L.isOwnList && penv.dupesInFilelist && L.isClientView

/-- The tree as far as a partial update determines it: when the dupe pass is in effect,
the tree with the dupe statuses of its directories set aside (the pass recomputes them
from the statuses it finds), else the tree itself. -/
def normDupes (pass : Bool) (t : Directory) : Directory :=
  if pass then forgetDupes t else t

/-- The directory `d` after the merge of a partial list that appends the directories `ds`
and the files `fs` to it: it has the dates of the list, is complete and not loading. -/
def mergedDir (d : Directory) (updateDate remoteDate : Nat) (ds : List Directory)
    (fs : List File) : Directory :=
  Directory.setLoading false (Directory.setComplete (Directory.addEntries ds fs
    (Directory.setRemoteDate remoteDate (Directory.setUpdateDate updateDate d))))

/-- The directory with another record of members; the children and the files are kept. -/
def Directory.withInfo (i : DirInfo) : Directory → Directory
  | .mk _ ds fs => .mk i ds fs

/-- The callbacks that `loadPartialImpl` loads: for the own list those of the list that
`ShareManager::generatePartialList` returns for the base path (`none` for a null stream),
else those of the document `aXml`. -/
def incomingEvents (env : Collaborators) (lenv : LoaderEnv) (penv : PartialEnv) (L : Listing)
    (events : List XmlEvent) (aBaseDir : List Char) (reloadAll : Bool) :
    Option (List XmlEvent) :=
  if L.isOwnList then
    penv.generatePartialList
      (lenv.toAdcFile (env.toNmdcFile (partialBaseDir lenv L aBaseDir reloadAll)))
  else some events

/-! ### Concrete partial lists -/

/-- The element `<File Name="n" Size="size" TTH="tth"/>`. -/
def fileEntry (n size tth : List Char) : Entry :=
  Entry.file [(sName, n), (sSize, size), (sTTH, tth)] true

/-- The partial list of `A/B/` in the scenario: `<FileListing Base="/A/B/">` with the file
`f2` (20 bytes, hash 2). -/
def payloadB : List XmlEvent :=
  listDocument [(sBase, ['/', 'A', '/', 'B', '/'])] [fileEntry ['f', '2'] ['2', '0'] ['2']]

/-- A partial listing that was opened and has received the partial list of `A/B/` only:
`A` is a placeholder that was never listed itself, `A/B/` is visited and holds `f2`. -/
def visitedB : Listing :=
  (loadPartialImpl testCollaborators testLoaderEnv testPartialEnv (emptyListing true) payloadB
    ['A', '\\', 'B', '\\'] false true).1

/-- The elements of a recursive partial list: the file `f3` (5 bytes, hash 3) and the
directory `C` that holds the file `f4` (6 bytes, hash 4). -/
def entriesF3C : List Entry :=
  [fileEntry ['f', '3'] ['5'] ['3'],
    Entry.dir [(sName, ['C'])] false [fileEntry ['f', '4'] ['6'] ['4']]]

/-- A loader environment for concrete documents in which the hash 1 is in the share and the
hash 2 is in the queue. -/
def dupeLoaderEnv : LoaderEnv :=
  { testLoaderEnv with
    checkFileDupe := fun t =>
      if t = 1 then DupeType.DUPE_SHARE
      else if t = 2 then DupeType.DUPE_QUEUE else DupeType.DUPE_NONE }

/-- The elements of a partial list with a file that is shared and a file that is queued. -/
def dupeEntries : List Entry :=
  [fileEntry ['s'] ['1'] ['1'], fileEntry ['q'] ['1'] ['2']]

/-- A partial environment for concrete listings in which the share generates, for every
path, the list `<FileListing Base="/A/B/">` with the file `f4` (6 bytes, hash 4). -/
def shareListEnv : PartialEnv :=
  { testPartialEnv with
    generatePartialList := fun _ =>
      some (listDocument [(sBase, ['/', 'A', '/', 'B', '/'])]
        [fileEntry ['f', '4'] ['6'] ['4']]) }
/-! ## Theorems -/

/-- Induction over a directory tree: a property that holds for a directory whenever it
holds for all of its children holds for every directory. -/
theorem Directory.induct {P : Directory → Prop}
    (h : ∀ info ds fs, (∀ d ∈ ds, P d) → P (Directory.mk info ds fs)) (d : Directory) : P d :=
  Directory.rec (motive_1 := P) (motive_2 := fun ds => ∀ d ∈ ds, P d)
    (fun info ds fs ih => h info ds fs ih)
    (fun _ hd => by cases hd)
    (fun d ds hd hds e he => by
      rcases List.mem_cons.mp he with rfl | he
      · exact hd
      · exact hds e he) d


/-! ### Paths: `getPath` and `findDirectory` -/

theorem descendIdx_append (d : Directory) (is js : List Nat) :
    descendIdx d (is ++ js) = (descendIdx d is).bind (fun e => descendIdx e js) := by
  induction is generalizing d with
  | nil => simp [descendIdx]
  | cons i is ih =>
    simp only [List.cons_append, descendIdx]
    cases d.directories[i]? with
    | none => simp
    | some c => simp [ih]

theorem descendIdx_single (e : Directory) (i : Nat) : descendIdx e [i] = e.directories[i]? := by
  simp only [descendIdx]
  cases e.directories[i]? <;> rfl

theorem deref_eq_descendIdx (root : Directory) (ptr : Ptr) :
    deref root ptr = descendIdx root ptr.reverse := by
  induction ptr with
  | nil => simp [deref, descendIdx]
  | cons i par ih =>
    simp only [deref, List.reverse_cons, descendIdx_append, ih]
    congr 1
    funext e
    exact (descendIdx_single e i).symm

theorem pathOf_append (d P : Directory) (is js : List Nat) (h : descendIdx d is = some P) :
    pathOf d (is ++ js) = pathOf d is ++ pathOf P js := by
  induction is generalizing d with
  | nil =>
    simp only [descendIdx, Option.some.injEq] at h
    simp [pathOf, h]
  | cons i is ih =>
    simp only [descendIdx] at h
    simp only [List.cons_append, pathOf]
    cases hc : d.directories[i]? with
    | none => simp [hc] at h
    | some c =>
      simp only [hc] at h
      simp [ih c h]

theorem getPath_eq_pathOf (root : Directory) (ptr : Ptr) (D : Directory)
    (h : deref root ptr = some D) : getPath root ptr = pathOf root ptr.reverse := by
  induction ptr generalizing D with
  | nil => simp [getPath, pathOf]
  | cons i par ih =>
    have h' := h
    simp only [deref] at h'
    cases hP : deref root par with
    | none => simp [hP] at h'
    | some P =>
      simp only [hP, Option.some_bind] at h'
      have hP' : descendIdx root par.reverse = some P := by rw [← deref_eq_descendIdx]; exact hP
      simp only [getPath, h, ih P hP, List.reverse_cons, pathOf_append root P _ _ hP', pathOf, h']
      simp

theorem strFind_append_sep (seg rest : List Char) (h : '\\' ∉ seg) :
    strFind '\\' (seg ++ '\\' :: rest) = some seg.length := by
  induction seg with
  | nil => simp [strFind]
  | cons c cs ih =>
    simp only [List.mem_cons, not_or] at h
    have hc : c ≠ '\\' := fun hc => h.1 hc.symm
    simp [strFind, hc, ih h.2]

theorem findChild_of_siblingsDistinct (nameMatch : List Char → List Char → Bool)
    (ds : List Directory) :
    ∀ (i k : Nat) (c : Directory), siblingsDistinct nameMatch ds = true → ds[i]? = some c →
      findChild nameMatch c.getName ds k = some (k + i, c) := by
  induction ds with
  | nil => intro i k c _ h; simp at h
  | cons d ds ih =>
    intro i k c hsd hget
    simp only [siblingsDistinct, Bool.and_eq_true, Bool.not_eq_true', decide_eq_false_iff_not,
      List.all_eq_true] at hsd
    obtain ⟨⟨⟨_, hself⟩, hlater⟩, hrest⟩ := hsd
    cases i with
    | zero =>
      simp only [List.getElem?_cons_zero, Option.some.injEq] at hget
      subst hget
      simp [findChild, hself]
    | succ j =>
      simp only [List.getElem?_cons_succ] at hget
      have hmem : c ∈ ds := List.getElem?_mem hget
      have hne : nameMatch d.getName c.getName = false := by simpa using hlater c hmem
      rw [findChild]
      simp only [hne, Bool.false_eq_true, if_false]
      rw [ih j (k + 1) c hrest hget]
      simp [Nat.add_assoc, Nat.add_comm 1 j]

theorem siblingsDistinct_no_sep (nameMatch : List Char → List Char → Bool) (ds : List Directory)
    (h : siblingsDistinct nameMatch ds = true) : ∀ c ∈ ds, '\\' ∉ c.getName := by
  induction ds with
  | nil => intro c hc; cases hc
  | cons d ds ih =>
    simp only [siblingsDistinct, Bool.and_eq_true, Bool.not_eq_true', decide_eq_false_iff_not] at h
    intro c hc
    rcases List.mem_cons.mp hc with rfl | hc
    · exact h.1.1.1
    · exact ih h.2 c hc

theorem wellNamedDirs_mem (nameMatch : List Char → List Char → Bool) (ds : List Directory)
    (h : wellNamedDirs nameMatch ds = true) : ∀ c ∈ ds, wellNamed nameMatch c = true := by
  induction ds with
  | nil => intro c hc; cases hc
  | cons d ds ih =>
    simp only [wellNamedDirs, Bool.and_eq_true] at h
    intro c hc
    rcases List.mem_cons.mp hc with rfl | hc
    · exact h.1
    · exact ih h.2 c hc

theorem findDirectoryAux_pathOf (nameMatch : List Char → List Char → Bool) (is : List Nat) :
    ∀ (current : Directory) (cur : Ptr) (fuel : Nat) (D : Directory),
      wellNamed nameMatch current = true → descendIdx current is = some D → is ≠ [] →
      (pathOf current is).length < fuel →
      findDirectoryAux nameMatch fuel (pathOf current is) current cur = some (is.reverse ++ cur) := by
  induction is with
  | nil => intro _ _ _ _ _ _ h; exact absurd rfl h
  | cons i rest ih =>
    intro current cur fuel D hwn hD _ hfuel
    cases current with
    | mk info ds fs =>
      simp only [wellNamed, Bool.and_eq_true] at hwn
      obtain ⟨hsd, hwd⟩ := hwn
      simp only [descendIdx, Directory.directories] at hD
      simp only [pathOf, Directory.directories] at hfuel ⊢
      cases hc : ds[i]? with
      | none => simp [hc] at hD
      | some c =>
        simp only [hc] at hD hfuel ⊢
        have hmem : c ∈ ds := List.getElem?_mem hc
        have hsep : '\\' ∉ c.getName := siblingsDistinct_no_sep nameMatch ds hsd c hmem
        have hfind := findChild_of_siblingsDistinct nameMatch ds i 0 c hsd hc
        simp only [Nat.zero_add] at hfind
        cases fuel with
        | zero => simp at hfuel
        | succ f =>
          rw [findDirectoryAux]
          simp only [List.isEmpty_eq_true, List.append_eq_nil, List.cons_ne_self, and_false,
            reduceCtorEq, if_false, strFind_append_sep _ _ hsep, List.take_left',
            Directory.directories, hfind]
          cases rest with
          | nil => simp [pathOf]
          | cons j rest' =>
            have hne : pathOf c (j :: rest') ≠ [] := by
              simp only [descendIdx] at hD
              simp only [pathOf]
              cases hj : c.directories[j]? with
              | none => simp [hj] at hD
              | some c' => simp
            have hlen : 0 < (pathOf c (j :: rest')).length := List.length_pos.mpr hne
            have hcond : ¬ (c.getName.length
                = (c.getName ++ '\\' :: pathOf c (j :: rest')).length - 1) := by
              simp only [List.length_append, List.length_cons]
              omega
            simp only [hcond, if_false]
            have hdrop : List.drop (c.getName.length + 1)
                (c.getName ++ '\\' :: pathOf c (j :: rest')) = pathOf c (j :: rest') := by
              rw [List.drop_append_eq_append_drop]
              simp
            rw [hdrop, ih c (i :: cur) f D (wellNamedDirs_mem nameMatch ds hwd c hmem) hD
              (by simp) (by simp only [List.length_append, List.length_cons] at hfuel; omega)]
            simp

/-- C1 (amended): in a tree whose siblings are told apart by their names (no name holds a
backslash, and `operator==` matches every child against its own name and against the name
of no later sibling), `findDirectory(getPath(D))` from the root returns the address of `D`
itself, for every directory `D` of the tree, the root included. -/
theorem findDirectory_getPath (nameMatch : List Char → List Char → Bool) (root : Directory)
    (hwn : wellNamed nameMatch root = true) (ptr : Ptr) (D : Directory)
    (hD : deref root ptr = some D) :
    findDirectory nameMatch root (getPath root ptr) = some ptr := by
  rw [getPath_eq_pathOf root ptr D hD, findDirectory]
  rw [deref_eq_descendIdx] at hD
  cases hp : ptr with
  | nil => simp [pathOf, findDirectoryAux]
  | cons i par =>
    rw [← hp]
    have hne : ptr.reverse ≠ [] := by simp [hp]
    have := findDirectoryAux_pathOf nameMatch ptr.reverse root [] _ D hwn hD hne (Nat.lt_succ_self _)
    simpa using this

/-- Witness of C1 (amended): in the scenario listing the path of `A/B/` leads back to it. -/
theorem findDirectory_getPath_witness :
    getPath scenarioRoot [0, 0] = ['A', '\\', 'B', '\\'] ∧
    findDirectory exactMatch scenarioRoot (getPath scenarioRoot [0, 0]) = some [0, 0] :=
  ⟨by decide, findDirectory_getPath exactMatch scenarioRoot (by decide) [0, 0] scenarioB (by decide)⟩

/-- Counterexample to C1 as stated: in `twinRoot` the second child exists, its path is
`A\`, and `findDirectory` of that path returns the first child; in `slashRoot` the only
child has the path `a\b\`, for which `findDirectory` returns not-found. -/
theorem findDirectory_getPath_counterexample :
    (deref twinRoot [1]).isSome = true ∧
    findDirectory exactMatch twinRoot (getPath twinRoot [1]) = some [0] ∧
    (deref slashRoot [0]).isSome = true ∧
    findDirectory exactMatch slashRoot (getPath slashRoot [0]) = none := by
  decide

theorem strFind_lt (c : Char) (s : List Char) : ∀ e, strFind c s = some e → e < s.length := by
  induction s with
  | nil => intro e h; simp [strFind] at h
  | cons x xs ih =>
    intro e h
    by_cases hx : x = c
    · simp [strFind, hx] at h
      subst h
      simp
    · simp only [strFind, hx, if_false, Option.map_eq_some'] at h
      obtain ⟨e', he', rfl⟩ := h
      have := ih e' he'
      simp only [List.length_cons]
      omega

theorem findChild_some (nameMatch : List Char → List Char → Bool) (name : List Char)
    (ds : List Directory) :
    ∀ (k j : Nat) (c : Directory), findChild nameMatch name ds k = some (j, c) →
      ∃ i, j = k + i ∧ ds[i]? = some c ∧ nameMatch c.getName name = true := by
  induction ds with
  | nil => intro k j c h; simp [findChild] at h
  | cons d ds ih =>
    intro k j c h
    rw [findChild] at h
    by_cases hm : nameMatch d.getName name = true
    · simp only [hm, if_true, Option.some.injEq, Prod.mk.injEq] at h
      obtain ⟨rfl, rfl⟩ := h
      exact ⟨0, rfl, by simp, hm⟩
    · simp only [hm, Bool.false_eq_true, if_false] at h
      obtain ⟨i, hi, hget, hnm⟩ := ih (k + 1) j c h
      exact ⟨i + 1, by omega, by simpa using hget, hnm⟩

theorem getFilesSize_foldl (fs : List File) (x : Int) :
    fs.foldl (fun x f => x + f.size) x = x + (fs.map (·.size)).sum := by
  induction fs generalizing x with
  | nil => simp
  | cons f fs ih => simp [List.foldl_cons, ih, add_assoc]

theorem getFilesSize_eq_sum (fs : List File) : getFilesSize fs = (fs.map (·.size)).sum := by
  simp [getFilesSize, getFilesSize_foldl]

theorem getTotalSizeLoop_false (ds : List Directory) (x : Int) :
    getTotalSizeLoop ds false false x
      = x + ((ds.filter (fun c => !c.getAdls)).map (fun c => getTotalSize c false)).sum := by
  induction ds generalizing x with
  | nil => simp [getTotalSizeLoop]
  | cons d ds ih =>
    rw [getTotalSizeLoop]
    cases h : d.getAdls <;> simp [h, ih, add_assoc]

/-- C3 (amended): `getTotalSize(false)` of an incomplete directory is its `partialSize`; of
a complete directory that is not synthetic it is the sum of the sizes of its own files plus
the `getTotalSize(false)` totals of its non-synthetic children; of a complete synthetic
directory it is 0; and the directory `A/` of the scenario totals 30. -/
theorem getTotalSize_false_spec (d : Directory) :
    (d.isComplete = false → getTotalSize d false = d.info.partialSize) ∧
    (d.isComplete = true → d.getAdls = false →
      getTotalSize d false = (d.files.map (·.size)).sum +
        ((d.directories.filter (fun c => !c.getAdls)).map (fun c => getTotalSize c false)).sum) ∧
    (d.isComplete = true → d.getAdls = true → getTotalSize d false = 0) ∧
    getTotalSize scenarioA false = 30 := by
  cases d with
  | mk info ds fs =>
    refine ⟨?_, ?_, ?_, by decide⟩
    · intro h; rw [getTotalSize]; simp [h, Directory.info]
    · intro h1 h2; rw [getTotalSize]
      simp [h1, h2, getTotalSizeLoop_false, getFilesSize_eq_sum, Directory.files,
        Directory.directories]
    · intro h1 h2; rw [getTotalSize]; simp [h1, h2]

/-- Witness of C3 (amended): the incomplete `incompleteDir` reports the announced 42
bytes; the directory `A/` of the scenario, complete and not synthetic, totals the 10 bytes
of `f1` plus the total of `B/`; the complete synthetic `adlsChild` reports 0. -/
theorem getTotalSize_false_spec_witness :
    getTotalSize incompleteDir false = 42 ∧
    getTotalSize scenarioA false = 10 + getTotalSize scenarioB false ∧
    getTotalSize adlsChild false = 0 := by
  refine ⟨?_, ?_, ?_⟩
  · rw [(getTotalSize_false_spec incompleteDir).1 (by decide)]; decide
  · rw [(getTotalSize_false_spec scenarioA).2.1 (by decide) (by decide)]; decide
  · exact (getTotalSize_false_spec adlsChild).2.2.1 (by decide) (by decide)

/-- Counterexample to C3 as stated: a complete synthetic directory with one file of 5
bytes has `getTotalSize(false)` = 0, while its files' sizes sum to 5. -/
theorem getTotalSize_false_adls_counterexample :
    adlsChild.isComplete = true ∧
    getTotalSize adlsChild false = 0 ∧
    (adlsChild.files.map (·.size)).sum +
      ((adlsChild.directories.filter (fun c => !c.getAdls)).map
        (fun c => getTotalSize c false)).sum = 5 := by
  decide

/-- C4 (the code at the failing input): `adlsParent` is complete and not synthetic, its
only child is the synthetic `adlsChild`, whose own full total is 5 bytes in 1 file, and
yet `getTotalSize(true)` of `adlsParent` is 0, as is its `getTotalFileCount(true)`. -/
theorem getTotalSize_true_skips_adls_children :
    adlsParent.isComplete = true ∧ adlsParent.getAdls = false ∧
    adlsParent.directories = [adlsChild] ∧ adlsChild.getAdls = true ∧
    getTotalSize adlsChild true = 5 ∧ getTotalSize adlsParent true = 0 ∧
    getTotalFileCount adlsChild true = 1 ∧ getTotalFileCount adlsParent true = 0 := by
  decide

/-! ### Diff / filter -/

theorem filterListDirs_eq_map (S t : Int) (l : TTHSet) (ds : List Directory) :
    filterListDirs S t l ds = ds.map (filterList S t l) := by
  induction ds with
  | nil => simp [filterListDirs]
  | cons d ds ih => simp [filterListDirs, ih]

theorem filterList_getName (S t : Int) (l : TTHSet) (d : Directory) :
    (filterList S t l d).getName = d.getName := by
  cases d with
  | mk info ds fs => simp [filterList, Directory.getName, Directory.info]

theorem listFiles_of_empty (e : Directory) (path : List (List Char))
    (h : DirectoryEmpty e = true) : listFiles e path = [] := by
  cases e with
  | mk info ds fs =>
    simp [DirectoryEmpty, Directory.getFileCount, Directory.files, Directory.directories] at h
    obtain ⟨hf, hd⟩ := h
    subst hf; subst hd
    simp [listFiles, listFilesDirs]

theorem listFilesDirs_filter_nonempty (ds : List Directory) (path : List (List Char)) :
    listFilesDirs (ds.filter (fun d => !DirectoryEmpty d)) path = listFilesDirs ds path := by
  induction ds with
  | nil => simp
  | cons d ds ih =>
    cases h : DirectoryEmpty d
    · simp [List.filter_cons, h, listFilesDirs, ih]
    · simp [List.filter_cons, h, listFilesDirs, ih, listFiles_of_empty d _ h]

theorem listFiles_filterList (t : Int) (l : TTHSet) (d : Directory) :
    ∀ path, listFiles (filterList 0 t l d) path
      = (listFiles d path).filter (fun pf => !HashContained l pf.2) := by
  induction d using Directory.induct with
  | h info ds fs ih =>
    intro path
    have hds : ∀ path, listFilesDirs (ds.map (filterList 0 t l)) path
        = (listFilesDirs ds path).filter (fun pf => !HashContained l pf.2) := by
      intro path
      induction ds with
      | nil => simp [listFilesDirs]
      | cons c cs ihc =>
        simp only [List.map_cons, listFilesDirs, List.filter_append, filterList_getName]
        rw [ih c (List.mem_cons_self _ _), ihc (fun e he => ih e (List.mem_cons_of_mem _ he))]
    simp only [filterList, listFiles, filterListDirs_eq_map, listFilesDirs_filter_nonempty, hds,
      List.filter_append]
    simp [List.filter_map, Function.comp_def]

theorem mem_foldl_insert (fs : List File) (l : TTHSet) (h : TTHValue) :
    h ∈ fs.foldl (fun acc f => acc.insert f.tthRoot) l ↔ h ∈ l ∨ ∃ f ∈ fs, f.tthRoot = h := by
  induction fs generalizing l with
  | nil => simp
  | cons f fs ih =>
    simp only [List.foldl_cons, ih, List.mem_insert_iff, List.mem_cons, exists_eq_or_imp]
    constructor
    · rintro ((h1 | h1) | h1)
      · exact Or.inr (Or.inl h1.symm)
      · exact Or.inl h1
      · exact Or.inr (Or.inr h1)
    · rintro (h1 | h1 | h1)
      · exact Or.inl (Or.inr h1)
      · exact Or.inl (Or.inl h1.symm)
      · exact Or.inr h1

theorem mem_getHashList (d : Directory) :
    ∀ (l : TTHSet) (path : List (List Char)) (h : TTHValue),
      h ∈ getHashList d l ↔ h ∈ l ∨ ∃ pf ∈ listFiles d path, pf.2.tthRoot = h := by
  induction d using Directory.induct with
  | h info ds fs ih =>
    intro l path h
    have hds : ∀ (l : TTHSet) (path : List (List Char)),
        h ∈ getHashListDirs ds l ↔ h ∈ l ∨ ∃ pf ∈ listFilesDirs ds path, pf.2.tthRoot = h := by
      induction ds with
      | nil => intro l path; simp [getHashListDirs, listFilesDirs]
      | cons c cs ihc =>
        intro l path
        rw [getHashListDirs, ihc (fun e he => ih e (List.mem_cons_of_mem _ he)) _ path,
          ih c (List.mem_cons_self _ _) l (path ++ [c.getName])]
        simp only [listFilesDirs, List.mem_append]
        constructor
        · rintro ((h1 | ⟨pf, h1, h2⟩) | ⟨pf, h1, h2⟩)
          · exact Or.inl h1
          · exact Or.inr ⟨pf, Or.inl h1, h2⟩
          · exact Or.inr ⟨pf, Or.inr h1, h2⟩
        · rintro (h1 | ⟨pf, h1 | h1, h2⟩)
          · exact Or.inl (Or.inl h1)
          · exact Or.inl (Or.inr ⟨pf, h1, h2⟩)
          · exact Or.inr ⟨pf, h1, h2⟩
    rw [getHashList, mem_foldl_insert, hds l path]
    simp only [listFiles, List.mem_append, List.mem_map]
    constructor
    · rintro ((h1 | ⟨pf, h1, h2⟩) | ⟨f, h1, h2⟩)
      · exact Or.inl h1
      · exact Or.inr ⟨pf, Or.inr h1, h2⟩
      · exact Or.inr ⟨(path, f), Or.inl ⟨f, h1, rfl⟩, h2⟩
    · rintro (h1 | ⟨pf, ⟨f, h1, rfl⟩ | h1, h2⟩)
      · exact Or.inl (Or.inl h1)
      · exact Or.inr ⟨f, h1, h2⟩
      · exact Or.inl (Or.inr ⟨pf, h1, h2⟩)

/-- C5: with `SKIP_SUBTRACT = 0`, for every hash set `H` the files of the filtered tree
are, directory by directory and in the original order, the original files whose hash is
not in `H`, so none with a hash in `H` is left at any depth; filtering against a reference
tree keeps exactly the files whose hash is the hash of no file anywhere in that tree. -/
theorem filterList_keeps_exactly_unmatched (threshold : Int) (H : TTHSet)
    (reference subject : Directory) :
    listFiles (filterList 0 threshold H subject) []
        = (listFiles subject []).filter (fun pf => !decide (pf.2.tthRoot ∈ H)) ∧
    (∀ pf ∈ listFiles (filterList 0 threshold H subject) [], pf.2.tthRoot ∉ H) ∧
    listFiles (filterListAgainst 0 threshold reference subject) []
        = (listFiles subject []).filter
            (fun pf => (listFiles reference []).all (fun q => q.2.tthRoot != pf.2.tthRoot)) := by
  have h1 := listFiles_filterList threshold H subject []
  refine ⟨?_, ?_, ?_⟩
  · rw [h1]; rfl
  · intro pf hpf
    rw [h1, List.mem_filter] at hpf
    simpa [HashContained] using hpf.2
  · rw [filterListAgainst, listFiles_filterList]
    apply List.filter_congr
    intro pf _
    have h2 := mem_getHashList reference [] [] pf.2.tthRoot
    simp only [List.not_mem_nil, false_or] at h2
    by_cases h3 : pf.2.tthRoot ∈ getHashList reference []
    · obtain ⟨q, hq1, hq2⟩ := h2.mp h3
      have : ((listFiles reference []).all (fun q => q.2.tthRoot != pf.2.tthRoot)) = false := by
        rw [List.all_eq_false]
        exact ⟨q, hq1, by simp [hq2]⟩
      simp [HashContained, h3, this]
    · have : ((listFiles reference []).all (fun q => q.2.tthRoot != pf.2.tthRoot)) = true := by
        rw [List.all_eq_true]
        intro q hq
        have : q.2.tthRoot ≠ pf.2.tthRoot := fun hc => h3 (h2.mpr ⟨q, hq, hc⟩)
        simpa using this
      simp [HashContained, h3, this]

theorem filterList_empty_of_all_contained (S t : Int) (l : TTHSet) (d : Directory) :
    ∀ path, (∀ pf ∈ listFiles d path, pf.2.tthRoot ∈ l) →
      (filterList S t l d).files = [] ∧ (filterList S t l d).directories = [] := by
  induction d using Directory.induct with
  | h info ds fs ih =>
    intro path hall
    have hfs : fs.filter (fun f => !HashContained l f) = [] := by
      rw [List.filter_eq_nil_iff]
      intro f hf
      have := hall (path, f) (by simp [listFiles, hf])
      simpa [HashContained] using this
    have hds : ∀ c ∈ ds, DirectoryEmpty (filterList S t l c) = true := by
      intro c hc
      have hsub : ∀ pf ∈ listFiles c (path ++ [c.getName]), pf.2.tthRoot ∈ l := by
        intro pf hpf
        apply hall
        simp only [listFiles, List.mem_append]
        right
        clear hall ih hfs
        induction ds with
        | nil => cases hc
        | cons x xs ihx =>
          simp only [listFilesDirs, List.mem_append]
          rcases List.mem_cons.mp hc with rfl | hc
          · exact Or.inl hpf
          · exact Or.inr (ihx hc)
      obtain ⟨h1, h2⟩ := ih c hc _ hsub
      simp [DirectoryEmpty, Directory.getFileCount, h1, h2]
    constructor
    · simp [filterList, Directory.files, hfs]
    · simp only [filterList, Directory.directories, filterListDirs_eq_map]
      rw [List.filter_eq_nil_iff]
      intro e he
      obtain ⟨c, hc, rfl⟩ := List.mem_map.mp he
      simp [hds c hc]

/-- C6: when the hash of every file anywhere in the subject tree `S` is the hash of some
file of the reference tree `R`, then after `S` is filtered against `R` (whatever the size
threshold setting) the root of `S` has no file and no subdirectory. -/
theorem filterList_all_matched_leaves_nothing (SKIP_SUBTRACT threshold : Int) (R S : Directory)
    (hall : ∀ pf ∈ listFiles S [], ∃ q ∈ listFiles R [], q.2.tthRoot = pf.2.tthRoot) :
    (filterListAgainst SKIP_SUBTRACT threshold R S).files = [] ∧
    (filterListAgainst SKIP_SUBTRACT threshold R S).directories = [] := by
  apply filterList_empty_of_all_contained SKIP_SUBTRACT threshold _ S []
  intro pf hpf
  have h2 := mem_getHashList R [] [] pf.2.tthRoot
  simp only [List.not_mem_nil, false_or] at h2
  exact h2.mpr (hall pf hpf)

/-- Witness of C6: the scenario listing filtered against itself keeps nothing under its
root, although its files sit two and three levels deep. -/
theorem filterList_all_matched_leaves_nothing_witness :
    (filterListAgainst 0 0 scenarioRoot scenarioRoot).files = [] ∧
    (filterListAgainst 0 0 scenarioRoot scenarioRoot).directories = [] :=
  filterList_all_matched_leaves_nothing 0 0 scenarioRoot scenarioRoot (by decide)

theorem mem_allDirs_self (d : Directory) : d ∈ allDirs d := by
  cases d with
  | mk info ds fs => simp [allDirs]

theorem mem_allDirsList {e : Directory} {ds : List Directory} :
    e ∈ allDirsList ds ↔ ∃ c ∈ ds, e ∈ allDirs c := by
  induction ds with
  | nil => simp [allDirsList]
  | cons d ds ih => simp [allDirsList, ih]

theorem allDirs_filterList (S t : Int) (l : TTHSet) (d : Directory) :
    ∀ e ∈ allDirs (filterList S t l d), ∃ o ∈ allDirs d, e = filterList S t l o := by
  induction d using Directory.induct with
  | h info ds fs ih =>
    intro e he
    rw [filterList, allDirs, List.mem_cons] at he
    rcases he with he | he
    · refine ⟨Directory.mk info ds fs, mem_allDirs_self _, ?_⟩
      rw [he, filterList]
    · rw [mem_allDirsList] at he
      obtain ⟨c', hc', hec⟩ := he
      rw [filterListDirs_eq_map] at hc'
      obtain ⟨c, hc, rfl⟩ := List.mem_map.mp (List.mem_of_mem_filter hc')
      obtain ⟨o, ho, rfl⟩ := ih c hc e hec
      refine ⟨o, ?_, rfl⟩
      rw [allDirs, List.mem_cons]
      exact Or.inr (mem_allDirsList.mpr ⟨c, hc, ho⟩)

/-- C7: with `SKIP_SUBTRACT > 0`, every directory of the filtered tree is the filtered
image of a directory `o` of the original tree, and with `survivors` the files of `o` whose
hash is not in the set: when at least two files survive, the directory keeps exactly the
survivors; when fewer than two survive, it keeps exactly the survivors whose size is not
below the threshold. -/
theorem filterList_size_threshold (SKIP_SUBTRACT threshold : Int) (l : TTHSet) (d : Directory)
    (hskip : SKIP_SUBTRACT > 0) :
    ∀ e ∈ allDirs (filterList SKIP_SUBTRACT threshold l d), ∃ o ∈ allDirs d,
      e = filterList SKIP_SUBTRACT threshold l o ∧
      (2 ≤ (o.files.filter (fun f => !decide (f.tthRoot ∈ l))).length →
        e.files = o.files.filter (fun f => !decide (f.tthRoot ∈ l))) ∧
      ((o.files.filter (fun f => !decide (f.tthRoot ∈ l))).length < 2 →
        e.files = (o.files.filter (fun f => !decide (f.tthRoot ∈ l))).filter
          (fun f => !decide (f.size < threshold))) := by
  intro e he
  obtain ⟨o, ho, rfl⟩ := allDirs_filterList SKIP_SUBTRACT threshold l d e he
  refine ⟨o, ho, rfl, ?_, ?_⟩
  · intro h2
    cases o with
    | mk info ds fs =>
      have h3 : ¬ (fs.filter (fun f => !HashContained l f)).length < 2 := by
        simpa [HashContained, Directory.files] using h2
      simp only [filterList, Directory.files, h3, and_false, if_false]
      rfl
  · intro h2
    cases o with
    | mk info ds fs =>
      have h3 : (fs.filter (fun f => !HashContained l f)).length < 2 := by
        simpa [HashContained, Directory.files] using h2
      simp only [filterList, Directory.files, h3, hskip, and_self, if_true]
      rfl

/-- Witness of C7: with a threshold of 1024 bytes configured, `One/` loses its single
small file (and is removed, being empty), while `Two/` keeps both of its small files. -/
theorem filterList_size_threshold_witness :
    (∀ e ∈ allDirs (filterList 1 1024 [] thresholdTree), ∃ o ∈ allDirs thresholdTree,
      e = filterList 1 1024 [] o ∧
      (2 ≤ (o.files.filter (fun f => !decide (f.tthRoot ∈ ([] : TTHSet)))).length →
        e.files = o.files.filter (fun f => !decide (f.tthRoot ∈ ([] : TTHSet)))) ∧
      ((o.files.filter (fun f => !decide (f.tthRoot ∈ ([] : TTHSet)))).length < 2 →
        e.files = (o.files.filter (fun f => !decide (f.tthRoot ∈ ([] : TTHSet)))).filter
          (fun f => !decide (f.size < 1024)))) ∧
    (filterList 1 1024 [] thresholdTree).directories.map (fun d => (d.getName, d.files.length))
      = [(['T', 'w', 'o'], 2)] :=
  ⟨filterList_size_threshold 1 1024 [] thresholdTree (by decide), by decide⟩

/-! ### Dupe propagation -/

/-- C8 (the code at the failing inputs): a directory that enters with status `DUPE_NONE`,
has no files, and whose children classify as full share dupe and then as no dupe ends as
`DUPE_SHARE`; with a full queue dupe child first it ends as `DUPE_QUEUE`. In the opposite
order of the same children the status is the partial one. -/
theorem checkShareDupes_later_fresh_child_keeps_full :
    (parentOf [sharedDir, freshDir]).getDupe = DupeType.DUPE_NONE ∧
    (checkShareDupes isQueuedByStatus (parentOf [sharedDir, freshDir])).directories.map
      Directory.getDupe = [DupeType.DUPE_SHARE, DupeType.DUPE_NONE] ∧
    (checkShareDupes isQueuedByStatus (parentOf [sharedDir, freshDir])).getDupe
      = DupeType.DUPE_SHARE ∧
    (checkShareDupes isQueuedByStatus (parentOf [queuedDir, freshDir])).getDupe
      = DupeType.DUPE_QUEUE ∧
    (checkShareDupes isQueuedByStatus (parentOf [freshDir, sharedDir])).getDupe
      = DupeType.DUPE_SHARE_PARTIAL ∧
    (checkShareDupes isQueuedByStatus (parentOf [freshDir, queuedDir])).getDupe
      = DupeType.DUPE_QUEUE_PARTIAL := by
  decide

/-- C9 (the code at the failing inputs): a directory without children whose files are a
shared one-byte file followed by a queued one-byte file ends as `DUPE_SHARE_PARTIAL`,
whatever `isQueued` is, and in the opposite order as `DUPE_QUEUE_PARTIAL`: the status is
`DUPE_SHARE_QUEUE` in neither order. A second queued file, met when the status is already
partial, does make it `DUPE_SHARE_QUEUE`. -/
theorem checkShareDupes_full_then_other_type_file_not_mixed :
    (∀ isQueued : File → Bool,
      (checkShareDupes isQueued (leafOf [dupeFile ['s'] 1 DupeType.DUPE_SHARE,
        dupeFile ['q'] 1 DupeType.DUPE_QUEUE])).getDupe = DupeType.DUPE_SHARE_PARTIAL) ∧
    (checkShareDupes isQueuedByStatus (leafOf [dupeFile ['q'] 1 DupeType.DUPE_QUEUE,
      dupeFile ['s'] 1 DupeType.DUPE_SHARE])).getDupe = DupeType.DUPE_QUEUE_PARTIAL ∧
    (checkShareDupes isQueuedByStatus (leafOf [dupeFile ['s'] 1 DupeType.DUPE_SHARE,
      dupeFile ['q'] 1 DupeType.DUPE_QUEUE, dupeFile ['r'] 1 DupeType.DUPE_QUEUE])).getDupe
      = DupeType.DUPE_SHARE_QUEUE := by
  refine ⟨?_, by decide, by decide⟩
  intro isQueued
  simp [checkShareDupes, checkDirsLoop, checkFilesLoop, fileDupeStep, leafOf, dupeFile,
    completeInfo, Directory.getDupe, Directory.info]

theorem checkFilesLoop_filter (isQueued : File → Bool) (e : Bool) (fs : List File) :
    ∀ (dupe : DupeType) (first : Bool),
      checkFilesLoop isQueued e (fs.filter (fun f => decide (f.size ≠ 0))) dupe first
        = checkFilesLoop isQueued e fs dupe first := by
  induction fs with
  | nil => intro dupe first; rfl
  | cons f fs ih =>
    intro dupe first
    by_cases h0 : f.size = 0
    · have hf : (f :: fs).filter (fun f => decide (f.size ≠ 0))
          = fs.filter (fun f => decide (f.size ≠ 0)) := by
        simp [List.filter_cons, h0]
      rw [hf, ih]
      simp [checkFilesLoop, h0]
    · simp only [List.filter_cons, ne_eq, h0, not_false_eq_true, decide_True, if_true,
        checkFilesLoop, ih]

theorem stripZeroByteDirs_eq_map (ds : List Directory) :
    stripZeroByteDirs ds = ds.map stripZeroByte := by
  induction ds with
  | nil => simp [stripZeroByteDirs]
  | cons d ds ih => simp [stripZeroByteDirs, ih]

theorem stripZeroByte_getDupe (d : Directory) : (stripZeroByte d).getDupe = d.getDupe := by
  cases d with
  | mk info ds fs => simp [stripZeroByte, Directory.getDupe, Directory.info]

theorem checkShareDupes_stripZeroByte (isQueued : File → Bool) (d : Directory) :
    checkShareDupes isQueued (stripZeroByte d) = stripZeroByte (checkShareDupes isQueued d) := by
  induction d using Directory.induct with
  | h info ds fs ih =>
    have hds : ∀ (dupe : DupeType) (first : Bool),
        checkDirsLoop isQueued (ds.map stripZeroByte) dupe first
          = (((checkDirsLoop isQueued ds dupe first).1).map stripZeroByte,
              (checkDirsLoop isQueued ds dupe first).2) := by
      induction ds with
      | nil => intro dupe first; simp [checkDirsLoop]
      | cons c cs ihc =>
        intro dupe first
        simp only [List.map_cons, checkDirsLoop, ih c (List.mem_cons_self _ _),
          stripZeroByte_getDupe, ihc (fun e he => ih e (List.mem_cons_of_mem _ he))]
    have hemp : (ds.map stripZeroByte).isEmpty = ds.isEmpty := by cases ds <;> rfl
    simp only [stripZeroByte, stripZeroByteDirs_eq_map, checkShareDupes, hds, hemp,
      checkFilesLoop_filter]

/-- C10: two trees that differ only in zero-byte files (whatever the status of those
files, wherever they sit in the file lists, at any depth) get the same status from
`checkShareDupes`, at the top and in every directory below: the classified trees again
differ only in zero-byte files. -/
theorem checkShareDupes_ignores_zero_byte_files (isQueued : File → Bool) (d1 d2 : Directory)
    (h : stripZeroByte d1 = stripZeroByte d2) :
    (checkShareDupes isQueued d1).getDupe = (checkShareDupes isQueued d2).getDupe ∧
    stripZeroByte (checkShareDupes isQueued d1) = stripZeroByte (checkShareDupes isQueued d2) := by
  have h2 : stripZeroByte (checkShareDupes isQueued d1)
      = stripZeroByte (checkShareDupes isQueued d2) := by
    rw [← checkShareDupes_stripZeroByte, ← checkShareDupes_stripZeroByte, h]
  refine ⟨?_, h2⟩
  rw [← stripZeroByte_getDupe (checkShareDupes isQueued d1), h2, stripZeroByte_getDupe]

/-- Witness of C10: a queued zero-byte file put in front of the shared file of `sharedDir`,
one level below the top, changes neither the status of that directory nor of its parent. -/
theorem checkShareDupes_ignores_zero_byte_files_witness :
    (checkShareDupes isQueuedByStatus (parentOf [sharedDir, freshDir])).getDupe
      = (checkShareDupes isQueuedByStatus (parentOf [Directory.mk (completeInfo ['S']) []
          [dupeFile ['z'] 0 DupeType.DUPE_QUEUE, dupeFile ['s'] 1 DupeType.DUPE_SHARE],
          freshDir])).getDupe ∧
    stripZeroByte (checkShareDupes isQueuedByStatus (parentOf [sharedDir, freshDir]))
      = stripZeroByte (checkShareDupes isQueuedByStatus (parentOf [Directory.mk
          (completeInfo ['S']) [] [dupeFile ['z'] 0 DupeType.DUPE_QUEUE,
            dupeFile ['s'] 1 DupeType.DUPE_SHARE], freshDir])) :=
  checkShareDupes_ignores_zero_byte_files isQueuedByStatus _ _ (by decide)

/-! ### Local search -/

theorem mem_orderedInsert (s p : List Char) (l : OrderedStringSet) :
    p ∈ orderedInsert s l ↔ p = s ∨ p ∈ l := by
  induction l with
  | nil => simp [orderedInsert]
  | cons x xs ih =>
    rw [orderedInsert]
    by_cases h2 : strLess s x = true
    · simp [h2]
    · simp only [h2, Bool.false_eq_true, if_false, List.mem_cons, ih]
      tauto

theorem length_orderedInsert (s : List Char) (l : OrderedStringSet) :
    (orderedInsert s l).length = l.length + 1 := by
  induction l with
  | nil => simp [orderedInsert]
  | cons x xs ih =>
    rw [orderedInsert]
    split
    · simp
    · simp [ih]

theorem mem_setInsert (s p : List Char) (l : OrderedStringSet) :
    p ∈ setInsert s l ↔ p = s ∨ p ∈ l := by
  unfold setInsert
  by_cases h : s ∈ l
  · simp only [h, if_true]
    constructor
    · intro hp; exact Or.inr hp
    · rintro (hp | hp)
      · rw [hp]; exact h
      · exact hp
  · simp only [h, if_false, mem_orderedInsert]

theorem length_setInsert (s : List Char) (l : OrderedStringSet) :
    (setInsert s l).length = if s ∈ l then l.length else l.length + 1 := by
  unfold setInsert
  by_cases h : s ∈ l
  · simp [h]
  · simp [h, length_orderedInsert]

theorem length_setInsert_ge (s : List Char) (l : OrderedStringSet) :
    l.length ≤ (setInsert s l).length := by
  rw [length_setInsert]
  split <;> omega

theorem length_setInsert_le (s : List Char) (l : OrderedStringSet) :
    (setInsert s l).length ≤ l.length + 1 := by
  rw [length_setInsert]
  split <;> omega

theorem length_searchNameStep (q : SearchQuery) (d : Directory) (pp : Option (List Char))
    (R : OrderedStringSet) :
    R.length ≤ (searchNameStep q d pp R).length ∧ (searchNameStep q d pp R).length ≤ R.length + 1 := by
  unfold searchNameStep
  split
  · split
    · exact ⟨length_setInsert_ge _ _, length_setInsert_le _ _⟩
    · exact ⟨Nat.le_refl _, Nat.le_succ _⟩
  · exact ⟨Nat.le_refl _, Nat.le_succ _⟩

theorem length_searchFilesStep (q : SearchQuery) (fs : List File) (path : List Char)
    (R : OrderedStringSet) :
    R.length ≤ (searchFilesStep q fs path R).length ∧
      (searchFilesStep q fs path R).length ≤ R.length + 1 := by
  unfold searchFilesStep
  split
  · exact ⟨length_setInsert_ge _ _, length_setInsert_le _ _⟩
  · exact ⟨Nat.le_refl _, Nat.le_succ _⟩

theorem length_search_ge (q : SearchQuery) (d : Directory) :
    ∀ (pp : Option (List Char)) (R : OrderedStringSet), R.length ≤ (search q d pp R).length := by
  induction d using Directory.induct with
  | h info ds fs ih =>
    intro pp R
    have hds : ∀ (path : List Char) (r : OrderedStringSet),
        r.length ≤ (searchDirs q ds path r).length := by
      induction ds with
      | nil => intro path r; simp [searchDirs]
      | cons c cs ihc =>
        intro path r
        rw [searchDirs]
        have h1 := ih c (List.mem_cons_self _ _) (some path) r
        split
        · exact h1
        · exact Nat.le_trans h1 (ihc (fun e he => ih e (List.mem_cons_of_mem _ he)) path _)
    rw [search]
    split
    · exact Nat.le_refl _
    · exact Nat.le_trans (length_searchNameStep q _ pp R).1
        (Nat.le_trans (length_searchFilesStep q fs _ _).1 (hds _ _))

theorem mem_allDirs_of_child {e c : Directory} {info : DirInfo} {ds : List Directory}
    {fs : List File} (hc : c ∈ ds) (he : e ∈ allDirs c) : e ∈ allDirs (Directory.mk info ds fs) := by
  rw [allDirs, List.mem_cons]
  exact Or.inr (mem_allDirsList.mpr ⟨c, hc, he⟩)

theorem search_eq_matching (q : SearchQuery) (d : Directory) :
    ∀ (pp : Option (List Char)) (R : OrderedStringSet),
      (∀ e ∈ allDirs d, q.matchesDirectory e.getName = false) →
      (search q d pp R).length < q.maxResults →
      ∀ p, p ∈ search q d pp R ↔ p ∈ R ∨ p ∈ matchingDirPaths q d pp := by
  induction d using Directory.induct with
  | h info ds fs ih =>
    have hds : (∀ c ∈ ds, ∀ e ∈ allDirs c, q.matchesDirectory e.getName = false) →
        ∀ (path : List Char) (r : OrderedStringSet),
        (searchDirs q ds path r).length < q.maxResults →
        ∀ p, p ∈ searchDirs q ds path r ↔ p ∈ r ∨ p ∈ matchingDirPathsDirs q ds path := by
      induction ds with
      | nil => intro _ path r _ p; simp [searchDirs, matchingDirPathsDirs]
      | cons c cs ihc =>
        intro hno path r hl p
        rw [searchDirs] at hl ⊢
        by_cases hge : (search q c (some path) r).length ≥ q.maxResults
        · simp only [hge, if_true] at hl
          omega
        · simp only [hge, if_false] at hl ⊢
          have hlen1 : (search q c (some path) r).length < q.maxResults := by omega
          have h1 := ih c (List.mem_cons_self _ _) (some path) r
            (hno c (List.mem_cons_self _ _)) hlen1
          rw [ihc (fun e he => ih e (List.mem_cons_of_mem _ he))
            (fun c' hc' => hno c' (List.mem_cons_of_mem _ hc')) path _ hl p, h1 p,
            matchingDirPathsDirs, List.mem_append]
          tauto
    intro pp R hno hlen p
    have hname : q.matchesDirectory (Directory.mk info ds fs).getName = false :=
      hno _ (mem_allDirs_self _)
    rw [search] at hlen ⊢
    rw [matchingDirPaths]
    by_cases hadls : (Directory.mk info ds fs).getAdls = true
    · simp [hadls]
    · simp only [hadls, Bool.false_eq_true, if_false] at hlen ⊢
      rw [hds (fun c hc e he => hno e (mem_allDirs_of_child hc he)) _ _ hlen p]
      simp only [searchNameStep, hname, Bool.false_eq_true, if_false, searchFilesStep,
        List.mem_append]
      by_cases hany : (fs.any fun f => q.matchesFile f.name f.size f.remoteDate f.tthRoot) = true
      · simp only [hany, if_true, mem_setInsert, List.mem_singleton]
        tauto
      · simp only [hany, Bool.false_eq_true, if_false, List.not_mem_nil, false_or]

/-- C11: when the query matches the name of no directory of the tree and the result set
returned by `Directory::search` holds fewer than `maxResults` paths, the set holds exactly
the paths that were in it before and the paths of the directories outside synthetic
subtrees that hold at least one matching file (the directory's path, not the file's); and
searching `f1` in the scenario listing from the empty set returns exactly the path of
`A/`. -/
theorem search_returns_matching_directories (q : SearchQuery) (d : Directory)
    (parentPath : Option (List Char)) (aResults : OrderedStringSet)
    (hnodir : ∀ e ∈ allDirs d, q.matchesDirectory e.getName = false)
    (hmax : (search q d parentPath aResults).length < q.maxResults) :
    (∀ p, p ∈ search q d parentPath aResults ↔
      p ∈ aResults ∨ p ∈ matchingDirPaths q d parentPath) ∧
    search (fileNameQuery ['f', '1'] 100) scenarioRoot none [] = [getPath scenarioRoot [0]] :=
  ⟨search_eq_matching q d parentPath aResults hnodir hmax, by decide⟩

/-- Witness of C11: in the scenario listing with a query that every file matches, 2
paths are found against a maximum of 100; the path of `A/` is among them and the path
`A\f1` of the file is not. -/
theorem search_returns_matching_directories_witness :
    ['A', '\\'] ∈ search (anyFileQuery 100) scenarioRoot none [] ∧
    ['A', '\\', 'f', '1'] ∉ search (anyFileQuery 100) scenarioRoot none [] :=
  ⟨((search_returns_matching_directories (anyFileQuery 100) scenarioRoot none []
      (by decide) (by decide)).1 ['A', '\\']).mpr (Or.inr (by decide)),
    fun h => absurd (((search_returns_matching_directories (anyFileQuery 100) scenarioRoot none []
      (by decide) (by decide)).1 ['A', '\\', 'f', '1']).mp h) (by decide)⟩

theorem length_search_le (q : SearchQuery) (d : Directory) :
    ∀ (pp : Option (List Char)) (R : OrderedStringSet),
      (search q d pp R).length ≤ max R.length q.maxResults + 2 * height d := by
  induction d using Directory.induct with
  | h info ds fs ih =>
    intro pp R
    have hds : ∀ (path : List Char) (r : OrderedStringSet),
        (searchDirs q ds path r).length ≤ max r.length q.maxResults + 2 * heightDirs ds := by
      induction ds with
      | nil => intro path r; simp [searchDirs, heightDirs]
      | cons c cs ihc =>
        intro path r
        have h1 := ih c (List.mem_cons_self _ _) (some path) r
        have h2 := ihc (fun e he => ih e (List.mem_cons_of_mem _ he)) path
          (search q c (some path) r)
        rw [searchDirs, heightDirs]
        split
        · omega
        · omega
    have h1 := length_searchNameStep q (Directory.mk info ds fs) pp R
    have h2 := length_searchFilesStep q fs (ownPath pp info.name)
      (searchNameStep q (Directory.mk info ds fs) pp R)
    have h3 := hds (ownPath pp info.name) (searchFilesStep q fs (ownPath pp info.name)
      (searchNameStep q (Directory.mk info ds fs) pp R))
    rw [search, height]
    split
    · omega
    · omega

/-- C12 (amended): the maximum stops the visit of further subdirectories, not the
insertions. When the set holds `maxResults` paths or more after the search of a
subdirectory, no later sibling is searched; when it holds fewer, the search goes on with
the next one. The returned set holds at most `max(size before, maxResults)` entries plus
two for every level of the tree. -/
theorem search_stops_visiting_at_maxResults (q : SearchQuery) (d : Directory)
    (ds : List Directory) (path : List Char) (parentPath : Option (List Char))
    (aResults : OrderedStringSet) :
    (q.maxResults ≤ (search q d (some path) aResults).length →
      searchDirs q (d :: ds) path aResults = search q d (some path) aResults) ∧
    ((search q d (some path) aResults).length < q.maxResults →
      searchDirs q (d :: ds) path aResults
        = searchDirs q ds path (search q d (some path) aResults)) ∧
    (search q d parentPath aResults).length
      ≤ max aResults.length q.maxResults + 2 * height d := by
  refine ⟨?_, ?_, length_search_le q d parentPath aResults⟩
  · intro h
    rw [searchDirs]
    simp [h]
  · intro h
    rw [searchDirs]
    have : ¬ (search q d (some path) aResults).length ≥ q.maxResults := by omega
    simp [this]

/-- Witness of C12 (amended): with a maximum of 1 in the chain `A/B/C/`, the search of `A/`
returns three paths, so the loop over the children of the root stops after it. -/
theorem search_stops_visiting_at_maxResults_witness :
    searchDirs (anyFileQuery 1) [chainA, scenarioA] [] []
      = search (anyFileQuery 1) chainA (some []) [] ∧
    (search (anyFileQuery 1) chainA (some []) []).length = 3 :=
  ⟨(search_stops_visiting_at_maxResults (anyFileQuery 1) chainA [scenarioA] [] none []).1
      (by decide), by decide⟩

/-- Counterexample to C12 as stated: with `maxResults = 1` the search of the chain
`A/B/C/`, where every directory holds a matching file, returns three paths: the set
already holds one path when `A\B\` is added, and two when `A\B\C\` is added. -/
theorem search_exceeds_maxResults_counterexample :
    (anyFileQuery 1).maxResults = 1 ∧
    search (anyFileQuery 1) chainRoot none []
      = [['A', '\\'], ['A', '\\', 'B', '\\'], ['A', '\\', 'B', '\\', 'C', '\\']] := by
  decide

/-! ### Navigation and distributed search -/

theorem findDirectoryAux_valid (nameMatch : List Char → List Char → Bool) (root : Directory)
    (fuel : Nat) :
    ∀ (aName : List Char) (current : Directory) (cur X : Ptr),
      deref root cur = some current →
      findDirectoryAux nameMatch fuel aName current cur = some X →
      ∃ D, deref root X = some D := by
  induction fuel with
  | zero => intro _ _ _ _ _ h; simp [findDirectoryAux] at h
  | succ f ih =>
    intro aName current cur X hcur h
    rw [findDirectoryAux] at h
    by_cases he : aName.isEmpty = true
    · simp only [he, if_true, Option.some.injEq] at h
      exact ⟨root, by rw [← h]; rfl⟩
    · simp only [he, Bool.false_eq_true, if_false] at h
      cases hs : strFind '\\' aName with
      | none => simp [hs] at h
      | some e =>
        simp only [hs] at h
        cases hfc : findChild nameMatch (List.take e aName) current.directories 0 with
        | none => simp [hfc] at h
        | some ic =>
          obtain ⟨i, child⟩ := ic
          simp only [hfc] at h
          obtain ⟨j, hj, hget, _⟩ := findChild_some nameMatch _ _ 0 i child hfc
          simp only [Nat.zero_add] at hj
          subst hj
          have hchild : deref root (i :: cur) = some child := by
            simp [deref, hcur, hget]
          by_cases hend : e = aName.length - 1
          · simp only [hend, if_true, Option.some.injEq] at h
            exact ⟨child, by rw [← h]; exact hchild⟩
          · simp only [hend, if_false] at h
            exact ih _ child (i :: cur) X hchild h

theorem resolvePath_valid (env : Collaborators) (L : Listing) (aPath : List Char) (ptr : Ptr)
    (h : resolvePath env L aPath = some ptr) : ∃ D, deref L.root ptr = some D := by
  unfold resolvePath at h
  by_cases he : aPath.isEmpty = true
  · simp only [he, if_true, Option.some.injEq] at h
    exact ⟨L.root, by rw [← h]; rfl⟩
  · simp only [he, Bool.false_eq_true, if_false] at h
    exact findDirectoryAux_valid env.nameMatch L.root _ aPath L.root [] ptr rfl h

/-- C15: when the path resolves to no directory (`findDirectory` returns null for a
non-empty path), `changeDirectory` returns false and the listing is exactly as before:
same tree with the same loading flags, same current location, no event fired, no request
made; when the path resolves (the empty path resolves to the root), it returns true. -/
theorem changeDirectory_unresolved_changes_nothing (env : Collaborators) (L : Listing)
    (aPath : List Char) (aReloadMode : ReloadMode) (aIsSearchChange : Bool) :
    (resolvePath env L aPath = none →
      changeDirectory env L aPath aReloadMode aIsSearchChange = (L, false)) ∧
    (resolvePath env L aPath ≠ none →
      (changeDirectory env L aPath aReloadMode aIsSearchChange).2 = true) ∧
    (aPath = [] → resolvePath env L aPath = some []) := by
  refine ⟨?_, ?_, ?_⟩
  · intro h
    simp [changeDirectory, h]
  · intro h
    cases hp : resolvePath env L aPath with
    | none => exact absurd hp h
    | some ptr =>
      obtain ⟨D, hD⟩ := resolvePath_valid env L aPath ptr hp
      simp only [changeDirectory, hp, hD]
      split
      · rfl
      · split
        · rfl
        · split <;> rfl
  · intro h
    simp [resolvePath, h]

/-- Witness of C15: in the scenario listing the path `X\` resolves to nothing and leaves
the listing untouched, while `A\` resolves and the call returns true. -/
theorem changeDirectory_unresolved_changes_nothing_witness :
    changeDirectory testCollaborators (listingOf scenarioRoot true) ['X', '\\']
        ReloadMode.RELOAD_NONE false = (listingOf scenarioRoot true, false) ∧
    (changeDirectory testCollaborators (listingOf scenarioRoot true) ['A', '\\']
        ReloadMode.RELOAD_NONE false).2 = true :=
  ⟨(changeDirectory_unresolved_changes_nothing testCollaborators (listingOf scenarioRoot true)
      ['X', '\\'] ReloadMode.RELOAD_NONE false).1 (by decide),
    (changeDirectory_unresolved_changes_nothing testCollaborators (listingOf scenarioRoot true)
      ['A', '\\'] ReloadMode.RELOAD_NONE false).2.1 (by decide)⟩

theorem changeDirectory_keeps_search (env : Collaborators) (L : Listing) (aPath : List Char)
    (aReloadMode : ReloadMode) (aIsSearchChange : Bool) :
    (changeDirectory env L aPath aReloadMode aIsSearchChange).1.timerListener = L.timerListener ∧
    (changeDirectory env L aPath aReloadMode aIsSearchChange).1.searchListener = L.searchListener ∧
    (changeDirectory env L aPath aReloadMode aIsSearchChange).1.curResult = L.curResult ∧
    (changeDirectory env L aPath aReloadMode aIsSearchChange).1.hasCurSearch = L.hasCurSearch ∧
    (∀ t, ListenerEvent.SearchFailed t ∈
        (changeDirectory env L aPath aReloadMode aIsSearchChange).1.fired →
      ListenerEvent.SearchFailed t ∈ L.fired) := by
  unfold changeDirectory
  split
  · simp
  · split
    · simp
    · split
      · simp [updateCurrentLocation]
      · split
        · simp [updateCurrentLocation]
        · split
          · cases env.addListError <;> simp [updateCurrentLocation]
          · simp [updateCurrentLocation]

theorem endSearch_timerListener (env : Collaborators) (L : Listing) (timedOut : Bool) :
    (endSearch env L timedOut).timerListener = false := by
  unfold endSearch
  split
  · rfl
  · rw [(changeDirectory_keeps_search env _ _ _ _).1]

theorem onSR_eq (env : Collaborators) (S : Listing) (now : Nat) (aSR : SearchResult)
    (ht : aSR.token = S.searchToken) :
    onSR env S now aSR =
      { S with
        lastResult :=
          if S.maxResultCount = (if resultPath env S aSR ∈ S.searchResults then S.curResultCount
            else S.curResultCount + 1) then 0 else now
        searchResults := setInsert (resultPath env S aSR) S.searchResults
        curResultCount := if resultPath env S aSR ∈ S.searchResults then S.curResultCount
          else S.curResultCount + 1 } := by
  simp only [onSR, ht, if_true]
  by_cases hm : resultPath env S aSR ∈ S.searchResults
  · by_cases hc : S.maxResultCount = S.curResultCount <;> simp [hm, hc]
  · by_cases hc : S.maxResultCount = S.curResultCount + 1 <;> simp [hm, hc]

theorem searchRunning_onSR (env : Collaborators) (start : Nat) (S : Listing) (now : Nat)
    (aSR : SearchResult) (h : searchRunning start S) : searchRunning start (onSR env S now aSR) := by
  by_cases ht : aSR.token = S.searchToken
  · rw [onSR_eq env S now aSR ht]
    intro htl
    obtain ⟨hc, _⟩ := h htl
    have hcount : (if resultPath env S aSR ∈ S.searchResults then S.curResultCount
        else S.curResultCount + 1)
        = ((setInsert (resultPath env S aSR) S.searchResults).length : Int) := by
      rw [length_setInsert, hc]
      split <;> simp
    have hpos : (if resultPath env S aSR ∈ S.searchResults then S.curResultCount
        else S.curResultCount + 1) ≠ 0 := by
      by_cases hm : resultPath env S aSR ∈ S.searchResults
      · simp only [hm, if_true, hc]
        have : 0 < S.searchResults.length := List.length_pos_of_mem hm
        omega
      · simp only [hm, if_false, hc]
        omega
    exact ⟨hcount, fun h0 => absurd h0 hpos⟩
  · simpa [onSR, ht] using h

theorem searchRunning_deliver (env : Collaborators) (start : Nat) (S : Listing) (ev : SearchEvent)
    (h : searchRunning start S) : searchRunning start (deliver env S ev) := by
  cases ev with
  | SR now aSR =>
    simp only [deliver]
    split
    · exact searchRunning_onSR env start S now aSR h
    · exact h
  | DirectSearchEnd aToken aResultCount =>
    simp only [deliver, onDirectSearchEnd]
    split
    · split
      · intro htl
        rw [endSearch_timerListener] at htl
        cases htl
      · exact h
    · exact h
  | Second aTick =>
    simp only [deliver, onSecond]
    split
    · split
      · split
        · intro htl
          rw [endSearch_timerListener] at htl
          cases htl
        · exact h
      · split
        · intro htl
          rw [endSearch_timerListener] at htl
          cases htl
        · exact h
    · exact h

theorem searchRunning_deliverAll (env : Collaborators) (start : Nat) (evs : List SearchEvent) :
    ∀ S, searchRunning start S → searchRunning start (deliverAll env S evs) := by
  induction evs with
  | nil => intro S h; exact h
  | cons ev evs ih =>
    intro S h
    exact ih _ (searchRunning_deliver env start S ev h)

/-- C13: a timer tick at `aTick`. With zero results and `lastResult + 5000 < aTick` the
search ends as search-failed with `timedOut = true` (both listeners removed, `curSearch`
reset); with zero results otherwise the tick changes nothing. With at least one result
and `lastResult + 1000 < aTick` it ends through `endSearch(false)`: listeners removed,
cursor on the first result, no search-failed event; otherwise the tick changes nothing.
And in a distributed search started by `searchImpl` at tick `now`, after any sequence of
callbacks, as long as the timer is listened to and no result has arrived, `lastResult` is
the start tick `now`. (Ticks are far from the 64-bit limit.) -/
theorem onSecond_timeouts (env : Collaborators) (L : Listing) (aTick : Nat) :
    (L.curResultCount = 0 → L.lastResult + 5000 < 2 ^ 64 →
      (L.lastResult + 5000 < aTick →
        onSecond env L aTick =
          { L with searchListener := false, timerListener := false, hasCurSearch := false,
                   fired := L.fired ++ [ListenerEvent.SearchFailed true] }) ∧
      (¬ L.lastResult + 5000 < aTick → onSecond env L aTick = L)) ∧
    (L.curResultCount ≠ 0 → L.lastResult + 1000 < 2 ^ 64 →
      (L.lastResult + 1000 < aTick →
        onSecond env L aTick = endSearch env L false ∧
        (onSecond env L aTick).timerListener = false ∧
        (onSecond env L aTick).searchListener = false ∧
        (onSecond env L aTick).curResult = 0 ∧
        (∀ t, ListenerEvent.SearchFailed t ∈ (onSecond env L aTick).fired →
          ListenerEvent.SearchFailed t ∈ L.fired)) ∧
      (¬ L.lastResult + 1000 < aTick → onSecond env L aTick = L)) ∧
    (∀ (now : Nat) (q : SearchQuery) (aDir : List Char) (evs : List SearchEvent),
      (L.isOwnList && L.partialList) = false → (L.partialList && !env.userNMDC) = true →
      (deliverAll env (searchImpl env L now q aDir) evs).timerListener = true →
      (deliverAll env (searchImpl env L now q aDir) evs).curResultCount = 0 →
      (deliverAll env (searchImpl env L now q aDir) evs).lastResult = now) := by
  refine ⟨?_, ?_, ?_⟩
  · intro hc hno
    have hmod : (L.lastResult + 5000) % 2 ^ 64 = L.lastResult + 5000 := Nat.mod_eq_of_lt hno
    constructor
    · intro hlt
      simp only [onSecond, hc, if_true, hmod, hlt, endSearch]
    · intro hlt
      simp only [onSecond, hc, if_true, hmod, hlt, if_false]
  · intro hc hno
    have hmod : (L.lastResult + 1000) % 2 ^ 64 = L.lastResult + 1000 := Nat.mod_eq_of_lt hno
    constructor
    · intro hlt
      have h1 : onSecond env L aTick = endSearch env L false := by
        simp only [onSecond, hc, if_false, hmod, hlt, if_true]
      have h2 : endSearch env L false = (changeDirectory env
          { L with searchListener := false, timerListener := false, curResult := 0 }
          (L.searchResults.getD 0 []) ReloadMode.RELOAD_NONE true).1 := by
        simp only [endSearch, hc, if_false]
      obtain ⟨k1, k2, k3, _, k5⟩ := changeDirectory_keeps_search env
        { L with searchListener := false, timerListener := false, curResult := 0 }
        (L.searchResults.getD 0 []) ReloadMode.RELOAD_NONE true
      refine ⟨h1, ?_, ?_, ?_, ?_⟩
      · rw [h1, h2, k1]
      · rw [h1, h2, k2]
      · rw [h1, h2, k3]
      · intro t ht
        rw [h1, h2] at ht
        exact k5 t ht
    · intro hlt
      simp only [onSecond, hc, if_false, hmod, hlt]
  · intro now q aDir evs hown hpart
    have hstart : searchRunning now (searchImpl env L now q aDir) := by
      intro _
      simp [searchImpl, hown, hpart]
    intro htl hc
    exact ((searchRunning_deliverAll env now evs _ hstart) htl).2 hc

/-- Witness of C13: the distributed search of the scenario listing started at tick 10000.
A tick at 15000 changes nothing, a tick at 15001 ends it as search-failed with
`timedOut = true`; after one result at tick 12000, a tick at 13000 changes nothing and a
tick at 13001 ends the search with the timer listener removed. -/
theorem onSecond_timeouts_witness :
    onSecond testCollaborators startedSearch 15000 = startedSearch ∧
    onSecond testCollaborators startedSearch 15001 =
      { startedSearch with
        searchListener := false
        timerListener := false
        hasCurSearch := false
        fired := startedSearch.fired ++ [ListenerEvent.SearchFailed true] } ∧
    onSecond testCollaborators
      (onSR testCollaborators startedSearch 12000 (resultFor ['A', '\\'])) 13000
      = onSR testCollaborators startedSearch 12000 (resultFor ['A', '\\']) ∧
    (onSecond testCollaborators
      (onSR testCollaborators startedSearch 12000 (resultFor ['A', '\\'])) 13001).timerListener
      = false ∧
    (deliverAll testCollaborators startedSearch
      [SearchEvent.Second 11000, SearchEvent.DirectSearchEnd ['t', 'o', 'k'] 2,
        SearchEvent.Second 12000]).lastResult = 10000 :=
  ⟨((onSecond_timeouts testCollaborators startedSearch 15000).1 (by decide) (by decide)).2
      (by decide),
    ((onSecond_timeouts testCollaborators startedSearch 15001).1 (by decide) (by decide)).1
      (by decide),
    ((onSecond_timeouts testCollaborators
      (onSR testCollaborators startedSearch 12000 (resultFor ['A', '\\'])) 13000).2.1
      (by decide) (by decide)).2 (by decide),
    (((onSecond_timeouts testCollaborators
      (onSR testCollaborators startedSearch 12000 (resultFor ['A', '\\'])) 13001).2.1
      (by decide) (by decide)).1 (by decide)).2.1,
    (onSecond_timeouts testCollaborators (listingOf scenarioRoot true) 0).2.2 10000
      (anyFileQuery 100) [] [SearchEvent.Second 11000,
        SearchEvent.DirectSearchEnd ['t', 'o', 'k'] 2, SearchEvent.Second 12000]
      (by decide) (by decide) (by decide) (by decide)⟩

theorem searchRest_onSR (env : Collaborators) (S : Listing) (now : Nat) (aSR : SearchResult) :
    searchRest (onSR env S now aSR) = searchRest S := by
  by_cases ht : aSR.token = S.searchToken
  · rw [onSR_eq env S now aSR ht]
    rfl
  · simp [onSR, ht]

theorem searchRest_feedResults (env : Collaborators) (srs : List (Nat × SearchResult)) :
    ∀ S, searchRest (feedResults env S srs) = searchRest S := by
  induction srs with
  | nil => intro S; rfl
  | cons x xs ih =>
    intro S
    simp only [feedResults, List.foldl_cons]
    exact (ih (onSR env S x.1 x.2)).trans (searchRest_onSR env S x.1 x.2)

theorem resultPath_of_searchRest (env : Collaborators) (S S' : Listing)
    (h : searchRest S' = searchRest S) (aSR : SearchResult) :
    resultPath env S' aSR = resultPath env S aSR := by
  have h1 : S'.partialList = S.partialList := by
    have := congrArg Listing.partialList h; exact this
  have h2 : S'.isOwnList = S.isOwnList := by
    have := congrArg Listing.isOwnList h; exact this
  simp [resultPath, supportsASCH, h1, h2]

theorem searchToken_of_searchRest (S S' : Listing) (h : searchRest S' = searchRest S) :
    S'.searchToken = S.searchToken := by
  have := congrArg Listing.searchToken h; exact this

theorem feedResults_append (env : Collaborators) (S : Listing) (a b : List (Nat × SearchResult)) :
    feedResults env S (a ++ b) = feedResults env (feedResults env S a) b := by
  simp [feedResults, List.foldl_append]

theorem onSR_lastResult (env : Collaborators) (S : Listing) (now : Nat) (aSR : SearchResult)
    (ht : aSR.token = S.searchToken) :
    (onSR env S now aSR).lastResult =
      if (onSR env S now aSR).maxResultCount = (onSR env S now aSR).curResultCount then 0
      else now := by
  rw [onSR_eq env S now aSR ht]

theorem feedResults_mem (env : Collaborators) (srs : List (Nat × SearchResult)) :
    ∀ S p, p ∈ (feedResults env S srs).searchResults →
      p ∈ S.searchResults ∨ p ∈ srs.map (fun x => resultPath env S x.2) := by
  induction srs with
  | nil => intro S p h; exact Or.inl h
  | cons x xs ih =>
    intro S p h
    simp only [feedResults, List.foldl_cons] at h
    have hrest := searchRest_onSR env S x.1 x.2
    rcases ih (onSR env S x.1 x.2) p h with h1 | h1
    · by_cases ht : x.2.token = S.searchToken
      · rw [onSR_eq env S x.1 x.2 ht] at h1
        simp only [mem_setInsert] at h1
        rcases h1 with h1 | h1
        · exact Or.inr (by simp [h1])
        · exact Or.inl h1
      · simp only [onSR, ht, if_false] at h1
        exact Or.inl h1
    · right
      simp only [List.mem_map] at h1 ⊢
      obtain ⟨y, hy, hp⟩ := h1
      exact ⟨y, List.mem_cons_of_mem _ hy, by
        rw [← hp, resultPath_of_searchRest env S _ hrest]⟩

theorem feedResults_count (env : Collaborators) (srs : List (Nat × SearchResult)) :
    ∀ S, (∀ x ∈ srs, x.2.token = S.searchToken) →
      (srs.map (fun x => resultPath env S x.2)).Nodup →
      (∀ x ∈ srs, resultPath env S x.2 ∉ S.searchResults) →
      (feedResults env S srs).curResultCount = S.curResultCount + (srs.length : Int) := by
  induction srs with
  | nil => intro S _ _ _; simp [feedResults]
  | cons x xs ih =>
    intro S htok hnd hnew
    have hx : x.2.token = S.searchToken := htok x (List.mem_cons_self _ _)
    have hxnew : resultPath env S x.2 ∉ S.searchResults := hnew x (List.mem_cons_self _ _)
    have hrest := searchRest_onSR env S x.1 x.2
    have htok1 : (onSR env S x.1 x.2).searchToken = S.searchToken :=
      searchToken_of_searchRest _ _ hrest
    have hpath : ∀ y : Nat × SearchResult,
        resultPath env (onSR env S x.1 x.2) y.2 = resultPath env S y.2 :=
      fun y => resultPath_of_searchRest env S _ hrest y.2
    simp only [List.map_cons, List.nodup_cons, List.mem_map, not_exists, not_and] at hnd
    have hcur : (onSR env S x.1 x.2).curResultCount = S.curResultCount + 1 := by
      rw [onSR_eq env S x.1 x.2 hx]
      simp [hxnew]
    have hres : (onSR env S x.1 x.2).searchResults
        = setInsert (resultPath env S x.2) S.searchResults := by
      rw [onSR_eq env S x.1 x.2 hx]
    simp only [feedResults, List.foldl_cons]
    have := ih (onSR env S x.1 x.2)
      (fun y hy => by rw [htok1]; exact htok y (List.mem_cons_of_mem _ hy))
      (by
        have : xs.map (fun y => resultPath env (onSR env S x.1 x.2) y.2)
            = xs.map (fun y => resultPath env S y.2) := List.map_congr_left (fun y _ => hpath y)
        rw [this]; exact hnd.2)
      (fun y hy => by
        rw [hpath y, hres, mem_setInsert]
        rintro (h1 | h1)
        · exact hnd.1 y hy h1
        · exact hnew y (List.mem_cons_of_mem _ hy) h1)
    simp only [feedResults] at this
    rw [this, hcur]
    simp only [List.length_cons, Nat.cast_add, Nat.cast_one]
    omega

/-- C14 (amended): a search from a state without results, to which the peer reports the
expected count `n ≥ 1` and sends `n` results with different paths. When the report comes
before the last result, the handling of the `n`-th result leaves the count at `n`, sets
`lastResult` to 0 and changes nothing else (listeners still registered, nothing fired),
and the search ends at the next timer tick, for every tick value above 1000, without the
idle window. When the report comes after the `n`-th result, the search ends inside the
handling of the report. -/
theorem expected_count_reached_ends_at_next_tick (env : Collaborators) (S0 : Listing) (n : Nat)
    (pre post : List (Nat × SearchResult))
    (h0c : S0.curResultCount = 0) (h0r : S0.searchResults = [])
    (htok : ∀ x ∈ pre ++ post, x.2.token = S0.searchToken)
    (hdist : ((pre ++ post).map (fun x => resultPath env S0 x.2)).Nodup)
    (hn : (pre ++ post).length = n) (hn1 : 1 ≤ n) :
    (post ≠ [] →
      (feedResults env (onDirectSearchEnd env (feedResults env S0 pre) S0.searchToken n)
        post).curResultCount = n ∧
      (feedResults env (onDirectSearchEnd env (feedResults env S0 pre) S0.searchToken n)
        post).maxResultCount = n ∧
      (feedResults env (onDirectSearchEnd env (feedResults env S0 pre) S0.searchToken n)
        post).lastResult = 0 ∧
      (feedResults env (onDirectSearchEnd env (feedResults env S0 pre) S0.searchToken n)
        post).timerListener = S0.timerListener ∧
      (feedResults env (onDirectSearchEnd env (feedResults env S0 pre) S0.searchToken n)
        post).searchListener = S0.searchListener ∧
      (feedResults env (onDirectSearchEnd env (feedResults env S0 pre) S0.searchToken n)
        post).fired = S0.fired ∧
      (∀ aTick, 1000 < aTick →
        onSecond env (feedResults env
          (onDirectSearchEnd env (feedResults env S0 pre) S0.searchToken n) post) aTick
        = endSearch env (feedResults env
          (onDirectSearchEnd env (feedResults env S0 pre) S0.searchToken n) post) false)) ∧
    (post = [] →
      onDirectSearchEnd env (feedResults env S0 pre) S0.searchToken n
        = endSearch env { feedResults env S0 pre with maxResultCount := n } false) := by
  have hnd := hdist
  rw [List.map_append, List.nodup_append] at hnd
  obtain ⟨hndpre, hndpost, hdisj⟩ := hnd
  have hrest1 := searchRest_feedResults env pre S0
  have htok1 : (feedResults env S0 pre).searchToken = S0.searchToken :=
    searchToken_of_searchRest _ _ hrest1
  have hcur1 : (feedResults env S0 pre).curResultCount = (pre.length : Int) := by
    rw [feedResults_count env pre S0 (fun x hx => htok x (List.mem_append_left _ hx)) hndpre
      (fun x _ => by rw [h0r]; simp), h0c]
    simp
  have hlen : pre.length + post.length = n := by rw [← hn, List.length_append]
  constructor
  · intro hpost
    have hpl : 0 < post.length := List.length_pos.mpr hpost
    have hne : ¬ ((n : Int) = (feedResults env S0 pre).curResultCount) := by
      rw [hcur1]; omega
    have hdse : onDirectSearchEnd env (feedResults env S0 pre) S0.searchToken n
        = { feedResults env S0 pre with maxResultCount := n } := by
      simp only [onDirectSearchEnd, htok1, if_true, hne, if_false]
    rw [hdse]
    have hS1rest : searchRest ({ feedResults env S0 pre with maxResultCount := (n : Int) } : Listing)
        = searchRest { S0 with maxResultCount := (n : Int) } := by
      have := congrArg (fun S : Listing => { S with maxResultCount := (n : Int) }) hrest1
      exact this
    generalize hS1 : ({ feedResults env S0 pre with maxResultCount := (n : Int) } : Listing) = S1
      at hS1rest ⊢
    have hS1tok : S1.searchToken = S0.searchToken := by rw [← hS1]; exact htok1
    have hS1cur : S1.curResultCount = (pre.length : Int) := by rw [← hS1]; exact hcur1
    have hS1path : ∀ aSR, resultPath env S1 aSR = resultPath env S0 aSR := fun aSR =>
      (resultPath_of_searchRest env _ S1 hS1rest aSR).trans (by
        simp [resultPath, supportsASCH])
    have hS1res : ∀ p, p ∈ S1.searchResults → p ∈ pre.map (fun x => resultPath env S0 x.2) := by
      intro p hp
      rw [← hS1] at hp
      rcases feedResults_mem env pre S0 p hp with h1 | h1
      · rw [h0r] at h1; cases h1
      · exact h1
    have hmapeq : post.map (fun x => resultPath env S1 x.2)
        = post.map (fun x => resultPath env S0 x.2) :=
      List.map_congr_left (fun y _ => hS1path y.2)
    have hcount2 : (feedResults env S1 post).curResultCount = (n : Int) := by
      rw [feedResults_count env post S1
        (fun x hx => by rw [hS1tok]; exact htok x (List.mem_append_right _ hx))
        (by rw [hmapeq]; exact hndpost)
        (fun x hx hmem => by
          rw [hS1path] at hmem
          exact hdisj (hS1res _ hmem) (List.mem_map.mpr ⟨x, hx, rfl⟩)), hS1cur]
      omega
    have hrest2 := (searchRest_feedResults env post S1).trans hS1rest
    have hmax2 : (feedResults env S1 post).maxResultCount = (n : Int) := by
      have := congrArg Listing.maxResultCount hrest2; exact this
    have hlast2 : (feedResults env S1 post).lastResult = 0 := by
      have hdecomp := (List.dropLast_append_getLast hpost).symm
      have hfeed : feedResults env S1 post
          = onSR env (feedResults env S1 post.dropLast) (post.getLast hpost).1
              (post.getLast hpost).2 := by
        conv_lhs => rw [hdecomp, feedResults_append]
        rfl
      have htokl : (post.getLast hpost).2.token = (feedResults env S1 post.dropLast).searchToken := by
        rw [searchToken_of_searchRest _ _ (searchRest_feedResults env post.dropLast S1), hS1tok]
        exact htok _ (List.mem_append_right _ (List.getLast_mem hpost))
      have := onSR_lastResult env _ (post.getLast hpost).1 (post.getLast hpost).2 htokl
      rw [← hfeed, hmax2, hcount2] at this
      simpa using this
    refine ⟨hcount2, hmax2, hlast2, ?_, ?_, ?_, ?_⟩
    · have := congrArg Listing.timerListener hrest2; exact this
    · have := congrArg Listing.searchListener hrest2; exact this
    · have := congrArg Listing.fired hrest2; exact this
    · intro aTick ht
      have hc0 : (feedResults env S1 post).curResultCount ≠ 0 := by
        rw [hcount2]; omega
      simp only [onSecond, hc0, if_false, hlast2, Nat.zero_add]
      have hmod : 1000 % 2 ^ 64 = 1000 := by norm_num
      rw [hmod]
      simp [ht]
  · intro hpost
    subst hpost
    simp only [List.length_nil, Nat.add_zero] at hlen
    have heq : ((n : Int) = (feedResults env S0 pre).curResultCount) := by
      rw [hcur1]; omega
    simp only [onDirectSearchEnd, htok1, if_true, heq]

/-- Witness of C14 (amended): the search of the scenario listing with the report "3
results" delivered first and then three results with different paths: the third result
leaves `lastResult` at 0 with the timer still listened to, and the tick at 11401 ends the
search. -/
theorem expected_count_reached_ends_at_next_tick_witness :
    (feedResults testCollaborators
      (onDirectSearchEnd testCollaborators (feedResults testCollaborators startedSearch [])
        startedSearch.searchToken (3 : Nat)) threeResults).lastResult = 0 ∧
    (feedResults testCollaborators
      (onDirectSearchEnd testCollaborators (feedResults testCollaborators startedSearch [])
        startedSearch.searchToken (3 : Nat)) threeResults).timerListener
      = startedSearch.timerListener ∧
    onSecond testCollaborators (feedResults testCollaborators
      (onDirectSearchEnd testCollaborators (feedResults testCollaborators startedSearch [])
        startedSearch.searchToken (3 : Nat)) threeResults) 11401
      = endSearch testCollaborators (feedResults testCollaborators
        (onDirectSearchEnd testCollaborators (feedResults testCollaborators startedSearch [])
          startedSearch.searchToken (3 : Nat)) threeResults) false :=
  ⟨((expected_count_reached_ends_at_next_tick testCollaborators startedSearch 3 [] threeResults
      (by decide) (by decide) (by decide) (by decide) (by decide) (by decide)).1
      (by decide)).2.2.1,
    ((expected_count_reached_ends_at_next_tick testCollaborators startedSearch 3 [] threeResults
      (by decide) (by decide) (by decide) (by decide) (by decide) (by decide)).1
      (by decide)).2.2.2.1,
    ((expected_count_reached_ends_at_next_tick testCollaborators startedSearch 3 [] threeResults
      (by decide) (by decide) (by decide) (by decide) (by decide) (by decide)).1
      (by decide)).2.2.2.2.2.2 11401 (by decide)⟩

/-- Counterexample to C14 as stated: the peer reports 3 expected results and 3 results
with different paths arrive. After the handling of the third result both counts are 3,
yet the listing still listens to the search and to the timer and has fired nothing but
search-started; the search ends only when a timer tick is delivered. -/
theorem third_result_does_not_end_search_counterexample :
    (deliverAll testCollaborators startedSearch
      [SearchEvent.DirectSearchEnd ['t', 'o', 'k'] 3,
        SearchEvent.SR 11000 (resultFor ['A', '\\']),
        SearchEvent.SR 11200 (resultFor ['A', '\\', 'B', '\\']),
        SearchEvent.SR 11400 (resultFor ['C', '\\'])]).curResultCount = 3 ∧
    (deliverAll testCollaborators startedSearch
      [SearchEvent.DirectSearchEnd ['t', 'o', 'k'] 3,
        SearchEvent.SR 11000 (resultFor ['A', '\\']),
        SearchEvent.SR 11200 (resultFor ['A', '\\', 'B', '\\']),
        SearchEvent.SR 11400 (resultFor ['C', '\\'])]).maxResultCount = 3 ∧
    (deliverAll testCollaborators startedSearch
      [SearchEvent.DirectSearchEnd ['t', 'o', 'k'] 3,
        SearchEvent.SR 11000 (resultFor ['A', '\\']),
        SearchEvent.SR 11200 (resultFor ['A', '\\', 'B', '\\']),
        SearchEvent.SR 11400 (resultFor ['C', '\\'])]).timerListener = true ∧
    (deliverAll testCollaborators startedSearch
      [SearchEvent.DirectSearchEnd ['t', 'o', 'k'] 3,
        SearchEvent.SR 11000 (resultFor ['A', '\\']),
        SearchEvent.SR 11200 (resultFor ['A', '\\', 'B', '\\']),
        SearchEvent.SR 11400 (resultFor ['C', '\\'])]).searchListener = true ∧
    (deliverAll testCollaborators startedSearch
      [SearchEvent.DirectSearchEnd ['t', 'o', 'k'] 3,
        SearchEvent.SR 11000 (resultFor ['A', '\\']),
        SearchEvent.SR 11200 (resultFor ['A', '\\', 'B', '\\']),
        SearchEvent.SR 11400 (resultFor ['C', '\\'])]).fired = [ListenerEvent.SearchStarted] ∧
    (deliverAll testCollaborators startedSearch
      [SearchEvent.DirectSearchEnd ['t', 'o', 'k'] 3,
        SearchEvent.SR 11000 (resultFor ['A', '\\']),
        SearchEvent.SR 11200 (resultFor ['A', '\\', 'B', '\\']),
        SearchEvent.SR 11400 (resultFor ['C', '\\']),
        SearchEvent.Second 11500]).timerListener = false := by
  decide

/-! ### The XML loader -/

theorem runLoader_append (env : LoaderEnv) (a b : List XmlEvent) :
    ∀ ll, runLoader env ll (a ++ b) =
      match runLoader env ll a with
      | (ll', none) => runLoader env ll' b
      | (ll', some e) => (ll', some e) := by
  induction a with
  | nil => intro ll; simp [runLoader]
  | cons ev evs ih =>
    intro ll
    rw [List.cons_append]
    simp only [runLoader]
    cases stepLoader env ll ev with
    | ok ll' => exact ih ll'
    | error e => rfl

theorem endTag_frame (ll ll' : ListLoader) (name : List Char) (h : endTag ll name = .ok ll') :
    ll'.closing = ll.closing ∧ ll'.updating = ll.updating ∧ ll'.dirsLoaded = ll.dirsLoaded ∧
    ll'.checkDupe = ll.checkDupe ∧ ll'.partialList = ll.partialList ∧
    ll'.listDate = ll.listDate ∧ (ll'.inListing = true → ll.inListing = true) := by
  unfold endTag at h
  repeat' split at h
  all_goals (cases h <;> simp_all)

theorem enterDirectory_frame (env : LoaderEnv) (ll ll' : ListLoader) (d : Ptr) (n : List Char)
    (simple : Bool) (h : enterDirectory env ll d n simple = .ok ll') :
    ll'.closing = ll.closing ∧ ll'.updating = ll.updating ∧ ll'.dirsLoaded = ll.dirsLoaded ∧
    ll'.checkDupe = ll.checkDupe ∧ ll'.partialList = ll.partialList ∧
    ll'.listDate = ll.listDate := by
  unfold enterDirectory at h
  split at h
  · cases h
  · split at h
    · obtain ⟨h1, h2, h3, h4, h5, h6, _⟩ := endTag_frame _ _ _ h
      exact ⟨h1, h2, h3, h4, h5, h6⟩
    · cases h; simp

theorem createDirectory_frame (env : LoaderEnv) (ll ll' : ListLoader) (attribs : Attribs)
    (n : List Char) (simple : Bool) (h : createDirectory env ll attribs n simple = .ok ll') :
    ll'.closing = ll.closing ∧ ll'.updating = ll.updating ∧ ll'.dirsLoaded = ll.dirsLoaded ∧
    ll'.checkDupe = ll.checkDupe ∧ ll'.partialList = ll.partialList ∧
    ll'.listDate = ll.listDate := by
  unfold createDirectory at h
  split at h
  · cases h
  · split at h
    · cases h
    · have := enterDirectory_frame env _ _ _ _ _ h
      simpa using this

theorem startDirectory_frame (env : LoaderEnv) (ll ll' : ListLoader) (attribs : Attribs)
    (simple : Bool) (h : startDirectory env ll attribs simple = .ok ll') :
    ll'.closing = ll.closing ∧ ll'.updating = ll.updating ∧
    ll'.dirsLoaded = ll.dirsLoaded + (if ll.updating then 1 else 0) ∧
    ll'.checkDupe = ll.checkDupe ∧ ll'.partialList = ll.partialList ∧
    ll'.listDate = ll.listDate ∧ (env.getAttrib attribs sName 0).isEmpty = false := by
  unfold startDirectory at h
  split at h
  · cases h
  · rename_i hname
    split at h
    · rename_i hup
      split at h
      · obtain ⟨h1, h2, h3, h4, h5, h6⟩ := enterDirectory_frame env _ _ _ _ _ h
        simp_all
      · obtain ⟨h1, h2, h3, h4, h5, h6⟩ := createDirectory_frame env _ _ _ _ _ h
        simp_all
    · rename_i hup
      obtain ⟨h1, h2, h3, h4, h5, h6⟩ := createDirectory_frame env _ _ _ _ _ h
      simp_all

theorem startFile_frame (env : LoaderEnv) (ll ll' : ListLoader) (attribs : Attribs)
    (h : startFile env ll attribs = .ok ll') :
    ll'.closing = ll.closing ∧ ll'.updating = ll.updating ∧ ll'.dirsLoaded = ll.dirsLoaded ∧
    ll'.checkDupe = ll.checkDupe ∧ ll'.partialList = ll.partialList ∧
    ll'.listDate = ll.listDate ∧ ll'.inListing = ll.inListing ∧ ll'.cur = ll.cur := by
  unfold startFile at h
  repeat' split at h
  all_goals (cases h <;> simp_all)

theorem startListing_frame (env : LoaderEnv) (ll ll' : ListLoader) (attribs : Attribs)
    (simple : Bool) (h : startListing env ll attribs simple = .ok ll') :
    ll'.closing = ll.closing ∧ ll'.updating = ll.updating ∧ ll'.dirsLoaded = ll.dirsLoaded ∧
    ll'.checkDupe = ll.checkDupe ∧ ll'.partialList = ll.partialList ∧
    ll'.listDate = ll.listDate := by
  unfold startListing at h
  split at h
  · split at h
    · cases h
    · split at h
      · cases h
      · cases h
      · split at h
        · cases h
        · split at h
          · obtain ⟨h1, h2, h3, h4, h5, h6, _⟩ := endTag_frame _ _ _ h
            simp_all [enterListing]
          · cases h; simp [enterListing]
  · split at h
    · obtain ⟨h1, h2, h3, h4, h5, h6, _⟩ := endTag_frame _ _ _ h
      simp_all
    · cases h; simp

theorem stepLoader_frame (env : LoaderEnv) (ll ll' : ListLoader) (ev : XmlEvent)
    (h : stepLoader env ll ev = .ok ll') :
    ll'.closing = ll.closing ∧ ll'.updating = ll.updating ∧ ll'.checkDupe = ll.checkDupe ∧
    ll'.partialList = ll.partialList ∧ ll'.listDate = ll.listDate := by
  cases ev with
  | startTag name attribs simple =>
    simp only [stepLoader, startTag] at h
    split at h
    · cases h
    · split at h
      · split at h
        · obtain ⟨h1, h2, _, h4, h5, h6, _⟩ := startFile_frame env _ _ _ h
          exact ⟨h1, h2, h4, h5, h6⟩
        · split at h
          · obtain ⟨h1, h2, _, h4, h5, h6, _⟩ := startDirectory_frame env _ _ _ _ h
            exact ⟨h1, h2, h4, h5, h6⟩
          · cases h; simp
      · split at h
        · obtain ⟨h1, h2, _, h4, h5, h6⟩ := startListing_frame env _ _ _ _ h
          exact ⟨h1, h2, h4, h5, h6⟩
        · cases h; simp
  | endTag name =>
    simp only [stepLoader] at h
    obtain ⟨h1, h2, _, h4, h5, h6, _⟩ := endTag_frame _ _ _ h
    exact ⟨h1, h2, h4, h5, h6⟩

theorem stepLoader_inListing_not_closing (env : LoaderEnv) (ll ll' : ListLoader) (ev : XmlEvent)
    (h : stepLoader env ll ev = .ok ll') (hinv : ll.inListing = true → ll.closing = false) :
    ll'.inListing = true → ll'.closing = false := by
  intro hin
  have hcl := (stepLoader_frame env ll ll' ev h).1
  cases ev with
  | startTag name attribs simple =>
    simp only [stepLoader, startTag] at h
    split at h
    · cases h
    · rename_i hc
      rw [hcl]
      simpa using hc
  | endTag name =>
    simp only [stepLoader] at h
    rw [hcl]
    exact hinv ((endTag_frame _ _ _ h).2.2.2.2.2.2 hin)

theorem runLoader_inListing_not_closing (env : LoaderEnv) (evs : List XmlEvent) :
    ∀ ll, (ll.inListing = true → ll.closing = false) →
      ((runLoader env ll evs).1.inListing = true → (runLoader env ll evs).1.closing = false) := by
  induction evs with
  | nil => intro ll h; exact h
  | cons ev evs ih =>
    intro ll h
    simp only [runLoader]
    cases hs : stepLoader env ll ev with
    | ok ll' => exact ih ll' (stepLoader_inListing_not_closing env ll ll' ev hs h)
    | error e => exact h

theorem runLoader_of_none (env : LoaderEnv) (ll : ListLoader) (evs : List XmlEvent)
    (h : (runLoader env ll evs).2 = none) :
    runLoader env ll evs = ((runLoader env ll evs).1, none) := by
  rw [← h]

theorem startFile_faulty (env : LoaderEnv) (ll : ListLoader) (attribs : Attribs)
    (hbad : env.getAttrib attribs sName 0 = [] ∨ env.getAttrib attribs sSize 1 = [] ∨
      (env.getAttrib attribs sTTH 2 = [] ∧ env.lanMode = false)) :
    startFile env ll attribs = .ok ll := by
  unfold startFile
  rcases hbad with h | h | ⟨h1, h2⟩
  · simp [h]
  · simp [h]
  · simp [h1, h2]

/-- C16: a `File` tag met inside the listing whose `Name` is missing or empty, whose `Size`
is missing or empty, or, outside LAN mode, whose `TTH` is missing or empty (`getAttrib`
returns the empty string): the callback returns normally with the loader exactly as it
was, and `loadXML` of the whole document gives the same listing and the same result as
`loadXML` of the document without that tag. -/
theorem faulty_file_tag_is_skipped (env : LoaderEnv) (L : Listing) (pre post : List XmlEvent)
    (attribs : Attribs) (simple updating : Bool) (aBase : List Char) (aListDate : Nat)
    (dupesInFilelist : Bool)
    (hbad : env.getAttrib attribs sName 0 = [] ∨ env.getAttrib attribs sSize 1 = [] ∨
      (env.getAttrib attribs sTTH 2 = [] ∧ env.lanMode = false))
    (hpre : (runLoader env (initLoader L updating aBase aListDate dupesInFilelist) pre).2 = none)
    (hin : (runLoader env (initLoader L updating aBase aListDate dupesInFilelist)
      pre).1.inListing = true) :
    stepLoader env (runLoader env (initLoader L updating aBase aListDate dupesInFilelist) pre).1
        (XmlEvent.startTag sFile attribs simple)
      = .ok (runLoader env (initLoader L updating aBase aListDate dupesInFilelist) pre).1 ∧
    loadXML env L (pre ++ XmlEvent.startTag sFile attribs simple :: post) updating aBase
        aListDate dupesInFilelist
      = loadXML env L (pre ++ post) updating aBase aListDate dupesInFilelist := by
  have hcl := runLoader_inListing_not_closing env pre
    (initLoader L updating aBase aListDate dupesInFilelist) (by intro h; simp [initLoader] at h) hin
  have hstep : stepLoader env
      (runLoader env (initLoader L updating aBase aListDate dupesInFilelist) pre).1
      (XmlEvent.startTag sFile attribs simple)
      = .ok (runLoader env (initLoader L updating aBase aListDate dupesInFilelist) pre).1 := by
    simp only [stepLoader, startTag, hcl, hin, if_true, Bool.false_eq_true, if_false]
    exact startFile_faulty env _ attribs hbad
  refine ⟨hstep, ?_⟩
  have hrun := runLoader_of_none env _ pre hpre
  unfold loadXML
  rw [runLoader_append, runLoader_append, hrun]
  simp only [runLoader, hstep]

/-- C17: a `Directory` tag met inside the listing whose `Name` is missing or empty throws
the `SimpleXMLException`, which `loadXML` catches: `loadXML` of the whole document returns
normally, and it gives the same listing and the same value as `loadXML` of the part of the
document before the faulty tag, whatever follows the tag. -/
theorem unnamed_directory_tag_ends_the_load (env : LoaderEnv) (L : Listing)
    (pre post : List XmlEvent) (attribs : Attribs) (simple updating : Bool) (aBase : List Char)
    (aListDate : Nat) (dupesInFilelist : Bool)
    (hname : env.getAttrib attribs sName 0 = [])
    (hpre : (runLoader env (initLoader L updating aBase aListDate dupesInFilelist) pre).2 = none)
    (hin : (runLoader env (initLoader L updating aBase aListDate dupesInFilelist)
      pre).1.inListing = true) :
    (∃ message, stepLoader env
        (runLoader env (initLoader L updating aBase aListDate dupesInFilelist) pre).1
        (XmlEvent.startTag sDirectory attribs simple) = .error (LoadError.xml message)) ∧
    loadXML env L (pre ++ XmlEvent.startTag sDirectory attribs simple :: post) updating aBase
        aListDate dupesInFilelist
      = loadXML env L pre updating aBase aListDate dupesInFilelist ∧
    (loadXML env L (pre ++ XmlEvent.startTag sDirectory attribs simple :: post) updating aBase
        aListDate dupesInFilelist).2
      = .ok (runLoader env (initLoader L updating aBase aListDate dupesInFilelist)
          pre).1.dirsLoaded := by
  have hcl := runLoader_inListing_not_closing env pre
    (initLoader L updating aBase aListDate dupesInFilelist) (by intro h; simp [initLoader] at h) hin
  have hne : sDirectory ≠ sFile := by decide
  have hstep : stepLoader env
      (runLoader env (initLoader L updating aBase aListDate dupesInFilelist) pre).1
      (XmlEvent.startTag sDirectory attribs simple)
      = .error (LoadError.xml ['D', 'i', 'r', 'e', 'c', 't', 'o', 'r', 'y', ' ', 'm', 'i', 's',
          's', 'i', 'n', 'g', ' ', 'n', 'a', 'm', 'e', ' ', 'a', 't', 't', 'r', 'i', 'b', 'u',
          't', 'e']) := by
    simp only [stepLoader, startTag, hcl, hin, if_true, Bool.false_eq_true, if_false, hne,
      startDirectory, hname, List.isEmpty_nil]
  have hrun := runLoader_of_none env _ pre hpre
  have hall : runLoader env (initLoader L updating aBase aListDate dupesInFilelist)
      (pre ++ XmlEvent.startTag sDirectory attribs simple :: post)
      = ((runLoader env (initLoader L updating aBase aListDate dupesInFilelist) pre).1,
          some (LoadError.xml ['D', 'i', 'r', 'e', 'c', 't', 'o', 'r', 'y', ' ', 'm', 'i', 's',
          's', 'i', 'n', 'g', ' ', 'n', 'a', 'm', 'e', ' ', 'a', 't', 't', 'r', 'i', 'b', 'u',
          't', 'e'])) := by
    rw [runLoader_append, hrun]
    simp only [runLoader, hstep]
  refine ⟨⟨_, hstep⟩, ?_, ?_⟩
  · unfold loadXML
    rw [hall]
    conv_rhs => rw [hrun]
  · unfold loadXML
    rw [hall]

/-! ### Trees under modification -/

theorem length_modifyNth {α : Type} (f : α → α) (l : List α) :
    ∀ i, (modifyNth f l i).length = l.length := by
  induction l with
  | nil => intro i; rfl
  | cons x xs ih =>
    intro i
    cases i with
    | zero => rfl
    | succ n => simp [modifyNth, ih n]

theorem getElem?_modifyNth_eq {α : Type} (f : α → α) (l : List α) :
    ∀ i, (modifyNth f l i)[i]? = l[i]?.map f := by
  induction l with
  | nil => intro i; simp [modifyNth]
  | cons x xs ih =>
    intro i
    cases i with
    | zero => simp [modifyNth]
    | succ n => simp [modifyNth, ih n]

theorem getElem?_modifyNth_ne {α : Type} (f : α → α) (l : List α) :
    ∀ i j, i ≠ j → (modifyNth f l i)[j]? = l[j]? := by
  induction l with
  | nil => intro i j _; simp [modifyNth]
  | cons x xs ih =>
    intro i j hij
    cases i with
    | zero =>
      cases j with
      | zero => exact absurd rfl hij
      | succ m => simp [modifyNth]
    | succ n =>
      cases j with
      | zero => simp [modifyNth]
      | succ m =>
        simp only [modifyNth, List.getElem?_cons_succ]
        exact ih n m (fun h => hij (by rw [h]))

theorem map_modifyNth {α β : Type} (f : α → α) (g : α → β) (hg : ∀ x, g (f x) = g x)
    (l : List α) : ∀ i, (modifyNth f l i).map g = l.map g := by
  induction l with
  | nil => intro i; rfl
  | cons x xs ih =>
    intro i
    cases i with
    | zero => simp [modifyNth, hg]
    | succ n => simp [modifyNth, ih n]

theorem descendIdx_modifyIdx (f : Directory → Directory) (is : List Nat) :
    ∀ d, descendIdx (modifyIdx f is d) is = (descendIdx d is).map f := by
  induction is with
  | nil => intro d; simp [descendIdx, modifyIdx]
  | cons i is ih =>
    intro d
    cases d with
    | mk info ds fs =>
      simp only [modifyIdx, descendIdx, Directory.directories, getElem?_modifyNth_eq]
      cases ds[i]? with
      | none => simp
      | some c => simp [ih c]

theorem deref_modifyAt (root : Directory) (ptr : Ptr) (f : Directory → Directory) :
    deref (modifyAt root ptr f) ptr = (deref root ptr).map f := by
  rw [deref_eq_descendIdx, deref_eq_descendIdx, modifyAt, descendIdx_modifyIdx]

theorem deref_modifyAt_pushDir (root : Directory) (ptr : Ptr) (D c : Directory)
    (h : deref root ptr = some D) :
    deref (modifyAt root ptr (Directory.pushDir c)) (D.directories.length :: ptr) = some c := by
  simp only [deref, deref_modifyAt, h, Option.map_some', Option.some_bind]
  cases D with
  | mk info ds fs => simp [Directory.pushDir, Directory.directories]

theorem deref_parent (root : Directory) (x : Nat) (par : Ptr) (D : Directory)
    (h : deref root (x :: par) = some D) : ∃ P, deref root par = some P := by
  simp only [deref] at h
  cases hp : deref root par with
  | none => simp [hp] at h
  | some P => exact ⟨P, rfl⟩

theorem modifyIdx_getName (f : Directory → Directory) (hf : ∀ x, (f x).getName = x.getName)
    (is : List Nat) (d : Directory) : (modifyIdx f is d).getName = d.getName := by
  cases is with
  | nil => exact hf d
  | cons i is => cases d with
    | mk info ds fs => rfl

theorem descendIdx_modifyIdx_childNames (f : Directory → Directory)
    (hfn : ∀ x, (f x).getName = x.getName) (hfd : ∀ x, (f x).directories = x.directories)
    (is : List Nat) :
    ∀ d q, (descendIdx (modifyIdx f is d) q).map Directory.childNames
      = (descendIdx d q).map Directory.childNames := by
  induction is with
  | nil =>
    intro d q
    cases q with
    | nil => simp [descendIdx, modifyIdx, Directory.childNames, hfd]
    | cons j q => simp [descendIdx, modifyIdx, hfd]
  | cons i is ih =>
    intro d q
    cases d with
    | mk info ds fs =>
      cases q with
      | nil =>
        simp only [descendIdx, modifyIdx, Option.map_some', Directory.childNames,
          Directory.directories]
        rw [map_modifyNth _ _ (modifyIdx_getName f hfn is)]
      | cons j q =>
        simp only [modifyIdx, descendIdx, Directory.directories]
        by_cases hj : i = j
        · subst hj
          rw [getElem?_modifyNth_eq]
          cases ds[i]? with
          | none => simp
          | some c => simpa using ih c q
        · rw [getElem?_modifyNth_ne _ _ _ _ hj]

theorem deref_modifyAt_childNames (f : Directory → Directory)
    (hfn : ∀ x, (f x).getName = x.getName) (hfd : ∀ x, (f x).directories = x.directories)
    (root : Directory) (p q : Ptr) :
    (deref (modifyAt root p f) q).map Directory.childNames
      = (deref root q).map Directory.childNames := by
  rw [deref_eq_descendIdx, deref_eq_descendIdx, modifyAt]
  exact descendIdx_modifyIdx_childNames f hfn hfd _ _ _

/-! ### Faulty tags and the count of loaded directories -/

/-- Witness of C16: a fresh load of
`<FileListing Base="/"> <File Name="x"/> </FileListing>`, where the `File` tag has no `Size`,
gives what the load of `<FileListing Base="/"> </FileListing>` gives. -/
theorem faulty_file_tag_is_skipped_witness :
    loadXML testLoaderEnv (emptyListing false)
        ([listingTag ['/']] ++ XmlEvent.startTag sFile [(sName, ['x'])] true
          :: [XmlEvent.endTag sFileListing]) false ['/'] 0 false
      = loadXML testLoaderEnv (emptyListing false)
        ([listingTag ['/']] ++ [XmlEvent.endTag sFileListing]) false ['/'] 0 false :=
  (faulty_file_tag_is_skipped testLoaderEnv (emptyListing false) [listingTag ['/']]
    [XmlEvent.endTag sFileListing] [(sName, ['x'])] true false ['/'] 0 false
    (Or.inr (Or.inl (by decide))) (by decide) (by decide)).2

/-- Witness of C17: in a fresh load of
`<FileListing Base="/"> <File Name="f1" Size="10" TTH="1"/> <Directory/> <File
Name="f2" Size="20" TTH="2"/> </FileListing>` the file `f1` is in the tree, `f2` is not, and
the load returns normally. -/
theorem unnamed_directory_tag_ends_the_load_witness :
    loadXML testLoaderEnv (emptyListing false)
        ([listingTag ['/'], fileTag ['f', '1'] ['1', '0'] ['1']]
          ++ XmlEvent.startTag sDirectory [] true
          :: [fileTag ['f', '2'] ['2', '0'] ['2'], XmlEvent.endTag sFileListing])
        false ['/'] 0 false
      = loadXML testLoaderEnv (emptyListing false)
        [listingTag ['/'], fileTag ['f', '1'] ['1', '0'] ['1']] false ['/'] 0 false ∧
    (loadXML testLoaderEnv (emptyListing false)
        [listingTag ['/'], fileTag ['f', '1'] ['1', '0'] ['1']] false ['/'] 0 false).1.root.files
      = [plainFile ['f', '1'] 10 1] :=
  ⟨(unnamed_directory_tag_ends_the_load testLoaderEnv (emptyListing false)
    [listingTag ['/'], fileTag ['f', '1'] ['1', '0'] ['1']]
    [fileTag ['f', '2'] ['2', '0'] ['2'], XmlEvent.endTag sFileListing] [] true false ['/'] 0
    false (by decide) (by decide) (by decide)).2.1, by decide⟩

theorem stepLoader_dirsLoaded (env : LoaderEnv) (ll ll' : ListLoader) (ev : XmlEvent)
    (h : stepLoader env ll ev = .ok ll') :
    ll'.dirsLoaded = ll.dirsLoaded +
      (if ll.updating then (if isAcceptedDirTag env ll ev then 1 else 0) else 0) := by
  cases ev with
  | startTag name attribs simple =>
    simp only [stepLoader, startTag] at h
    split at h
    · cases h
    · split at h
      · rename_i hin
        split at h
        · rename_i hn
          have hne : ¬ (sFile = sDirectory) := by decide
          have := (startFile_frame env _ _ _ h).2.2.1
          simp [this, isAcceptedDirTag, hn, hne]
        · split at h
          · rename_i hn
            obtain ⟨_, _, h3, _, _, _, h7⟩ := startDirectory_frame env _ _ _ _ h
            simp [h3, isAcceptedDirTag, hn, hin, h7]
          · rename_i hn
            cases h
            simp [isAcceptedDirTag, hn]
      · rename_i hin
        split at h
        · have := (startListing_frame env _ _ _ _ h).2.2.1
          simp [this, isAcceptedDirTag, hin]
        · cases h
          simp [isAcceptedDirTag, hin]
  | endTag name =>
    simp only [stepLoader] at h
    have := (endTag_frame _ _ _ h).2.2.1
    simp [this, isAcceptedDirTag]

theorem runLoader_dirsLoaded (env : LoaderEnv) (evs : List XmlEvent) :
    ∀ ll, (runLoader env ll evs).1.dirsLoaded = ll.dirsLoaded +
      (if ll.updating then (acceptedDirTags env ll evs : Int) else 0) := by
  induction evs with
  | nil => intro ll; simp [runLoader, acceptedDirTags]
  | cons ev evs ih =>
    intro ll
    simp only [runLoader, acceptedDirTags]
    cases hs : stepLoader env ll ev with
    | error e => simp
    | ok ll' =>
      have h1 := stepLoader_dirsLoaded env ll ll' ev hs
      have h2 := (stepLoader_frame env ll ll' ev hs).2.1
      simp only [ih ll', h1, h2]
      by_cases hu : ll.updating = true
      · by_cases ha : isAcceptedDirTag env ll ev = true
        · simp [hu, ha]; ring
        · simp [hu, ha]
      · simp [hu]

/-- C18 (amended): when `loadXML` returns a value, a merging load (`updating`) returns the
number of `Directory` tags that the loader accepted, and a fresh load returns 0, since the
counter is incremented only under `if(updating)`. -/
theorem loadXML_returns_accepted_count_only_when_merging (env : LoaderEnv) (L : Listing)
    (events : List XmlEvent) (updating : Bool) (aBase : List Char) (aListDate : Nat)
    (dupesInFilelist : Bool) (n : Int)
    (h : (loadXML env L events updating aBase aListDate dupesInFilelist).2 = .ok n) :
    n = if updating then
        (acceptedDirTags env (initLoader L updating aBase aListDate dupesInFilelist) events : Int)
      else 0 := by
  have hrun := runLoader_dirsLoaded env events
    (initLoader L updating aBase aListDate dupesInFilelist)
  have hinit : (initLoader L updating aBase aListDate dupesInFilelist).dirsLoaded = 0 := rfl
  have hupd : (initLoader L updating aBase aListDate dupesInFilelist).updating = updating := rfl
  rw [hinit, hupd, zero_add] at hrun
  rw [← hrun]
  unfold loadXML at h
  split at h
  · rename_i heq
    rw [heq]
    simpa using h.symm
  · rename_i heq
    rw [heq]
    simpa using h.symm
  · simp at h

/-- Witness of C18: merging
`<FileListing Base="/"> <Directory Name="A" Incomplete="1"/> </FileListing>` into an empty
partial list returns 1, the number of `Directory` tags accepted. -/
theorem loadXML_returns_accepted_count_only_when_merging_witness :
    (1 : Int) = if true = true then
        (acceptedDirTags testLoaderEnv (initLoader (emptyListing true) true ['/'] 0 false)
          [listingTag ['/'], incompleteDirTag ['A'], XmlEvent.endTag sFileListing] : Int)
      else 0 :=
  loadXML_returns_accepted_count_only_when_merging testLoaderEnv (emptyListing true)
    [listingTag ['/'], incompleteDirTag ['A'], XmlEvent.endTag sFileListing] true ['/'] 0 false 1
    (by decide)

/-- Counterexample to C18: the fresh load of `<FileListing Base="/"> <Directory Name="A"
Incomplete="1"/> </FileListing>` accepts one `Directory` tag and creates the directory
`A`, and `loadXML` returns 0. -/
theorem fresh_load_returns_zero_counterexample :
    acceptedDirTags testLoaderEnv (initLoader (emptyListing false) false ['/'] 0 false)
      [listingTag ['/'], incompleteDirTag ['A'], XmlEvent.endTag sFileListing] = 1 ∧
    (loadXML testLoaderEnv (emptyListing false)
      [listingTag ['/'], incompleteDirTag ['A'], XmlEvent.endTag sFileListing]
      false ['/'] 0 false).1.root.childNames = [['A']] ∧
    (loadXML testLoaderEnv (emptyListing false)
      [listingTag ['/'], incompleteDirTag ['A'], XmlEvent.endTag sFileListing]
      false ['/'] 0 false).2 = .ok 0 := by
  refine ⟨by decide, by decide, by decide⟩

/-! ### The end of the listing root tag -/

theorem startFile_cursor (env : LoaderEnv) (ll : ListLoader) (attribs : Attribs) (ptr : Ptr)
    (D : Directory) (hc : ll.cur = some ptr) (hd : deref ll.root ptr = some D) :
    ∃ ll', startFile env ll attribs = .ok ll' ∧ ll'.cur = some ptr ∧
      (deref ll'.root ptr).isSome = true ∧ ll'.updating = ll.updating ∧
      ll'.closing = ll.closing ∧ ll'.inListing = ll.inListing := by
  unfold startFile
  split
  · exact ⟨ll, rfl, hc, by simp [hd], rfl, rfl, rfl⟩
  · split
    · exact ⟨ll, rfl, hc, by simp [hd], rfl, rfl, rfl⟩
    · split
      · exact ⟨ll, rfl, hc, by simp [hd], rfl, rfl, rfl⟩
      · simp only [hc, hd]
        exact ⟨_, rfl, rfl, by simp [deref_modifyAt, hd], rfl, rfl, rfl⟩

theorem createDirectory_fresh (env : LoaderEnv) (ll : ListLoader) (attribs : Attribs)
    (n : List Char) (simple : Bool) (ptr : Ptr) (D : Directory) (hup : ll.updating = false)
    (hin : ll.inListing = true) (hc : ll.cur = some ptr) (hd : deref ll.root ptr = some D) :
    ∃ ll', createDirectory env ll attribs n simple = .ok ll' ∧
      ll'.cur = some (if simple then ptr else D.directories.length :: ptr) ∧
      (deref ll'.root (if simple then ptr else D.directories.length :: ptr)).isSome = true ∧
      ll'.updating = false ∧ ll'.closing = ll.closing ∧ ll'.inListing = true := by
  unfold createDirectory
  simp only [hc, hd]
  unfold enterDirectory
  simp only [deref_modifyAt_pushDir _ _ _ _ hd]
  cases simple with
  | false =>
    simp only [Bool.false_eq_true, if_false]
    exact ⟨_, rfl, rfl, by simp [deref_modifyAt_pushDir _ _ _ _ hd], hup, rfl, hin⟩
  | true =>
    simp only [if_true, endTag, hin, deref_modifyAt_pushDir _ _ _ _ hd, getParent]
    exact ⟨_, rfl, rfl, by simp [deref_modifyAt, hd], by simp [hup], rfl, rfl⟩

theorem runLoader_outside_listing (env : LoaderEnv) (later : List XmlEvent) :
    ∀ ll : ListLoader, ll.inListing = false → ll.closing = false →
      (∀ ev ∈ later, isListingStart ev = false) → runLoader env ll later = (ll, none) := by
  induction later with
  | nil => intro ll _ _ _; rfl
  | cons ev later ih =>
    intro ll hin hcl hno
    have hev := hno ev (List.mem_cons_self _ _)
    have hstep : stepLoader env ll ev = .ok ll := by
      cases ev with
      | startTag name attribs simple =>
        simp only [isListingStart, decide_eq_false_iff_not] at hev
        simp [stepLoader, startTag, hin, hcl, hev]
      | endTag name => simp [stepLoader, endTag, hin]
    simp only [runLoader, hstep]
    exact ih ll hin hcl (fun e he => hno e (List.mem_cons_of_mem _ he))

theorem reuse_update_getName (t : Nat) (b : Bool) (x : Directory) :
    (Directory.setRemoteDate t (if b = true then x else x.setComplete)).getName = x.getName := by
  cases x with
  | mk info ds fs =>
    cases b <;>
      simp [Directory.setRemoteDate, Directory.setComplete, Directory.getName, Directory.info]

theorem reuse_update_directories (t : Nat) (b : Bool) (x : Directory) :
    (Directory.setRemoteDate t (if b = true then x else x.setComplete)).directories
      = x.directories := by
  cases x with
  | mk info ds fs =>
    cases b <;> simp [Directory.setRemoteDate, Directory.setComplete, Directory.directories]

theorem reuse_update_remoteDate (t : Nat) (b : Bool) (x : Directory) :
    (Directory.setRemoteDate t (if b = true then x else x.setComplete)).info.remoteDate = t := by
  cases x with
  | mk info ds fs =>
    cases b <;> simp [Directory.setRemoteDate, Directory.setComplete, Directory.info]

theorem reuse_update_isComplete (t : Nat) (b : Bool) (x : Directory) :
    (Directory.setRemoteDate t (if b = true then x else x.setComplete)).isComplete
      = (x.isComplete || !b) := by
  cases x with
  | mk info ds fs =>
    cases b <;>
      simp [Directory.setRemoteDate, Directory.setComplete, Directory.isComplete, Directory.info]

/-- The reuse of a registered directory: in merge mode, a named `Directory` tag whose
lowercase path (accumulated lowercase prefix, lowercased name, `/`) is registered with a
directory that is not null reuses that directory: the callback returns, every directory of
the tree, the cursor included, keeps its child list (same names, same length), the registry
is unchanged, the reused directory is complete afterwards exactly when it was complete
before or the tag is not marked `Incomplete`, its remote date is the `Date` of the tag, it
becomes the cursor (which a self-closing tag leaves again for its parent), and the count of
loaded directories goes up by one. -/
theorem registered_directory_is_reused (env : LoaderEnv) (ll : ListLoader) (attribs : Attribs)
    (simple : Bool) (p : Ptr) (v : Bool) (D : Directory)
    (hcl : ll.closing = false) (hin : ll.inListing = true) (hup : ll.updating = true)
    (hname : (env.getAttrib attribs sName 0).isEmpty = false)
    (hreg : dirMapFind (ll.baseLower ++ env.toLower (env.getAttrib attribs sName 0) ++ ['/'])
      ll.baseDirs = some (some p, v))
    (hD : deref ll.root p = some D) :
    ∃ ll', stepLoader env ll (XmlEvent.startTag sDirectory attribs simple) = .ok ll' ∧
      (∀ q, (deref ll'.root q).map Directory.childNames
        = (deref ll.root q).map Directory.childNames) ∧
      (∀ q, (deref ll'.root q).map (fun d => d.directories.length)
        = (deref ll.root q).map (fun d => d.directories.length)) ∧
      ll'.baseDirs = ll.baseDirs ∧
      (deref ll'.root p).map Directory.isComplete
        = some (D.isComplete || !decide (env.getAttrib attribs sIncomplete 1 = ['1'])) ∧
      (deref ll'.root p).map (fun d => d.info.remoteDate)
        = some (env.toUInt32 (env.getAttrib attribs sDate 3)) ∧
      ll'.cur = (if simple then getParent p else some p) ∧
      ll'.dirsLoaded = ll.dirsLoaded + 1 := by
  have hne : ¬ (sDirectory = sFile) := by decide
  have hnames : ∀ q, (deref (modifyAt ll.root p (fun dir =>
      Directory.setRemoteDate (env.toUInt32 (env.getAttrib attribs sDate 3))
        (if decide (env.getAttrib attribs sIncomplete 1 = ['1']) = true then dir
          else dir.setComplete))) q).map Directory.childNames
      = (deref ll.root q).map Directory.childNames :=
    fun q => deref_modifyAt_childNames _ (reuse_update_getName _ _)
      (reuse_update_directories _ _) ll.root p q
  have hlens : ∀ q, (deref (modifyAt ll.root p (fun dir =>
      Directory.setRemoteDate (env.toUInt32 (env.getAttrib attribs sDate 3))
        (if decide (env.getAttrib attribs sIncomplete 1 = ['1']) = true then dir
          else dir.setComplete))) q).map (fun d => d.directories.length)
      = (deref ll.root q).map (fun d => d.directories.length) := by
    intro q
    have h := congrArg (Option.map List.length) (hnames q)
    simpa [Option.map_map, Function.comp_def, Directory.childNames] using h
  have hderef : deref (modifyAt ll.root p (fun dir =>
      Directory.setRemoteDate (env.toUInt32 (env.getAttrib attribs sDate 3))
        (if decide (env.getAttrib attribs sIncomplete 1 = ['1']) = true then dir
          else dir.setComplete))) p
      = some (Directory.setRemoteDate (env.toUInt32 (env.getAttrib attribs sDate 3))
        (if decide (env.getAttrib attribs sIncomplete 1 = ['1']) = true then D
          else D.setComplete)) := by
    rw [deref_modifyAt, hD]
    rfl
  simp only [stepLoader, startTag, hcl, hin, hne, if_true, if_false, Bool.false_eq_true,
    startDirectory, hname, hup, hreg, enterDirectory, hderef]
  cases simple with
  | false =>
    refine ⟨_, rfl, hnames, hlens, rfl, ?_, ?_, rfl, rfl⟩
    · simp only [hderef, Option.map_some', reuse_update_isComplete]
    · simp only [hderef, Option.map_some', reuse_update_remoteDate]
  | true =>
    simp only [if_true, endTag, hin, hderef]
    refine ⟨_, rfl, hnames, hlens, rfl, ?_, ?_, rfl, rfl⟩
    · simp only [hderef, Option.map_some', reuse_update_isComplete]
    · simp only [hderef, Option.map_some', reuse_update_remoteDate]

/-- An instance of the reuse: in the partial list in which `/Q/`
and `/Q/R/` were browsed, a merge into `/` meets `<Directory Name="Q">`; the path `/q/` is
registered with the directory `Q`, which is reused: it becomes the cursor and keeps its one
child `R`, and the root keeps its one child `Q`. -/
theorem registered_directory_is_reused_witness :
    ∃ ll', stepLoader testLoaderEnv
        (runLoader testLoaderEnv (initLoader browsedListing true ['/'] 0 false)
          [listingTag ['/']]).1 (XmlEvent.startTag sDirectory [(sName, ['Q'])] false)
        = .ok ll' ∧
      ll'.cur = some [0] ∧
      (deref ll'.root [0]).map Directory.childNames = some [['R']] ∧
      (deref ll'.root []).map Directory.childNames = some [['Q']] ∧
      ll'.dirsLoaded = 1 :=
  match registered_directory_is_reused testLoaderEnv
      (runLoader testLoaderEnv (initLoader browsedListing true ['/'] 0 false)
        [listingTag ['/']]).1 [(sName, ['Q'])] false [0] true
      (.mk (completeInfo ['Q']) [.mk (completeInfo ['R']) [] []] [])
      (by decide) (by decide) (by decide) (by decide) (by decide) (by decide) with
  | ⟨ll', h1, h2, _, _, _, _, h7, h8⟩ =>
    ⟨ll', h1, h7, (h2 [0]).trans (by decide), (h2 []).trans (by decide),
      h8.trans (by decide)⟩

/-- C20 (defect): a `Directory` tag whose lowercase path is present in the registry does
not reuse a directory but creates a duplicate, when the registry holds the path with a null
directory. An empty partial list is merged with `<FileListing Base="/Q/">
<Directory Name="R" Incomplete="1"/> </FileListing>` and then with `<FileListing
Base="/Q/R/"> </FileListing>`; the second merge registers `/q/r/` with a null directory.
A third merge, into `/`, meets `<Directory Name="R">` under `Q`: the path `/q/r/` is present
in the registry, yet a second directory `R` is created and the child list of the cursor `Q`
grows from one entry to two. -/
theorem null_registry_entry_creates_duplicate :
    (updateXML testLoaderEnv
      (updateXML testLoaderEnv (emptyListing true)
        [listingTag ['/', 'Q', '/'], incompleteDirTag ['R'], XmlEvent.endTag sFileListing]
        ['/', 'Q', '/'] false).1
      [listingTag ['/', 'Q', '/', 'R', '/'], XmlEvent.endTag sFileListing]
      ['/', 'Q', '/', 'R', '/'] false).1 = browsedListing ∧
    (runLoader testLoaderEnv (initLoader browsedListing true ['/'] 0 false)
      [listingTag ['/'], dirTag ['Q']]).1.updating = true ∧
    (runLoader testLoaderEnv (initLoader browsedListing true ['/'] 0 false)
      [listingTag ['/'], dirTag ['Q']]).1.inListing = true ∧
    (runLoader testLoaderEnv (initLoader browsedListing true ['/'] 0 false)
      [listingTag ['/'], dirTag ['Q']]).1.cur = some [0] ∧
    dirMapFind
      ((runLoader testLoaderEnv (initLoader browsedListing true ['/'] 0 false)
        [listingTag ['/'], dirTag ['Q']]).1.baseLower
        ++ testLoaderEnv.toLower ['R'] ++ ['/'])
      (runLoader testLoaderEnv (initLoader browsedListing true ['/'] 0 false)
        [listingTag ['/'], dirTag ['Q']]).1.baseDirs = some (none, true) ∧
    (deref (runLoader testLoaderEnv (initLoader browsedListing true ['/'] 0 false)
      [listingTag ['/'], dirTag ['Q']]).1.root [0]).map Directory.childNames
      = some [['R']] ∧
    (deref (runLoader testLoaderEnv (initLoader browsedListing true ['/'] 0 false)
      [listingTag ['/'], dirTag ['Q'], dirTag ['R']]).1.root [0]).map Directory.childNames
      = some [['R'], ['R']] ∧
    (deref (updateXML testLoaderEnv browsedListing
      [listingTag ['/'], dirTag ['Q'], dirTag ['R'], XmlEvent.endTag sDirectory,
        XmlEvent.endTag sDirectory, XmlEvent.endTag sFileListing] ['/'] false).1.root [0]).map
      Directory.childNames = some [['R'], ['R']] := by
  refine ⟨by decide, by decide, by decide, by decide, by decide, by decide, by decide,
    by decide⟩

/-! ### The cursor of a fresh load -/

theorem nestingDepth_append (env : LoaderEnv) (a b : List XmlEvent) :
    ∀ d, nestingDepth env (a ++ b) d = (nestingDepth env a d).bind (nestingDepth env b) := by
  induction a with
  | nil => intro d; simp [nestingDepth]
  | cons ev a ih =>
    intro d
    cases ev with
    | startTag name attribs simple =>
      simp only [List.cons_append, nestingDepth]
      split
      · split
        · rfl
        · split
          · exact ih d
          · exact ih (d + 1)
      · exact ih d
    | endTag name =>
      simp only [List.cons_append, nestingDepth]
      split
      · cases d with
        | zero => rfl
        | succ d0 => exact ih d0
      · split
        · rfl
        · exact ih d

theorem nestingDepth_shift (env : LoaderEnv) (l : List XmlEvent) (k : Nat) :
    ∀ d d', nestingDepth env l d = some d' → nestingDepth env l (d + k) = some (d' + k) := by
  induction l with
  | nil =>
    intro d d' h
    simp only [nestingDepth, Option.some.injEq] at h ⊢
    omega
  | cons ev l ih =>
    intro d d' h
    cases ev with
    | startTag name attribs simple =>
      simp only [nestingDepth] at h ⊢
      split at h
      · split at h
        · cases h
        · rename_i h1 h2
          simp only [h1, h2, if_true, if_false]
          split at h
          · rename_i h3
            simp only [h3, if_true]
            exact ih d d' h
          · rename_i h3
            simp only [h3, if_false]
            have := ih (d + 1) d' h
            rw [show d + k + 1 = d + 1 + k by omega]
            exact this
      · rename_i h1
        simp only [h1, if_false]
        exact ih d d' h
    | endTag name =>
      simp only [nestingDepth] at h ⊢
      split at h
      · rename_i h1
        simp only [h1, if_true]
        cases d with
        | zero => simp at h
        | succ d0 =>
          simp only at h
          rw [show d0 + 1 + k = (d0 + k) + 1 by omega]
          exact ih d0 d' h
      · rename_i h1
        simp only [h1, if_false]
        split at h
        · cases h
        · rename_i h2
          simp only [h2, if_false]
          exact ih d d' h

theorem fresh_body_cursor (env : LoaderEnv) (body : List XmlEvent) (p0 : Ptr) :
    ∀ (ll : ListLoader) (d d' : Nat) (pre : List Nat),
      ll.updating = false → ll.closing = false → ll.inListing = true →
      ll.cur = some (pre ++ p0) → (deref ll.root (pre ++ p0)).isSome = true → pre.length = d →
      nestingDepth env body d = some d' →
      ∃ ll' pre', runLoader env ll body = (ll', none) ∧ ll'.updating = false ∧
        ll'.closing = false ∧ ll'.inListing = true ∧ ll'.cur = some (pre' ++ p0) ∧
        (deref ll'.root (pre' ++ p0)).isSome = true ∧ pre'.length = d' := by
  induction body with
  | nil =>
    intro ll d d' pre hup hcl hin hc hd hlen hn
    simp only [nestingDepth, Option.some.injEq] at hn
    exact ⟨ll, pre, rfl, hup, hcl, hin, hc, hd, hn ▸ hlen⟩
  | cons ev body ih =>
    intro ll d d' pre hup hcl hin hc hd0 hlen hn
    obtain ⟨D, hd⟩ := Option.isSome_iff_exists.mp hd0
    cases ev with
    | startTag name attribs simple =>
      simp only [runLoader, stepLoader, startTag, hcl, hin, if_true, Bool.false_eq_true,
        if_false]
      simp only [nestingDepth] at hn
      by_cases hf : name = sFile
      · have hne : ¬ (name = sDirectory) := by rw [hf]; decide
        simp only [hne, if_false] at hn
        obtain ⟨ll1, h1, hc1, hd1, hup1, hcl1, hin1⟩ :=
          startFile_cursor env ll attribs (pre ++ p0) D hc hd
        simp only [hf, if_true, h1]
        exact ih ll1 d d' pre (hup1.trans hup) (hcl1.trans hcl) (hin1.trans hin) hc1 hd1
          hlen hn
      · simp only [hf, if_false]
        by_cases hdir : name = sDirectory
        · simp only [hdir, if_true] at hn ⊢
          split at hn
          · cases hn
          · rename_i hname
            simp only [startDirectory, hname, Bool.false_eq_true, if_false, hup]
            obtain ⟨ll1, h1, hc1, hd1, hup1, hcl1, hin1⟩ :=
              createDirectory_fresh env ll attribs (env.getAttrib attribs sName 0) simple
                (pre ++ p0) D hup hin hc hd
            simp only [h1]
            cases simple with
            | true =>
              simp only [if_true] at hn hc1 hd1
              exact ih ll1 d d' pre hup1 (hcl1.trans hcl) hin1 hc1 hd1 hlen hn
            | false =>
              simp only [Bool.false_eq_true, if_false] at hn hc1 hd1
              exact ih ll1 (d + 1) d' (D.directories.length :: pre) hup1 (hcl1.trans hcl) hin1
                hc1 hd1 (by simp [hlen]) hn
        · simp only [hdir, if_false] at hn ⊢
          exact ih ll d d' pre hup hcl hin hc hd0 hlen hn
    | endTag name =>
      simp only [runLoader, stepLoader, endTag, hin, if_true]
      simp only [nestingDepth] at hn
      by_cases hdir : name = sDirectory
      · simp only [hdir, if_true] at hn ⊢
        cases d with
        | zero => simp at hn
        | succ d0 =>
          simp only at hn
          cases pre with
          | nil => simp at hlen
          | cons x pre0 =>
            simp only [List.cons_append] at hc hd
            obtain ⟨P, hP⟩ := deref_parent _ _ _ _ hd
            simp only [hc, hd, getParent]
            exact ih _ d0 d' pre0 hup hcl rfl rfl (by simp [hP]) (by simpa using hlen) hn
      · simp only [hdir, if_false] at hn ⊢
        by_cases hfl : name = sFileListing
        · simp [hfl] at hn
        · simp only [hfl, if_false] at hn ⊢
          exact ih ll d d' pre hup hcl hin hc hd0 hlen hn

theorem fresh_prefix_runs (env : LoaderEnv) (L : Listing) (attribs : Attribs)
    (before a : List XmlEvent) (aBase : List Char) (aListDate : Nat) (dupesInFilelist : Bool)
    (d : Nat) (hcl : L.closing = false) (hbefore : ∀ ev ∈ before, isListingStart ev = false)
    (hnest : nestingDepth env a 0 = some d) :
    ∃ ll ptr, runLoader env (initLoader L false aBase aListDate dupesInFilelist)
        (before ++ XmlEvent.startTag sFileListing attribs false :: a) = (ll, none) ∧
      ll.updating = false ∧ ll.closing = false ∧ ll.inListing = true ∧ ll.cur = some ptr ∧
      (deref ll.root ptr).isSome = true ∧ ptr.length = d := by
  have hb := runLoader_outside_listing env before
    (initLoader L false aBase aListDate dupesInFilelist) rfl hcl hbefore
  have h0 : stepLoader env (initLoader L false aBase aListDate dupesInFilelist)
      (XmlEvent.startTag sFileListing attribs false)
      = .ok { initLoader L false aBase aListDate dupesInFilelist with inListing := true } := by
    simp [stepLoader, startTag, startListing, initLoader, hcl]
  obtain ⟨ll1, pre1, hrun1, hup1, hcl1, hin1, hc1, hd1, hlen1⟩ :=
    fresh_body_cursor env a []
      { initLoader L false aBase aListDate dupesInFilelist with inListing := true } 0 d []
      rfl hcl rfl rfl (by simp [deref]) rfl hnest
  refine ⟨ll1, pre1, ?_, hup1, hcl1, hin1, by simpa using hc1, by simpa using hd1, hlen1⟩
  rw [runLoader_append, hb]
  simp only [runLoader, h0]
  exact hrun1

/-- C30: in a fresh load whose closing flag is not set, with any callbacks other than a
listing root tag before the listing root tag and a well-nested body inside it: the callbacks
before the listing root tag leave the loader as it was; after every part of the body no
callback has thrown and the cursor is a directory of the tree (it is not null); after a
`Directory` element of the body has closed, whether it has a well-nested content and an end
tag or is self-closing, the cursor is again the directory it was when the element opened;
and when the listing root tag has closed the cursor is the root of the tree. -/
theorem fresh_load_cursor_never_null (env : LoaderEnv) (L : Listing) (attribs : Attribs)
    (before body : List XmlEvent) (aBase : List Char) (aListDate : Nat)
    (dupesInFilelist : Bool) (hcl : L.closing = false)
    (hbefore : ∀ ev ∈ before, isListingStart ev = false)
    (hnest : nestingDepth env body 0 = some 0) :
    runLoader env (initLoader L false aBase aListDate dupesInFilelist) before
      = (initLoader L false aBase aListDate dupesInFilelist, none) ∧
    (∀ a b, body = a ++ b →
      (runLoader env (initLoader L false aBase aListDate dupesInFilelist)
        (before ++ XmlEvent.startTag sFileListing attribs false :: a)).2 = none ∧
      ∃ ptr, (runLoader env (initLoader L false aBase aListDate dupesInFilelist)
          (before ++ XmlEvent.startTag sFileListing attribs false :: a)).1.cur = some ptr ∧
        (deref (runLoader env (initLoader L false aBase aListDate dupesInFilelist)
          (before ++ XmlEvent.startTag sFileListing attribs false :: a)).1.root
          ptr).isSome = true) ∧
    (∀ a inner b dirAttribs,
      body = a ++ (XmlEvent.startTag sDirectory dirAttribs false
        :: (inner ++ [XmlEvent.endTag sDirectory])) ++ b →
      nestingDepth env inner 0 = some 0 →
      (runLoader env (initLoader L false aBase aListDate dupesInFilelist)
        (before ++ XmlEvent.startTag sFileListing attribs false
          :: (a ++ (XmlEvent.startTag sDirectory dirAttribs false
            :: (inner ++ [XmlEvent.endTag sDirectory]))))).1.cur
        = (runLoader env (initLoader L false aBase aListDate dupesInFilelist)
          (before ++ XmlEvent.startTag sFileListing attribs false :: a)).1.cur) ∧
    (∀ a b dirAttribs,
      body = a ++ XmlEvent.startTag sDirectory dirAttribs true :: b →
      (runLoader env (initLoader L false aBase aListDate dupesInFilelist)
        (before ++ XmlEvent.startTag sFileListing attribs false
          :: (a ++ [XmlEvent.startTag sDirectory dirAttribs true]))).1.cur
        = (runLoader env (initLoader L false aBase aListDate dupesInFilelist)
          (before ++ XmlEvent.startTag sFileListing attribs false :: a)).1.cur) ∧
    (runLoader env (initLoader L false aBase aListDate dupesInFilelist)
      (before ++ XmlEvent.startTag sFileListing attribs false
        :: (body ++ [XmlEvent.endTag sFileListing]))).2 = none ∧
    (runLoader env (initLoader L false aBase aListDate dupesInFilelist)
      (before ++ XmlEvent.startTag sFileListing attribs false
        :: (body ++ [XmlEvent.endTag sFileListing]))).1.cur = some [] := by
  have hne : ¬ (sFileListing = sDirectory) := by decide
  have hname : ∀ (a rest : List XmlEvent) (dirAttribs : Attribs) (simple : Bool),
      body = a ++ XmlEvent.startTag sDirectory dirAttribs simple :: rest →
      ∃ da, nestingDepth env a 0 = some da ∧
        (env.getAttrib dirAttribs sName 0).isEmpty = false := by
    intro a rest dirAttribs simple hbody
    rw [hbody, nestingDepth_append] at hnest
    cases ha : nestingDepth env a 0 with
    | none => simp [ha] at hnest
    | some da =>
      refine ⟨da, rfl, ?_⟩
      simp only [ha, Option.some_bind, nestingDepth, if_true] at hnest
      cases hn : (env.getAttrib dirAttribs sName 0).isEmpty with
      | true => simp [hn] at hnest
      | false => rfl
  have helem : ∀ (a elem : List XmlEvent) (da : Nat), nestingDepth env a 0 = some da →
      nestingDepth env elem 0 = some 0 →
      (runLoader env (initLoader L false aBase aListDate dupesInFilelist)
        (before ++ XmlEvent.startTag sFileListing attribs false :: (a ++ elem))).1.cur
        = (runLoader env (initLoader L false aBase aListDate dupesInFilelist)
          (before ++ XmlEvent.startTag sFileListing attribs false :: a)).1.cur := by
    intro a elem da ha he
    obtain ⟨ll, ptr, hrun, hup, hcl1, hin, hc, hd, _⟩ :=
      fresh_prefix_runs env L attribs before a aBase aListDate dupesInFilelist da hcl hbefore ha
    obtain ⟨ll2, pre2, hrun2, _, _, _, hc2, _, hlen2⟩ :=
      fresh_body_cursor env elem ptr ll 0 0 [] hup hcl1 hin (by simpa using hc)
        (by simpa using hd) rfl he
    have hp : pre2 = [] := List.length_eq_zero.mp hlen2
    subst hp
    have hsplit : before ++ XmlEvent.startTag sFileListing attribs false :: (a ++ elem)
        = (before ++ XmlEvent.startTag sFileListing attribs false :: a) ++ elem := by simp
    rw [hsplit, runLoader_append, hrun]
    simp only [hrun2]
    simpa using hc2.trans hc.symm
  refine ⟨runLoader_outside_listing env before _ rfl hcl hbefore, ?_, ?_, ?_, ?_⟩
  · intro a b hbody
    rw [hbody, nestingDepth_append] at hnest
    cases ha : nestingDepth env a 0 with
    | none => simp [ha] at hnest
    | some da =>
      obtain ⟨ll, ptr, hrun, _, _, _, hc, hd, _⟩ :=
        fresh_prefix_runs env L attribs before a aBase aListDate dupesInFilelist da hcl
          hbefore ha
      rw [hrun]
      exact ⟨rfl, ptr, hc, hd⟩
  · intro a inner b dirAttribs hbody hinner
    obtain ⟨da, ha, hn⟩ := hname a (inner ++ XmlEvent.endTag sDirectory :: b) dirAttribs false
      (by rw [hbody]; simp)
    refine helem a _ da ha ?_
    simp only [nestingDepth, if_true, hn, Bool.false_eq_true, if_false]
    rw [nestingDepth_append]
    have := nestingDepth_shift env inner 1 0 0 hinner
    simp only [Nat.zero_add] at this
    simp [this, nestingDepth]
  · intro a b dirAttribs hbody
    obtain ⟨da, ha, hn⟩ := hname a b dirAttribs true hbody
    refine helem a _ da ha ?_
    simp [nestingDepth, hn]
  · obtain ⟨ll, ptr, hrun, hup, hcl1, hin, hc, hd, hlen⟩ :=
      fresh_prefix_runs env L attribs before body aBase aListDate dupesInFilelist 0 hcl
        hbefore hnest
    have hp : ptr = [] := List.length_eq_zero.mp hlen
    subst hp
    have hsplit : before ++ XmlEvent.startTag sFileListing attribs false
          :: (body ++ [XmlEvent.endTag sFileListing])
        = (before ++ XmlEvent.startTag sFileListing attribs false :: body)
          ++ [XmlEvent.endTag sFileListing] := by simp
    rw [hsplit, runLoader_append, hrun]
    simp only [runLoader, stepLoader, endTag, hin, if_true, hne, if_false, hc, deref]
    exact ⟨trivial, trivial⟩

/-- Witness of C30: before the listing root tag a `Directory` tag changes nothing, and in the
body `<Directory Name="A"> <Directory Name="B"/> </Directory>` the cursor is at the root
again when the listing root tag has closed. -/
theorem fresh_load_cursor_never_null_witness :
    runLoader testLoaderEnv (initLoader (emptyListing false) false ['/'] 0 false)
        [dirTag ['X']]
      = (initLoader (emptyListing false) false ['/'] 0 false, none) ∧
    (runLoader testLoaderEnv (initLoader (emptyListing false) false ['/'] 0 false)
      ([dirTag ['X']] ++ XmlEvent.startTag sFileListing [(sBase, ['/'])] false
        :: ([dirTag ['A'], incompleteDirTag ['B'], XmlEvent.endTag sDirectory]
          ++ [XmlEvent.endTag sFileListing]))).1.cur = some [] :=
  ⟨(fresh_load_cursor_never_null testLoaderEnv (emptyListing false) [(sBase, ['/'])]
      [dirTag ['X']] [dirTag ['A'], incompleteDirTag ['B'], XmlEvent.endTag sDirectory]
      ['/'] 0 false (by decide) (by decide) (by decide)).1,
    (fresh_load_cursor_never_null testLoaderEnv (emptyListing false) [(sBase, ['/'])]
      [dirTag ['X']] [dirTag ['A'], incompleteDirTag ['B'], XmlEvent.endTag sDirectory]
      ['/'] 0 false (by decide) (by decide) (by decide)).2.2.2.2.2⟩

/-! ### The registry entry of the base path -/

/-- C23 (the code at the failing inputs): an empty partial list is merged with
`<FileListing Base="/Q/"> <Directory Name="R" Incomplete="1"/> </FileListing>`. The
directory `Q\R\` then exists, at the address `[0, 0]`, and the registry does not hold
`/q/r/`. After the listing root tag of a merge with the base path `/Q/R/` the cursor is that
directory and the registry maps `/q/r/` to a null directory with `visited = true`. In the
same way the listing root tag of a merge into `/` of an empty partial list leaves the cursor
at the root and registers `/` with a null directory. -/
theorem listing_root_tag_registers_null_for_unregistered_base :
    getPath (updateXML testLoaderEnv (emptyListing true)
      [listingTag ['/', 'Q', '/'], incompleteDirTag ['R'], XmlEvent.endTag sFileListing]
      ['/', 'Q', '/'] false).1.root [0, 0] = ['Q', '\\', 'R', '\\'] ∧
    dirMapFind ['/', 'q', '/', 'r', '/'] (updateXML testLoaderEnv (emptyListing true)
      [listingTag ['/', 'Q', '/'], incompleteDirTag ['R'], XmlEvent.endTag sFileListing]
      ['/', 'Q', '/'] false).1.baseDirs = none ∧
    (runLoader testLoaderEnv (initLoader (updateXML testLoaderEnv (emptyListing true)
      [listingTag ['/', 'Q', '/'], incompleteDirTag ['R'], XmlEvent.endTag sFileListing]
      ['/', 'Q', '/'] false).1 true ['/', 'Q', '/', 'R', '/'] 0 false)
      [listingTag ['/', 'Q', '/', 'R', '/']]).1.cur = some [0, 0] ∧
    (runLoader testLoaderEnv (initLoader (updateXML testLoaderEnv (emptyListing true)
      [listingTag ['/', 'Q', '/'], incompleteDirTag ['R'], XmlEvent.endTag sFileListing]
      ['/', 'Q', '/'] false).1 true ['/', 'Q', '/', 'R', '/'] 0 false)
      [listingTag ['/', 'Q', '/', 'R', '/']]).1.baseLower = ['/', 'q', '/', 'r', '/'] ∧
    dirMapFind ['/', 'q', '/', 'r', '/']
      (runLoader testLoaderEnv (initLoader (updateXML testLoaderEnv (emptyListing true)
        [listingTag ['/', 'Q', '/'], incompleteDirTag ['R'], XmlEvent.endTag sFileListing]
        ['/', 'Q', '/'] false).1 true ['/', 'Q', '/', 'R', '/'] 0 false)
        [listingTag ['/', 'Q', '/', 'R', '/']]).1.baseDirs = some (none, true) ∧
    (runLoader testLoaderEnv (initLoader (emptyListing true) true ['/'] 0 false)
      [listingTag ['/']]).1.cur = some [] ∧
    dirMapFind ['/']
      (runLoader testLoaderEnv (initLoader (emptyListing true) true ['/'] 0 false)
        [listingTag ['/']]).1.baseDirs = some (none, true) := by
  refine ⟨by decide, by decide, by decide, by decide, by decide, by decide, by decide⟩

/-! ### The cursor of the search results -/

theorem changeDirectory_searchResults (env : Collaborators) (L : Listing) (aPath : List Char)
    (aReloadMode : ReloadMode) (aIsSearchChange : Bool) :
    (changeDirectory env L aPath aReloadMode aIsSearchChange).1.searchResults
      = L.searchResults := by
  unfold changeDirectory
  split
  · simp
  · split
    · simp
    · split
      · simp [updateCurrentLocation]
      · split
        · simp [updateCurrentLocation]
        · split
          · cases env.addListError <;> simp [updateCurrentLocation]
          · simp [updateCurrentLocation]

theorem nextResult_on_nonempty (env : Collaborators) (L : Listing) (prev : Bool)
    (hcur : L.curResult < L.searchResults.length) (hsize : L.searchResults.length < 2 ^ 64) :
    ∃ L' r, nextResult env L prev = some (L', r) ∧
      L'.searchResults = L.searchResults ∧ L'.curResult < L'.searchResults.length ∧
      (prev = true → L.curResult = 0 → L' = L ∧ r = false) ∧
      (prev = false → L.curResult + 1 = L.searchResults.length → L' = L ∧ r = false) ∧
      (prev = true → 0 < L.curResult → r = true ∧ L'.curResult = L.curResult - 1 ∧
        L' = (changeDirectory env { L with curResult := L.curResult - 1 }
          (L.searchResults.getD (L.curResult - 1) []) ReloadMode.RELOAD_NONE true).1) ∧
      (prev = false → L.curResult + 1 < L.searchResults.length → r = true ∧
        L'.curResult = L.curResult + 1 ∧
        L' = (changeDirectory env { L with curResult := L.curResult + 1 }
          (L.searchResults.getD (L.curResult + 1) []) ReloadMode.RELOAD_NONE true).1) := by
  have hmod1 : L.curResult % 2 ^ 64 = L.curResult := Nat.mod_eq_of_lt (by omega)
  have hmod2 : (L.searchResults.length + 2 ^ 64 - 1) % 2 ^ 64 = L.searchResults.length - 1 := by
    have : L.searchResults.length + 2 ^ 64 - 1 = (L.searchResults.length - 1) + 2 ^ 64 := by
      omega
    rw [this, Nat.add_mod_right]
    exact Nat.mod_eq_of_lt (by omega)
  cases prev with
  | true =>
    by_cases h0 : L.curResult = 0
    · refine ⟨L, false, by simp [nextResult, h0], rfl, hcur, ?_, ?_, ?_, ?_⟩
      · intro _ _; exact ⟨rfl, rfl⟩
      · intro h; cases h
      · intro _ h; omega
      · intro h; cases h
    · have hlt : L.curResult - 1 < L.searchResults.length := by omega
      have hget : L.searchResults[L.curResult - 1]? = some (L.searchResults[L.curResult - 1]) :=
        List.getElem?_eq_getElem hlt
      have hgetD : L.searchResults.getD (L.curResult - 1) [] = L.searchResults[L.curResult - 1] := by
        simp [List.getD, hget]
      refine ⟨(changeDirectory env { L with curResult := L.curResult - 1 }
        (L.searchResults[L.curResult - 1]) ReloadMode.RELOAD_NONE true).1, true,
        by simp only [nextResult, if_true, h0, if_false, hget], ?_, ?_, ?_, ?_, ?_, ?_⟩
      · rw [changeDirectory_searchResults]
      · rw [changeDirectory_searchResults, (changeDirectory_keeps_search _ _ _ _ _).2.2.1]
        exact hlt
      · intro _ h; exact absurd h h0
      · intro h; cases h
      · intro _ _
        refine ⟨rfl, ?_, ?_⟩
        · rw [(changeDirectory_keeps_search _ _ _ _ _).2.2.1]
        · rw [hgetD]
      · intro h; cases h
  | false =>
    by_cases hlast : L.curResult + 1 = L.searchResults.length
    · have hthis : L.curResult = L.searchResults.length - 1 := by omega
      refine ⟨L, false, ?_, rfl, hcur, ?_, ?_, ?_, ?_⟩
      · simp only [nextResult, Bool.false_eq_true, if_false, hmod1, hmod2]
        rw [if_pos hthis]
      · intro h; cases h
      · intro _ _; exact ⟨rfl, rfl⟩
      · intro h; cases h
      · intro _ h; omega
    · have hlt : L.curResult + 1 < L.searchResults.length := by omega
      have hne : ¬ (L.curResult = L.searchResults.length - 1) := by omega
      have hget : L.searchResults[L.curResult + 1]? = some (L.searchResults[L.curResult + 1]) :=
        List.getElem?_eq_getElem hlt
      have hgetD : L.searchResults.getD (L.curResult + 1) [] = L.searchResults[L.curResult + 1] := by
        simp [List.getD, hget]
      refine ⟨(changeDirectory env { L with curResult := L.curResult + 1 }
        (L.searchResults[L.curResult + 1]) ReloadMode.RELOAD_NONE true).1, true,
        ?_, ?_, ?_, ?_, ?_, ?_, ?_⟩
      · simp only [nextResult, Bool.false_eq_true, if_false, hmod1, hmod2]
        rw [if_neg hne]
        simp only [hget]
      · rw [changeDirectory_searchResults]
      · rw [changeDirectory_searchResults, (changeDirectory_keeps_search _ _ _ _ _).2.2.1]
        exact hlt
      · intro h; cases h
      · intro _ h; exact absurd h hlast
      · intro h; cases h
      · intro _ _
        refine ⟨rfl, ?_, ?_⟩
        · rw [(changeDirectory_keeps_search _ _ _ _ _).2.2.1]
        · rw [hgetD]

/-- C28 (the code at the failing input): a listing whose result set is empty, with the
cursor at the beginning. A step backward returns `false` and changes nothing. A step forward
compares the position 0 with `size() - 1`, which is 2^64 - 1 in `size_t`, so it does not
return `false`: it moves the iterator beyond the end of the empty set and reads it, which
is undefined. With the two results of `searchedListing` the steps are as the claim says:
forward from the first goes to the second, forward from the last returns `false`. -/
theorem nextResult_empty_set_forward_undefined :
    (listingOf scenarioRoot false).searchResults = [] ∧
    nextResult testCollaborators (listingOf scenarioRoot false) true
      = some (listingOf scenarioRoot false, false) ∧
    nextResult testCollaborators (listingOf scenarioRoot false) false = none ∧
    (nextResult testCollaborators searchedListing false).map
      (fun r => (r.1.curResult, r.2)) = some (1, true) ∧
    nextResult testCollaborators { searchedListing with curResult := 1 } false
      = some ({ searchedListing with curResult := 1 }, false) := by
  refine ⟨by decide, by decide, by decide, by decide, by decide⟩

/-! ### The bundle builder -/

theorem downloadDirs_eq_map (env : DownloadEnv) (aTarget : List Char) (ds : List Directory) :
    downloadDirs env aTarget ds
      = ds.map (fun d => download env (aTarget ++ d.getName ++ [env.pathSeparator]) d) := by
  induction ds with
  | nil => rfl
  | cons d ds ih => simp [downloadDirs, ih]

theorem permute_map {α β : Type} (f : α → β) (order : List Nat) (l : List α) :
    permute order (l.map f) = (permute order l).map f := by
  unfold permute
  induction order with
  | nil => rfl
  | cons i is ih =>
    simp only [List.filterMap_cons, List.getElem?_map]
    cases l[i]? with
    | none => simpa using ih
    | some a => simpa using ih

theorem filterMap_range_getElem? {α : Type} (l : List α) :
    (List.range l.length).filterMap (fun i => l[i]?) = l := by
  induction l using List.reverseRecOn with
  | nil => rfl
  | append_singleton l a ih =>
    rw [List.length_append, List.length_singleton, List.range_succ, List.filterMap_append]
    have h1 : (List.range l.length).filterMap (fun i => (l ++ [a])[i]?)
        = (List.range l.length).filterMap (fun i => l[i]?) := by
      apply List.filterMap_congr
      intro i hi
      rw [List.mem_range] at hi
      exact List.getElem?_append_left hi
    rw [h1, ih]
    simp

theorem permute_perm {α : Type} (order : List Nat) (l : List α)
    (h : order.Perm (List.range l.length)) : (permute order l).Perm l := by
  have := h.filterMap (fun i => l[i]?)
  rw [filterMap_range_getElem?] at this
  exact this

theorem sortsNames_spec (env : DownloadEnv) (names : List (List Char))
    (h : sortsNames env names = true) :
    (env.sortOrder names).Perm (List.range names.length) ∧
    (env.sortOrder names).Pairwise
      (fun i j => ¬ (env.compare (names.getD j []) (names.getD i []) < 0)) := by
  simpa [sortsNames] using h

theorem sortsTreeDirs_mem (env : DownloadEnv) (ds : List Directory)
    (h : sortsTreeDirs env ds = true) : ∀ d ∈ ds, sortsTree env d = true := by
  induction ds with
  | nil => intro d hd; cases hd
  | cons e es ih =>
    simp only [sortsTreeDirs, Bool.and_eq_true] at h
    intro d hd
    rcases List.mem_cons.mp hd with rfl | hd
    · exact h.1
    · exact ih h.2 d hd

theorem download_getName (env : DownloadEnv) (aTarget : List Char) (d : Directory) :
    (download env aTarget d).1.getName = d.getName := by
  cases d with
  | mk info ds fs => simp [download, Directory.getName, Directory.info]

theorem joinPath_append (sep : Char) (a b : List (List Char)) :
    joinPath sep (a ++ b) = joinPath sep a ++ joinPath sep b := by
  induction a with
  | nil => rfl
  | cons n ns ih => simp [joinPath, ih]

theorem download_plan_perm (env : DownloadEnv) (aTarget : List Char) (d : Directory) :
    sortsTree env d = true → ∀ path,
      (download env (aTarget ++ joinPath env.pathSeparator path) d).2.Perm
        ((listFiles d path).map (entryAt env aTarget)) := by
  induction d using Directory.induct with
  | h info ds fs ih =>
    intro hs path
    simp only [sortsTree, Bool.and_eq_true] at hs
    obtain ⟨⟨hsd, hsf⟩, hst⟩ := hs
    have hmem := sortsTreeDirs_mem env ds hst
    have hdirs : ∀ es : List Directory, (∀ e ∈ es, e ∈ ds) →
        ((es.map (fun e => download env
          (aTarget ++ joinPath env.pathSeparator path ++ e.getName ++ [env.pathSeparator])
          e)).map Prod.snd).flatten.Perm ((listFilesDirs es path).map (entryAt env aTarget)) := by
      intro es
      induction es with
      | nil => intro _; simp [listFilesDirs]
      | cons e es ihes =>
        intro hsub
        have he := ih e (hsub e (List.mem_cons_self _ _)) (hmem e (hsub e (List.mem_cons_self _ _)))
          (path ++ [e.getName])
        have hpath : aTarget ++ joinPath env.pathSeparator (path ++ [e.getName])
            = aTarget ++ joinPath env.pathSeparator path ++ e.getName ++ [env.pathSeparator] := by
          simp [joinPath_append, joinPath]
        rw [hpath] at he
        simp only [List.map_cons, List.flatten_cons, listFilesDirs, List.map_append]
        exact he.append (ihes (fun x hx => hsub x (List.mem_cons_of_mem _ hx)))
    have hpd := (sortsNames_spec env _ hsd).1
    have hpf := (sortsNames_spec env _ hsf).1
    rw [List.length_map] at hpd hpf
    simp only [download, listFiles, List.map_append, downloadDirs_eq_map]
    have h1 : ((permute (env.sortOrder (ds.map Directory.getName))
        (ds.map (fun e => download env
          (aTarget ++ joinPath env.pathSeparator path ++ e.getName ++ [env.pathSeparator])
          e))).map Prod.snd).flatten.Perm
        ((listFilesDirs ds path).map (entryAt env aTarget)) := by
      refine List.Perm.trans ?_ (hdirs ds (fun _ h => h))
      apply List.Perm.flatten
      apply List.Perm.map
      apply permute_perm
      rw [List.length_map]
      exact hpd
    have h2 : ((permute (env.sortOrder (fs.map File.name)) fs).map
        (fun f => BundleFileInfo.mk (aTarget ++ joinPath env.pathSeparator path ++ f.name)
          f.tthRoot f.size)).Perm
        ((fs.map (fun f => (path, f))).map (entryAt env aTarget)) := by
      rw [List.map_map]
      refine ((permute_perm _ fs hpf).map _).trans ?_
      apply List.Perm.of_eq
      apply List.map_congr_left
      intro f _
      simp [entryAt]
    exact (h1.append h2).trans List.perm_append_comm

theorem listFilesDirs_perm (f : Directory → Directory)
    (hname : ∀ e, (f e).getName = e.getName) (es : List Directory)
    (hfiles : ∀ e ∈ es, ∀ path, (listFiles (f e) path).Perm (listFiles e path))
    (path : List (List Char)) :
    (listFilesDirs (es.map f) path).Perm (listFilesDirs es path) := by
  induction es with
  | nil => simp [listFilesDirs]
  | cons e es ih =>
    simp only [List.map_cons, listFilesDirs, hname]
    exact (hfiles e (List.mem_cons_self _ _) _).append
      (ih (fun x hx => hfiles x (List.mem_cons_of_mem _ hx)))

theorem listFilesDirs_of_perm (l1 l2 : List Directory) (h : l1.Perm l2)
    (path : List (List Char)) : (listFilesDirs l1 path).Perm (listFilesDirs l2 path) := by
  induction h with
  | nil => exact List.Perm.refl _
  | cons x _ ih => simp only [listFilesDirs]; exact (List.Perm.refl _).append ih
  | swap x y l =>
    simp only [listFilesDirs, ← List.append_assoc]
    exact List.perm_append_comm.append (List.Perm.refl _)
  | trans _ _ ih1 ih2 => exact ih1.trans ih2

theorem allDirsList_perm_map (f : Directory → Directory) (es : List Directory)
    (h : ∀ e ∈ es, ((allDirs (f e)).map Directory.info).Perm ((allDirs e).map Directory.info)) :
    ((allDirsList (es.map f)).map Directory.info).Perm
      ((allDirsList es).map Directory.info) := by
  induction es with
  | nil => simp [allDirsList]
  | cons e es ih =>
    simp only [List.map_cons, allDirsList, List.map_append]
    exact (h e (List.mem_cons_self _ _)).append
      (ih (fun x hx => h x (List.mem_cons_of_mem _ hx)))

theorem allDirsList_of_perm (l1 l2 : List Directory) (h : l1.Perm l2) :
    (allDirsList l1).Perm (allDirsList l2) := by
  induction h with
  | nil => exact List.Perm.refl _
  | cons x _ ih => simp only [allDirsList]; exact (List.Perm.refl _).append ih
  | swap x y l =>
    simp only [allDirsList, ← List.append_assoc]
    exact List.perm_append_comm.append (List.Perm.refl _)
  | trans _ _ ih1 ih2 => exact ih1.trans ih2

theorem download_tree_perm (env : DownloadEnv) (d : Directory) :
    sortsTree env d = true → ∀ aTarget,
      (∀ path, (listFiles (download env aTarget d).1 path).Perm (listFiles d path)) ∧
      ((allDirs (download env aTarget d).1).map Directory.info).Perm
        ((allDirs d).map Directory.info) := by
  induction d using Directory.induct with
  | h info ds fs ih =>
    intro hs aTarget
    simp only [sortsTree, Bool.and_eq_true] at hs
    obtain ⟨⟨hsd, hsf⟩, hst⟩ := hs
    have hmem := sortsTreeDirs_mem env ds hst
    have hpd := (sortsNames_spec env _ hsd).1
    have hpf := (sortsNames_spec env _ hsf).1
    rw [List.length_map] at hpd hpf
    have hfst : (permute (env.sortOrder (ds.map Directory.getName))
        (downloadDirs env aTarget ds)).map Prod.fst
        = permute (env.sortOrder (ds.map Directory.getName))
          (ds.map (fun e => (download env (aTarget ++ e.getName ++ [env.pathSeparator]) e).1)) := by
      rw [downloadDirs_eq_map, ← permute_map, List.map_map]
      rfl
    have hperm : (permute (env.sortOrder (ds.map Directory.getName))
        (ds.map (fun e => (download env (aTarget ++ e.getName ++ [env.pathSeparator]) e).1))).Perm
        (ds.map (fun e => (download env (aTarget ++ e.getName ++ [env.pathSeparator]) e).1)) := by
      apply permute_perm
      rw [List.length_map]
      exact hpd
    constructor
    · intro path
      simp only [download, listFiles, hfst]
      refine List.Perm.append (((permute_perm _ fs hpf).map _)) ?_
      refine (listFilesDirs_of_perm _ _ hperm path).trans ?_
      exact listFilesDirs_perm
        (fun e => (download env (aTarget ++ e.getName ++ [env.pathSeparator]) e).1)
        (fun e => download_getName env _ e) ds
        (fun e he => (ih e he (hmem e he) _).1) path
    · simp only [download, allDirs, hfst, List.map_cons, Directory.info]
      refine List.Perm.cons _ ?_
      refine ((allDirsList_of_perm _ _ hperm).map _).trans ?_
      exact allDirsList_perm_map
        (fun e => (download env (aTarget ++ e.getName ++ [env.pathSeparator]) e).1) ds
        (fun e he => (ih e he (hmem e he) _).2)

/-- C29: for a directory in which `std::sort` keeps its contract, the plan of
`Directory::download` holds one entry per file of the subtree, the files of synthetic
directories included, with the hash and the size of the file: the hash and size pairs of the
plan are those of the files, counted with multiplicity, and the plan is as long as the
subtree has files. The directory that `download` leaves holds the same files under the same
directory names and the same directories as before, in another order. -/
theorem download_one_entry_per_file (env : DownloadEnv) (aTarget : List Char) (D : Directory)
    (h : sortsTree env D = true) :
    ((download env aTarget D).2.map (fun e => (e.tth, e.size))).Perm
      ((listFiles D []).map (fun x => (x.2.tthRoot, x.2.size))) ∧
    (download env aTarget D).2.length = (listFiles D []).length ∧
    (listFiles (download env aTarget D).1 []).Perm (listFiles D []) ∧
    ((allDirs (download env aTarget D).1).map Directory.info).Perm
      ((allDirs D).map Directory.info) ∧
    (allDirs (download env aTarget D).1).length = (allDirs D).length := by
  have hplan := download_plan_perm env aTarget D h []
  simp only [joinPath, List.append_nil] at hplan
  have htree := download_tree_perm env D h aTarget
  refine ⟨?_, ?_, htree.1 [], htree.2, ?_⟩
  · have := hplan.map (fun e => (e.tth, e.size))
    rw [List.map_map] at this
    exact this
  · have := hplan.length_eq
    rw [List.length_map] at this
    exact this
  · have := htree.2.length_eq
    rw [List.length_map, List.length_map] at this
    exact this

/-- Witness of C29: a directory whose only child is synthetic and holds one file; the plan
has the one entry of that file. -/
theorem download_one_entry_per_file_witness :
    ((download testDownloadEnv [] adlsParent).2.map (fun e => (e.tth, e.size))).Perm
      ((listFiles adlsParent []).map (fun x => (x.2.tthRoot, x.2.size))) ∧
    (download testDownloadEnv [] adlsParent).2.length = 1 :=
  ⟨(download_one_entry_per_file testDownloadEnv [] adlsParent (by decide)).1, by decide⟩

theorem descendIdx_modifyIdx_sibling (f : Directory → Directory) (i j : Nat) (hij : i ≠ j)
    (ps : List Nat) :
    ∀ d, descendIdx (modifyIdx f (ps ++ [i]) d) (ps ++ [j]) = descendIdx d (ps ++ [j]) := by
  induction ps with
  | nil =>
    intro d
    cases d with
    | mk info ds fs =>
      simp only [List.nil_append, modifyIdx, descendIdx, Directory.directories]
      rw [getElem?_modifyNth_ne _ _ _ _ hij]
  | cons p ps ih =>
    intro d
    cases d with
    | mk info ds fs =>
      simp only [List.cons_append, modifyIdx, descendIdx, Directory.directories,
        getElem?_modifyNth_eq]
      cases ds[p]? with
      | none => simp
      | some c => simpa using ih c

theorem deref_modifyAt_sibling (root : Directory) (p : Ptr) (i j : Nat) (hij : i ≠ j)
    (f : Directory → Directory) :
    deref (modifyAt root (i :: p) f) (j :: p) = deref root (j :: p) := by
  rw [deref_eq_descendIdx, deref_eq_descendIdx, modifyAt, List.reverse_cons, List.reverse_cons]
  exact descendIdx_modifyIdx_sibling f i j hij _ root

theorem createBundle_at (denv : DownloadEnv) (benv : BundleEnv) (L : Listing)
    (calls : List BundleCall) (aDir : Ptr) (aTarget : List Char) (prio : Nat) (d : Directory)
    (hd : deref L.root aDir = some d) :
    (createBundle denv benv L calls aDir aTarget prio).1.root
      = modifyAt L.root aDir (fun _ => (download denv [] d).1) ∧
    (createBundle denv benv L calls aDir aTarget prio).2.1
      = calls ++ (bundleCallFor denv benv aTarget prio d).toList ∧
    (createBundle denv benv L calls aDir aTarget prio).2.2
      = (match bundleCallFor denv benv aTarget prio d with
        | none => false
        | some c => benv.bundleCreated calls c) := by
  unfold createBundle
  simp only [hd]
  cases bundleCallFor denv benv aTarget prio d with
  | none => simp
  | some c => simp

theorem bundleEach_spec (denv : DownloadEnv) (benv : BundleEnv) (aDir : Ptr)
    (aTarget : List Char) (prio : Nat) (ds : List Directory) (m : Nat) :
    ∀ (k : Nat) (L : Listing) (calls : List BundleCall) (queued : Bool),
      k + m = ds.length → (∀ j, k ≤ j → deref L.root (j :: aDir) = ds[j]?) →
      (bundleEach denv benv aDir aTarget prio (List.range' k m) L calls queued).2.1
        = calls ++ bundleCallsFor denv benv aTarget prio (ds.drop k) ∧
      (bundleEach denv benv aDir aTarget prio (List.range' k m) L calls queued).2.2
        = (queued || anyCreated benv calls (bundleCallsFor denv benv aTarget prio (ds.drop k))) := by
  induction m with
  | zero =>
    intro k L calls queued hk _
    have : ds.drop k = [] := List.drop_eq_nil_of_le (by omega)
    simp [bundleEach, this, bundleCallsFor, anyCreated]
  | succ m ih =>
    intro k L calls queued hk hinv
    have hlt : k < ds.length := by omega
    have hc : deref L.root (k :: aDir) = some ds[k] := by
      rw [hinv k (Nat.le_refl k)]
      exact List.getElem?_eq_getElem hlt
    have hdrop : ds.drop k = ds[k] :: ds.drop (k + 1) := List.drop_eq_getElem_cons hlt
    obtain ⟨hroot, hcalls, hres⟩ := createBundle_at denv benv L calls (k :: aDir)
      (aTarget ++ ds[k].getName ++ [denv.pathSeparator]) prio ds[k] hc
    have hinv' : ∀ j, k + 1 ≤ j →
        deref (createBundle denv benv L calls (k :: aDir)
          (aTarget ++ ds[k].getName ++ [denv.pathSeparator]) prio).1.root (j :: aDir)
          = ds[j]? := by
      intro j hj
      rw [hroot, deref_modifyAt_sibling _ _ _ _ (by omega)]
      exact hinv j (by omega)
    have hstep := ih (k + 1)
      (createBundle denv benv L calls (k :: aDir)
        (aTarget ++ ds[k].getName ++ [denv.pathSeparator]) prio).1
      (createBundle denv benv L calls (k :: aDir)
        (aTarget ++ ds[k].getName ++ [denv.pathSeparator]) prio).2.1
      (queued || (createBundle denv benv L calls (k :: aDir)
        (aTarget ++ ds[k].getName ++ [denv.pathSeparator]) prio).2.2)
      (by omega) hinv'
    simp only [List.range'_succ, bundleEach, hc, Option.map_some', Option.getD_some]
    rw [hstep.1, hstep.2, hcalls, hres, hdrop]
    simp only [bundleCallsFor, List.filterMap_cons]
    cases bundleCallFor denv benv (aTarget ++ ds[k].getName ++ [denv.pathSeparator]) prio ds[k]
      with
    | none => simp
    | some c => simp [anyCreated, Bool.or_assoc]

/-- C26: for a directory `aDir` of the listing. The test of `downloadDirImpl` holds exactly
when the name of the directory does not match the release pattern, it has no files, it has
at least one child directory and the name of every child matches the pattern. When it
holds, `createDirectoryBundle` is called for the children in container order, each with
the target followed by the name of the child and the path separator and with the plan of
that child (a child whose plan is empty or skipped gets no call), and the value returned is
true exactly when one of these calls returned a bundle. When it does not hold,
`downloadDirImpl` is `createBundle` of the directory itself with the target unchanged: at
most one call, and true exactly when it returned a bundle. -/
theorem downloadDirImpl_splits_release_dirs (denv : DownloadEnv) (benv : BundleEnv)
    (L : Listing) (calls : List BundleCall) (aDir : Ptr) (aTarget : List Char) (prio : Nat)
    (d : Directory) (hd : deref L.root aDir = some d) :
    (holdsReleaseDirs benv d = true ↔
      (benv.releaseMatch d.getName = false ∧ d.files = [] ∧ d.directories ≠ [] ∧
        ∀ c ∈ d.directories, benv.releaseMatch c.getName = true)) ∧
    (holdsReleaseDirs benv d = true →
      (downloadDirImpl denv benv L calls aDir aTarget prio).2.1
        = calls ++ bundleCallsFor denv benv aTarget prio d.directories ∧
      (downloadDirImpl denv benv L calls aDir aTarget prio).2.2
        = anyCreated benv calls (bundleCallsFor denv benv aTarget prio d.directories)) ∧
    (holdsReleaseDirs benv d = false →
      downloadDirImpl denv benv L calls aDir aTarget prio
        = createBundle denv benv L calls aDir aTarget prio ∧
      (downloadDirImpl denv benv L calls aDir aTarget prio).2.1
        = calls ++ (bundleCallFor denv benv aTarget prio d).toList ∧
      (downloadDirImpl denv benv L calls aDir aTarget prio).2.2
        = (match bundleCallFor denv benv aTarget prio d with
          | none => false
          | some c => benv.bundleCreated calls c)) := by
  refine ⟨?_, ?_, ?_⟩
  · simp [holdsReleaseDirs, List.isEmpty_iff, and_assoc]
  · intro hrel
    have hspec := bundleEach_spec denv benv aDir aTarget prio d.directories
      d.directories.length 0 L calls false (by omega)
      (fun j _ => by simp [deref, hd])
    simp only [downloadDirImpl, hd, hrel, if_true, List.range_eq_range']
    simpa using hspec
  · intro hrel
    have hdl : downloadDirImpl denv benv L calls aDir aTarget prio
        = createBundle denv benv L calls aDir aTarget prio := by
      simp [downloadDirImpl, hd, hrel]
    obtain ⟨_, h2, h3⟩ := createBundle_at denv benv L calls aDir aTarget prio d hd
    exact ⟨hdl, by rw [hdl]; exact h2, by rw [hdl]; exact h3⟩

/-- Witness of C26: in `releaseRoot` the directory `music` holds release directories: with
the target `T/` two bundles are asked for, with the targets `T/b-2/` and `T/a-1/`, and the
value returned is true. -/
theorem downloadDirImpl_splits_release_dirs_witness :
    (downloadDirImpl testDownloadEnv testBundleEnv (listingOf releaseRoot false) [] [0]
      ['T', '/'] 3).2.1
      = [] ++ bundleCallsFor testDownloadEnv testBundleEnv ['T', '/'] 3
        (Directory.mk (completeInfo ['m', 'u', 's', 'i', 'c'])
          [.mk (completeInfo ['b', '-', '2']) [] [plainFile ['y'] 2 12],
            .mk (completeInfo ['a', '-', '1']) [] [plainFile ['x'] 1 11]] []).directories ∧
    (downloadDirImpl testDownloadEnv testBundleEnv (listingOf releaseRoot false) [] [0]
      ['T', '/'] 3).2.1.map BundleCall.target
      = [['T', '/', 'b', '-', '2', '/'], ['T', '/', 'a', '-', '1', '/']] :=
  ⟨((downloadDirImpl_splits_release_dirs testDownloadEnv testBundleEnv
      (listingOf releaseRoot false) [] [0] ['T', '/'] 3
      (Directory.mk (completeInfo ['m', 'u', 's', 'i', 'c'])
        [.mk (completeInfo ['b', '-', '2']) [] [plainFile ['y'] 2 12],
          .mk (completeInfo ['a', '-', '1']) [] [plainFile ['x'] 1 11]] [])
      (by decide)).2.1 (by decide)).1, by decide⟩

/-! ### Round trip -/

theorem modifyNth_modifyNth {α : Type} (f h : α → α) (l : List α) :
    ∀ i, modifyNth f (modifyNth h l i) i = modifyNth (f ∘ h) l i := by
  induction l with
  | nil => intro i; rfl
  | cons x xs ih =>
    intro i
    cases i with
    | zero => rfl
    | succ n => simp [modifyNth, ih n]

theorem modifyNth_congr {α : Type} (f h : α → α) (l : List α) :
    ∀ i, (∀ x, l[i]? = some x → f x = h x) → modifyNth f l i = modifyNth h l i := by
  induction l with
  | nil => intro i _; rfl
  | cons x xs ih =>
    intro i hx
    cases i with
    | zero => simp [modifyNth, hx x (by simp)]
    | succ n =>
      simp only [modifyNth]
      rw [ih n (fun y hy => hx y (by simpa using hy))]

theorem modifyNth_append_length {α : Type} (f : α → α) (c : α) (l : List α) :
    modifyNth f (l ++ [c]) l.length = l ++ [f c] := by
  induction l with
  | nil => rfl
  | cons x xs ih => simp [modifyNth, ih]

theorem modifyIdx_modifyIdx (f g : Directory → Directory) (is : List Nat) :
    ∀ d, modifyIdx g is (modifyIdx f is d) = modifyIdx (g ∘ f) is d := by
  induction is with
  | nil => intro d; rfl
  | cons i is ih =>
    intro d
    cases d with
    | mk info ds fs =>
      simp only [modifyIdx, modifyNth_modifyNth]
      congr 1
      apply modifyNth_congr
      intro x _
      exact ih x

theorem modifyAt_modifyAt (root : Directory) (p : Ptr) (f g : Directory → Directory) :
    modifyAt (modifyAt root p f) p g = modifyAt root p (g ∘ f) := by
  unfold modifyAt
  exact modifyIdx_modifyIdx f g _ root

theorem modifyIdx_pushDir_child (g : Directory → Directory) (c : Directory) (is : List Nat) :
    ∀ d P, descendIdx d is = some P →
      modifyIdx g (is ++ [P.directories.length]) (modifyIdx (Directory.pushDir c) is d)
        = modifyIdx (Directory.pushDir (g c)) is d := by
  induction is with
  | nil =>
    intro d P h
    simp only [descendIdx, Option.some.injEq] at h
    subst h
    cases d with
    | mk info ds fs =>
      simp only [List.nil_append, modifyIdx, Directory.pushDir, Directory.directories]
      rw [modifyNth_append_length]
  | cons i is ih =>
    intro d P h
    cases d with
    | mk info ds fs =>
      simp only [descendIdx, Directory.directories] at h
      simp only [List.cons_append, modifyIdx, modifyNth_modifyNth]
      congr 1
      apply modifyNth_congr
      intro x hx
      rw [hx] at h
      exact ih x P h

theorem modifyAt_pushDir_child (root : Directory) (p : Ptr) (P c : Directory)
    (g : Directory → Directory) (h : deref root p = some P) :
    modifyAt (modifyAt root p (Directory.pushDir c)) (P.directories.length :: p) g
      = modifyAt root p (Directory.pushDir (g c)) := by
  rw [deref_eq_descendIdx] at h
  unfold modifyAt
  rw [List.reverse_cons]
  exact modifyIdx_pushDir_child g c _ root P h

theorem withRoot_eq (ll : ListLoader) (h : ll.root = R) : ll.withRoot R = ll := by
  cases ll
  simp only [ListLoader.withRoot] at *
  simp [h]

theorem attribLookup_name (n : List Char) (rest : Attribs) :
    attribLookup ((sName, n) :: rest) sName = n := by
  simp [attribLookup]

theorem step_file_fresh (env : LoaderEnv) (w : WriterEnv)
    (hattr : ∀ a n h, env.getAttrib a n h = attribLookup a n) (ll : ListLoader) (ptr : Ptr)
    (P : Directory) (f : File) (hcl : ll.closing = false) (hin : ll.inListing = true)
    (hc : ll.cur = some ptr) (hd : deref ll.root ptr = some P)
    (hf : serializableFile env w f = true) :
    stepLoader env ll (fileEvent w f)
      = .ok (ll.withRoot (modifyAt ll.root ptr (Directory.pushFile (loadedFile env ll f)))) := by
  simp only [serializableFile, Bool.and_eq_true, Bool.not_eq_true', decide_eq_true_eq] at hf
  obtain ⟨⟨⟨⟨hn, hs⟩, ht⟩, hsz⟩, htth⟩ := hf
  have h1 : attribLookup [(sName, f.name), (sSize, w.sizeText f.size),
      (sTTH, w.tthText f.tthRoot)] sName = f.name := by simp [attribLookup]
  have h2 : attribLookup [(sName, f.name), (sSize, w.sizeText f.size),
      (sTTH, w.tthText f.tthRoot)] sSize = w.sizeText f.size := by
    have : ¬ (sName = sSize) := by decide
    simp [attribLookup, List.find?, this]
  have h3 : attribLookup [(sName, f.name), (sSize, w.sizeText f.size),
      (sTTH, w.tthText f.tthRoot)] sTTH = w.tthText f.tthRoot := by
    have : ¬ (sName = sTTH) := by decide
    have : ¬ (sSize = sTTH) := by decide
    simp [attribLookup, List.find?, *]
  have h4 : attribLookup [(sName, f.name), (sSize, w.sizeText f.size),
      (sTTH, w.tthText f.tthRoot)] sDate = [] := by
    have : ¬ (sName = sDate) := by decide
    have : ¬ (sSize = sDate) := by decide
    have : ¬ (sTTH = sDate) := by decide
    simp [attribLookup, List.find?, *]
  simp only [fileEvent, stepLoader, startTag, hcl, hin, if_true, Bool.false_eq_true, if_false,
    startFile, hattr, h1, h2, h3, h4, hn, hs, ht, Bool.false_and, hc, hd, hsz, htth]
  cases ll
  simp only [ListLoader.withRoot, loadedFile] at *
  simp_all

theorem modifyNth_id {α : Type} (l : List α) : ∀ i, modifyNth (fun x => x) l i = l := by
  induction l with
  | nil => intro i; rfl
  | cons x xs ih =>
    intro i
    cases i with
    | zero => rfl
    | succ n => simp [modifyNth, ih n]

theorem modifyIdx_id (is : List Nat) : ∀ d, modifyIdx (fun x => x) is d = d := by
  induction is with
  | nil => intro d; rfl
  | cons i is ih =>
    intro d
    cases d with
    | mk info ds fs =>
      simp only [modifyIdx]
      have : modifyIdx (fun x => x) is = fun x => x := funext ih
      rw [this, modifyNth_id]

theorem modifyAt_id (root : Directory) (p : Ptr) : modifyAt root p (fun x => x) = root :=
  modifyIdx_id _ root

theorem run_files_fresh (env : LoaderEnv) (w : WriterEnv)
    (hattr : ∀ a n h, env.getAttrib a n h = attribLookup a n) (fs : List File) :
    ∀ (ll : ListLoader) (ptr : Ptr) (P : Directory), ll.closing = false → ll.inListing = true →
      ll.cur = some ptr → deref ll.root ptr = some P →
      fs.all (serializableFile env w) = true →
      runLoader env ll (fs.map (fileEvent w))
        = (ll.withRoot (modifyAt ll.root ptr
            (Directory.pushFiles (fs.map (loadedFile env ll)))), none) := by
  induction fs with
  | nil =>
    intro ll ptr P _ _ _ hd _
    have hid : Directory.pushFiles ([] : List File) = fun x => x := rfl
    simp only [List.map_nil, runLoader, hid, modifyAt_id]
    rw [withRoot_eq ll rfl]
  | cons f fs ih =>
    intro ll ptr P hcl hin hc hd hall
    simp only [List.all_cons, Bool.and_eq_true] at hall
    have hstep := step_file_fresh env w hattr ll ptr P f hcl hin hc hd hall.1
    simp only [List.map_cons, runLoader, hstep]
    have hd1 : deref (ll.withRoot (modifyAt ll.root ptr
        (Directory.pushFile (loadedFile env ll f)))).root ptr
        = some (Directory.pushFile (loadedFile env ll f) P) := by
      simp [ListLoader.withRoot, deref_modifyAt, hd]
    rw [ih (ll.withRoot (modifyAt ll.root ptr (Directory.pushFile (loadedFile env ll f)))) ptr _
      hcl hin hc hd1 hall.2]
    simp only [ListLoader.withRoot, modifyAt_modifyAt]
    rfl

theorem pushDirs_mk (info : DirInfo) (ds0 : List Directory) (fs0 : List File)
    (ds : List Directory) :
    Directory.pushDirs ds (.mk info ds0 fs0) = .mk info (ds0 ++ ds) fs0 := by
  induction ds generalizing ds0 with
  | nil => simp [Directory.pushDirs]
  | cons d ds ih =>
    have := ih (ds0 ++ [d])
    simp only [Directory.pushDirs, List.foldl_cons, Directory.pushDir] at this ⊢
    rw [this]
    simp

theorem pushFiles_mk (info : DirInfo) (ds0 : List Directory) (fs0 : List File)
    (fs : List File) :
    Directory.pushFiles fs (.mk info ds0 fs0) = .mk info ds0 (fs0 ++ fs) := by
  induction fs generalizing fs0 with
  | nil => simp [Directory.pushFiles]
  | cons f fs ih =>
    have := ih (fs0 ++ [f])
    simp only [Directory.pushFiles, List.foldl_cons, Directory.pushFile] at this ⊢
    rw [this]
    simp

theorem fileSkeleton_loadedFile (env : LoaderEnv) (ll : ListLoader) (f : File) :
    fileSkeleton (loadedFile env ll f) = fileSkeleton f := rfl

theorem open_dir_fresh (env : LoaderEnv)
    (hattr : ∀ a n h, env.getAttrib a n h = attribLookup a n) (ll : ListLoader) (ptr : Ptr)
    (P : Directory) (n : List Char) (hup : ll.updating = false) (hcl : ll.closing = false)
    (hin : ll.inListing = true) (hc : ll.cur = some ptr) (hd : deref ll.root ptr = some P)
    (hn : n.isEmpty = false) :
    stepLoader env ll (XmlEvent.startTag sDirectory [(sName, n)] false)
      = .ok { ll with
          root := modifyAt ll.root ptr (Directory.pushDir
            (newDirectory env (getPath ll.root ptr) n DirType.TYPE_NORMAL ll.listDate
              (ll.partialList && ll.checkDupe) [] (env.toUInt32 [])))
          cur := some (P.directories.length :: ptr) } := by
  have hne : ¬ (sDirectory = sFile) := by decide
  have h1 : attribLookup [(sName, n)] sName = n := by simp [attribLookup]
  have h2 : attribLookup [(sName, n)] sIncomplete = [] := by
    have : ¬ (sName = sIncomplete) := by decide
    simp [attribLookup, List.find?, this]
  have h3 : attribLookup [(sName, n)] sChildren = [] := by
    have : ¬ (sName = sChildren) := by decide
    simp [attribLookup, List.find?, this]
  have h4 : attribLookup [(sName, n)] sSize = [] := by
    have : ¬ (sName = sSize) := by decide
    simp [attribLookup, List.find?, this]
  have h5 : attribLookup [(sName, n)] sDate = [] := by
    have : ¬ (sName = sDate) := by decide
    simp [attribLookup, List.find?, this]
  simp only [stepLoader, startTag, hcl, hin, if_true, Bool.false_eq_true, if_false, hne,
    startDirectory, hattr, h1, h2, h3, h4, h5, hn, hup, createDirectory, hc, hd,
    enterDirectory, deref_modifyAt_pushDir _ _ _ _ hd, Bool.false_and]
  cases ll
  simp only [tagDirType] at *
  simp_all

theorem run_dirs_fresh (env : LoaderEnv) (w : WriterEnv) (es : List Directory)
    (hP : ∀ e ∈ es, serializable env w e = true →
      ∀ (ll : ListLoader) (ptr : Ptr) (Pd : Directory), ll.updating = false →
        ll.closing = false → ll.inListing = true → ll.cur = some ptr →
        deref ll.root ptr = some Pd →
        ∃ e', skeleton e' = skeleton e ∧
          runLoader env ll (serializeDir w e)
            = (ll.withRoot (modifyAt ll.root ptr (Directory.pushDir e')), none)) :
    serializableDirs env w es = true →
    ∀ (ll : ListLoader) (ptr : Ptr) (Pd : Directory), ll.updating = false →
      ll.closing = false → ll.inListing = true → ll.cur = some ptr →
      deref ll.root ptr = some Pd →
      ∃ es', skeletonDirs es' = skeletonDirs es ∧
        runLoader env ll (serializeDirs w es)
          = (ll.withRoot (modifyAt ll.root ptr (Directory.pushDirs es')), none) := by
  induction es with
  | nil =>
    intro _ ll ptr Pd _ _ _ _ _
    refine ⟨[], rfl, ?_⟩
    have hid : Directory.pushDirs ([] : List Directory) = fun x => x := rfl
    simp only [serializeDirs, runLoader, hid, modifyAt_id]
    rw [withRoot_eq ll rfl]
  | cons e es ih =>
    intro hs ll ptr Pd hup hcl hin hc hd
    simp only [serializableDirs, Bool.and_eq_true] at hs
    obtain ⟨e', hske, hrun⟩ :=
      hP e (List.mem_cons_self _ _) hs.1 ll ptr Pd hup hcl hin hc hd
    have hd1 : deref (ll.withRoot (modifyAt ll.root ptr (Directory.pushDir e'))).root ptr
        = some (Directory.pushDir e' Pd) := by
      simp [ListLoader.withRoot, deref_modifyAt, hd]
    obtain ⟨es', hskes, hrun2⟩ :=
      ih (fun x hx => hP x (List.mem_cons_of_mem _ hx)) hs.2
        (ll.withRoot (modifyAt ll.root ptr (Directory.pushDir e'))) ptr _ hup hcl hin hc hd1
    refine ⟨e' :: es', by simp [skeletonDirs, hske, hskes], ?_⟩
    simp only [serializeDirs]
    rw [runLoader_append, hrun]
    simp only [hrun2]
    simp only [ListLoader.withRoot, modifyAt_modifyAt]
    rfl

theorem run_dir_fresh (env : LoaderEnv) (w : WriterEnv)
    (hattr : ∀ a n h, env.getAttrib a n h = attribLookup a n) (d : Directory) :
    serializable env w d = true →
    ∀ (ll : ListLoader) (ptr : Ptr) (Pd : Directory), ll.updating = false →
      ll.closing = false → ll.inListing = true → ll.cur = some ptr →
      deref ll.root ptr = some Pd →
      ∃ d', skeleton d' = skeleton d ∧
        runLoader env ll (serializeDir w d)
          = (ll.withRoot (modifyAt ll.root ptr (Directory.pushDir d')), none) := by
  induction d using Directory.induct with
  | h info ds fs ih =>
    intro hs ll ptr Pd hup hcl hin hc hd
    simp only [serializable, Bool.and_eq_true, Bool.not_eq_true', decide_eq_true_eq] at hs
    obtain ⟨⟨⟨hname, htype⟩, hfiles⟩, hdirs⟩ := hs
    have hopen := open_dir_fresh env hattr ll ptr Pd info.name hup hcl hin hc hd hname
    -- the loader after the opening tag
    have hd1 := deref_modifyAt_pushDir ll.root ptr Pd
      (newDirectory env (getPath ll.root ptr) info.name DirType.TYPE_NORMAL ll.listDate
        (ll.partialList && ll.checkDupe) [] (env.toUInt32 [])) hd
    obtain ⟨ds', hskd, hrund⟩ := run_dirs_fresh env w ds ih hdirs
      { ll with
        root := modifyAt ll.root ptr (Directory.pushDir
          (newDirectory env (getPath ll.root ptr) info.name DirType.TYPE_NORMAL ll.listDate
            (ll.partialList && ll.checkDupe) [] (env.toUInt32 [])))
        cur := some (Pd.directories.length :: ptr) }
      (Pd.directories.length :: ptr) _ hup hcl hin rfl hd1
    have hd2 : deref (ListLoader.withRoot
        { ll with
          root := modifyAt ll.root ptr (Directory.pushDir
            (newDirectory env (getPath ll.root ptr) info.name DirType.TYPE_NORMAL ll.listDate
              (ll.partialList && ll.checkDupe) [] (env.toUInt32 [])))
          cur := some (Pd.directories.length :: ptr) }
        (modifyAt (modifyAt ll.root ptr (Directory.pushDir
            (newDirectory env (getPath ll.root ptr) info.name DirType.TYPE_NORMAL ll.listDate
              (ll.partialList && ll.checkDupe) [] (env.toUInt32 []))))
          (Pd.directories.length :: ptr) (Directory.pushDirs ds'))).root
        (Pd.directories.length :: ptr)
        = some (Directory.pushDirs ds'
          (newDirectory env (getPath ll.root ptr) info.name DirType.TYPE_NORMAL ll.listDate
            (ll.partialList && ll.checkDupe) [] (env.toUInt32 []))) := by
      simp only [ListLoader.withRoot, deref_modifyAt, hd1, Option.map_some']
    have hrunf := run_files_fresh env w hattr fs _ (Pd.directories.length :: ptr) _
      (show (ListLoader.withRoot
        { ll with
          root := modifyAt ll.root ptr (Directory.pushDir
            (newDirectory env (getPath ll.root ptr) info.name DirType.TYPE_NORMAL ll.listDate
              (ll.partialList && ll.checkDupe) [] (env.toUInt32 [])))
          cur := some (Pd.directories.length :: ptr) }
        (modifyAt (modifyAt ll.root ptr (Directory.pushDir
            (newDirectory env (getPath ll.root ptr) info.name DirType.TYPE_NORMAL ll.listDate
              (ll.partialList && ll.checkDupe) [] (env.toUInt32 []))))
          (Pd.directories.length :: ptr) (Directory.pushDirs ds'))).closing = false from hcl)
      hin rfl hd2 hfiles
    refine ⟨Directory.pushFiles (fs.map (loadedFile env ll)) (Directory.pushDirs ds'
      (newDirectory env (getPath ll.root ptr) info.name DirType.TYPE_NORMAL ll.listDate
        (ll.partialList && ll.checkDupe) [] (env.toUInt32 []))), ?_, ?_⟩
    · simp only [newDirectory, pushDirs_mk, pushFiles_mk, skeleton, List.nil_append,
        List.map_map, hskd, htype]
      congr 1
    · have hne : ¬ (sFileListing = sDirectory) := by decide
      simp only [serializeDir, runLoader, hopen]
      rw [runLoader_append, hrund]
      simp only []
      rw [runLoader_append, hrunf]
      simp only [runLoader, stepLoader, endTag]
      simp only [ListLoader.withRoot, hin, if_true, deref_modifyAt, hd1, Option.map_some',
        getParent, hup, Bool.false_and, Bool.false_eq_true, if_false, modifyAt_modifyAt,
        modifyAt_pushDir_child _ _ _ _ _ hd, deref_modifyAt_pushDir _ _ _ _ hd, loadedFile]
      cases ll
      simp only [loadedFile] at *
      simp_all
      all_goals rfl

/-- C24: a tree `T` whose directories below the root are complete and have non-empty names,
and whose files have a non-empty name and texts for size and hash that are not empty and are
read back as the size and the hash, is serialised in the schema (listing root tag;
`Directory` with `Name`; `File` with `Name`, `Size`, `TTH`). A fresh load of these
callbacks into a listing with an empty root, with `getAttrib` returning the attribute
values and the closing flag not set, returns normally and leaves a root that is complete
and has the structure of `T`: the same directories in the same order with the same names
and completeness states, at every depth, holding files with the same names, sizes and
hashes in the same order. -/
theorem round_trip_rebuilds_tree (env : LoaderEnv) (w : WriterEnv) (L : Listing)
    (T : Directory) (aBase : List Char) (aListDate : Nat) (dupesInFilelist : Bool)
    (hattr : ∀ a n h, env.getAttrib a n h = attribLookup a n) (hcl : L.closing = false)
    (hroot : L.root.directories = [] ∧ L.root.files = [])
    (hdirs : serializableDirs env w T.directories = true)
    (hfiles : T.files.all (serializableFile env w) = true) :
    (loadXML env L (serializeListing w T) false aBase aListDate dupesInFilelist).2 = .ok 0 ∧
    skeletonDirs (loadXML env L (serializeListing w T) false aBase aListDate
      dupesInFilelist).1.root.directories = skeletonDirs T.directories ∧
    (loadXML env L (serializeListing w T) false aBase aListDate
      dupesInFilelist).1.root.files.map fileSkeleton = T.files.map fileSkeleton ∧
    (loadXML env L (serializeListing w T) false aBase aListDate
      dupesInFilelist).1.root.isComplete = true := by
  have hne : ¬ (sFileListing = sDirectory) := by decide
  obtain ⟨ll0, hll0⟩ : ∃ x : ListLoader,
      x = { initLoader L false aBase aListDate dupesInFilelist with inListing := true } :=
    ⟨_, rfl⟩
  have h0 : stepLoader env (initLoader L false aBase aListDate dupesInFilelist)
      (XmlEvent.startTag sFileListing [(sBase, ['/'])] false) = .ok ll0 := by
    rw [hll0]
    simp [stepLoader, startTag, startListing, initLoader, hcl]
  have hup0 : ll0.updating = false := by rw [hll0]; rfl
  have hcl0 : ll0.closing = false := by rw [hll0]; exact hcl
  have hin0 : ll0.inListing = true := by rw [hll0]
  have hc0 : ll0.cur = some [] := by rw [hll0]; rfl
  have hr0 : ll0.root = L.root := by rw [hll0]; rfl
  have hdl0 : ll0.dirsLoaded = 0 := by rw [hll0]; rfl
  obtain ⟨ds', hskd, hrund⟩ := run_dirs_fresh env w T.directories
    (fun e _ => run_dir_fresh env w hattr e) hdirs ll0 [] ll0.root hup0 hcl0 hin0 hc0 rfl
  have hrunf := run_files_fresh env w hattr T.files
    (ll0.withRoot (modifyAt ll0.root [] (Directory.pushDirs ds'))) []
    (Directory.pushDirs ds' ll0.root) hcl0 hin0 hc0
    (by simp [ListLoader.withRoot, deref, modifyAt, modifyIdx]) hfiles
  have hrun : runLoader env (initLoader L false aBase aListDate dupesInFilelist)
      (serializeListing w T)
      = ({ ll0 with
            root := Directory.setComplete (Directory.pushFiles
              (T.files.map (loadedFile env ll0)) (Directory.pushDirs ds' ll0.root))
            inListing := false }, none) := by
    simp only [serializeListing, runLoader, h0]
    rw [runLoader_append, hrund]
    simp only []
    rw [runLoader_append, hrunf]
    simp only [runLoader, stepLoader, endTag, ListLoader.withRoot, hin0, hc0, if_true, hne,
      if_false, deref, modifyAt, List.reverse_nil, modifyIdx]
    rfl
  cases hL : L.root with
  | mk info0 ds0 fs0 =>
    rw [hL] at hroot
    simp only [Directory.directories, Directory.files] at hroot
    obtain ⟨hd0, hf0⟩ := hroot
    subst hd0; subst hf0
    unfold loadXML
    rw [hrun]
    simp only [hr0, hL, hdl0, pushDirs_mk, pushFiles_mk, List.nil_append,
      Directory.setComplete, Directory.directories, Directory.files, Directory.isComplete,
      Directory.info, List.map_map, hskd, decide_True, and_true, true_and]
    apply List.map_congr_left
    intro f _
    rfl

/-- Witness of C24: the scenario listing (`A/` with `f1` and `B/` with `f2`), written with
decimal texts and loaded into an empty listing, is rebuilt with the same structure. -/
theorem round_trip_rebuilds_tree_witness :
    skeletonDirs (loadXML testLoaderEnv (emptyListing false)
      (serializeListing testWriterEnv scenarioRoot) false ['/'] 0 false).1.root.directories
      = skeletonDirs scenarioRoot.directories :=
  (round_trip_rebuilds_tree testLoaderEnv testWriterEnv (emptyListing false) scenarioRoot ['/']
    0 false (fun _ _ _ => rfl) (by decide) (by decide) (by decide) (by decide)).2.1
/-! ### Lookups in a tree modified below the directory they end at -/

theorem findChild_modifyNth (nameMatch : List Char → List Char → Bool) (name : List Char)
    (g : Directory → Directory) (hg : ∀ x, (g x).getName = x.getName) (ds : List Directory) :
    ∀ (k i : Nat) (c : Directory), findChild nameMatch name ds k = some (k + i, c) →
      findChild nameMatch name (modifyNth g ds i) k = some (k + i, g c) := by
  induction ds with
  | nil => intro k i c h; simp [findChild] at h
  | cons d ds ih =>
    intro k i c h
    rw [findChild] at h
    cases i with
    | zero =>
      by_cases hm : nameMatch d.getName name = true
      · simp only [hm, if_true, Option.some.injEq, Prod.mk.injEq] at h
        obtain ⟨_, rfl⟩ := h
        simp [modifyNth, findChild, hg, hm]
      · simp only [hm, Bool.false_eq_true, if_false] at h
        obtain ⟨j, hj, _, _⟩ := findChild_some nameMatch name ds (k + 1) _ c h
        omega
    | succ n =>
      by_cases hm : nameMatch d.getName name = true
      · simp only [hm, if_true, Option.some.injEq, Prod.mk.injEq] at h
        omega
      · simp only [hm, Bool.false_eq_true, if_false] at h
        have h2 : findChild nameMatch name ds (k + 1) = some (k + 1 + n, c) := by
          rw [h]; congr 2; omega
        have := ih (k + 1) n c h2
        simp only [modifyNth, findChild, hm, Bool.false_eq_true, if_false, this]
        congr 2; omega

theorem findDirectoryAux_modifyIdx (nameMatch : List Char → List Char → Bool)
    (f : Directory → Directory) (hf : ∀ x, (f x).getName = x.getName) (fuel : Nat) :
    ∀ (aName : List Char) (current : Directory) (cur X : Ptr), aName ≠ [] →
      findDirectoryAux nameMatch fuel aName current cur = some X →
      ∃ is, X = is.reverse ++ cur ∧
        findDirectoryAux nameMatch fuel aName (modifyIdx f is current) cur = some X := by
  induction fuel with
  | zero => intro _ _ _ _ _ h; simp [findDirectoryAux] at h
  | succ n ih =>
    intro aName current cur X hne h
    rw [findDirectoryAux] at h
    have he : aName.isEmpty = false := by
      cases aName with
      | nil => exact absurd rfl hne
      | cons a as => rfl
    simp only [he, Bool.false_eq_true, if_false] at h
    cases hs : strFind '\\' aName with
    | none => simp [hs] at h
    | some e =>
      simp only [hs] at h
      cases hfc : findChild nameMatch (List.take e aName) current.directories 0 with
      | none => simp [hfc] at h
      | some ic =>
        obtain ⟨i, child⟩ := ic
        simp only [hfc] at h
        have hlt := strFind_lt '\\' aName e hs
        cases current with
        | mk info ds fs =>
          simp only [Directory.directories] at hfc
          have hfc0 : findChild nameMatch (List.take e aName) ds 0 = some (0 + i, child) := by
            simpa using hfc
          by_cases hend : e = aName.length - 1
          · simp only [hend, if_true, Option.some.injEq] at h
            refine ⟨[i], by simp [← h], ?_⟩
            have h3 := findChild_modifyNth nameMatch (List.take e aName) f hf ds 0 i child hfc0
            simp only [Nat.zero_add] at h3
            rw [findDirectoryAux]
            simp only [he, Bool.false_eq_true, if_false, hs, modifyIdx, Directory.directories,
              h3]
            simp [hend, h]
          · simp only [hend, if_false] at h
            have hne2 : List.drop (e + 1) aName ≠ [] := by
              intro hd
              have := List.drop_eq_nil_iff.mp hd
              omega
            obtain ⟨js, hX, hrec⟩ := ih _ child (i :: cur) X hne2 h
            refine ⟨i :: js, by simp [hX], ?_⟩
            have h3 := findChild_modifyNth nameMatch (List.take e aName) (modifyIdx f js)
              (fun x => modifyIdx_getName f hf js x) ds 0 i child hfc0
            simp only [Nat.zero_add] at h3
            rw [findDirectoryAux]
            simp only [he, Bool.false_eq_true, if_false, hs, modifyIdx, Directory.directories,
              h3, hend]
            exact hrec

theorem findDirectory_modifyAt (nameMatch : List Char → List Char → Bool)
    (f : Directory → Directory) (hf : ∀ x, (f x).getName = x.getName) (root : Directory)
    (aName : List Char) (p : Ptr) (h : findDirectory nameMatch root aName = some p) :
    findDirectory nameMatch (modifyAt root p f) aName = some p := by
  unfold findDirectory at *
  by_cases hne : aName = []
  · subst hne
    simp only [findDirectoryAux, List.isEmpty_nil, if_true, Option.some.injEq] at h ⊢
    exact h
  · obtain ⟨is, hX, hrec⟩ := findDirectoryAux_modifyIdx nameMatch f hf _ aName root [] p hne h
    simp only [List.append_nil] at hX
    subst hX
    simpa [modifyAt] using hrec

theorem findByName_some (name : List Char) (ds : List Directory) :
    ∀ (k j : Nat), findByName name ds k = some j →
      ∃ i c, j = k + i ∧ ds[i]? = some c := by
  induction ds with
  | nil => intro k j h; simp [findByName] at h
  | cons d ds ih =>
    intro k j h
    rw [findByName] at h
    by_cases hm : d.getName = name
    · simp only [hm, if_true, Option.some.injEq] at h
      exact ⟨0, d, by omega, by simp⟩
    · simp only [hm, if_false] at h
      obtain ⟨i, c, hi, hget⟩ := ih (k + 1) j h
      exact ⟨i + 1, c, by omega, by simpa using hget⟩

theorem findByName_modifyNth (name : List Char) (g : Directory → Directory)
    (hg : ∀ x, (g x).getName = x.getName) (ds : List Directory) :
    ∀ (k i : Nat), findByName name (modifyNth g ds i) k = findByName name ds k := by
  induction ds with
  | nil => intro k i; rfl
  | cons d ds ih =>
    intro k i
    cases i with
    | zero => simp [modifyNth, findByName, hg]
    | succ n => simp [modifyNth, findByName, ih]

theorem walkNames_modifyIdx (f : Directory → Directory) (hf : ∀ x, (f x).getName = x.getName)
    (names : List (List Char)) :
    ∀ (current : Directory) (cur X : Ptr), walkNames names current cur = some X →
      ∃ is, X = is.reverse ++ cur ∧ walkNames names (modifyIdx f is current) cur = some X := by
  induction names with
  | nil =>
    intro current cur X h
    simp only [walkNames, Option.some.injEq] at h
    exact ⟨[], by simp [h], by simp [walkNames, h]⟩
  | cons n names ih =>
    intro current cur X h
    rw [walkNames] at h
    cases current with
    | mk info ds fs =>
      simp only [Directory.directories] at h
      cases hfb : findByName n ds 0 with
      | none => simp [hfb] at h
      | some i =>
        simp only [hfb] at h
        cases hget : ds[i]? with
        | none => simp [hget] at h
        | some c =>
          simp only [hget] at h
          obtain ⟨js, hX, hrec⟩ := ih c (i :: cur) X h
          refine ⟨i :: js, by simp [hX], ?_⟩
          rw [walkNames]
          simp only [modifyIdx, Directory.directories,
            findByName_modifyNth n (modifyIdx f js) (fun x => modifyIdx_getName f hf js x),
            hfb, getElem?_modifyNth_eq, hget, Option.map_some']
          exact hrec

theorem walkNames_modifyAt (f : Directory → Directory) (hf : ∀ x, (f x).getName = x.getName)
    (names : List (List Char)) (root : Directory) (p : Ptr)
    (h : walkNames names root [] = some p) :
    walkNames names (modifyAt root p f) [] = some p := by
  obtain ⟨is, hX, hrec⟩ := walkNames_modifyIdx f hf names root [] p h
  simp only [List.append_nil] at hX
  subst hX
  simpa [modifyAt] using hrec

theorem walkNames_deref (names : List (List Char)) (root : Directory) :
    ∀ (current : Directory) (cur X : Ptr), deref root cur = some current →
      walkNames names current cur = some X → (deref root X).isSome = true := by
  induction names with
  | nil =>
    intro current cur X hd h
    simp only [walkNames, Option.some.injEq] at h
    simp [← h, hd]
  | cons n names ih =>
    intro current cur X hd h
    rw [walkNames] at h
    cases hfb : findByName n current.directories 0 with
    | none => simp [hfb] at h
    | some i =>
      simp only [hfb] at h
      cases hget : current.directories[i]? with
      | none => simp [hget] at h
      | some c =>
        simp only [hget] at h
        exact ih c (i :: cur) X (by simp [deref, hd, hget]) h

theorem walkNames_resolveBase (env : LoaderEnv) (listDate : Nat) (root : Directory) (m : DirMap)
    (names : List (List Char)) :
    ∀ (current : Directory) (cur X : Ptr), deref root cur = some current →
      walkNames names current cur = some X →
      resolveBase env listDate names root m (some cur) = some (root, m, some X) := by
  induction names with
  | nil =>
    intro current cur X _ h
    simp only [walkNames, Option.some.injEq] at h
    simp [resolveBase, h]
  | cons n names ih =>
    intro current cur X hd h
    rw [walkNames] at h
    cases hfb : findByName n current.directories 0 with
    | none => simp [hfb] at h
    | some i =>
      simp only [hfb] at h
      cases hget : current.directories[i]? with
      | none => simp [hget] at h
      | some c =>
        simp only [hget] at h
        rw [resolveBase]
        simp only [hd, hfb]
        exact ih c (i :: cur) X (by simp [deref, hd, hget]) h
/-! ### Tags that are read without moving the cursor -/

theorem pathOf_modifyIdx (f : Directory → Directory) (hf : ∀ x, (f x).getName = x.getName)
    (is : List Nat) : ∀ d, pathOf (modifyIdx f is d) is = pathOf d is := by
  induction is with
  | nil => intro d; rfl
  | cons i is ih =>
    intro d
    cases d with
    | mk info ds fs =>
      simp only [modifyIdx, pathOf, Directory.directories, getElem?_modifyNth_eq]
      cases ds[i]? with
      | none => rfl
      | some c => simp [modifyIdx_getName f hf is c, ih c]

theorem getPath_modifyAt (f : Directory → Directory) (hf : ∀ x, (f x).getName = x.getName)
    (root : Directory) (p : Ptr) (D : Directory) (hd : deref root p = some D) :
    getPath (modifyAt root p f) p = getPath root p := by
  rw [getPath_eq_pathOf root p D hd,
    getPath_eq_pathOf (modifyAt root p f) p (f D) (by simp [deref_modifyAt, hd]), modifyAt,
    pathOf_modifyIdx f hf]

theorem addEntries_nil : Directory.addEntries [] [] = fun d => d := by
  funext d
  cases d
  simp [Directory.addEntries]

theorem addEntries_getName (ds : List Directory) (fs : List File) (d : Directory) :
    (Directory.addEntries ds fs d).getName = d.getName := by
  cases d; rfl

theorem addEntries_addEntries (ds1 ds2 : List Directory) (fs1 fs2 : List File) :
    Directory.addEntries ds2 fs2 ∘ Directory.addEntries ds1 fs1
      = Directory.addEntries (ds1 ++ ds2) (fs1 ++ fs2) := by
  funext d
  cases d
  simp [Directory.addEntries]

theorem newDirectory_incomplete (env : LoaderEnv) (pp n : List Char) (children : Bool)
    (ld : Nat) (cd : Bool) (size : List Char) (rd : Nat) :
    (newDirectory env pp n (tagDirType true children) ld cd size rd).isComplete = false := by
  cases children <;> simp [newDirectory, tagDirType, Directory.isComplete, Directory.info]

theorem step_flat_item (env : LoaderEnv) (ll : ListLoader) (ev : XmlEvent) (p : Ptr)
    (P : Directory) (hup : ll.updating = true) (hcl : ll.closing = false)
    (hin : ll.inListing = true) (hc : ll.cur = some p) (hd : deref ll.root p = some P)
    (hflat : flatItem env ev = true)
    (hkey : ∀ n ∈ (payloadDirName env ev).toList, ∀ d v,
      dirMapFind (ll.baseLower ++ env.toLower n ++ ['/']) ll.baseDirs ≠ some (some d, v)) :
    stepLoader env ll ev
      = .ok { ll with
          root := modifyAt ll.root p (Directory.addEntries
            (payloadDir env (getPath ll.root p) ll.listDate (ll.partialList && ll.checkDupe)
              ev).toList
            (payloadFile env ll.checkDupe ev).toList)
          dirsLoaded := ll.dirsLoaded +
            (payloadDir env (getPath ll.root p) ll.listDate (ll.partialList && ll.checkDupe)
              ev).toList.length } := by
  obtain ⟨root, baseDirs, closing, cur, baseLower, base, inListing, updating, checkDupe,
    partialList, dirsLoaded, listDate⟩ := ll
  simp only at hup hcl hin hc hd hkey
  subst hup hcl hin hc
  cases ev with
  | endTag name => simp [flatItem] at hflat
  | startTag name attribs simple =>
    by_cases hf : name = sFile
    · subst hf
      simp only [stepLoader, startTag, if_true, Bool.false_eq_true, if_false,
        startFile, payloadDir, payloadFile, hd]
      split
      · simp [addEntries_nil, modifyAt_id]
      · split
        · simp [addEntries_nil, modifyAt_id]
        · split
          · simp [addEntries_nil, modifyAt_id]
          · have : Directory.pushFile
                (newFile env (env.getAttrib attribs sName 0)
                  (env.toInt64 (env.getAttrib attribs sSize 1))
                  (env.tthValue (env.getAttrib attribs sTTH 2)) checkDupe
                  (env.toUInt32 (env.getAttrib attribs sDate 3)))
                = Directory.addEntries []
                  [newFile env (env.getAttrib attribs sName 0)
                    (env.toInt64 (env.getAttrib attribs sSize 1))
                    (env.tthValue (env.getAttrib attribs sTTH 2)) checkDupe
                    (env.toUInt32 (env.getAttrib attribs sDate 3))] := by
              funext d; cases d; simp [Directory.pushFile, Directory.addEntries]
            simp [this]
    · simp only [flatItem, hf, decide_False, Bool.false_or, Bool.and_eq_true,
        decide_eq_true_eq, Bool.not_eq_true'] at hflat
      obtain ⟨⟨⟨hdir, hsimple⟩, hn⟩, hinc⟩ := hflat
      subst hdir
      subst hsimple
      have hkey2 := hkey (env.getAttrib attribs sName 0) (by simp [payloadDirName, hf])
      have hpush : ∀ c : Directory, Directory.pushDir c = Directory.addEntries [c] [] := by
        intro c; funext d; cases d; simp [Directory.pushDir, Directory.addEntries]
      simp only [stepLoader, startTag, if_true, Bool.false_eq_true, if_false, hf,
        startDirectory, hn, payloadDir, payloadFile, hinc]
      have hcreate : createDirectory env
            { root := root, baseDirs := baseDirs, closing := false, cur := some p,
              baseLower := baseLower, base := base, inListing := true, updating := true,
              checkDupe := checkDupe, partialList := partialList,
              dirsLoaded := dirsLoaded + 1, listDate := listDate } attribs
            (env.getAttrib attribs sName 0) true
          = .ok
            { root := modifyAt root p (Directory.addEntries
                [newDirectory env (getPath root p) (env.getAttrib attribs sName 0)
                  (tagDirType true (decide (env.getAttrib attribs sChildren 2 = ['1'])))
                  listDate (partialList && checkDupe) (env.getAttrib attribs sSize 2)
                  (env.toUInt32 (env.getAttrib attribs sDate 3))] []),
              baseDirs := baseDirs, closing := false, cur := some p,
              baseLower := baseLower, base := base, inListing := true, updating := true,
              checkDupe := checkDupe, partialList := partialList,
              dirsLoaded := dirsLoaded + 1, listDate := listDate } := by
        simp only [createDirectory, hd, enterDirectory, hinc, decide_True,
          deref_modifyAt_pushDir _ _ _ _ hd, if_true, newDirectory_incomplete, Bool.and_false,
          Bool.false_eq_true, if_false, endTag, getParent, Bool.not_true]
        rw [hpush]
      cases hfind : dirMapFind
          (baseLower ++ env.toLower (env.getAttrib attribs sName 0) ++ ['/']) baseDirs with
      | none => simpa using hcreate
      | some e =>
        obtain ⟨d, v⟩ := e
        cases d with
        | none => simpa using hcreate
        | some d => exact absurd hfind (hkey2 d v)
theorem filterMap_cons_toList {α β : Type} (f : α → Option β) (a : α) (l : List α) :
    (a :: l).filterMap f = (f a).toList ++ l.filterMap f := by
  cases h : f a <;> simp [List.filterMap_cons, h]
/-! ### The registry under a reload -/

theorem dirMapFind_filter (sub : List Char → Bool) (k : List Char) (m : DirMap) :
    dirMapFind k (m.filter (fun e => !sub e.1))
      = if sub k then none else dirMapFind k m := by
  induction m with
  | nil => simp [dirMapFind]
  | cons e m ih =>
    obtain ⟨k', v⟩ := e
    by_cases hs : sub k' = true
    · simp only [List.filter_cons, hs, Bool.not_true, Bool.false_eq_true, if_false, ih,
        dirMapFind]
      by_cases hk : k' = k
      · subst hk; simp [hs]
      · simp [hk]
    · simp only [Bool.not_eq_true] at hs
      simp only [List.filter_cons, hs, Bool.not_false, if_true, dirMapFind, ih]
      by_cases hk : k' = k
      · subst hk; simp [hs]
      · simp [hk]

theorem dirMapFind_dirMapSet_ne (key k : List Char) (v : Option Ptr × Bool) (hne : k ≠ key)
    (m : DirMap) : dirMapFind k (dirMapSet key v m) = dirMapFind k m := by
  induction m with
  | nil =>
    have : ¬ key = k := fun h => hne h.symm
    simp [dirMapSet, dirMapFind, this]
  | cons e m ih =>
    obtain ⟨k', v'⟩ := e
    by_cases hk : k' = key
    · subst hk
      have : ¬ k' = k := fun h => hne h.symm
      simp [dirMapSet, dirMapFind, this]
    · by_cases hk2 : k' = k
      · subst hk2
        simp [dirMapSet, dirMapFind, hk]
      · simp [dirMapSet, dirMapFind, hk, hk2, ih]

theorem dirMapFind_dirMapSet_self (key : List Char) (v : Option Ptr × Bool) (m : DirMap) :
    dirMapFind key (dirMapSet key v m) = some v := by
  induction m with
  | nil => simp [dirMapSet, dirMapFind]
  | cons e m ih =>
    obtain ⟨k', v'⟩ := e
    by_cases hk : k' = key
    · simp [dirMapSet, dirMapFind, hk]
    · simp [dirMapSet, dirMapFind, hk, ih]

theorem dirMapFind_dirMapVisit_ne (key k : List Char) (hne : k ≠ key) (m : DirMap) :
    dirMapFind k (dirMapVisit key m) = dirMapFind k m := by
  unfold dirMapVisit
  cases dirMapFind key m with
  | none => exact dirMapFind_dirMapSet_ne key k _ hne m
  | some e => exact dirMapFind_dirMapSet_ne key k _ hne m

theorem dirMapFind_dirMapVisit_self (key : List Char) (m : DirMap) :
    ∃ d, dirMapFind key (dirMapVisit key m) = some (d, true) := by
  unfold dirMapVisit
  cases dirMapFind key m with
  | none => exact ⟨none, dirMapFind_dirMapSet_self key _ m⟩
  | some e => exact ⟨e.1, dirMapFind_dirMapSet_self key _ m⟩

theorem mem_dirMapSet (key : List Char) (v : Option Ptr × Bool) (m : DirMap)
    (e : List Char × Option Ptr × Bool) (h : e ∈ dirMapSet key v m) :
    e.1 = key ∨ e ∈ m := by
  induction m with
  | nil =>
    simp only [dirMapSet, List.mem_singleton] at h
    exact Or.inl (by rw [h])
  | cons x m ih =>
    obtain ⟨k', v'⟩ := x
    by_cases hk : k' = key
    · simp only [dirMapSet, hk, if_true, List.mem_cons] at h
      cases h with
      | inl h => exact Or.inl (by rw [h])
      | inr h => exact Or.inr (List.mem_cons_of_mem _ h)
    · simp only [dirMapSet, hk, if_false, List.mem_cons] at h
      cases h with
      | inl h => exact Or.inr (by rw [h]; exact List.mem_cons_self _ _)
      | inr h =>
        cases ih h with
        | inl h2 => exact Or.inl h2
        | inr h2 => exact Or.inr (List.mem_cons_of_mem _ h2)

theorem mem_dirMapVisit (key : List Char) (m : DirMap) (e : List Char × Option Ptr × Bool)
    (h : e ∈ dirMapVisit key m) : e.1 = key ∨ e ∈ m := by
  unfold dirMapVisit at h
  cases hf : dirMapFind key m with
  | none => rw [hf] at h; exact mem_dirMapSet key _ m e h
  | some x => rw [hf] at h; exact mem_dirMapSet key _ m e h

theorem modifyNth_congr_at {α : Type} (f g : α → α) (l : List α) :
    ∀ i c, l[i]? = some c → f c = g c → modifyNth f l i = modifyNth g l i := by
  induction l with
  | nil => intro i c h; simp at h
  | cons x xs ih =>
    intro i c h hfg
    cases i with
    | zero =>
      simp only [List.getElem?_cons_zero, Option.some.injEq] at h
      subst h
      simp [modifyNth, hfg]
    | succ n =>
      simp only [List.getElem?_cons_succ] at h
      simp [modifyNth, ih n c h hfg]

theorem modifyIdx_congr_at (f g : Directory → Directory) (D : Directory) (hfg : f D = g D)
    (is : List Nat) : ∀ d, descendIdx d is = some D → modifyIdx f is d = modifyIdx g is d := by
  induction is with
  | nil =>
    intro d h
    simp only [descendIdx, Option.some.injEq] at h
    subst h
    exact hfg
  | cons i is ih =>
    intro d h
    cases d with
    | mk info ds fs =>
      simp only [descendIdx, Directory.directories] at h
      cases hget : ds[i]? with
      | none => simp [hget] at h
      | some c =>
        simp only [hget] at h
        simp only [modifyIdx]
        rw [modifyNth_congr_at _ _ ds i c hget (ih c h)]

theorem modifyAt_congr_at (root : Directory) (p : Ptr) (f g : Directory → Directory)
    (D : Directory) (hd : deref root p = some D) (hfg : f D = g D) :
    modifyAt root p f = modifyAt root p g := by
  rw [deref_eq_descendIdx] at hd
  exact modifyIdx_congr_at f g D hfg _ root hd
/-! ### Loading a tree of elements in merge mode -/

/-- Induction over an element of a partial list: a property that holds for files, and for
a directory element whenever it holds for the elements it encloses, holds for every
element. -/
theorem Entry.tree_induct {P : Entry → Prop} (hf : ∀ a s, P (Entry.file a s))
    (hd : ∀ a s cs, (∀ c ∈ cs, P c) → P (Entry.dir a s cs)) (e : Entry) : P e :=
  Entry.rec (motive_1 := P) (motive_2 := fun cs => ∀ c ∈ cs, P c)
    (fun a s => hf a s)
    (fun a s cs ih => hd a s cs ih)
    (fun _ hc => by cases hc)
    (fun c cs hc hcs x hx => by
      rcases List.mem_cons.mp hx with rfl | hx
      · exact hc
      · exact hcs x hx) e

theorem dirMapFind_mem (k : List Char) (v : Option Ptr × Bool) (m : DirMap)
    (h : dirMapFind k m = some v) : (k, v) ∈ m := by
  induction m with
  | nil => simp [dirMapFind] at h
  | cons e m ih =>
    obtain ⟨k', v'⟩ := e
    by_cases hk : k' = k
    · subst hk
      simp only [dirMapFind, if_true, Option.some.injEq] at h
      subst h
      exact List.mem_cons_self _ _
    · simp only [dirMapFind, hk, if_false] at h
      exact List.mem_cons_of_mem _ (ih h)

theorem registeredKeys_append (a b : List (List Char × Bool)) :
    registeredKeys (a ++ b) = registeredKeys a ++ registeredKeys b := by
  simp [registeredKeys]

theorem keysFresh_append (a b : List (List Char × Bool)) :
    ∀ regs, keysFresh regs (a ++ b)
      = (keysFresh regs a && keysFresh ((registeredKeys a).reverse ++ regs) b) := by
  induction a with
  | nil => intro regs; simp [keysFresh, registeredKeys]
  | cons x a ih =>
    intro regs
    obtain ⟨k, c⟩ := x
    cases c with
    | true =>
      rw [List.cons_append, keysFresh, keysFresh]
      simp only [if_true]
      rw [ih]
      simp [registeredKeys, Bool.and_assoc]
    | false =>
      rw [List.cons_append, keysFresh, keysFresh]
      simp only [Bool.false_eq_true, if_false]
      rw [ih]
      simp [registeredKeys, Bool.and_assoc]

theorem newDirectory_isComplete (env : LoaderEnv) (pp n : List Char) (inc children : Bool)
    (ld : Nat) (cd : Bool) (size : List Char) (rd : Nat) :
    (newDirectory env pp n (tagDirType inc children) ld cd size rd).isComplete = !inc := by
  cases inc <;> cases children <;>
    simp [newDirectory, tagDirType, Directory.isComplete, Directory.info]

theorem newDirectory_getName (env : LoaderEnv) (pp n : List Char) (t : DirType)
    (ld : Nat) (cd : Bool) (size : List Char) (rd : Nat) :
    (newDirectory env pp n t ld cd size rd).getName = n := rfl

theorem newDirectory_directories (env : LoaderEnv) (pp n : List Char) (t : DirType)
    (ld : Nat) (cd : Bool) (size : List Char) (rd : Nat) :
    (newDirectory env pp n t ld cd size rd).directories = [] := rfl

theorem addEntries_isComplete (ds : List Directory) (fs : List File) (d : Directory) :
    (Directory.addEntries ds fs d).isComplete = d.isComplete := by
  cases d; rfl

theorem pushDir_getName (c d : Directory) : (Directory.pushDir c d).getName = d.getName := by
  cases d; rfl

theorem getPath_pushDir_child (root : Directory) (q : Ptr) (Q c : Directory)
    (hd : deref root q = some Q) :
    getPath (modifyAt root q (Directory.pushDir c)) (Q.directories.length :: q)
      = getPath root q ++ c.getName ++ ['\\'] := by
  rw [getPath, deref_modifyAt_pushDir root q Q c hd,
    getPath_modifyAt _ (pushDir_getName c) root q Q hd]

/-- The start tag of a `Directory` element with a `Name` whose registry path is not
registered with a directory: the directory is created under the cursor, registered when
the tag is not marked `Incomplete`, and becomes the cursor. -/
theorem open_dir_merge (env : LoaderEnv) (ll : ListLoader) (a : Attribs) (q : Ptr)
    (Q : Directory) (hup : ll.updating = true) (hcl : ll.closing = false)
    (hin : ll.inListing = true) (hc : ll.cur = some q) (hd : deref ll.root q = some Q)
    (hn : (env.getAttrib a sName 0).isEmpty = false)
    (hkey : ∀ d v, dirMapFind (ll.baseLower ++ env.toLower (env.getAttrib a sName 0) ++ ['/'])
      ll.baseDirs ≠ some (some d, v)) :
    stepLoader env ll (.startTag sDirectory a false)
      = .ok { ll with
          dirsLoaded := ll.dirsLoaded + 1
          root := modifyAt ll.root q (Directory.pushDir
            (newDirectory env (getPath ll.root q) (env.getAttrib a sName 0)
              (tagDirType (decide (env.getAttrib a sIncomplete 1 = ['1']))
                (decide (env.getAttrib a sChildren 2 = ['1'])))
              ll.listDate (ll.partialList && ll.checkDupe) (env.getAttrib a sSize 2)
              (env.toUInt32 (env.getAttrib a sDate 3))))
          baseDirs :=
            if decide (env.getAttrib a sIncomplete 1 = ['1']) then ll.baseDirs
            else dirMapSet (ll.baseLower ++ env.toLower (env.getAttrib a sName 0) ++ ['/'])
              (some (Q.directories.length :: q), true) ll.baseDirs
          cur := some (Q.directories.length :: q)
          baseLower :=
            if decide (env.getAttrib a sIncomplete 1 = ['1']) then ll.baseLower
            else ll.baseLower ++ env.toLower (env.getAttrib a sName 0) ++ ['/'] } := by
  obtain ⟨root, baseDirs, closing, cur, baseLower, base, inListing, updating, checkDupe,
    partialList, dirsLoaded, listDate⟩ := ll
  simp only at hup hcl hin hc hd hkey
  subst hup hcl hin hc
  have hf : ¬ (sDirectory = sFile) := by decide
  have hcreate : createDirectory env
        { root := root, baseDirs := baseDirs, closing := false, cur := some q,
          baseLower := baseLower, base := base, inListing := true, updating := true,
          checkDupe := checkDupe, partialList := partialList,
          dirsLoaded := dirsLoaded + 1, listDate := listDate } a
        (env.getAttrib a sName 0) false
      = .ok
        { root := modifyAt root q (Directory.pushDir
            (newDirectory env (getPath root q) (env.getAttrib a sName 0)
              (tagDirType (decide (env.getAttrib a sIncomplete 1 = ['1']))
                (decide (env.getAttrib a sChildren 2 = ['1'])))
              listDate (partialList && checkDupe) (env.getAttrib a sSize 2)
              (env.toUInt32 (env.getAttrib a sDate 3)))),
          baseDirs :=
            if decide (env.getAttrib a sIncomplete 1 = ['1']) then baseDirs
            else dirMapSet (baseLower ++ env.toLower (env.getAttrib a sName 0) ++ ['/'])
              (some (Q.directories.length :: q), true) baseDirs,
          closing := false, cur := some (Q.directories.length :: q),
          baseLower :=
            if decide (env.getAttrib a sIncomplete 1 = ['1']) then baseLower
            else baseLower ++ env.toLower (env.getAttrib a sName 0) ++ ['/'],
          base := base, inListing := true, updating := true,
          checkDupe := checkDupe, partialList := partialList,
          dirsLoaded := dirsLoaded + 1, listDate := listDate } := by
    simp only [createDirectory, hd, enterDirectory, deref_modifyAt_pushDir _ _ _ _ hd,
      newDirectory_isComplete, Bool.false_eq_true, if_false, Bool.true_and]
    cases decide (env.getAttrib a sIncomplete 1 = ['1']) <;> simp
  simp only [stepLoader, startTag, if_true, Bool.false_eq_true, if_false, hf, startDirectory, hn]
  cases hfind : dirMapFind
      (baseLower ++ env.toLower (env.getAttrib a sName 0) ++ ['/']) baseDirs with
  | none => simpa using hcreate
  | some e =>
    obtain ⟨d, v⟩ := e
    cases d with
    | none => simpa using hcreate
    | some d => exact absurd hfind (hkey d v)

/-- The end tag of a `Directory` element when the cursor is the child `i` of `q`. -/
theorem close_dir_merge (env : LoaderEnv) (ll : ListLoader) (i : Nat) (q : Ptr) (d : Directory)
    (hup : ll.updating = true) (hin : ll.inListing = true) (hc : ll.cur = some (i :: q))
    (hd : deref ll.root (i :: q) = some d) :
    stepLoader env ll (.endTag sDirectory)
      = .ok { ll with
          baseLower :=
            if d.isComplete then
              ll.baseLower.take
                ((ll.baseLower.length + 2 ^ 64 - d.getName.length - 1) % 2 ^ 64)
            else ll.baseLower
          cur := some q } := by
  simp [stepLoader, endTag, hin, hc, hd, hup, getParent]
theorem listRunsInMerge_of (env : LoaderEnv) (es : List Entry)
    (h : ∀ c ∈ es, Entry.runsInMerge env c) : Entry.listRunsInMerge env es := by
  induction es with
  | nil =>
    intro ll q Q regs _ _ _ _ _ _ _ _
    refine ⟨ll.baseDirs, ?_, fun x hx => Or.inl hx, fun k d h => ⟨d, h⟩⟩
    cases ll
    simp [Entry.eventsList, runLoader, Entry.dirsOf, Entry.filesOf, Entry.walkList,
      Entry.dirCountList, addEntries_nil, modifyAt_id]
  | cons e es ih =>
    intro ll q Q regs hup hcl hin hc hd hclean hnamed hfresh
    simp only [Entry.namedList, Bool.and_eq_true] at hnamed
    simp only [Entry.walkList, keysFresh_append, Bool.and_eq_true] at hfresh
    obtain ⟨m1, hrun1, hm1, hv1⟩ := h e (List.mem_cons_self _ _) ll q Q regs hup hcl hin hc hd hclean
      hnamed.1 hfresh.1
    have hclean1 : ∀ x ∈ m1, x.2.1.isSome = true →
        x.1 ∈ (registeredKeys (Entry.walk env e ll.baseLower).1).reverse ++ regs := by
      intro x hx hlive
      rcases hm1 x hx with h1 | h1
      · exact List.mem_append_right _ (hclean x h1 hlive)
      · exact List.mem_append_left _ (List.mem_reverse.mpr h1)
    obtain ⟨m2, hrun2, hm2, hv2⟩ := ih (fun c hc => h c (List.mem_cons_of_mem _ hc))
      { ll with
        root := modifyAt ll.root q (Directory.addEntries
          (Entry.dirOf env ll.listDate (ll.partialList && ll.checkDupe) ll.checkDupe e
            (getPath ll.root q)).toList
          (Entry.fileOf env ll.checkDupe e).toList)
        baseDirs := m1
        baseLower := (Entry.walk env e ll.baseLower).2
        dirsLoaded := ll.dirsLoaded + (Entry.dirCount e : Int) }
      q _ _ hup hcl hin hc (by rw [deref_modifyAt, hd]; rfl) hclean1 hnamed.2 hfresh.2
    refine ⟨m2, ?_, ?_, ?_⟩
    · rw [Entry.eventsList, runLoader_append, hrun1]
      simp only
      rw [hrun2]
      simp only [getPath_modifyAt _ (addEntries_getName _ _) _ _ _ hd, modifyAt_modifyAt,
        addEntries_addEntries, Entry.dirsOf, Entry.filesOf, filterMap_cons_toList,
        Entry.walkList, Entry.dirCountList, Nat.cast_add, add_assoc]
    · intro x hx
      rcases hm2 x hx with h1 | h1
      · rcases hm1 x h1 with h2 | h2
        · exact Or.inl h2
        · exact Or.inr (by
            simp only [Entry.walkList, registeredKeys_append, List.mem_append]
            exact Or.inl h2)
      · exact Or.inr (by
          simp only [Entry.walkList, registeredKeys_append, List.mem_append]
          exact Or.inr h1)
    · intro k d hk
      obtain ⟨d1, h1⟩ := hv1 k d hk
      exact hv2 k d1 h1
/-- A self-closing `Directory` tag with a `Name` whose registry path is not registered with
a directory: the directory is created under the cursor and registered when the tag is not
marked `Incomplete`; the cursor and, up to the cut of `endTag`, `baseLower` are as
before. -/
theorem simple_dir_merge (env : LoaderEnv) (ll : ListLoader) (a : Attribs) (q : Ptr)
    (Q : Directory) (hup : ll.updating = true) (hcl : ll.closing = false)
    (hin : ll.inListing = true) (hc : ll.cur = some q) (hd : deref ll.root q = some Q)
    (hn : (env.getAttrib a sName 0).isEmpty = false)
    (hkey : ∀ d v, dirMapFind (ll.baseLower ++ env.toLower (env.getAttrib a sName 0) ++ ['/'])
      ll.baseDirs ≠ some (some d, v)) :
    stepLoader env ll (.startTag sDirectory a true)
      = .ok { ll with
          dirsLoaded := ll.dirsLoaded + 1
          root := modifyAt ll.root q (Directory.pushDir
            (newDirectory env (getPath ll.root q) (env.getAttrib a sName 0)
              (tagDirType (decide (env.getAttrib a sIncomplete 1 = ['1']))
                (decide (env.getAttrib a sChildren 2 = ['1'])))
              ll.listDate (ll.partialList && ll.checkDupe) (env.getAttrib a sSize 2)
              (env.toUInt32 (env.getAttrib a sDate 3))))
          baseDirs :=
            if decide (env.getAttrib a sIncomplete 1 = ['1']) then ll.baseDirs
            else dirMapSet (ll.baseLower ++ env.toLower (env.getAttrib a sName 0) ++ ['/'])
              (some (Q.directories.length :: q), true) ll.baseDirs
          baseLower :=
            if decide (env.getAttrib a sIncomplete 1 = ['1']) then ll.baseLower
            else (ll.baseLower ++ env.toLower (env.getAttrib a sName 0) ++ ['/']).take
              (((ll.baseLower ++ env.toLower (env.getAttrib a sName 0) ++ ['/']).length
                + 2 ^ 64 - (env.getAttrib a sName 0).length - 1) % 2 ^ 64) } := by
  obtain ⟨root, baseDirs, closing, cur, baseLower, base, inListing, updating, checkDupe,
    partialList, dirsLoaded, listDate⟩ := ll
  simp only at hup hcl hin hc hd hkey
  subst hup hcl hin hc
  have hf : ¬ (sDirectory = sFile) := by decide
  have hcreate : createDirectory env
        { root := root, baseDirs := baseDirs, closing := false, cur := some q,
          baseLower := baseLower, base := base, inListing := true, updating := true,
          checkDupe := checkDupe, partialList := partialList,
          dirsLoaded := dirsLoaded + 1, listDate := listDate } a
        (env.getAttrib a sName 0) true
      = .ok
        { root := modifyAt root q (Directory.pushDir
            (newDirectory env (getPath root q) (env.getAttrib a sName 0)
              (tagDirType (decide (env.getAttrib a sIncomplete 1 = ['1']))
                (decide (env.getAttrib a sChildren 2 = ['1'])))
              listDate (partialList && checkDupe) (env.getAttrib a sSize 2)
              (env.toUInt32 (env.getAttrib a sDate 3)))),
          baseDirs :=
            if decide (env.getAttrib a sIncomplete 1 = ['1']) then baseDirs
            else dirMapSet (baseLower ++ env.toLower (env.getAttrib a sName 0) ++ ['/'])
              (some (Q.directories.length :: q), true) baseDirs,
          closing := false, cur := some q,
          baseLower :=
            if decide (env.getAttrib a sIncomplete 1 = ['1']) then baseLower
            else (baseLower ++ env.toLower (env.getAttrib a sName 0) ++ ['/']).take
              (((baseLower ++ env.toLower (env.getAttrib a sName 0) ++ ['/']).length
                + 2 ^ 64 - (env.getAttrib a sName 0).length - 1) % 2 ^ 64),
          base := base, inListing := true, updating := true,
          checkDupe := checkDupe, partialList := partialList,
          dirsLoaded := dirsLoaded + 1, listDate := listDate } := by
    simp only [createDirectory, hd, enterDirectory, deref_modifyAt_pushDir _ _ _ _ hd,
      newDirectory_isComplete, if_true, Bool.true_and, endTag, getParent,
      newDirectory_getName]
    cases decide (env.getAttrib a sIncomplete 1 = ['1']) <;> simp
  simp only [stepLoader, startTag, if_true, Bool.false_eq_true, if_false, hf, startDirectory, hn]
  cases hfind : dirMapFind
      (baseLower ++ env.toLower (env.getAttrib a sName 0) ++ ['/']) baseDirs with
  | none => simpa using hcreate
  | some e =>
    obtain ⟨d, v⟩ := e
    cases d with
    | none => simpa using hcreate
    | some d => exact absurd hfind (hkey d v)

theorem fresh_key_misses (m : DirMap) (regs : List (List Char)) (k : List Char)
    (hclean : ∀ x ∈ m, x.2.1.isSome = true → x.1 ∈ regs) (hk : k ∉ regs) :
    ∀ d v, dirMapFind k m ≠ some (some d, v) := by
  intro d v h
  exact hk (hclean _ (dirMapFind_mem k _ m h) rfl)

theorem clean_after_register (m : DirMap) (regs : List (List Char)) (k : List Char)
    (v : Option Ptr × Bool) (inc : Bool)
    (hclean : ∀ x ∈ m, x.2.1.isSome = true → x.1 ∈ regs) :
    ∀ x ∈ (if inc then m else dirMapSet k v m), x.2.1.isSome = true →
      x.1 ∈ (if !inc then k :: regs else regs) := by
  intro x hx hlive
  cases inc with
  | true => simpa using hclean x hx hlive
  | false =>
    simp only [Bool.false_eq_true, if_false] at hx
    simp only [Bool.not_false, if_true, List.mem_cons]
    rcases mem_dirMapSet k v m x hx with h | h
    · exact Or.inl h
    · exact Or.inr (hclean x h hlive)

theorem visited_after_register (m : DirMap) (k' : List Char) (a : Ptr) (inc : Bool)
    (k : List Char) (d : Option Ptr) (h : dirMapFind k m = some (d, true)) :
    ∃ d', dirMapFind k (if inc then m else dirMapSet k' (some a, true) m) = some (d', true) := by
  cases inc with
  | true => exact ⟨d, by simpa using h⟩
  | false =>
    simp only [Bool.false_eq_true, if_false]
    by_cases hk : k = k'
    · subst hk
      exact ⟨some a, dirMapFind_dirMapSet_self _ _ _⟩
    · exact ⟨d, by rw [dirMapFind_dirMapSet_ne _ _ _ hk]; exact h⟩

theorem runsInMerge_file (env : LoaderEnv) (a : Attribs) (s : Bool) :
    Entry.runsInMerge env (Entry.file a s) := by
  intro ll q Q regs hup hcl hin hc hd _ _ _
  refine ⟨ll.baseDirs, ?_, fun x hx => Or.inl hx, fun k d h => ⟨d, h⟩⟩
  have hstep := step_flat_item env ll (.startTag sFile a s) q Q hup hcl hin hc hd
    (by simp [flatItem]) (by simp [payloadDirName])
  have hpd : ∀ pp ld cd, payloadDir env pp ld cd (.startTag sFile a s) = none := by
    intro pp ld cd; simp [payloadDir]
  simp only [hpd, Option.toList_none, List.length_nil, Nat.cast_zero, add_zero] at hstep
  rw [Entry.events, runLoader, hstep]
  simp only [Entry.dirOf, Entry.fileOf, Entry.walk, Entry.dirCount, Option.toList_none,
    Nat.cast_zero, add_zero]
  cases s with
  | true => simp [runLoader]
  | false =>
    have h1 : ¬ (sFile = sDirectory) := by decide
    have h2 : ¬ (sFile = sFileListing) := by decide
    simp [runLoader, stepLoader, endTag, hin, h1, h2]
theorem pushDir_eq_addEntries (c : Directory) :
    Directory.pushDir c = Directory.addEntries [c] [] := by
  funext d; cases d; simp [Directory.pushDir, Directory.addEntries]

theorem addEntries_newDirectory_nil (d : Directory) : Directory.addEntries [] [] d = d := by
  cases d; simp [Directory.addEntries]

theorem runsInMerge_dir (env : LoaderEnv) (a : Attribs) (s : Bool) (cs : List Entry)
    (ih : ∀ c ∈ cs, Entry.runsInMerge env c) : Entry.runsInMerge env (Entry.dir a s cs) := by
  intro ll q Q regs hup hcl hin hc hd hclean hnamed hfresh
  simp only [Entry.named, Bool.and_eq_true, Bool.not_eq_true', Bool.or_eq_true] at hnamed
  obtain ⟨hn, hnamedcs⟩ := hnamed
  simp only [Entry.walk, keysFresh, Bool.and_eq_true] at hfresh
  obtain ⟨hk0, hfreshcs⟩ := hfresh
  have hk : ll.baseLower ++ env.toLower (env.getAttrib a sName 0) ++ ['/'] ∉ regs := by
    simpa using hk0
  have hkey := fresh_key_misses ll.baseDirs regs _ hclean hk
  cases s with
  | true =>
    have hstep := simple_dir_merge env ll a q Q hup hcl hin hc hd hn hkey
    refine ⟨(if decide (env.getAttrib a sIncomplete 1 = ['1']) then ll.baseDirs
      else dirMapSet (ll.baseLower ++ env.toLower (env.getAttrib a sName 0) ++ ['/'])
        (some (Q.directories.length :: q), true) ll.baseDirs), ?_, ?_,
      fun k d h => visited_after_register ll.baseDirs _ _ _ k d h⟩
    · rw [Entry.events]
      simp only [if_true]
      rw [runLoader, hstep]
      simp only [runLoader, Entry.dirOf, if_true, Entry.walk, Entry.dirCount,
        addEntries_newDirectory_nil, Option.toList_some, Option.toList_none,
        pushDir_eq_addEntries, Entry.fileOf, Nat.cast_one, add_zero, Nat.cast_ofNat]
      cases decide (env.getAttrib a sIncomplete 1 = ['1']) <;>
        simp only [Bool.false_eq_true, if_false, if_true, Bool.not_true, Bool.not_false]
    · intro x hx
      cases hinc : decide (env.getAttrib a sIncomplete 1 = ['1']) with
      | true =>
        rw [hinc] at hx
        exact Or.inl (by simpa using hx)
      | false =>
        rw [hinc] at hx
        simp only [Bool.false_eq_true, if_false] at hx
        rcases mem_dirMapSet _ _ _ x hx with h | h
        · exact Or.inr (by simp [Entry.walk, registeredKeys, hinc, h])
        · exact Or.inl h
  | false =>
    simp only [Bool.false_eq_true, false_or] at hnamedcs
    simp only [Bool.false_eq_true, if_false] at hfreshcs
    have hopen := open_dir_merge env ll a q Q hup hcl hin hc hd hn hkey
    have hclean1 := clean_after_register ll.baseDirs regs
      (ll.baseLower ++ env.toLower (env.getAttrib a sName 0) ++ ['/'])
      (some (Q.directories.length :: q), true)
      (decide (env.getAttrib a sIncomplete 1 = ['1'])) hclean
    obtain ⟨m2, hrun2, hm2, hv2⟩ := listRunsInMerge_of env cs ih
      { ll with
        dirsLoaded := ll.dirsLoaded + 1
        root := modifyAt ll.root q (Directory.pushDir
          (newDirectory env (getPath ll.root q) (env.getAttrib a sName 0)
            (tagDirType (decide (env.getAttrib a sIncomplete 1 = ['1']))
              (decide (env.getAttrib a sChildren 2 = ['1'])))
            ll.listDate (ll.partialList && ll.checkDupe) (env.getAttrib a sSize 2)
            (env.toUInt32 (env.getAttrib a sDate 3))))
        baseDirs :=
          if decide (env.getAttrib a sIncomplete 1 = ['1']) then ll.baseDirs
          else dirMapSet (ll.baseLower ++ env.toLower (env.getAttrib a sName 0) ++ ['/'])
            (some (Q.directories.length :: q), true) ll.baseDirs
        cur := some (Q.directories.length :: q)
        baseLower :=
          if decide (env.getAttrib a sIncomplete 1 = ['1']) then ll.baseLower
          else ll.baseLower ++ env.toLower (env.getAttrib a sName 0) ++ ['/'] }
      (Q.directories.length :: q) _ _ hup hcl hin rfl
      (deref_modifyAt_pushDir _ _ _ _ hd) hclean1 hnamedcs hfreshcs
    simp only [getPath_pushDir_child _ _ _ _ hd, newDirectory_getName,
      modifyAt_pushDir_child _ _ _ _ _ hd] at hrun2
    have hclose := close_dir_merge env
      { ll with
        root := modifyAt ll.root q (Directory.pushDir
          (Directory.addEntries
            (Entry.dirsOf env ll.listDate (ll.partialList && ll.checkDupe) ll.checkDupe cs
              (getPath ll.root q ++ env.getAttrib a sName 0 ++ ['\\']))
            (Entry.filesOf env ll.checkDupe cs)
            (newDirectory env (getPath ll.root q) (env.getAttrib a sName 0)
              (tagDirType (decide (env.getAttrib a sIncomplete 1 = ['1']))
                (decide (env.getAttrib a sChildren 2 = ['1'])))
              ll.listDate (ll.partialList && ll.checkDupe) (env.getAttrib a sSize 2)
              (env.toUInt32 (env.getAttrib a sDate 3)))))
        baseDirs := m2
        cur := some (Q.directories.length :: q)
        baseLower := (Entry.walkList env cs
          (if decide (env.getAttrib a sIncomplete 1 = ['1']) then ll.baseLower
            else ll.baseLower ++ env.toLower (env.getAttrib a sName 0) ++ ['/'])).2
        dirsLoaded := ll.dirsLoaded + 1 + (Entry.dirCountList cs : Int) }
      Q.directories.length q _ hup hin rfl (deref_modifyAt_pushDir _ _ _ _ hd)
    simp only [addEntries_isComplete, newDirectory_isComplete, addEntries_getName,
      newDirectory_getName] at hclose
    refine ⟨m2, ?_, ?_, ?_⟩
    · rw [Entry.events]
      simp only [Bool.false_eq_true, if_false]
      rw [runLoader, hopen]
      simp only
      rw [runLoader_append, hrun2]
      simp only [runLoader]
      rw [hclose]
      simp only [Entry.dirOf, Bool.false_eq_true, if_false, Entry.walk,
        Entry.dirCount, Option.toList_some, Option.toList_none, pushDir_eq_addEntries,
        Entry.fileOf, Nat.cast_add, Nat.cast_one, add_assoc, hc]
      cases decide (env.getAttrib a sIncomplete 1 = ['1']) <;> rfl
    · intro x hx
      rcases hm2 x hx with h | h
      · simp only at h
        cases hinc : decide (env.getAttrib a sIncomplete 1 = ['1']) with
        | true =>
          rw [hinc] at h
          exact Or.inl (by simpa using h)
        | false =>
          rw [hinc] at h
          simp only [Bool.false_eq_true, if_false] at h
          rcases mem_dirMapSet _ _ _ x h with h1 | h1
          · exact Or.inr (by simp [Entry.walk, registeredKeys, hinc, h1])
          · exact Or.inl h1
      · refine Or.inr ?_
        simp only at h
        simp only [Entry.walk, Bool.false_eq_true, if_false, registeredKeys, List.filter_cons,
          List.mem_map, List.mem_filter] at h ⊢
        obtain ⟨y, hy, hyx⟩ := h
        refine ⟨y, ?_, hyx⟩
        cases hinc : decide (env.getAttrib a sIncomplete 1 = ['1']) <;>
          simp_all
    · intro k d hk
      obtain ⟨d1, h1⟩ := visited_after_register ll.baseDirs
        (ll.baseLower ++ env.toLower (env.getAttrib a sName 0) ++ ['/'])
        (Q.directories.length :: q) (decide (env.getAttrib a sIncomplete 1 = ['1'])) k d hk
      exact hv2 k d1 h1

/-- The run of the loader over the callbacks of an element in merge mode. -/
theorem runsInMerge_all (env : LoaderEnv) (e : Entry) : Entry.runsInMerge env e :=
  Entry.tree_induct (fun a s => runsInMerge_file env a s)
    (fun a s cs ih => runsInMerge_dir env a s cs ih) e
/-! ### The walk of the listing root tag -/

theorem modifyIdx_append (f : Directory → Directory) (P R : List Nat) :
    ∀ d, modifyIdx f (P ++ R) d = modifyIdx (modifyIdx f R) P d := by
  induction P with
  | nil => intro d; rfl
  | cons i P ih =>
    intro d
    cases d with
    | mk info ds fs =>
      simp only [List.cons_append, modifyIdx]
      congr 1
      apply modifyNth_congr
      intro x _
      exact ih x

theorem modifyAt_child (root : Directory) (i : Nat) (cur : Ptr) (g : Directory → Directory) :
    modifyAt root (i :: cur) g = modifyAt root cur (modifyIdx g [i]) := by
  unfold modifyAt
  rw [List.reverse_cons, modifyIdx_append]

theorem findByName_append_miss (n : List Char) (c : Directory) (hc : c.getName = n)
    (ds : List Directory) :
    ∀ k, findByName n ds k = none → findByName n (ds ++ [c]) k = some (k + ds.length) := by
  induction ds with
  | nil => intro k _; simp [findByName, hc]
  | cons d ds ih =>
    intro k h
    rw [findByName] at h
    by_cases hm : d.getName = n
    · simp [hm] at h
    · simp only [hm, if_false] at h
      rw [List.cons_append, findByName]
      simp only [hm, if_false]
      rw [ih (k + 1) h]
      simp only [List.length_cons, Option.some.injEq]
      omega

theorem modifyIdx_single_getName (g : Directory → Directory) (i : Nat) (d : Directory) :
    (modifyIdx g [i] d).getName = d.getName := by
  cases d; rfl

/-- The loop of the listing root tag changes the tree only below the cursor it starts at,
keeps every name, and ends at a directory that the walk along the segments finds in the
resulting tree. When the directory at the cursor has no children and no files, the
directory the loop ends at has none either. -/
theorem resolveBase_frame (env : LoaderEnv) (ld : Nat) (tokens : List (List Char)) :
    ∀ (root : Directory) (m : DirMap) (cur : Ptr) (D : Directory) (R' : Directory)
      (M' : DirMap) (p : Ptr), deref root cur = some D →
      resolveBase env ld tokens root m (some cur) = some (R', M', some p) →
      ∃ g : Directory → Directory, (∀ x, (g x).getName = x.getName) ∧
        R' = modifyAt root cur g ∧ walkNames tokens (g D) cur = some p ∧
        (D.hasContent = false → (deref R' p).map Directory.hasContent = some false) := by
  induction tokens with
  | nil =>
    intro root m cur D R' M' p hd h
    simp only [resolveBase, Option.some.injEq, Prod.mk.injEq] at h
    obtain ⟨rfl, _, rfl⟩ := h
    refine ⟨fun x => x, fun _ => rfl, (modifyAt_id root cur).symm, rfl, ?_⟩
    intro hc
    rw [hd]
    simp [hc]
  | cons n rest ih =>
    intro root m cur D R' M' p hd h
    rw [resolveBase] at h
    simp only [hd] at h
    cases hfb : findByName n D.directories 0 with
    | some i =>
      simp only [hfb] at h
      obtain ⟨i', c, hi, hget⟩ := findByName_some n D.directories 0 i hfb
      simp only [Nat.zero_add] at hi
      subst hi
      have hdc : deref root (i :: cur) = some c := by simp [deref, hd, hget]
      obtain ⟨g', hg', hR, hw, _⟩ := ih root m (i :: cur) c R' M' p hdc h
      refine ⟨modifyIdx g' [i], modifyIdx_single_getName g' i, ?_, ?_, ?_⟩
      · rw [hR, modifyAt_child]
      · cases D with
        | mk info ds fs =>
          simp only [Directory.directories] at hfb hget
          rw [walkNames]
          simp only [modifyIdx, Directory.directories, findByName_modifyNth n _ hg', hfb,
            getElem?_modifyNth_eq, hget, Option.map_some']
          exact hw
      · intro hc
        cases D with
        | mk info ds fs =>
          simp only [Directory.hasContent, Directory.directories, Directory.files,
            Bool.or_eq_false_iff, Bool.not_eq_false', List.isEmpty_iff] at hc
          simp only [Directory.directories, hc.1] at hget
          simp at hget
    | none =>
      simp only [hfb] at h
      have hdc := deref_modifyAt_pushDir root cur D
        (newDirectory env (getPath root cur) n DirType.TYPE_INCOMPLETE_CHILD ld true [] 0) hd
      obtain ⟨g', hg', hR, hw, hemp⟩ := ih _ _ (D.directories.length :: cur) _ R' M' p hdc h
      refine ⟨Directory.pushDir (g'
        (newDirectory env (getPath root cur) n DirType.TYPE_INCOMPLETE_CHILD ld true [] 0)),
        pushDir_getName _, ?_, ?_, ?_⟩
      · rw [hR, modifyAt_pushDir_child root cur D _ g' hd]
      · cases D with
        | mk info ds fs =>
          simp only [Directory.directories] at hfb hw
          rw [walkNames]
          have hname : (g' (newDirectory env (getPath root cur) n
              DirType.TYPE_INCOMPLETE_CHILD ld true [] 0)).getName = n := by
            rw [hg']; rfl
          simp only [Directory.pushDir, Directory.directories,
            findByName_append_miss n _ hname ds 0 hfb, Nat.zero_add]
          simp only [List.getElem?_concat_length]
          exact hw
      · intro _
        exact hemp rfl

theorem resolveBase_walk (env : LoaderEnv) (ld : Nat) (tokens : List (List Char))
    (root : Directory) (m : DirMap) (R' : Directory) (M' : DirMap) (p : Ptr)
    (h : resolveBase env ld tokens root m (some []) = some (R', M', some p)) :
    walkNames tokens R' [] = some p := by
  obtain ⟨g, _, hR, hw, _⟩ := resolveBase_frame env ld tokens root m [] root R' M' p rfl h
  have : R' = g root := hR
  rw [this]
  exact hw
/-! ### Merging the document of a partial list -/

theorem setDates_getName (a b : Nat) (d : Directory) :
    (Directory.setRemoteDate a (Directory.setUpdateDate b d)).getName = d.getName := by
  cases d; rfl

theorem merged_getName (ds : List Directory) (fs : List File) (a b : Nat) (d : Directory) :
    (Directory.setComplete (Directory.addEntries ds fs
      (Directory.setRemoteDate a (Directory.setUpdateDate b d)))).getName = d.getName := by
  cases d; rfl

theorem listingBase_eq_rootTagBase (env : LoaderEnv) (ll : ListLoader) (attribs : Attribs) :
    listingBase env ll attribs = rootTagBase env attribs ll.base := rfl

/-- The merge of the document of a partial list whose `Directory` tags have names and look
up fresh paths: `loadXML` returns the number of `Directory` tags, the directory that the
walk of the listing root tag ends at gets the dates of the list, the directories and files
of the elements are appended to it, in document order, and it is marked complete. -/
theorem merge_list_document (env : LoaderEnv) (L : Listing) (attribs : Attribs)
    (entries : List Entry) (base : List Char) (date : Nat) (dupes : Bool) (R' : Directory)
    (M' : DirMap) (p : Ptr) (B : Directory) (regs : List (List Char))
    (hcl : L.closing = false) (hbase : rootTagBase env attribs base = base) (hne : base ≠ [])
    (hres : resolveBase env date (env.getTokens (base.drop 1)) L.root L.baseDirs (some [])
      = some (R', M', some p))
    (hd : deref R' p = some B)
    (hnamed : Entry.namedList env entries = true)
    (hclean : ∀ x ∈ dirMapVisit (env.toLower base) M', x.2.1.isSome = true → x.1 ∈ regs)
    (hfresh : keysFresh regs (Entry.keys env (env.toLower base) entries) = true) :
    ∃ m', loadXML env L (listDocument attribs entries) true base date dupes
        = ({ L with
            root := modifyAt R' p (fun d =>
              Directory.setComplete
                (Directory.addEntries
                  (Entry.dirsOf env date
                    (L.partialList && (!L.isOwnList && L.isClientView && dupes))
                    (!L.isOwnList && L.isClientView && dupes) entries (getPath R' p))
                  (Entry.filesOf env (!L.isOwnList && L.isClientView && dupes) entries)
                  (Directory.setRemoteDate (env.toUInt32 (env.getAttrib attribs sBaseDate 3))
                    (Directory.setUpdateDate date d))))
            baseDirs := m' },
          .ok (Entry.dirCountList entries : Int)) ∧
      (∀ x ∈ m', x ∈ dirMapVisit (env.toLower base) M' ∨
        x.1 ∈ registeredKeys (Entry.keys env (env.toLower base) entries)) ∧
      (∃ d', dirMapFind (env.toLower base) m' = some (d', true)) := by
  have hlb : listingBase env (initLoader L true base date dupes) attribs = base := by
    rw [listingBase_eq_rootTagBase]; exact hbase
  have hemp : base.isEmpty = false := by
    cases base with
    | nil => exact absurd rfl hne
    | cons a as => rfl
  have hstart : stepLoader env (initLoader L true base date dupes)
      (XmlEvent.startTag sFileListing attribs false)
      = .ok (enterListing env (initLoader L true base date dupes) attribs R' M' p) := by
    have h1 : (initLoader L true base date dupes).closing = false := hcl
    simp only [stepLoader, startTag, h1, Bool.false_eq_true, if_false, startListing, hlb, hemp]
    simp only [initLoader, if_true, hres, hd, Bool.false_eq_true, if_false]
  have hroot0 : deref (modifyAt R' p (fun dir =>
      Directory.setRemoteDate (env.toUInt32 (env.getAttrib attribs sBaseDate 3))
        (Directory.setUpdateDate date dir))) p
      = some (Directory.setRemoteDate (env.toUInt32 (env.getAttrib attribs sBaseDate 3))
        (Directory.setUpdateDate date B)) := by
    rw [deref_modifyAt, hd]; rfl
  obtain ⟨m', hrun, hm', hv'⟩ := listRunsInMerge_of env entries
    (fun c _ => runsInMerge_all env c)
    (enterListing env (initLoader L true base date dupes) attribs R' M' p) p _ regs
    rfl hcl rfl rfl hroot0
    (by simp only [enterListing, hlb]; exact hclean) hnamed
    (by simp only [enterListing, hlb]; exact hfresh)
  simp only [enterListing, hlb] at hm' hv'
  refine ⟨m', ?_, hm', ?_⟩
  · unfold loadXML listDocument
    rw [runLoader, hstart]
    simp only
    rw [runLoader_append, hrun]
    have hne3 : ¬ (sFileListing = sDirectory) := by decide
    simp only [runLoader, stepLoader, endTag, enterListing, initLoader, if_true,
      deref_modifyAt, hd, Option.map_some', modifyAt_modifyAt,
      getPath_modifyAt _ (setDates_getName _ _) _ _ _ hd, hne3, if_false, zero_add]
    rfl
  · obtain ⟨d0, hd0⟩ := dirMapFind_dirMapVisit_self (env.toLower base) M'
    exact hv' _ d0 hd0
/-! ### Trees up to the dupe statuses of directories -/

theorem forgetDupesList_eq_map (ds : List Directory) :
    forgetDupesList ds = ds.map forgetDupes := by
  induction ds with
  | nil => rfl
  | cons d ds ih => simp [forgetDupesList, ih]

theorem forgetDupes_getName (d : Directory) : (forgetDupes d).getName = d.getName := by
  cases d; rfl

theorem forgetDupes_hasContent (d : Directory) :
    (forgetDupes d).hasContent = d.hasContent := by
  cases d with
  | mk info ds fs =>
    cases ds <;> simp [forgetDupes, forgetDupesList, Directory.hasContent,
      Directory.directories, Directory.files]

theorem checkShareDupes_getName (q : File → Bool) (d : Directory) :
    (checkShareDupes q d).getName = d.getName := by
  cases d; rfl

theorem forgetDupes_checkShareDupes (q : File → Bool) (d : Directory) :
    forgetDupes (checkShareDupes q d) = forgetDupes d := by
  induction d using Directory.induct with
  | h info ds fs ih =>
    have hl : ∀ dupe first, forgetDupesList (checkDirsLoop q ds dupe first).1
        = forgetDupesList ds := by
      induction ds with
      | nil => intro dupe first; rfl
      | cons c cs ihc =>
        intro dupe first
        simp only [checkDirsLoop, forgetDupesList]
        rw [ih c (List.mem_cons_self _ _),
          ihc (fun e he => ih e (List.mem_cons_of_mem _ he))]
    simp only [checkShareDupes, forgetDupes, hl]

theorem forgetDupes_checkShareDupesListing (q : File → Bool) (d : Directory) :
    forgetDupes (checkShareDupesListing q d) = forgetDupes d := by
  have h := forgetDupes_checkShareDupes q d
  unfold checkShareDupesListing
  cases hc : checkShareDupes q d with
  | mk info ds fs =>
    rw [hc] at h
    rw [← h]
    simp [forgetDupes]

theorem descendIdx_forgetDupes (is : List Nat) :
    ∀ d, descendIdx (forgetDupes d) is = (descendIdx d is).map forgetDupes := by
  induction is with
  | nil => intro d; simp [descendIdx]
  | cons i is ih =>
    intro d
    cases d with
    | mk info ds fs =>
      simp only [forgetDupes, descendIdx, Directory.directories, forgetDupesList_eq_map,
        List.getElem?_map]
      cases ds[i]? with
      | none => simp
      | some c => simp [ih c]

theorem deref_forgetDupes (t : Directory) (p : Ptr) :
    deref (forgetDupes t) p = (deref t p).map forgetDupes := by
  rw [deref_eq_descendIdx, deref_eq_descendIdx, descendIdx_forgetDupes]

theorem findChild_map (nameMatch : List Char → List Char → Bool) (name : List Char)
    (g : Directory → Directory) (hg : ∀ x, (g x).getName = x.getName) (ds : List Directory) :
    ∀ k, findChild nameMatch name (ds.map g) k
      = (findChild nameMatch name ds k).map (fun ic => (ic.1, g ic.2)) := by
  induction ds with
  | nil => intro k; rfl
  | cons d ds ih =>
    intro k
    simp only [List.map_cons, findChild, hg]
    by_cases hm : nameMatch d.getName name = true
    · simp [hm]
    · simp [hm, ih]

theorem findByName_map (name : List Char) (g : Directory → Directory)
    (hg : ∀ x, (g x).getName = x.getName) (ds : List Directory) :
    ∀ k, findByName name (ds.map g) k = findByName name ds k := by
  induction ds with
  | nil => intro k; rfl
  | cons d ds ih =>
    intro k
    simp only [List.map_cons, findByName, hg, ih]

theorem findDirectoryAux_forgetDupes (nameMatch : List Char → List Char → Bool) (fuel : Nat) :
    ∀ (aName : List Char) (current : Directory) (cur : Ptr),
      findDirectoryAux nameMatch fuel aName (forgetDupes current) cur
        = findDirectoryAux nameMatch fuel aName current cur := by
  induction fuel with
  | zero => intro _ _ _; rfl
  | succ n ih =>
    intro aName current cur
    cases current with
    | mk info ds fs =>
      simp only [findDirectoryAux, forgetDupes, Directory.directories, forgetDupesList_eq_map,
        findChild_map nameMatch _ forgetDupes forgetDupes_getName]
      split
      · rfl
      · cases strFind '\\' aName with
        | none => rfl
        | some e =>
          simp only
          cases findChild nameMatch (List.take e aName) ds 0 with
          | none => rfl
          | some ic =>
            simp only [Option.map_some']
            split
            · rfl
            · exact ih _ _ _

theorem findDirectory_forgetDupes (nameMatch : List Char → List Char → Bool) (t : Directory)
    (aName : List Char) :
    findDirectory nameMatch (forgetDupes t) aName = findDirectory nameMatch t aName :=
  findDirectoryAux_forgetDupes nameMatch _ aName t []

theorem walkNames_forgetDupes (names : List (List Char)) :
    ∀ (t : Directory) (cur : Ptr),
      walkNames names (forgetDupes t) cur = walkNames names t cur := by
  induction names with
  | nil => intro _ _; rfl
  | cons n names ih =>
    intro t cur
    cases t with
    | mk info ds fs =>
      simp only [walkNames, forgetDupes, Directory.directories, forgetDupesList_eq_map,
        findByName_map n forgetDupes forgetDupes_getName, List.getElem?_map]
      cases findByName n ds 0 with
      | none => rfl
      | some i =>
        simp only
        cases ds[i]? with
        | none => rfl
        | some c => simp [ih c]

theorem getPath_forgetDupes (t : Directory) (p : Ptr) :
    getPath (forgetDupes t) p = getPath t p := by
  induction p with
  | nil => rfl
  | cons i par ih =>
    simp only [getPath, ih, deref_forgetDupes]
    cases deref t (i :: par) with
    | none => rfl
    | some d => simp [forgetDupes_getName]

theorem forgetDupesList_modifyNth (g g' : Directory → Directory)
    (hg : ∀ d, forgetDupes (g d) = g' (forgetDupes d)) (ds : List Directory) :
    ∀ i, forgetDupesList (modifyNth g ds i) = modifyNth g' (forgetDupesList ds) i := by
  induction ds with
  | nil => intro i; rfl
  | cons d ds ih =>
    intro i
    cases i with
    | zero => simp [modifyNth, forgetDupesList, hg]
    | succ n => simp [modifyNth, forgetDupesList, ih]

theorem forgetDupes_modifyIdx (f f' : Directory → Directory)
    (hf : ∀ d, forgetDupes (f d) = f' (forgetDupes d)) (is : List Nat) :
    ∀ d, forgetDupes (modifyIdx f is d) = modifyIdx f' is (forgetDupes d) := by
  induction is with
  | nil => intro d; exact hf d
  | cons i is ih =>
    intro d
    cases d with
    | mk info ds fs =>
      simp only [modifyIdx, forgetDupes, forgetDupesList_modifyNth _ _ ih]

theorem forgetDupes_modifyAt (f f' : Directory → Directory)
    (hf : ∀ d, forgetDupes (f d) = f' (forgetDupes d)) (t : Directory) (p : Ptr) :
    forgetDupes (modifyAt t p f) = modifyAt (forgetDupes t) p f' :=
  forgetDupes_modifyIdx f f' hf _ t

/-! The same facts for `normDupes`. -/

theorem normDupes_dupePass (pass : Bool) (q : File → Bool) (t : Directory) :
    normDupes pass (if pass then checkShareDupesListing q t else t) = normDupes pass t := by
  cases pass with
  | false => rfl
  | true => simp [normDupes, forgetDupes_checkShareDupesListing]

theorem normDupes_findDirectory (pass : Bool) (nameMatch : List Char → List Char → Bool)
    (t t' : Directory) (aName : List Char) (h : normDupes pass t = normDupes pass t') :
    findDirectory nameMatch t aName = findDirectory nameMatch t' aName := by
  cases pass with
  | false => simp only [normDupes, Bool.false_eq_true, if_false] at h; rw [h]
  | true =>
    simp only [normDupes, if_true] at h
    rw [← findDirectory_forgetDupes nameMatch t, h, findDirectory_forgetDupes]

theorem normDupes_walkNames (pass : Bool) (names : List (List Char)) (t t' : Directory)
    (h : normDupes pass t = normDupes pass t') :
    walkNames names t [] = walkNames names t' [] := by
  cases pass with
  | false => simp only [normDupes, Bool.false_eq_true, if_false] at h; rw [h]
  | true =>
    simp only [normDupes, if_true] at h
    rw [← walkNames_forgetDupes names t, h, walkNames_forgetDupes]

theorem normDupes_getPath (pass : Bool) (t t' : Directory) (p : Ptr)
    (h : normDupes pass t = normDupes pass t') : getPath t p = getPath t' p := by
  cases pass with
  | false => simp only [normDupes, Bool.false_eq_true, if_false] at h; rw [h]
  | true =>
    simp only [normDupes, if_true] at h
    rw [← getPath_forgetDupes t, h, getPath_forgetDupes]

theorem normDupes_hasContent (pass : Bool) (t t' : Directory) (p : Ptr)
    (h : normDupes pass t = normDupes pass t') :
    (deref t p).map Directory.hasContent = (deref t' p).map Directory.hasContent := by
  cases pass with
  | false => simp only [normDupes, Bool.false_eq_true, if_false] at h; rw [h]
  | true =>
    simp only [normDupes, if_true] at h
    have h1 := deref_forgetDupes t p
    have h2 := deref_forgetDupes t' p
    rw [h] at h1
    rw [h1] at h2
    cases hd : deref t p with
    | none =>
      rw [hd] at h2
      cases hd' : deref t' p with
      | none => rfl
      | some d' => rw [hd'] at h2; simp at h2
    | some d =>
      rw [hd] at h2
      cases hd' : deref t' p with
      | none => rw [hd'] at h2; simp at h2
      | some d' =>
        rw [hd'] at h2
        simp only [Option.map_some', Option.some.injEq] at h2 ⊢
        rw [← forgetDupes_hasContent d, h2, forgetDupes_hasContent]

theorem normDupes_modifyAt (pass : Bool) (f f' : Directory → Directory)
    (hf : ∀ d, forgetDupes (f d) = f' (forgetDupes d)) (t t' : Directory) (p : Ptr)
    (h : normDupes pass t = normDupes pass t') :
    normDupes pass (modifyAt t p f) = normDupes pass (modifyAt t' p f) := by
  cases pass with
  | false => simp only [normDupes, Bool.false_eq_true, if_false] at h; rw [h]
  | true =>
    simp only [normDupes, if_true] at h ⊢
    rw [forgetDupes_modifyAt f f' hf, forgetDupes_modifyAt f f' hf, h]
theorem partialBaseDir_false (lenv : LoaderEnv) (L : Listing) (aBaseDir : List Char) :
    partialBaseDir lenv L aBaseDir false = lenv.toAdcFile aBaseDir := by
  simp [partialBaseDir]

theorem partialBaseDir_congr (lenv : LoaderEnv) (L L' : Listing) (aBaseDir : List Char)
    (reloadAll : Bool) (h : L'.isOwnList = L.isOwnList) :
    partialBaseDir lenv L' aBaseDir reloadAll = partialBaseDir lenv L aBaseDir reloadAll := by
  unfold partialBaseDir
  rw [h]

theorem incomingEvents_congr (env : Collaborators) (lenv : LoaderEnv) (penv : PartialEnv)
    (L L' : Listing) (events : List XmlEvent) (aBaseDir : List Char) (reloadAll : Bool)
    (h : L'.isOwnList = L.isOwnList) :
    incomingEvents env lenv penv L' events aBaseDir reloadAll
      = incomingEvents env lenv penv L events aBaseDir reloadAll := by
  unfold incomingEvents
  rw [h, partialBaseDir_congr lenv L L' aBaseDir reloadAll h]
/-! ### A partial update from the state in which it starts to load -/

theorem setLoading_getName (b : Bool) (d : Directory) :
    (Directory.setLoading b d).getName = d.getName := by
  cases d; rfl

theorem forgetDupes_setLoading (b : Bool) (d : Directory) :
    forgetDupes (Directory.setLoading b d) = Directory.setLoading b (forgetDupes d) := by
  cases d; rfl

theorem forgetDupes_clearAll (d : Directory) :
    forgetDupes (Directory.clearAll d) = Directory.clearAll (forgetDupes d) := by
  cases d; rfl

theorem forgetDupes_mergedDir (a b : Nat) (ds : List Directory) (fs : List File)
    (d : Directory) :
    forgetDupes (mergedDir d a b ds fs) = mergedDir (forgetDupes d) a b (forgetDupesList ds) fs := by
  cases d with
  | mk info ds0 fs0 =>
    simp [mergedDir, forgetDupes, Directory.setLoading, Directory.setComplete,
      Directory.addEntries, Directory.setRemoteDate, Directory.setUpdateDate,
      forgetDupesList_eq_map]

theorem mergedDir_getName (a b : Nat) (ds : List Directory) (fs : List File) (d : Directory) :
    (mergedDir d a b ds fs).getName = d.getName := by
  cases d; rfl

theorem deref_isSome_of_hasContent (t t' : Directory) (p : Ptr)
    (h : (deref t p).map Directory.hasContent = (deref t' p).map Directory.hasContent)
    (D : Directory) (hd : deref t' p = some D) : ∃ D', deref t p = some D' := by
  rw [hd] at h
  cases hd' : deref t p with
  | none => rw [hd'] at h; simp at h
  | some D' => exact ⟨D', rfl⟩

theorem onLoadingFinished_at (env : Collaborators) (penv : PartialEnv) (L : Listing)
    (t : Nat) (aDir : List Char) (r c : Bool) (p : Ptr) (D : Directory)
    (hadl : penv.matchADL = false)
    (hfind : findDirectory env.nameMatch L.root aDir = some p) (hd : deref L.root p = some D) :
    (onLoadingFinished env penv L t aDir r c).root
        = modifyAt (if dupePassOn penv L then checkShareDupesListing penv.isQueued L.root
            else L.root) p (Directory.setLoading false) ∧
      (onLoadingFinished env penv L t aDir r c).baseDirs = L.baseDirs ∧
      (onLoadingFinished env penv L t aDir r c).partialList = L.partialList ∧
      (onLoadingFinished env penv L t aDir r c).isOwnList = L.isOwnList ∧
      (onLoadingFinished env penv L t aDir r c).closing = L.closing ∧
      (onLoadingFinished env penv L t aDir r c).isClientView = L.isClientView := by
  have hf2 : findDirectory env.nameMatch
      (if dupePassOn penv L then checkShareDupesListing penv.isQueued L.root else L.root) aDir
      = some p := by
    rw [normDupes_findDirectory (dupePassOn penv L) env.nameMatch _ L.root aDir
      (normDupes_dupePass _ _ _)]
    exact hfind
  obtain ⟨D', hd'⟩ := deref_isSome_of_hasContent
    (if dupePassOn penv L then checkShareDupesListing penv.isQueued L.root else L.root)
    L.root p
    (normDupes_hasContent (dupePassOn penv L) _ _ p (normDupes_dupePass _ _ _)) D hd
  unfold dupePassOn at hf2 hd' ⊢
  cases hpass : (!L.isOwnList && penv.dupesInFilelist && L.isClientView) with
  | false =>
    rw [hpass] at hf2 hd'
    simp only [Bool.false_eq_true, if_false] at hf2 hd' ⊢
    simp [onLoadingFinished, hadl, hpass, hf2, hd', updateCurrentLocation]
  | true =>
    rw [hpass] at hf2 hd'
    simp only [if_true] at hf2 hd' ⊢
    simp [onLoadingFinished, hadl, hpass, hf2, hd', updateCurrentLocation]

/-- A partial update from the state `L1` in which it starts to load: the list that is loaded
(for the own list the one that the share generates, else the payload) is a list document,
the walk of the listing root tag ends at `p` in the tree `R'`, which `findDirectory` finds
for the base path as well, and every `Directory` tag of the document has a name and looks
up a fresh path. The call returns normally; up to what the dupe pass
assigns, the tree afterwards is `R'` with the elements of the document merged into the
directory at `p`; the base path still leads to `p`; the registry holds the base path as
visited and, beside the entries it had when the load started and the base path, only paths
that the document registers. -/
theorem loadPartialImpl_from (env : Collaborators) (lenv : LoaderEnv) (penv : PartialEnv)
    (L L1 : Listing) (events : List XmlEvent) (attribs : Attribs) (entries : List Entry)
    (aBaseDir base : List Char)
    (reloadAll changeDir : Bool) (R' : Directory) (M' : DirMap) (p : Ptr) (B : Directory)
    (regs : List (List Char))
    (hpart : L.partialList = true)
    (hb : partialBaseDir lenv L aBaseDir reloadAll = base)
    (hinc : incomingEvents env lenv penv L events aBaseDir reloadAll
      = some (listDocument attribs entries))
    (hib : L.isOwnList = true → lenv.toAdcFile (env.toNmdcFile base) = base)
    (hprep : partialPrepare env lenv penv L aBaseDir reloadAll = L1)
    (hpart1 : L1.partialList = true) (hown1 : L1.isOwnList = L.isOwnList)
    (hcv1 : L1.isClientView = L.isClientView) (hcl : L1.closing = false)
    (hadl : penv.matchADL = false)
    (hbase : rootTagBase lenv attribs base = base)
    (hne : base ≠ [])
    (hres : resolveBase lenv lenv.listDate
      (lenv.getTokens (base.drop 1)) L1.root L1.baseDirs (some [])
      = some (R', M', some p))
    (hd : deref R' p = some B)
    (hfind : findDirectory env.nameMatch R' (env.toNmdcFile base)
      = some p)
    (hnamed : Entry.namedList lenv entries = true)
    (hclean : ∀ x ∈ dirMapVisit (lenv.toLower base) M',
      x.2.1.isSome = true → x.1 ∈ regs)
    (hfresh : keysFresh regs
      (Entry.keys lenv (lenv.toLower base) entries) = true) :
    (loadPartialImpl env lenv penv L events aBaseDir reloadAll
        changeDir).2 = .ok () ∧
      normDupes (dupePassOn penv L)
        (loadPartialImpl env lenv penv L events aBaseDir reloadAll
          changeDir).1.root
        = normDupes (dupePassOn penv L) (modifyAt R' p (fun d =>
            mergedDir d lenv.listDate (lenv.toUInt32 (lenv.getAttrib attribs sBaseDate 3))
              (Entry.dirsOf lenv lenv.listDate (dupePassOn penv L) (dupePassOn penv L) entries
                (getPath R' p))
              (Entry.filesOf lenv (dupePassOn penv L) entries))) ∧
      findDirectory env.nameMatch
        (loadPartialImpl env lenv penv L events aBaseDir reloadAll
          changeDir).1.root (env.toNmdcFile base) = some p ∧
      (∀ x ∈ (loadPartialImpl env lenv penv L events aBaseDir
          reloadAll changeDir).1.baseDirs,
        x ∈ dirMapVisit (lenv.toLower base) M' ∨
          x.1 ∈ registeredKeys
            (Entry.keys lenv (lenv.toLower base) entries)) ∧
      (∃ d', dirMapFind (lenv.toLower base)
        (loadPartialImpl env lenv penv L events aBaseDir reloadAll
          changeDir).1.baseDirs = some (d', true)) ∧
      (loadPartialImpl env lenv penv L events aBaseDir reloadAll
        changeDir).1.partialList = true ∧
      (loadPartialImpl env lenv penv L events aBaseDir reloadAll
        changeDir).1.isOwnList = L.isOwnList ∧
      (loadPartialImpl env lenv penv L events aBaseDir reloadAll
        changeDir).1.closing = false ∧
      (loadPartialImpl env lenv penv L events aBaseDir reloadAll
        changeDir).1.isClientView = L.isClientView := by
  have hbd : partialBaseDir lenv L aBaseDir reloadAll = base := hb
  have hfc : (!L1.isOwnList && L1.isClientView && penv.dupesInFilelist) = dupePassOn penv L := by
    unfold dupePassOn
    rw [hown1, hcv1]
    cases L.isOwnList <;> cases L.isClientView <;> cases penv.dupesInFilelist <;> rfl
  have hpass1 : ∀ (r : Directory) (m : DirMap),
      dupePassOn penv { L1 with root := r, baseDirs := m } = dupePassOn penv L := by
    intro r m
    unfold dupePassOn
    simp only [hown1, hcv1]
  obtain ⟨m', hmerge, hm', hv'⟩ := merge_list_document lenv L1 attribs entries
    base lenv.listDate penv.dupesInFilelist R' M' p B regs hcl hbase hne
    hres hd hnamed hclean hfresh
  have hdc : (L1.partialList && (!L1.isOwnList && L1.isClientView && penv.dupesInFilelist))
      = dupePassOn penv L := by
    rw [hfc, hpart1]; rfl
  rw [hdc, hfc] at hmerge
  have hfindM : findDirectory env.nameMatch (modifyAt R' p (fun d =>
      Directory.setComplete (Directory.addEntries
        (Entry.dirsOf lenv lenv.listDate (dupePassOn penv L) (dupePassOn penv L) entries
          (getPath R' p))
        (Entry.filesOf lenv (dupePassOn penv L) entries)
        (Directory.setRemoteDate (lenv.toUInt32 (lenv.getAttrib attribs sBaseDate 3))
          (Directory.setUpdateDate lenv.listDate d)))))
      (env.toNmdcFile base) = some p :=
    findDirectory_modifyAt env.nameMatch _ (merged_getName _ _ _ _) R' _ p hfind
  have hfin := onLoadingFinished_at env penv
    { L1 with
      root := modifyAt R' p (fun d =>
        Directory.setComplete (Directory.addEntries
          (Entry.dirsOf lenv lenv.listDate (dupePassOn penv L) (dupePassOn penv L) entries
            (getPath R' p))
          (Entry.filesOf lenv (dupePassOn penv L) entries)
          (Directory.setRemoteDate (lenv.toUInt32 (lenv.getAttrib attribs sBaseDate 3))
            (Directory.setUpdateDate lenv.listDate d))))
      baseDirs := m' }
    0 (env.toNmdcFile base)
    (reloadAll || (partialReloading lenv L base reloadAll &&
      decide (base = ['/'])))
    changeDir p _ hadl hfindM (by rw [deref_modifyAt, hd]; rfl)
  rw [hpass1] at hfin
  obtain ⟨hroot, hreg, hp, ho, hc, hv⟩ := hfin
  have hA : loadPartialImpl env lenv penv L events aBaseDir reloadAll
      changeDir
      = (onLoadingFinished env penv
          { L1 with
            root := modifyAt R' p (fun d =>
              Directory.setComplete (Directory.addEntries
                (Entry.dirsOf lenv lenv.listDate (dupePassOn penv L) (dupePassOn penv L)
                  entries (getPath R' p))
                (Entry.filesOf lenv (dupePassOn penv L) entries)
                (Directory.setRemoteDate (lenv.toUInt32 (lenv.getAttrib attribs sBaseDate 3))
                  (Directory.setUpdateDate lenv.listDate d))))
            baseDirs := m' }
          0 (env.toNmdcFile base)
          (reloadAll || (partialReloading lenv L base reloadAll &&
            decide (base = ['/'])))
          changeDir, .ok ()) := by
    unfold loadPartialImpl
    cases hown : L.isOwnList with
    | false =>
      simp only [incomingEvents, hown, Bool.false_eq_true, if_false, Option.some.injEq] at hinc
      subst hinc
      simp only [hpart, Bool.not_true, Bool.false_eq_true, if_false, hbd, hprep, updateXML,
        hmerge]
    | true =>
      simp only [incomingEvents, hown, if_true, hbd, hib hown] at hinc
      simp only [hpart, Bool.not_true, Bool.false_eq_true, if_false, if_true, hbd, hprep,
        hib hown, hinc, hmerge]
  rw [hA]
  refine ⟨rfl, ?_, ?_, ?_, ?_, ?_, ?_, ?_, ?_⟩
  · simp only
    rw [hroot]
    rw [normDupes_modifyAt (dupePassOn penv L) _ _ (forgetDupes_setLoading false) _
      (modifyAt R' p (fun d =>
        Directory.setComplete (Directory.addEntries
          (Entry.dirsOf lenv lenv.listDate (dupePassOn penv L) (dupePassOn penv L) entries
            (getPath R' p))
          (Entry.filesOf lenv (dupePassOn penv L) entries)
          (Directory.setRemoteDate (lenv.toUInt32 (lenv.getAttrib attribs sBaseDate 3))
            (Directory.setUpdateDate lenv.listDate d))))) p
      (normDupes_dupePass _ _ _), modifyAt_modifyAt]
    rfl
  · simp only
    rw [hroot]
    apply findDirectory_modifyAt env.nameMatch _ (setLoading_getName false)
    rw [normDupes_findDirectory (dupePassOn penv L) env.nameMatch _ _ _
      (normDupes_dupePass _ _ _)]
    exact hfindM
  · simp only
    rw [hreg]
    exact hm'
  · simp only
    rw [hreg]
    exact hv'
  · simp only
    rw [hp]; exact hpart1
  · simp only
    rw [ho]; exact hown1
  · simp only
    rw [hc]; exact hcl
  · simp only
    rw [hv]; exact hcv1
/-! ### The state in which a partial update starts to load -/

theorem clearAll_getName (d : Directory) : (Directory.clearAll d).getName = d.getName := by
  cases d; rfl

theorem clearAll_hasContent (d : Directory) : (Directory.clearAll d).hasContent = false := by
  cases d; rfl

theorem partialPrepare_flags (env : Collaborators) (lenv : LoaderEnv) (penv : PartialEnv)
    (L : Listing) (aBaseDir : List Char) (reloadAll : Bool) :
    (partialPrepare env lenv penv L aBaseDir reloadAll).partialList = L.partialList ∧
      (partialPrepare env lenv penv L aBaseDir reloadAll).isOwnList = L.isOwnList ∧
      (partialPrepare env lenv penv L aBaseDir reloadAll).isClientView = L.isClientView ∧
      (partialPrepare env lenv penv L aBaseDir reloadAll).closing = L.closing := by
  unfold partialPrepare clearForReload
  split
  · split
    · exact ⟨rfl, rfl, rfl, rfl⟩
    · split
      · exact ⟨rfl, rfl, rfl, rfl⟩
      · split
        · exact ⟨rfl, rfl, rfl, rfl⟩
        · split <;> exact ⟨rfl, rfl, rfl, rfl⟩
  · exact ⟨rfl, rfl, rfl, rfl⟩

theorem partialPrepare_visited (env : Collaborators) (lenv : LoaderEnv) (penv : PartialEnv)
    (L : Listing) (aBaseDir : List Char) (p : Ptr) (D : Directory) (e : Option Ptr)
    (hne : lenv.toAdcFile aBaseDir ≠ [])
    (hvis : dirMapFind (lenv.toLower (lenv.toAdcFile aBaseDir)) L.baseDirs = some (e, true))
    (hfind : findDirectory env.nameMatch L.root (env.toNmdcFile (lenv.toAdcFile aBaseDir))
      = some p)
    (hd : deref L.root p = some D) :
    partialPrepare env lenv penv L aBaseDir false
      = if D.hasContent then
          { L with
            fired := L.fired ++ [ListenerEvent.LoadingStarted false]
            root := modifyAt L.root p Directory.clearAll
            baseDirs := L.baseDirs.filter (fun e => !penv.isSub e.1 (lenv.toAdcFile aBaseDir)) }
        else { L with fired := L.fired ++ [ListenerEvent.LoadingStarted false] } := by
  have hbd : partialBaseDir lenv L aBaseDir false = lenv.toAdcFile aBaseDir := by
    simp [partialBaseDir]
  have hemp : (lenv.toAdcFile aBaseDir).isEmpty = false := by
    cases h : lenv.toAdcFile aBaseDir with
    | nil => exact absurd h hne
    | cons a as => rfl
  simp only [partialPrepare, hbd, partialReloading, hvis, Bool.false_or, if_true,
    clearForReload, hemp, Bool.or_false, Bool.false_eq_true, if_false, hfind, hd,
    Directory.hasContent]

theorem partialPrepare_reloadAll (env : Collaborators) (lenv : LoaderEnv) (penv : PartialEnv)
    (L : Listing) (aBaseDir base : List Char)
    (hb : partialBaseDir lenv L aBaseDir true = base) (hne : base ≠ []) :
    partialPrepare env lenv penv L aBaseDir true
      = { L with
          fired := L.fired ++ [ListenerEvent.LoadingStarted false]
          baseDirs := []
          root := (Directory.clearAll L.root).setType DirType.TYPE_INCOMPLETE_CHILD } := by
  have hemp : base.isEmpty = false := by
    cases base with
    | nil => exact absurd rfl hne
    | cons a as => rfl
  simp only [partialPrepare, hb, partialReloading, Bool.true_or, if_true, clearForReload, hemp,
    Bool.or_true, Bool.false_eq_true, if_false]

theorem mem_liveKeys (m : DirMap) (k : List Char) :
    k ∈ liveKeys m ↔ ∃ x ∈ m, x.2.1.isSome = true ∧ x.1 = k := by
  constructor
  · intro h
    simp only [liveKeys, List.mem_map, List.mem_filter] at h
    obtain ⟨x, ⟨hx, hl⟩, hk⟩ := h
    exact ⟨x, hx, hl, hk⟩
  · intro h
    obtain ⟨x, hx, hl, hk⟩ := h
    simp only [liveKeys, List.mem_map, List.mem_filter]
    exact ⟨x, ⟨hx, hl⟩, hk⟩

theorem live_of_dirMapSet (key : List Char) (d : Option Ptr) (m : DirMap)
    (hd : ∀ a, d = some a → ∃ y ∈ m, y.1 = key ∧ y.2.1.isSome = true)
    (x : List Char × Option Ptr × Bool) (hx : x ∈ dirMapSet key (d, true) m)
    (hlive : x.2.1.isSome = true) : ∃ y ∈ m, y.1 = x.1 ∧ y.2.1.isSome = true := by
  induction m with
  | nil =>
    simp only [dirMapSet, List.mem_singleton] at hx
    subst hx
    cases d with
    | none => simp at hlive
    | some a =>
      obtain ⟨y, hy, _⟩ := hd a rfl
      cases hy
  | cons z m ih =>
    obtain ⟨k', v'⟩ := z
    by_cases hk : k' = key
    · simp only [dirMapSet, hk, if_true, List.mem_cons] at hx
      rcases hx with hx | hx
      · subst hx
        cases d with
        | none => simp at hlive
        | some a =>
          obtain ⟨y, hy, hy1, hy2⟩ := hd a rfl
          exact ⟨y, hy, hy1, hy2⟩
      · exact ⟨x, List.mem_cons_of_mem _ hx, rfl, hlive⟩
    · simp only [dirMapSet, hk, if_false, List.mem_cons] at hx
      rcases hx with hx | hx
      · exact ⟨x, by rw [hx]; exact List.mem_cons_self _ _, rfl, hlive⟩
      · by_cases hxk : x.1 = key
        · cases d with
          | none =>
            obtain ⟨y, hy, hy1, hy2⟩ := ih (fun a h => by cases h) hx
            exact ⟨y, List.mem_cons_of_mem _ hy, hy1, hy2⟩
          | some a =>
            obtain ⟨y, hy, hy1, hy2⟩ := hd a rfl
            exact ⟨y, hy, by rw [hy1, hxk], hy2⟩
        · have hx2 : x ∈ m := by
            rcases mem_dirMapSet key (d, true) m x hx with h | h
            · exact absurd h hxk
            · exact h
          exact ⟨x, List.mem_cons_of_mem _ hx2, rfl, hlive⟩

/-- A path that the registry holds with a directory after the base path was marked as
visited was held with a directory before. -/
theorem live_of_dirMapVisit (key : List Char) (m : DirMap)
    (x : List Char × Option Ptr × Bool) (hx : x ∈ dirMapVisit key m)
    (hlive : x.2.1.isSome = true) : ∃ y ∈ m, y.1 = x.1 ∧ y.2.1.isSome = true := by
  unfold dirMapVisit at hx
  cases hf : dirMapFind key m with
  | none =>
    rw [hf] at hx
    exact live_of_dirMapSet key none m (fun a h => by cases h) x hx hlive
  | some v =>
    rw [hf] at hx
    obtain ⟨d, b⟩ := v
    refine live_of_dirMapSet key d m ?_ x hx hlive
    intro a ha
    subst ha
    exact ⟨(key, some a, b), dirMapFind_mem key _ m hf, rfl, rfl⟩

theorem keysFresh_mono (K : List (List Char × Bool)) :
    ∀ (A B : List (List Char)), (∀ k ∈ B, k ∈ A) → keysFresh A K = true →
      keysFresh B K = true := by
  induction K with
  | nil => intro _ _ _ _; rfl
  | cons x K ih =>
    intro A B hBA h
    obtain ⟨k, c⟩ := x
    simp only [keysFresh, Bool.and_eq_true, Bool.not_eq_true', decide_eq_false_iff_not] at h ⊢
    refine ⟨fun hk => h.1 (hBA k hk), ih _ _ ?_ h.2⟩
    intro k' hk'
    cases c with
    | true =>
      simp only [if_true, List.mem_cons] at hk' ⊢
      rcases hk' with h1 | h1
      · exact Or.inl h1
      · exact Or.inr (hBA k' h1)
    | false =>
      simp only [Bool.false_eq_true, if_false] at hk' ⊢
      exact hBA k' hk'

theorem keysFresh_of_disjoint (K : List (List Char × Bool)) :
    ∀ (A B : List (List Char)), keysFresh A K = true → (∀ k ∈ B, k ∉ K.map Prod.fst) →
      keysFresh (A ++ B) K = true := by
  induction K with
  | nil => intro _ _ _ _; rfl
  | cons x K ih =>
    intro A B h hB
    obtain ⟨k, c⟩ := x
    simp only [keysFresh, Bool.and_eq_true, Bool.not_eq_true', decide_eq_false_iff_not] at h ⊢
    refine ⟨?_, ?_⟩
    · intro hk
      rcases List.mem_append.mp hk with h1 | h1
      · exact h.1 h1
      · exact hB k h1 (by simp)
    · have hB' : ∀ k' ∈ B, k' ∉ K.map Prod.fst := by
        intro k' hk' hmem
        exact hB k' hk' (by simp only [List.map_cons, List.mem_cons]; exact Or.inr hmem)
      have := ih (if c then k :: A else A) B h.2 hB'
      cases c with
      | true => simpa using this
      | false => simpa using this

theorem keysFresh_of_clean (K : List (List Char × Bool)) (regs : List (List Char))
    (h : keysFresh [] K = true) (hdis : ∀ k ∈ regs, k ∉ K.map Prod.fst) :
    keysFresh regs K = true := by
  have := keysFresh_of_disjoint K [] regs h hdis
  simpa using this

theorem keys_eq_nil_of_dirsOf_nil (env : LoaderEnv) (ld : Nat) (dc fc : Bool)
    (pp bl : List Char) (es : List Entry) (h : Entry.dirsOf env ld dc fc es pp = []) :
    Entry.keys env bl es = [] := by
  unfold Entry.keys
  induction es generalizing bl with
  | nil => rfl
  | cons e es ih =>
    cases e with
    | file a s =>
      simp only [Entry.dirsOf, Entry.dirOf, Option.toList_none, List.nil_append] at h
      simp only [Entry.walkList, Entry.walk, List.nil_append]
      exact ih bl h
    | dir a s cs =>
      simp [Entry.dirsOf, Entry.dirOf] at h

theorem partialPrepare_unvisited (env : Collaborators) (lenv : LoaderEnv) (penv : PartialEnv)
    (L : Listing) (aBaseDir : List Char)
    (hvis : (dirMapFind (lenv.toLower (lenv.toAdcFile aBaseDir)) L.baseDirs).map Prod.snd
      ≠ some true) :
    partialPrepare env lenv penv L aBaseDir false
      = { L with fired := L.fired ++ [ListenerEvent.LoadingStarted true] } := by
  have hbd : partialBaseDir lenv L aBaseDir false = lenv.toAdcFile aBaseDir := by
    simp [partialBaseDir]
  have hr : partialReloading lenv L (lenv.toAdcFile aBaseDir) false = false := by
    unfold partialReloading
    cases hf : dirMapFind (lenv.toLower (lenv.toAdcFile aBaseDir)) L.baseDirs with
    | none => rfl
    | some v =>
      obtain ⟨e, b⟩ := v
      cases b with
      | false => rfl
      | true => rw [hf] at hvis; exact absurd rfl hvis
  simp only [partialPrepare, hbd, hr, Bool.false_eq_true, if_false]
/-! ### A reload replaces the content of the base directory -/

theorem deref_normDupes (pass : Bool) (t : Directory) (p : Ptr) :
    deref (normDupes pass t) p = (deref t p).map (normDupes pass) := by
  cases pass with
  | false =>
    simp only [normDupes, Bool.false_eq_true, if_false]
    cases deref t p <;> rfl
  | true =>
    simp only [normDupes, if_true, deref_forgetDupes]
    cases deref t p <;> rfl

theorem mergedDir_of_empty (B : Directory) (a b : Nat) (ds : List Directory) (fs : List File)
    (h : B.hasContent = false) : mergedDir B a b ds fs = reloadedDir B a b ds fs := by
  cases B with
  | mk info ds0 fs0 =>
    simp only [Directory.hasContent, Directory.directories, Directory.files,
      Bool.or_eq_false_iff, Bool.not_eq_false', List.isEmpty_iff] at h
    obtain ⟨rfl, rfl⟩ := h
    simp [mergedDir, reloadedDir, Directory.setLoading, Directory.setComplete,
      Directory.addEntries, Directory.setRemoteDate, Directory.setUpdateDate, Directory.info]

/-- A partial update that starts to load in the state `L1`, where the walk of the listing
root tag ends at the directory `B` at `p` and no path of the document is registered with a
directory: afterwards the directory at `p` is `B` with the directories and files of the
document appended. -/
theorem load_into_base (env : Collaborators) (lenv : LoaderEnv) (penv : PartialEnv)
    (L L1 : Listing) (events : List XmlEvent) (attribs : Attribs) (entries : List Entry)
    (aBaseDir base : List Char)
    (reloadAll changeDir : Bool) (R' : Directory) (M' : DirMap) (p : Ptr) (B : Directory)
    (hpart : L.partialList = true) (hcl : L.closing = false)
    (hb : partialBaseDir lenv L aBaseDir reloadAll = base)
    (hinc : incomingEvents env lenv penv L events aBaseDir reloadAll
      = some (listDocument attribs entries))
    (hib : L.isOwnList = true → lenv.toAdcFile (env.toNmdcFile base) = base)
    (hprep : partialPrepare env lenv penv L aBaseDir reloadAll = L1)
    (hadl : penv.matchADL = false)
    (hbase : rootTagBase lenv attribs base = base)
    (hne : base ≠ [])
    (hres : resolveBase lenv lenv.listDate
      (lenv.getTokens (base.drop 1)) L1.root L1.baseDirs (some [])
      = some (R', M', some p))
    (hd : deref R' p = some B)
    (hfind : findDirectory env.nameMatch R' (env.toNmdcFile base)
      = some p)
    (hnamed : Entry.namedList lenv entries = true)
    (hfresh : keysFresh (liveKeys (dirMapVisit (lenv.toLower base) M'))
      (Entry.keys lenv (lenv.toLower base) entries) = true) :
    (loadPartialImpl env lenv penv L events aBaseDir reloadAll
        changeDir).2 = .ok () ∧
      normDupes (dupePassOn penv L)
        (loadPartialImpl env lenv penv L events aBaseDir reloadAll
          changeDir).1.root
        = normDupes (dupePassOn penv L) (modifyAt R' p (fun d =>
            mergedDir d lenv.listDate (lenv.toUInt32 (lenv.getAttrib attribs sBaseDate 3))
              (Entry.dirsOf lenv lenv.listDate (dupePassOn penv L) (dupePassOn penv L) entries
                (getPath R' p))
              (Entry.filesOf lenv (dupePassOn penv L) entries))) ∧
      findDirectory env.nameMatch
        (loadPartialImpl env lenv penv L events aBaseDir reloadAll
          changeDir).1.root (env.toNmdcFile base) = some p ∧
      (deref (loadPartialImpl env lenv penv L events aBaseDir
          reloadAll changeDir).1.root p).map (normDupes (dupePassOn penv L))
        = some (normDupes (dupePassOn penv L)
            (mergedDir B lenv.listDate (lenv.toUInt32 (lenv.getAttrib attribs sBaseDate 3))
              (Entry.dirsOf lenv lenv.listDate (dupePassOn penv L) (dupePassOn penv L) entries
                (getPath R' p))
              (Entry.filesOf lenv (dupePassOn penv L) entries))) ∧
      (∀ x ∈ (loadPartialImpl env lenv penv L events aBaseDir
          reloadAll changeDir).1.baseDirs,
        x.1 = lenv.toLower base ∨ x ∈ M' ∨
          x.1 ∈ registeredKeys
            (Entry.keys lenv (lenv.toLower base) entries)) ∧
      (∃ d', dirMapFind (lenv.toLower base)
        (loadPartialImpl env lenv penv L events aBaseDir reloadAll
          changeDir).1.baseDirs = some (d', true)) ∧
      (loadPartialImpl env lenv penv L events aBaseDir reloadAll
        changeDir).1.partialList = true ∧
      (loadPartialImpl env lenv penv L events aBaseDir reloadAll
        changeDir).1.isOwnList = L.isOwnList ∧
      (loadPartialImpl env lenv penv L events aBaseDir reloadAll
        changeDir).1.closing = false ∧
      (loadPartialImpl env lenv penv L events aBaseDir reloadAll
        changeDir).1.isClientView = L.isClientView := by
  have hfl := partialPrepare_flags env lenv penv L aBaseDir reloadAll
  rw [hprep] at hfl
  obtain ⟨h1, h2, h3, h4, h5, h6, h7, h8, h9⟩ := loadPartialImpl_from env lenv penv L L1
    events attribs entries aBaseDir base reloadAll changeDir R' M' p B
    (liveKeys (dirMapVisit (lenv.toLower base) M'))
    hpart hb hinc hib hprep (hfl.1.trans hpart) hfl.2.1 hfl.2.2.1 (hfl.2.2.2.trans hcl)
    hadl hbase hne hres hd hfind hnamed
    (fun x hx hl => (mem_liveKeys _ _).mpr ⟨x, hx, hl, rfl⟩) hfresh
  refine ⟨h1, h2, h3, ?_, ?_, h5, h6, h7, h8, h9⟩
  · rw [← deref_normDupes, h2, deref_normDupes, deref_modifyAt, hd]
    simp only [Option.map_some']
  · intro x hx
    rcases h4 x hx with h | h
    · rcases mem_dirMapVisit _ _ x h with h' | h'
      · exact Or.inl h'
      · exact Or.inr (Or.inl h')
    · exact Or.inr (Or.inr h)

/-- A partial update that starts to load in the state `L1`, where the walk of the listing
root tag ends at the empty directory `B` at `p` and no path of the document is registered
with a directory: afterwards the directory at `p` holds exactly the directories and files
of the document. -/
theorem load_into_empty_base (env : Collaborators) (lenv : LoaderEnv) (penv : PartialEnv)
    (L L1 : Listing) (events : List XmlEvent) (attribs : Attribs) (entries : List Entry)
    (aBaseDir base : List Char)
    (reloadAll changeDir : Bool) (R' : Directory) (M' : DirMap) (p : Ptr) (B : Directory)
    (hpart : L.partialList = true) (hcl : L.closing = false)
    (hb : partialBaseDir lenv L aBaseDir reloadAll = base)
    (hinc : incomingEvents env lenv penv L events aBaseDir reloadAll
      = some (listDocument attribs entries))
    (hib : L.isOwnList = true → lenv.toAdcFile (env.toNmdcFile base) = base)
    (hprep : partialPrepare env lenv penv L aBaseDir reloadAll = L1)
    (hadl : penv.matchADL = false)
    (hbase : rootTagBase lenv attribs base = base)
    (hne : base ≠ [])
    (hres : resolveBase lenv lenv.listDate
      (lenv.getTokens (base.drop 1)) L1.root L1.baseDirs (some [])
      = some (R', M', some p))
    (hd : deref R' p = some B) (hempty : B.hasContent = false)
    (hfind : findDirectory env.nameMatch R' (env.toNmdcFile base)
      = some p)
    (hnamed : Entry.namedList lenv entries = true)
    (hfresh : keysFresh (liveKeys (dirMapVisit (lenv.toLower base) M'))
      (Entry.keys lenv (lenv.toLower base) entries) = true) :
    (loadPartialImpl env lenv penv L events aBaseDir reloadAll
        changeDir).2 = .ok () ∧
      normDupes (dupePassOn penv L)
        (loadPartialImpl env lenv penv L events aBaseDir reloadAll
          changeDir).1.root
        = normDupes (dupePassOn penv L) (modifyAt R' p (fun d =>
            mergedDir d lenv.listDate (lenv.toUInt32 (lenv.getAttrib attribs sBaseDate 3))
              (Entry.dirsOf lenv lenv.listDate (dupePassOn penv L) (dupePassOn penv L) entries
                (getPath R' p))
              (Entry.filesOf lenv (dupePassOn penv L) entries))) ∧
      findDirectory env.nameMatch
        (loadPartialImpl env lenv penv L events aBaseDir reloadAll
          changeDir).1.root (env.toNmdcFile base) = some p ∧
      (deref (loadPartialImpl env lenv penv L events aBaseDir
          reloadAll changeDir).1.root p).map (normDupes (dupePassOn penv L))
        = some (normDupes (dupePassOn penv L)
            (reloadedDir B lenv.listDate (lenv.toUInt32 (lenv.getAttrib attribs sBaseDate 3))
              (Entry.dirsOf lenv lenv.listDate (dupePassOn penv L) (dupePassOn penv L) entries
                (getPath R' p))
              (Entry.filesOf lenv (dupePassOn penv L) entries))) ∧
      (∀ x ∈ (loadPartialImpl env lenv penv L events aBaseDir
          reloadAll changeDir).1.baseDirs,
        x.1 = lenv.toLower base ∨ x ∈ M' ∨
          x.1 ∈ registeredKeys
            (Entry.keys lenv (lenv.toLower base) entries)) ∧
      (∃ d', dirMapFind (lenv.toLower base)
        (loadPartialImpl env lenv penv L events aBaseDir reloadAll
          changeDir).1.baseDirs = some (d', true)) ∧
      (loadPartialImpl env lenv penv L events aBaseDir reloadAll
        changeDir).1.partialList = true ∧
      (loadPartialImpl env lenv penv L events aBaseDir reloadAll
        changeDir).1.isOwnList = L.isOwnList ∧
      (loadPartialImpl env lenv penv L events aBaseDir reloadAll
        changeDir).1.closing = false ∧
      (loadPartialImpl env lenv penv L events aBaseDir reloadAll
        changeDir).1.isClientView = L.isClientView := by
  have h := load_into_base env lenv penv L L1 events attribs entries aBaseDir base reloadAll
    changeDir R' M' p B hpart hcl hb hinc hib hprep hadl hbase hne hres hd hfind hnamed hfresh
  rw [mergedDir_of_empty B _ _ _ _ hempty] at h
  exact h
/-! ### Applying a partial update twice -/

theorem mergedDir_clearAll_mergedDir (B : Directory) (a b : Nat) (ds : List Directory)
    (fs : List File) (h : B.hasContent = false) :
    mergedDir (Directory.clearAll (mergedDir B a b ds fs)) a b ds fs = mergedDir B a b ds fs := by
  cases B with
  | mk info ds0 fs0 =>
    simp only [Directory.hasContent, Directory.directories, Directory.files,
      Bool.or_eq_false_iff, Bool.not_eq_false', List.isEmpty_iff] at h
    obtain ⟨rfl, rfl⟩ := h
    simp [mergedDir, Directory.setLoading, Directory.setComplete, Directory.clearAll,
      Directory.addEntries, Directory.setRemoteDate, Directory.setUpdateDate]

theorem mergedDir_mergedDir_nil (B : Directory) (a b : Nat) :
    mergedDir (mergedDir B a b [] []) a b [] [] = mergedDir B a b [] [] := by
  cases B with
  | mk info ds0 fs0 =>
    simp [mergedDir, Directory.setLoading, Directory.setComplete,
      Directory.addEntries, Directory.setRemoteDate, Directory.setUpdateDate]

theorem mergedDir_hasContent (B : Directory) (a b : Nat) (ds : List Directory)
    (fs : List File) (h : (mergedDir B a b ds fs).hasContent = false) :
    ds = [] ∧ fs = [] := by
  cases B with
  | mk info ds0 fs0 =>
    simp only [mergedDir, Directory.setLoading, Directory.setComplete, Directory.addEntries,
      Directory.setRemoteDate, Directory.setUpdateDate, Directory.hasContent,
      Directory.directories, Directory.files, Bool.or_eq_false_iff, Bool.not_eq_false',
      List.isEmpty_iff, List.append_eq_nil] at h
    exact ⟨h.1.2, h.2.2⟩

theorem dupePassOn_congr (penv : PartialEnv) (L L' : Listing) (ho : L'.isOwnList = L.isOwnList)
    (hv : L'.isClientView = L.isClientView) : dupePassOn penv L' = dupePassOn penv L := by
  unfold dupePassOn
  rw [ho, hv]

/-- The second application of a partial update, from the state `L'` that the first one
left: the tree of `L'` is, up to what the dupe pass assigns, `R'` with the elements merged
into the empty directory at `p`, and the second application starts to load in the tree of
`L'` with `G` applied at `p`, where `G` leaves the directory empty. The second application
returns normally and leaves the same tree, up to what the dupe pass assigns. -/
theorem second_application (env : Collaborators) (lenv : LoaderEnv) (penv : PartialEnv)
    (L' L2 : Listing) (events : List XmlEvent) (attribs : Attribs) (entries : List Entry)
    (aBaseDir : List Char) (changeDir : Bool) (R' : Directory) (M2 : DirMap) (p : Ptr)
    (B : Directory) (G : Directory → Directory)
    (hpart : L'.partialList = true) (hcl : L'.closing = false)
    (hinc : incomingEvents env lenv penv L' events aBaseDir false
      = some (listDocument attribs entries))
    (hib : L'.isOwnList = true →
      lenv.toAdcFile (env.toNmdcFile (lenv.toAdcFile aBaseDir)) = lenv.toAdcFile aBaseDir)
    (hadl : penv.matchADL = false)
    (hbase : rootTagBase lenv attribs (lenv.toAdcFile aBaseDir) = lenv.toAdcFile aBaseDir)
    (hne : lenv.toAdcFile aBaseDir ≠ [])
    (hprep : partialPrepare env lenv penv L' aBaseDir false = L2)
    (hroot2 : L2.root = modifyAt L'.root p G) (hreg2 : L2.baseDirs = M2)
    (hGn : ∀ d, (G d).getName = d.getName)
    (hGf : ∀ d, forgetDupes (G d) = G (forgetDupes d))
    (hN1 : normDupes (dupePassOn penv L') L'.root
      = normDupes (dupePassOn penv L') (modifyAt R' p (fun d =>
          mergedDir d lenv.listDate (lenv.toUInt32 (lenv.getAttrib attribs sBaseDate 3))
            (Entry.dirsOf lenv lenv.listDate (dupePassOn penv L') (dupePassOn penv L')
              entries (getPath R' p))
            (Entry.filesOf lenv (dupePassOn penv L') entries))))
    (hwalk : walkNames (lenv.getTokens ((lenv.toAdcFile aBaseDir).drop 1)) R' [] = some p)
    (hd : deref R' p = some B)
    (hfind1 : findDirectory env.nameMatch L'.root (env.toNmdcFile (lenv.toAdcFile aBaseDir))
      = some p)
    (hempty2 : (G (mergedDir B lenv.listDate
        (lenv.toUInt32 (lenv.getAttrib attribs sBaseDate 3))
        (Entry.dirsOf lenv lenv.listDate (dupePassOn penv L') (dupePassOn penv L') entries
          (getPath R' p))
        (Entry.filesOf lenv (dupePassOn penv L') entries))).hasContent = false)
    (hfix : mergedDir (G (mergedDir B lenv.listDate
          (lenv.toUInt32 (lenv.getAttrib attribs sBaseDate 3))
          (Entry.dirsOf lenv lenv.listDate (dupePassOn penv L') (dupePassOn penv L') entries
            (getPath R' p))
          (Entry.filesOf lenv (dupePassOn penv L') entries)))
        lenv.listDate (lenv.toUInt32 (lenv.getAttrib attribs sBaseDate 3))
        (Entry.dirsOf lenv lenv.listDate (dupePassOn penv L') (dupePassOn penv L') entries
          (getPath R' p))
        (Entry.filesOf lenv (dupePassOn penv L') entries)
      = mergedDir B lenv.listDate (lenv.toUInt32 (lenv.getAttrib attribs sBaseDate 3))
        (Entry.dirsOf lenv lenv.listDate (dupePassOn penv L') (dupePassOn penv L') entries
          (getPath R' p))
        (Entry.filesOf lenv (dupePassOn penv L') entries))
    (hnamed : Entry.namedList lenv entries = true)
    (hfresh : keysFresh (liveKeys (dirMapVisit (lenv.toLower (lenv.toAdcFile aBaseDir)) M2))
      (Entry.keys lenv (lenv.toLower (lenv.toAdcFile aBaseDir)) entries) = true) :
    (loadPartialImpl env lenv penv L' events aBaseDir false
        changeDir).2 = .ok () ∧
      normDupes (dupePassOn penv L')
        (loadPartialImpl env lenv penv L' events aBaseDir false
          changeDir).1.root
        = normDupes (dupePassOn penv L') L'.root := by
  have hNR2 : normDupes (dupePassOn penv L') L2.root
      = normDupes (dupePassOn penv L') (modifyAt R' p (G ∘ fun d =>
          mergedDir d lenv.listDate (lenv.toUInt32 (lenv.getAttrib attribs sBaseDate 3))
            (Entry.dirsOf lenv lenv.listDate (dupePassOn penv L') (dupePassOn penv L')
              entries (getPath R' p))
            (Entry.filesOf lenv (dupePassOn penv L') entries))) := by
    rw [hroot2, normDupes_modifyAt (dupePassOn penv L') G G hGf _ _ p hN1, modifyAt_modifyAt]
  have hGFn : ∀ d, ((G ∘ fun d =>
      mergedDir d lenv.listDate (lenv.toUInt32 (lenv.getAttrib attribs sBaseDate 3))
        (Entry.dirsOf lenv lenv.listDate (dupePassOn penv L') (dupePassOn penv L')
          entries (getPath R' p))
        (Entry.filesOf lenv (dupePassOn penv L') entries)) d).getName = d.getName := by
    intro d
    simp only [Function.comp, hGn, mergedDir_getName]
  have hwalk2 : walkNames (lenv.getTokens ((lenv.toAdcFile aBaseDir).drop 1)) L2.root []
      = some p := by
    rw [normDupes_walkNames _ _ _ _ hNR2]
    exact walkNames_modifyAt _ hGFn _ R' p hwalk
  have hpath2 : getPath L2.root p = getPath R' p := by
    rw [normDupes_getPath _ _ _ p hNR2]
    exact getPath_modifyAt _ hGFn R' p B hd
  have hres2 := walkNames_resolveBase lenv lenv.listDate L2.root L2.baseDirs
    (lenv.getTokens ((lenv.toAdcFile aBaseDir).drop 1)) L2.root [] p rfl hwalk2
  have hres3 : resolveBase lenv lenv.listDate
      (lenv.getTokens ((lenv.toAdcFile aBaseDir).drop 1)) L2.root L2.baseDirs (some [])
      = some (L2.root, M2, some p) := by
    rw [hres2, hreg2]
  have hc2 : (deref L2.root p).map Directory.hasContent = some false := by
    rw [normDupes_hasContent _ _ _ p hNR2, deref_modifyAt, hd]
    simp only [Option.map_some', Function.comp, hempty2]
  obtain ⟨B2, hd2, hB2⟩ : ∃ B2, deref L2.root p = some B2 ∧ B2.hasContent = false := by
    cases hdd : deref L2.root p with
    | none => rw [hdd] at hc2; simp at hc2
    | some B2 =>
      rw [hdd] at hc2
      exact ⟨B2, rfl, by simpa using hc2⟩
  have hfind2 : findDirectory env.nameMatch L2.root
      (env.toNmdcFile (lenv.toAdcFile aBaseDir)) = some p := by
    rw [hroot2]
    exact findDirectory_modifyAt env.nameMatch _ hGn L'.root _ p hfind1
  have h := load_into_empty_base env lenv penv L' L2 events attribs entries aBaseDir _ false
    changeDir L2.root M2 p B2 hpart hcl (partialBaseDir_false lenv L' aBaseDir) hinc hib hprep
    hadl hbase hne hres3 hd2 hB2 hfind2 hnamed hfresh
  refine ⟨h.1, ?_⟩
  rw [h.2.1, hpath2]
  rw [normDupes_modifyAt (dupePassOn penv L') _
    (fun d => mergedDir d lenv.listDate (lenv.toUInt32 (lenv.getAttrib attribs sBaseDate 3))
      (forgetDupesList (Entry.dirsOf lenv lenv.listDate (dupePassOn penv L')
        (dupePassOn penv L') entries (getPath R' p)))
      (Entry.filesOf lenv (dupePassOn penv L') entries))
    (forgetDupes_mergedDir lenv.listDate (lenv.toUInt32 (lenv.getAttrib attribs sBaseDate 3))
      (Entry.dirsOf lenv lenv.listDate (dupePassOn penv L') (dupePassOn penv L')
        entries (getPath R' p))
      (Entry.filesOf lenv (dupePassOn penv L') entries)) _ _ p hNR2,
    modifyAt_modifyAt, hN1]
  congr 1
  apply modifyAt_congr_at R' p _ _ B hd
  simp only [Function.comp]
  exact hfix
/-! ### The walk of the listing root tag does not read the members of the root -/

theorem withInfo_directories (i : DirInfo) (d : Directory) :
    (Directory.withInfo i d).directories = d.directories := by
  cases d; rfl

theorem deref_withInfo_cons (i : DirInfo) (root : Directory) (j : Nat) (par : Ptr) :
    deref (Directory.withInfo i root) (j :: par) = deref root (j :: par) := by
  induction par generalizing j with
  | nil => simp only [deref, Option.some_bind, withInfo_directories]
  | cons k par ih =>
    rw [deref, ih k]
    rfl

theorem getPath_withInfo (i : DirInfo) (root : Directory) (ptr : Ptr) :
    getPath (Directory.withInfo i root) ptr = getPath root ptr := by
  induction ptr with
  | nil => rfl
  | cons j par ih => rw [getPath, getPath, ih, deref_withInfo_cons]

theorem modifyAt_withInfo (i : DirInfo) (root : Directory) (ptr : Ptr)
    (f : Directory → Directory)
    (hf : ∀ d, f (Directory.withInfo i d) = Directory.withInfo i (f d)) :
    modifyAt (Directory.withInfo i root) ptr f = Directory.withInfo i (modifyAt root ptr f) := by
  unfold modifyAt
  cases h : ptr.reverse with
  | nil => exact hf root
  | cons a rest =>
    cases root with
    | mk info ds fs => rfl

theorem modifyAt_withInfo_cons (i : DirInfo) (root : Directory) (j : Nat) (par : Ptr)
    (f : Directory → Directory) :
    modifyAt (Directory.withInfo i root) (j :: par) f
      = Directory.withInfo i (modifyAt root (j :: par) f) := by
  unfold modifyAt
  cases h : (j :: par).reverse with
  | nil => simp at h
  | cons a rest =>
    cases root with
    | mk info ds fs => rfl

theorem pushDir_withInfo (c : Directory) (i : DirInfo) (d : Directory) :
    Directory.pushDir c (Directory.withInfo i d) = Directory.withInfo i (Directory.pushDir c d) := by
  cases d; rfl

theorem resolveBase_withInfo (env : LoaderEnv) (ld : Nat) (i : DirInfo)
    (tokens : List (List Char)) :
    ∀ (root : Directory) (m : DirMap) (cur : Option Ptr),
      resolveBase env ld tokens (Directory.withInfo i root) m cur
        = (resolveBase env ld tokens root m cur).map
            (fun r => (Directory.withInfo i r.1, r.2.1, r.2.2)) := by
  induction tokens with
  | nil => intro root m cur; rfl
  | cons n rest ih =>
    intro root m cur
    cases cur with
    | none => rfl
    | some ptr =>
      cases ptr with
      | nil =>
        simp only [resolveBase, deref, withInfo_directories, getPath]
        cases hfb : findByName n root.directories 0 with
        | some k => simp only [ih]
        | none =>
          simp only []
          rw [modifyAt_withInfo i root [] _ (pushDir_withInfo _ i), ih]
      | cons j par =>
        simp only [resolveBase, deref_withInfo_cons, getPath_withInfo]
        cases hd : deref root (j :: par) with
        | none => rfl
        | some d =>
          simp only []
          cases hfb : findByName n d.directories 0 with
          | some k => simp only [ih]
          | none =>
            simp only []
            rw [modifyAt_withInfo_cons, ih]

theorem findDirectory_withInfo (nameMatch : List Char → List Char → Bool) (i : DirInfo)
    (root : Directory) (aName : List Char) :
    findDirectory nameMatch (Directory.withInfo i root) aName
      = findDirectory nameMatch root aName := by
  unfold findDirectory
  rw [findDirectoryAux, findDirectoryAux, withInfo_directories]

theorem modifyAt_info (root : Directory) (ptr : Ptr) (f : Directory → Directory)
    (hf : ∀ d, (f d).info = d.info) : (modifyAt root ptr f).info = root.info := by
  unfold modifyAt
  cases h : ptr.reverse with
  | nil => exact hf root
  | cons a rest =>
    cases root with
    | mk info ds fs => rfl

theorem modifyAt_info_cons (root : Directory) (j : Nat) (par : Ptr)
    (f : Directory → Directory) : (modifyAt root (j :: par) f).info = root.info := by
  unfold modifyAt
  cases h : (j :: par).reverse with
  | nil => simp at h
  | cons a rest =>
    cases root with
    | mk info ds fs => rfl

theorem resolveBase_info (env : LoaderEnv) (ld : Nat) (tokens : List (List Char)) :
    ∀ (root : Directory) (m : DirMap) (cur : Option Ptr) (R' : Directory) (M' : DirMap)
      (c : Option Ptr), resolveBase env ld tokens root m cur = some (R', M', c) →
      R'.info = root.info := by
  induction tokens with
  | nil =>
    intro root m cur R' M' c h
    simp only [resolveBase, Option.some.injEq, Prod.mk.injEq] at h
    rw [← h.1]
  | cons n rest ih =>
    intro root m cur R' M' c h
    cases cur with
    | none => simp [resolveBase] at h
    | some ptr =>
      rw [resolveBase] at h
      cases hd : deref root ptr with
      | none => simp [hd] at h
      | some d =>
        simp only [hd] at h
        cases hfb : findByName n d.directories 0 with
        | some k =>
          simp only [hfb] at h
          exact ih _ _ _ _ _ _ h
        | none =>
          simp only [hfb] at h
          rw [ih _ _ _ _ _ _ h]
          exact modifyAt_info root ptr _ (fun x => by cases x; rfl)
theorem cleared_root_withInfo (X Y : Directory) (t : DirType) :
    (Directory.clearAll X).setType t
      = Directory.withInfo { X.info with type := t } ((Directory.clearAll Y).setType t) := by
  cases X; cases Y; rfl

theorem normDupes_withInfo_root (pass : Bool) (X T : Directory) (t : DirType)
    (hN : normDupes pass X = normDupes pass T) (ht : T.info.type = t) :
    normDupes pass (Directory.withInfo { X.info with type := t } T) = normDupes pass T := by
  cases X with
  | mk iX dsX fsX =>
    cases T with
    | mk iT dsT fsT =>
      cases iX; cases iT
      simp only [Directory.info] at ht
      subst ht
      cases pass with
      | false =>
        simp only [normDupes, Bool.false_eq_true, if_false, Directory.mk.injEq,
          DirInfo.mk.injEq] at hN
        simp only [normDupes, Bool.false_eq_true, if_false, Directory.withInfo,
          Directory.info, Directory.mk.injEq, DirInfo.mk.injEq, and_true, true_and]
        tauto
      | true =>
        simp only [normDupes, if_true, forgetDupes, Directory.mk.injEq,
          DirInfo.mk.injEq] at hN
        simp only [normDupes, if_true, forgetDupes, Directory.withInfo,
          Directory.info, Directory.mk.injEq, DirInfo.mk.injEq, and_true, true_and]
        tauto

theorem normDupes_mergedDir_withInfo (pass : Bool) (X B : Directory) (t : DirType)
    (a b : Nat) (ds : List Directory) (fs : List File)
    (hN : normDupes pass X = normDupes pass (mergedDir B a b ds fs)) :
    normDupes pass (mergedDir (Directory.withInfo { X.info with type := t } B) a b ds fs)
      = normDupes pass (mergedDir B a b ds fs) := by
  cases X with
  | mk iX dsX fsX =>
    cases B with
    | mk iB dsB fsB =>
      cases iX; cases iB
      cases pass with
      | false =>
        simp only [normDupes, Bool.false_eq_true, if_false, mergedDir, Directory.setLoading,
          Directory.setComplete, Directory.addEntries, Directory.setRemoteDate,
          Directory.setUpdateDate, Directory.mk.injEq, DirInfo.mk.injEq] at hN
        simp only [normDupes, Bool.false_eq_true, if_false, mergedDir, Directory.setLoading,
          Directory.setComplete, Directory.addEntries, Directory.setRemoteDate,
          Directory.setUpdateDate, Directory.withInfo, Directory.info, Directory.mk.injEq,
          DirInfo.mk.injEq, and_true, true_and]
        tauto
      | true =>
        simp only [normDupes, if_true, forgetDupes, mergedDir, Directory.setLoading,
          Directory.setComplete, Directory.addEntries, Directory.setRemoteDate,
          Directory.setUpdateDate, Directory.mk.injEq, DirInfo.mk.injEq] at hN
        simp only [normDupes, if_true, forgetDupes, mergedDir, Directory.setLoading,
          Directory.setComplete, Directory.addEntries, Directory.setRemoteDate,
          Directory.setUpdateDate, Directory.withInfo, Directory.info, Directory.mk.injEq,
          DirInfo.mk.injEq, and_true, true_and]
        tauto

theorem withInfo_hasContent (i : DirInfo) (d : Directory) :
    (Directory.withInfo i d).hasContent = d.hasContent := by
  cases d; rfl
/-- The second application of a partial update with full reload, from the state `L'` that
the first one left: the first application cleared the tree `X`, the walk of the listing
root tag made `R'` of it, and the tree of `L'` is, up to what the dupe pass assigns, `R'`
with the elements merged into the empty directory at `p`. The second application returns
normally and leaves the same tree, up to what the dupe pass assigns. -/
theorem second_full_reload (env : Collaborators) (lenv : LoaderEnv) (penv : PartialEnv)
    (L' : Listing) (events : List XmlEvent) (attribs : Attribs) (entries : List Entry)
    (aBaseDir base : List Char) (changeDir : Bool) (X R' : Directory) (M' : DirMap) (p : Ptr)
    (B : Directory)
    (hpart : L'.partialList = true) (hcl : L'.closing = false)
    (hb : partialBaseDir lenv L' aBaseDir true = base)
    (hinc : incomingEvents env lenv penv L' events aBaseDir true
      = some (listDocument attribs entries))
    (hib : L'.isOwnList = true → lenv.toAdcFile (env.toNmdcFile base) = base)
    (hadl : penv.matchADL = false)
    (hbase : rootTagBase lenv attribs base = base)
    (hne : base ≠ [])
    (hres : resolveBase lenv lenv.listDate
      (lenv.getTokens (base.drop 1))
      ((Directory.clearAll X).setType DirType.TYPE_INCOMPLETE_CHILD) [] (some [])
      = some (R', M', some p))
    (hd : deref R' p = some B) (hempty : B.hasContent = false)
    (hfind : findDirectory env.nameMatch R' (env.toNmdcFile base)
      = some p)
    (hN1 : normDupes (dupePassOn penv L') L'.root
      = normDupes (dupePassOn penv L') (modifyAt R' p (fun d =>
          mergedDir d lenv.listDate (lenv.toUInt32 (lenv.getAttrib attribs sBaseDate 3))
            (Entry.dirsOf lenv lenv.listDate (dupePassOn penv L') (dupePassOn penv L')
              entries (getPath R' p))
            (Entry.filesOf lenv (dupePassOn penv L') entries))))
    (hnamed : Entry.namedList lenv entries = true)
    (hfresh : keysFresh (liveKeys (dirMapVisit (lenv.toLower base) M'))
      (Entry.keys lenv (lenv.toLower base) entries) = true) :
    (loadPartialImpl env lenv penv L' events aBaseDir true
        changeDir).2 = .ok () ∧
      normDupes (dupePassOn penv L')
        (loadPartialImpl env lenv penv L' events aBaseDir true
          changeDir).1.root
        = normDupes (dupePassOn penv L') L'.root := by
  have hprep2 := partialPrepare_reloadAll env lenv penv L' aBaseDir base hb hne
  have hres2 : resolveBase lenv lenv.listDate
      (lenv.getTokens (base.drop 1))
      ((Directory.clearAll L'.root).setType DirType.TYPE_INCOMPLETE_CHILD) [] (some [])
      = some (Directory.withInfo { L'.root.info with type := DirType.TYPE_INCOMPLETE_CHILD } R',
          M', some p) := by
    rw [cleared_root_withInfo L'.root X DirType.TYPE_INCOMPLETE_CHILD, resolveBase_withInfo,
      hres]
    rfl
  have hfind2 : findDirectory env.nameMatch
      (Directory.withInfo { L'.root.info with type := DirType.TYPE_INCOMPLETE_CHILD } R')
      (env.toNmdcFile base) = some p := by
    rw [findDirectory_withInfo]
    exact hfind
  cases p with
  | nil =>
    have hB : B = R' := by
      simp only [deref, Option.some.injEq] at hd
      exact hd.symm
    subst hB
    have h := load_into_empty_base env lenv penv L' _ events attribs entries aBaseDir base true
      changeDir
      (Directory.withInfo { L'.root.info with type := DirType.TYPE_INCOMPLETE_CHILD } B) M' []
      (Directory.withInfo { L'.root.info with type := DirType.TYPE_INCOMPLETE_CHILD } B)
      hpart hcl hb hinc hib hprep2 hadl hbase hne hres2 rfl
      (by rw [withInfo_hasContent]; exact hempty) hfind2 hnamed hfresh
    refine ⟨h.1, ?_⟩
    rw [h.2.1, getPath_withInfo, hN1]
    exact normDupes_mergedDir_withInfo _ L'.root B _ _ _ _ _ hN1
  | cons j par =>
    have h := load_into_empty_base env lenv penv L' _ events attribs entries aBaseDir base true
      changeDir
      (Directory.withInfo { L'.root.info with type := DirType.TYPE_INCOMPLETE_CHILD } R') M'
      (j :: par) B hpart hcl hb hinc hib hprep2 hadl hbase hne hres2
      (by rw [deref_withInfo_cons]; exact hd) hempty hfind2 hnamed hfresh
    refine ⟨h.1, ?_⟩
    rw [h.2.1, getPath_withInfo, modifyAt_withInfo_cons, hN1]
    refine normDupes_withInfo_root _ L'.root _ _ hN1 ?_
    rw [modifyAt_info_cons, resolveBase_info lenv _ _ _ _ _ _ _ _ hres]
    cases X
    rfl
/-- C22 (amended): a partial update of a partial listing, with ADL matching off (as it is in
every partial listing: the constructor sets `matchADL` only for a list that is not partial).
`base` is the base path of the update, and the list that is loaded - the payload, or for the
own list the list that the share generates for the base path - is a list document: a listing
root tag that settles on the base path, and elements whose `Directory` tags have names and
look up pairwise fresh registry paths. The update arrives in one of three ways. (1) No full
reload is asked for, the registry holds the base path as visited, `findDirectory` and the
walk of the listing root tag both lead to the directory at `p`, which holds content, and
`isSub` puts the paths of the document under the base path: then `R'` is the tree with that
directory cleared and `M'` the registry without the entries that `isSub` puts under the base
path. (2) A full reload is asked for: then the whole tree and the registry are cleared, and
`R'`, `M'` and `p` are what the walk of the listing root tag makes of the empty tree. (3) No
full reload is asked for and the registry does not hold the base path as visited, while
`findDirectory` and the walk both lead to the directory at `p`: then nothing is cleared,
`R'` is the tree and `M'` the registry as they were. In all three the call returns normally,
the base path leads to `p` afterwards, and the directory at `p` is the directory `B` that
the load started with, with the directories and files of the document appended in document
order, the `BaseDate` as remote date and the list date as update date, complete and not
loading (up to the dupe statuses of directories when the dupe pass runs). In (1) and (2) `B`
was empty, so the directory holds exactly the directories and files of the document; in (3)
`B` is the directory as it was, so its old content stays. Every entry of the registry
afterwards is the base path, an entry of `M'`, or a path that the document registers. -/
theorem base_content_after_update (env : Collaborators) (lenv : LoaderEnv)
    (penv : PartialEnv) (L : Listing) (events : List XmlEvent) (attribs : Attribs)
    (entries : List Entry) (aBaseDir base : List Char) (reloadAll changeDir : Bool)
    (R' : Directory) (M' : DirMap) (p : Ptr) (B : Directory) (e : Option Ptr)
    (hpart : L.partialList = true) (hcl : L.closing = false) (hadl : penv.matchADL = false)
    (hb : partialBaseDir lenv L aBaseDir reloadAll = base)
    (hinc : incomingEvents env lenv penv L events aBaseDir reloadAll
      = some (listDocument attribs entries))
    (hib : L.isOwnList = true → lenv.toAdcFile (env.toNmdcFile base) = base)
    (hbase : rootTagBase lenv attribs base = base) (hne : base ≠ [])
    (hmode :
      (reloadAll = false ∧
        dirMapFind (lenv.toLower base) L.baseDirs = some (e, true) ∧
        findDirectory env.nameMatch L.root (env.toNmdcFile base) = some p ∧
        walkNames (lenv.getTokens (base.drop 1)) L.root [] = some p ∧
        (deref L.root p).map Directory.hasContent = some true ∧
        R' = modifyAt L.root p Directory.clearAll ∧
        M' = L.baseDirs.filter (fun x => !penv.isSub x.1 base) ∧
        (∀ k ∈ Entry.keys lenv (lenv.toLower base) entries, penv.isSub k.1 base = true)) ∨
      (reloadAll = true ∧
        resolveBase lenv lenv.listDate (lenv.getTokens (base.drop 1))
          ((Directory.clearAll L.root).setType DirType.TYPE_INCOMPLETE_CHILD) [] (some [])
          = some (R', M', some p) ∧
        findDirectory env.nameMatch R' (env.toNmdcFile base) = some p ∧
        (∀ x ∈ M', x.2.1.isSome = true →
          x.1 ∉ (Entry.keys lenv (lenv.toLower base) entries).map Prod.fst)) ∨
      (reloadAll = false ∧
        (dirMapFind (lenv.toLower base) L.baseDirs).map Prod.snd ≠ some true ∧
        findDirectory env.nameMatch L.root (env.toNmdcFile base) = some p ∧
        walkNames (lenv.getTokens (base.drop 1)) L.root [] = some p ∧
        R' = L.root ∧ M' = L.baseDirs ∧
        (∀ x ∈ M', x.2.1.isSome = true →
          x.1 ∉ (Entry.keys lenv (lenv.toLower base) entries).map Prod.fst)))
    (hd : deref R' p = some B)
    (hnamed : Entry.namedList lenv entries = true)
    (hfresh : keysFresh [] (Entry.keys lenv (lenv.toLower base) entries) = true) :
    (loadPartialImpl env lenv penv L events aBaseDir reloadAll changeDir).2 = .ok () ∧
      findDirectory env.nameMatch
        (loadPartialImpl env lenv penv L events aBaseDir reloadAll changeDir).1.root
        (env.toNmdcFile base) = some p ∧
      (deref (loadPartialImpl env lenv penv L events aBaseDir reloadAll changeDir).1.root
          p).map (normDupes (dupePassOn penv L))
        = some (normDupes (dupePassOn penv L)
            (mergedDir B lenv.listDate (lenv.toUInt32 (lenv.getAttrib attribs sBaseDate 3))
              (Entry.dirsOf lenv lenv.listDate (dupePassOn penv L) (dupePassOn penv L) entries
                (getPath R' p))
              (Entry.filesOf lenv (dupePassOn penv L) entries))) ∧
      ((reloadAll = true ∨ dirMapFind (lenv.toLower base) L.baseDirs = some (e, true)) →
        B.hasContent = false ∧
        (deref (loadPartialImpl env lenv penv L events aBaseDir reloadAll changeDir).1.root
            p).map (normDupes (dupePassOn penv L))
          = some (normDupes (dupePassOn penv L)
              (reloadedDir B lenv.listDate
                (lenv.toUInt32 (lenv.getAttrib attribs sBaseDate 3))
                (Entry.dirsOf lenv lenv.listDate (dupePassOn penv L) (dupePassOn penv L)
                  entries (getPath R' p))
                (Entry.filesOf lenv (dupePassOn penv L) entries)))) ∧
      (∀ x ∈ (loadPartialImpl env lenv penv L events aBaseDir reloadAll changeDir).1.baseDirs,
        x.1 = lenv.toLower base ∨ x ∈ M' ∨
          x.1 ∈ registeredKeys (Entry.keys lenv (lenv.toLower base) entries)) := by
  rcases hmode with ⟨hr, hvis, hfind, hwalk, hcont, hR, hM, hsub⟩ |
    ⟨hr, hres, hfind, hclean⟩ | ⟨hr, hnv, hfind, hwalk, hR, hM, hclean⟩
  · subst hr
    have hbe : base = lenv.toAdcFile aBaseDir := by rw [← hb, partialBaseDir_false]
    subst hbe
    obtain ⟨D, hD, hDc⟩ : ∃ D, deref L.root p = some D ∧ D.hasContent = true := by
      cases hdd : deref L.root p with
      | none => rw [hdd] at hcont; simp at hcont
      | some D =>
        rw [hdd] at hcont
        exact ⟨D, rfl, by simpa using hcont⟩
    have hprep := partialPrepare_visited env lenv penv L aBaseDir p D e hne hvis hfind hD
    rw [hDc, if_pos rfl, ← hR, ← hM] at hprep
    have hB : B = Directory.clearAll D := by
      rw [hR, deref_modifyAt, hD] at hd
      simpa using hd.symm
    have hempty : B.hasContent = false := by rw [hB]; exact clearAll_hasContent D
    have hwalk' : walkNames (lenv.getTokens ((lenv.toAdcFile aBaseDir).drop 1)) R' []
        = some p := by
      rw [hR]; exact walkNames_modifyAt _ clearAll_getName _ L.root p hwalk
    have hfind' : findDirectory env.nameMatch R'
        (env.toNmdcFile (lenv.toAdcFile aBaseDir)) = some p := by
      rw [hR]; exact findDirectory_modifyAt env.nameMatch _ clearAll_getName L.root _ p hfind
    have hres := walkNames_resolveBase lenv lenv.listDate R' M'
      (lenv.getTokens ((lenv.toAdcFile aBaseDir).drop 1)) R' [] p rfl hwalk'
    have hdis : ∀ k ∈ liveKeys (dirMapVisit (lenv.toLower (lenv.toAdcFile aBaseDir)) M'),
        k ∉ (Entry.keys lenv (lenv.toLower (lenv.toAdcFile aBaseDir)) entries).map
          Prod.fst := by
      intro k hk hmem
      obtain ⟨x, hx, hl, hxk⟩ := (mem_liveKeys _ _).mp hk
      obtain ⟨y, hy, hy1, _⟩ := live_of_dirMapVisit _ _ x hx hl
      rw [hM] at hy
      have hy2 := (List.mem_filter.mp hy).2
      obtain ⟨kk, hkk, hkk1⟩ := List.mem_map.mp hmem
      have := hsub kk hkk
      rw [hkk1, ← hxk, ← hy1] at this
      simp [this] at hy2
    have h := load_into_empty_base env lenv penv L _ events attribs entries aBaseDir _ false
      changeDir R' M' p B hpart hcl hb hinc hib hprep hadl hbase hne hres hd hempty hfind'
      hnamed
      (keysFresh_of_clean _ _ hfresh hdis)
    have h' := h.2.2.2.1
    rw [← mergedDir_of_empty B _ _ _ _ hempty] at h'
    exact ⟨h.1, h.2.2.1, h', fun _ => ⟨hempty, h.2.2.2.1⟩, h.2.2.2.2.1⟩
  · subst hr
    have hprep := partialPrepare_reloadAll env lenv penv L aBaseDir base hb hne
    obtain ⟨_, _, _, _, hemp⟩ := resolveBase_frame lenv lenv.listDate _ _ [] []
      ((Directory.clearAll L.root).setType DirType.TYPE_INCOMPLETE_CHILD) R' M' p rfl hres
    have hempty : B.hasContent = false := by
      have h0 : ((Directory.clearAll L.root).setType
          DirType.TYPE_INCOMPLETE_CHILD).hasContent = false := by
        cases L.root; rfl
      have := hemp h0
      rw [hd] at this
      simpa using this
    have hdis : ∀ k ∈ liveKeys (dirMapVisit (lenv.toLower base) M'),
        k ∉ (Entry.keys lenv (lenv.toLower base) entries).map
          Prod.fst := by
      intro k hk hmem
      obtain ⟨x, hx, hl, hxk⟩ := (mem_liveKeys _ _).mp hk
      obtain ⟨y, hy, hy1, hy2⟩ := live_of_dirMapVisit _ _ x hx hl
      exact hclean y hy hy2 (by rw [hy1, hxk]; exact hmem)
    have h := load_into_empty_base env lenv penv L _ events attribs entries aBaseDir base true
      changeDir R' M' p B hpart hcl hb hinc hib hprep hadl hbase hne hres hd hempty hfind
      hnamed
      (keysFresh_of_clean _ _ hfresh hdis)
    have h' := h.2.2.2.1
    rw [← mergedDir_of_empty B _ _ _ _ hempty] at h'
    exact ⟨h.1, h.2.2.1, h', fun _ => ⟨hempty, h.2.2.2.1⟩, h.2.2.2.2.1⟩
  · subst hr
    have hbe : base = lenv.toAdcFile aBaseDir := by rw [← hb, partialBaseDir_false]
    subst hbe
    have hprep := partialPrepare_unvisited env lenv penv L aBaseDir hnv
    subst hR
    subst hM
    have hres := walkNames_resolveBase lenv lenv.listDate L.root L.baseDirs
      (lenv.getTokens ((lenv.toAdcFile aBaseDir).drop 1)) L.root [] p rfl hwalk
    have hdis : ∀ k ∈ liveKeys (dirMapVisit (lenv.toLower (lenv.toAdcFile aBaseDir))
          L.baseDirs),
        k ∉ (Entry.keys lenv (lenv.toLower (lenv.toAdcFile aBaseDir)) entries).map
          Prod.fst := by
      intro k hk hmem
      obtain ⟨x, hx, hl, hxk⟩ := (mem_liveKeys _ _).mp hk
      obtain ⟨y, hy, hy1, hy2⟩ := live_of_dirMapVisit _ _ x hx hl
      exact hclean y hy hy2 (by rw [hy1, hxk]; exact hmem)
    have h := load_into_base env lenv penv L _ events attribs entries aBaseDir _ false
      changeDir L.root L.baseDirs p B hpart hcl hb hinc hib hprep hadl hbase hne hres hd hfind
      hnamed
      (keysFresh_of_clean _ _ hfresh hdis)
    refine ⟨h.1, h.2.2.1, h.2.2.2.1, ?_, h.2.2.2.2.1⟩
    intro hc
    rcases hc with hc | hc
    · cases hc
    · rw [hc] at hnv; exact absurd rfl hnv
/-- Witness of C22, one instance for each of the three ways, and one for the own list.
(1) The listing that has visited `A/B/`, holding `f2`, receives for `A/B/` the list
`<FileListing Base="/A/B/" BaseDate="7">` with the file `f3` of 5 bytes, loaded with the
list date 9, without full reload: the registry holds `/a/b/` as visited and the directory
holds content, so it is cleared, and afterwards `A/B/` has no child and exactly the file
`f3`, the remote date 7 and the update date 9, and it is complete. (2) The same listing
receives for `A/B/`, with full reload, the list with the file `f3` and the directory `C`
that holds the file `f4`: afterwards `A/B/` has the child `C` and the file `f3`, and `C`
holds `f4`. (3) The same listing receives for `A`, which holds `B` and was not visited, the
list with the file `f3`, without full reload: afterwards `A` still has the child `B`,
beside the file `f3`. (4) The same listing as the own list, with a share that generates the
list of `A/B/` with the file `f4`, is updated for `A/B/`: the directory is cleared and
afterwards holds exactly `f4`. -/
theorem base_content_after_update_witness :
    ((loadPartialImpl testCollaborators { testLoaderEnv with listDate := 9 } testPartialEnv
        visitedB
        (listDocument [(sBase, ['/', 'A', '/', 'B', '/']), (sBaseDate, ['7'])]
          [fileEntry ['f', '3'] ['5'] ['3']])
        ['A', '\\', 'B', '\\'] false true).2 = .ok () ∧
      (deref (loadPartialImpl testCollaborators { testLoaderEnv with listDate := 9 }
          testPartialEnv visitedB
          (listDocument [(sBase, ['/', 'A', '/', 'B', '/']), (sBaseDate, ['7'])]
            [fileEntry ['f', '3'] ['5'] ['3']])
          ['A', '\\', 'B', '\\'] false true).1.root [0, 0]).map
        (fun d => (d.childNames, d.files.map (fun f => (f.name, f.size)), d.info.remoteDate,
          d.info.updateDate, d.isComplete))
        = some ([], [(['f', '3'], 5)], 7, 9, true)) ∧
    ((loadPartialImpl testCollaborators testLoaderEnv testPartialEnv visitedB
        (listDocument [(sBase, ['/', 'A', '/', 'B', '/'])] entriesF3C)
        ['A', '\\', 'B', '\\'] true true).2 = .ok () ∧
      (deref (loadPartialImpl testCollaborators testLoaderEnv testPartialEnv visitedB
          (listDocument [(sBase, ['/', 'A', '/', 'B', '/'])] entriesF3C)
          ['A', '\\', 'B', '\\'] true true).1.root [0, 0]).map
        (fun d => (d.childNames, d.files.map (fun f => (f.name, f.size)),
          d.directories.map (fun c => c.files.map (fun f => (f.name, f.size)))))
        = some ([['C']], [(['f', '3'], 5)], [[(['f', '4'], 6)]])) ∧
    ((loadPartialImpl testCollaborators testLoaderEnv testPartialEnv visitedB
        (listDocument [(sBase, ['/', 'A', '/'])]
          [fileEntry ['f', '3'] ['5'] ['3']])
        ['A', '\\'] false true).2 = .ok () ∧
      (deref (loadPartialImpl testCollaborators testLoaderEnv testPartialEnv visitedB
          (listDocument [(sBase, ['/', 'A', '/'])]
            [fileEntry ['f', '3'] ['5'] ['3']])
          ['A', '\\'] false true).1.root [0]).map
        (fun d => (d.childNames, d.files.map (fun f => (f.name, f.size))))
        = some ([['B']], [(['f', '3'], 5)])) ∧
    ((loadPartialImpl testCollaborators testLoaderEnv shareListEnv
        { visitedB with isOwnList := true } [] ['A', '\\', 'B', '\\'] false true).2
        = .ok () ∧
      (deref (loadPartialImpl testCollaborators testLoaderEnv shareListEnv
          { visitedB with isOwnList := true } [] ['A', '\\', 'B', '\\'] false
          true).1.root [0, 0]).map
        (fun d => (d.childNames, d.files.map (fun f => (f.name, f.size))))
        = some ([], [(['f', '4'], 6)])) := by
  have hN : normDupes (dupePassOn testPartialEnv visitedB) = id := by
    funext t
    rfl
  have hN4 : normDupes (dupePassOn shareListEnv { visitedB with isOwnList := true }) = id := by
    funext t
    rfl
  have h1 := base_content_after_update testCollaborators
    { testLoaderEnv with listDate := 9 } testPartialEnv visitedB
    (listDocument [(sBase, ['/', 'A', '/', 'B', '/']), (sBaseDate, ['7'])]
      [fileEntry ['f', '3'] ['5'] ['3']])
    [(sBase, ['/', 'A', '/', 'B', '/']), (sBaseDate, ['7'])]
    [fileEntry ['f', '3'] ['5'] ['3']]
    ['A', '\\', 'B', '\\'] ['/', 'A', '/', 'B', '/'] false true
    (modifyAt visitedB.root [0, 0] Directory.clearAll)
    (visitedB.baseDirs.filter
      (fun x => !testPartialEnv.isSub x.1 ['/', 'A', '/', 'B', '/']))
    [0, 0] (Directory.clearAll scenarioB) (some [0, 0])
    (by decide) (by decide) (by decide) (by decide) rfl (by decide) (by decide) (by decide)
    (Or.inl ⟨rfl, by decide, by decide, by decide, by decide, rfl, rfl, by decide⟩)
    (by decide) (by decide) (by decide)
  have h2 := base_content_after_update testCollaborators testLoaderEnv testPartialEnv visitedB
    (listDocument [(sBase, ['/', 'A', '/', 'B', '/'])] entriesF3C)
    [(sBase, ['/', 'A', '/', 'B', '/'])] entriesF3C
    ['A', '\\', 'B', '\\'] ['/', 'A', '/', 'B', '/'] true true
    ((resolveBase testLoaderEnv 0 [['A'], ['B']]
      ((Directory.clearAll visitedB.root).setType DirType.TYPE_INCOMPLETE_CHILD) []
      (some [])).getD (visitedB.root, [], none)).1
    ((resolveBase testLoaderEnv 0 [['A'], ['B']]
      ((Directory.clearAll visitedB.root).setType DirType.TYPE_INCOMPLETE_CHILD) []
      (some [])).getD (visitedB.root, [], none)).2.1
    [0, 0]
    ((deref ((resolveBase testLoaderEnv 0 [['A'], ['B']]
      ((Directory.clearAll visitedB.root).setType DirType.TYPE_INCOMPLETE_CHILD) []
      (some [])).getD (visitedB.root, [], none)).1 [0, 0]).getD scenarioB) none
    (by decide) (by decide) (by decide) (by decide) rfl (by decide) (by decide) (by decide)
    (Or.inr (Or.inl ⟨rfl, rfl, by decide, by decide⟩))
    (by decide) (by decide) (by decide)
  have h3 := base_content_after_update testCollaborators testLoaderEnv testPartialEnv visitedB
    (listDocument [(sBase, ['/', 'A', '/'])] [fileEntry ['f', '3'] ['5'] ['3']])
    [(sBase, ['/', 'A', '/'])]
    [fileEntry ['f', '3'] ['5'] ['3']]
    ['A', '\\'] ['/', 'A', '/'] false true visitedB.root visitedB.baseDirs [0]
    ((deref visitedB.root [0]).getD scenarioB) none
    (by decide) (by decide) (by decide) (by decide) rfl (by decide) (by decide) (by decide)
    (Or.inr (Or.inr ⟨rfl, by decide, by decide, by decide, rfl, rfl, by decide⟩))
    (by decide) (by decide) (by decide)
  have h4 := base_content_after_update testCollaborators testLoaderEnv shareListEnv
    { visitedB with isOwnList := true } []
    [(sBase, ['/', 'A', '/', 'B', '/'])] [fileEntry ['f', '4'] ['6'] ['4']]
    ['A', '\\', 'B', '\\'] ['/', 'A', '/', 'B', '/'] false true
    (modifyAt visitedB.root [0, 0] Directory.clearAll)
    (visitedB.baseDirs.filter
      (fun x => !shareListEnv.isSub x.1 ['/', 'A', '/', 'B', '/']))
    [0, 0] (Directory.clearAll scenarioB) (some [0, 0])
    (by decide) (by decide) (by decide) (by decide) rfl (by decide) (by decide) (by decide)
    (Or.inl ⟨rfl, by decide, by decide, by decide, by decide, rfl, rfl, by decide⟩)
    (by decide) (by decide) (by decide)
  refine ⟨⟨h1.1, ?_⟩, ⟨h2.1, ?_⟩, ⟨h3.1, ?_⟩, ⟨h4.1, ?_⟩⟩
  · have h := h1.2.2.1
    rw [hN, Option.map_id] at h
    simp only [id] at h
    rw [h]
    decide
  · have h := h2.2.2.1
    rw [hN, Option.map_id] at h
    simp only [id] at h
    rw [h]
    decide
  · have h := h3.2.2.1
    rw [hN, Option.map_id] at h
    simp only [id] at h
    rw [h]
    decide
  · have h := h4.2.2.1
    rw [hN4, Option.map_id] at h
    simp only [id] at h
    rw [h]
    decide
/-- Counterexample to C22, three instances in the listing that has visited `A/B/` only. (1)
The base directory `A` holds content (its child `B`) and no full reload is asked for. The
partial update of `A` with the file list `f3` (5 bytes) returns normally, but nothing is
cleared, because `A` is not registered as visited: afterwards `A` has the child `B` beside
the file `f3`, `B` still holds `f2`, and the registry still holds the deeper path `/a/b/`,
which `isSub` puts under `/A/`. (2) When the listing is the own list, the update of `A/B/`
with the file list `f3` does not read the payload: the list that is loaded is generated from
the share (here with the file `f4`), and afterwards `A/B/` holds `f4` and not `f3`. (3) When
the listing root tag of the payload names `/X/` while the update is for `A/B/`, the
directory `A/B/` is cleared and the file `f3` goes to a new directory `X`: afterwards `A/B/`
is empty. -/
theorem base_content_not_replaced_counterexample :
    (findDirectory testCollaborators.nameMatch visitedB.root ['A', '\\'] = some [0] ∧
      (deref visitedB.root [0]).map Directory.hasContent = some true ∧
      (loadPartialImpl testCollaborators testLoaderEnv testPartialEnv visitedB
        (listDocument [(sBase, ['/', 'A', '/'])] [fileEntry ['f', '3'] ['5'] ['3']])
        ['A', '\\'] false true).2 = .ok () ∧
      (deref (loadPartialImpl testCollaborators testLoaderEnv testPartialEnv visitedB
          (listDocument [(sBase, ['/', 'A', '/'])] [fileEntry ['f', '3'] ['5'] ['3']])
          ['A', '\\'] false true).1.root [0]).map
        (fun d => (d.childNames, d.files.map (fun f => f.name)))
        = some ([['B']], [['f', '3']]) ∧
      (deref (loadPartialImpl testCollaborators testLoaderEnv testPartialEnv visitedB
          (listDocument [(sBase, ['/', 'A', '/'])] [fileEntry ['f', '3'] ['5'] ['3']])
          ['A', '\\'] false true).1.root [0, 0]).map
        (fun d => d.files.map (fun f => f.name)) = some [['f', '2']] ∧
      dirMapFind ['/', 'a', '/', 'b', '/']
        (loadPartialImpl testCollaborators testLoaderEnv testPartialEnv visitedB
          (listDocument [(sBase, ['/', 'A', '/'])] [fileEntry ['f', '3'] ['5'] ['3']])
          ['A', '\\'] false true).1.baseDirs = some (some [0, 0], true) ∧
      testPartialEnv.isSub ['/', 'a', '/', 'b', '/'] ['/', 'A', '/'] = true) ∧
    ((loadPartialImpl testCollaborators testLoaderEnv shareListEnv
        { visitedB with isOwnList := true }
        (listDocument [(sBase, ['/', 'A', '/', 'B', '/'])]
          [fileEntry ['f', '3'] ['5'] ['3']])
        ['A', '\\', 'B', '\\'] false true).2 = .ok () ∧
      (deref (loadPartialImpl testCollaborators testLoaderEnv shareListEnv
          { visitedB with isOwnList := true }
          (listDocument [(sBase, ['/', 'A', '/', 'B', '/'])]
            [fileEntry ['f', '3'] ['5'] ['3']])
          ['A', '\\', 'B', '\\'] false true).1.root [0, 0]).map
        (fun d => (d.childNames, d.files.map (fun f => f.name)))
        = some ([], [['f', '4']])) ∧
    ((loadPartialImpl testCollaborators testLoaderEnv testPartialEnv visitedB
        (listDocument [(sBase, ['/', 'X', '/'])] [fileEntry ['f', '3'] ['5'] ['3']])
        ['A', '\\', 'B', '\\'] false true).2 = .ok () ∧
      (deref (loadPartialImpl testCollaborators testLoaderEnv testPartialEnv visitedB
          (listDocument [(sBase, ['/', 'X', '/'])] [fileEntry ['f', '3'] ['5'] ['3']])
          ['A', '\\', 'B', '\\'] false true).1.root [0, 0]).map
        (fun d => (d.getName, d.childNames, d.files.map (fun f => f.name)))
        = some (['B'], [], []) ∧
      (deref (loadPartialImpl testCollaborators testLoaderEnv testPartialEnv visitedB
          (listDocument [(sBase, ['/', 'X', '/'])] [fileEntry ['f', '3'] ['5'] ['3']])
          ['A', '\\', 'B', '\\'] false true).1.root [1]).map
        (fun d => (d.getName, d.childNames, d.files.map (fun f => f.name)))
        = some (['X'], [], [['f', '3']])) := by
  refine ⟨⟨by decide, by decide, by decide, by decide, by decide, by decide, by decide⟩,
    ⟨by decide, by decide⟩, ⟨by decide, by decide, by decide⟩⟩
/-- C21 (amended): merge idempotence of a partial update that starts to load into an empty
base directory. `L` is a partial listing, ADL matching is off (as it is in every partial
listing: the constructor sets `matchADL` only for a list that is not partial), and a full
reload may be requested or not. `base` is the base path `P` of the update, and the list that
is loaded - the payload, or for the own list the list that the share generates for the base
path - is a list document whose root tag names `P`. After the preparation of
`loadPartialImpl` (which clears the whole tree for a full reload, and else clears the base
directory when the registry holds `P` as visited and the directory has content) the walk of
the listing root tag ends in the directory `B` at `p`, which `findDirectory` finds too, and
`B` has no children and no files: the tree or the base was cleared, or the base was empty,
or it did not exist and the root tag creates it. The `Directory` tags of the document have
names, their registry keys are not registered with a directory and do not repeat, and,
without full reload, `isSub` puts them under `P`. Then both applications return normally and
the tree after the second application is the tree after the first one; when the dupe pass
runs, up to the dupe statuses of the directories, which the pass recomputes from the
statuses it finds. -/
theorem update_into_empty_base_twice_equals_once (env : Collaborators) (lenv : LoaderEnv)
    (penv : PartialEnv) (L : Listing) (events : List XmlEvent) (attribs : Attribs)
    (entries : List Entry) (aBaseDir base : List Char) (reloadAll changeDir : Bool)
    (R' : Directory) (M' : DirMap) (p : Ptr) (B : Directory)
    (hpart : L.partialList = true) (hcl : L.closing = false) (hadl : penv.matchADL = false)
    (hb : partialBaseDir lenv L aBaseDir reloadAll = base)
    (hinc : incomingEvents env lenv penv L events aBaseDir reloadAll
      = some (listDocument attribs entries))
    (hib : L.isOwnList = true → lenv.toAdcFile (env.toNmdcFile base) = base)
    (hbase : rootTagBase lenv attribs base = base) (hne : base ≠ [])
    (hres : resolveBase lenv lenv.listDate (lenv.getTokens (base.drop 1))
      (partialPrepare env lenv penv L aBaseDir reloadAll).root
      (partialPrepare env lenv penv L aBaseDir reloadAll).baseDirs (some [])
      = some (R', M', some p))
    (hd : deref R' p = some B) (hempty : B.hasContent = false)
    (hfind : findDirectory env.nameMatch R' (env.toNmdcFile base) = some p)
    (hnamed : Entry.namedList lenv entries = true)
    (hfresh : keysFresh (liveKeys (dirMapVisit (lenv.toLower base) M'))
      (Entry.keys lenv (lenv.toLower base) entries) = true)
    (hsub : reloadAll = false →
      ∀ k ∈ Entry.keys lenv (lenv.toLower base) entries, penv.isSub k.1 base = true) :
    (loadPartialImpl env lenv penv L events aBaseDir reloadAll changeDir).2 = .ok () ∧
      (loadPartialImpl env lenv penv
        (loadPartialImpl env lenv penv L events aBaseDir reloadAll changeDir).1
        events aBaseDir reloadAll changeDir).2 = .ok () ∧
      normDupes (dupePassOn penv L)
        (loadPartialImpl env lenv penv
          (loadPartialImpl env lenv penv L events aBaseDir reloadAll changeDir).1
          events aBaseDir reloadAll changeDir).1.root
        = normDupes (dupePassOn penv L)
          (loadPartialImpl env lenv penv L events aBaseDir reloadAll changeDir).1.root := by
  obtain ⟨hok, hN1, hf1, hderef1, _, ⟨e, hvis1⟩, hpart1, hown1, hcl1, hcv1⟩ :=
    load_into_empty_base env lenv penv L _ events attribs entries aBaseDir base reloadAll
      changeDir R' M' p B hpart hcl hb hinc hib rfl hadl hbase hne hres hd hempty hfind hnamed
      hfresh
  generalize hL' : (loadPartialImpl env lenv penv L events aBaseDir reloadAll changeDir).1
    = L' at hN1 hf1 hderef1 hvis1 hpart1 hown1 hcl1 hcv1 ⊢
  have hpass : dupePassOn penv L' = dupePassOn penv L :=
    dupePassOn_congr penv L L' hown1 hcv1
  have hb' : partialBaseDir lenv L' aBaseDir reloadAll = base :=
    (partialBaseDir_congr lenv L L' aBaseDir reloadAll hown1).trans hb
  have hinc' : incomingEvents env lenv penv L' events aBaseDir reloadAll
      = some (listDocument attribs entries) :=
    (incomingEvents_congr env lenv penv L L' events aBaseDir reloadAll hown1).trans hinc
  have hib' : L'.isOwnList = true → lenv.toAdcFile (env.toNmdcFile base) = base :=
    fun h => hib (hown1.symm.trans h)
  rw [← hpass] at hN1 ⊢
  refine ⟨hok, ?_⟩
  cases reloadAll with
  | true =>
    rw [partialPrepare_reloadAll env lenv penv L aBaseDir base hb hne] at hres
    exact second_full_reload env lenv penv L' events attribs entries aBaseDir base changeDir
      L.root R' M' p B hpart1 hcl1 hb' hinc' hib' hadl hbase hne hres hd hempty hfind hN1
      hnamed hfresh
  | false =>
  have hsub := hsub rfl
  have hbe : base = lenv.toAdcFile aBaseDir := by rw [← hb, partialBaseDir_false]
  subst hbe
  have hwalk := resolveBase_walk lenv lenv.listDate _ _ _ R' M' p hres
  obtain ⟨X, hX⟩ : ∃ X, deref L'.root p = some X := by
    cases hdd : deref L'.root p with
    | none => rw [hdd] at hderef1; simp at hderef1
    | some X => exact ⟨X, rfl⟩
  have hXc : X.hasContent = (mergedDir B lenv.listDate
      (lenv.toUInt32 (lenv.getAttrib attribs sBaseDate 3))
      (Entry.dirsOf lenv lenv.listDate (dupePassOn penv L') (dupePassOn penv L') entries
        (getPath R' p))
      (Entry.filesOf lenv (dupePassOn penv L') entries)).hasContent := by
    have := normDupes_hasContent _ _ _ p hN1
    rw [hX, deref_modifyAt, hd] at this
    simpa using this
  have hprep := partialPrepare_visited env lenv penv L' aBaseDir p X e hne hvis1 hf1 hX
  cases hc : X.hasContent with
  | true =>
    rw [hc, if_pos rfl] at hprep
    have hdis : ∀ k ∈ liveKeys (dirMapVisit (lenv.toLower (lenv.toAdcFile aBaseDir))
          (L'.baseDirs.filter (fun e => !penv.isSub e.1 (lenv.toAdcFile aBaseDir)))),
        k ∉ (Entry.keys lenv (lenv.toLower (lenv.toAdcFile aBaseDir)) entries).map
          Prod.fst := by
      intro k hk hmem
      obtain ⟨x, hx, hl, hxk⟩ := (mem_liveKeys _ _).mp hk
      obtain ⟨y, hy, hy1, _⟩ := live_of_dirMapVisit _ _ x hx hl
      have hy2 := (List.mem_filter.mp hy).2
      obtain ⟨kk, hkk, hkk1⟩ := List.mem_map.mp hmem
      have := hsub kk hkk
      rw [hkk1, ← hxk, ← hy1] at this
      simp [this] at hy2
    exact second_application env lenv penv L' _ events attribs entries aBaseDir changeDir R'
      _ p B Directory.clearAll hpart1 hcl1 hinc' hib' hadl hbase hne hprep rfl rfl
      clearAll_getName
      forgetDupes_clearAll hN1 hwalk hd hf1 (clearAll_hasContent _)
      (mergedDir_clearAll_mergedDir B _ _ _ _ hempty) hnamed
      (keysFresh_of_clean _ _ (keysFresh_mono _ _ [] (fun _ h => by cases h) hfresh) hdis)
  | false =>
    rw [hc, if_neg (by simp)] at hprep
    rw [hc] at hXc
    obtain ⟨hds, hfs⟩ := mergedDir_hasContent _ _ _ _ _ hXc.symm
    have hK : Entry.keys lenv (lenv.toLower (lenv.toAdcFile aBaseDir)) entries = [] :=
      keys_eq_nil_of_dirsOf_nil lenv _ _ _ _ _ entries hds
    refine second_application env lenv penv L' _ events attribs entries aBaseDir changeDir R'
      L'.baseDirs p B (fun x => x) hpart1 hcl1 hinc' hib' hadl hbase hne hprep
      (modifyAt_id _ _).symm rfl (fun _ => rfl) (fun _ => rfl) hN1 hwalk hd hf1 ?_ ?_ hnamed
      ?_
    · exact hXc.symm
    · rw [hds, hfs]
      exact mergedDir_mergedDir_nil B _ _
    · rw [hK]
      rfl
/-- Witness of C21, five instances. (1) A partial listing that was just opened receives for
`A/B/`, which does not exist yet, the list with the file `f3` and the directory `C` that
holds the file `f4`, twice in a row. (2) The listing that has visited `A/B/`, holding `f2`,
receives the same list for `A/B/` twice in a row. In both, each application returns
normally and the tree after the second is the tree after the first. (3) With dupe marking
on, a partial listing that was just opened receives for `B` a list with a file that is
shared and a file that is queued, twice in a row: each application returns normally and the
trees agree up to the dupe statuses of directories. (4) The listing that has visited `A/B/`
receives the list of (1) for `A/B/` twice in a row, with full reload: each application
returns normally and the tree after the second is the tree after the first. (5) The same
listing as the own list, with a share that generates the list of `A/B/` with the file `f4`,
is updated for `A/B/` twice in a row: each application returns normally and the tree after
the second is the tree after the first. -/
theorem update_into_empty_base_twice_equals_once_witness :
    ((loadPartialImpl testCollaborators testLoaderEnv testPartialEnv (emptyListing true)
        (listDocument [(sBase, ['/', 'A', '/', 'B', '/'])] entriesF3C)
        ['A', '\\', 'B', '\\'] false true).2 = .ok () ∧
      (loadPartialImpl testCollaborators testLoaderEnv testPartialEnv
        (loadPartialImpl testCollaborators testLoaderEnv testPartialEnv (emptyListing true)
          (listDocument [(sBase, ['/', 'A', '/', 'B', '/'])] entriesF3C)
          ['A', '\\', 'B', '\\'] false true).1
        (listDocument [(sBase, ['/', 'A', '/', 'B', '/'])] entriesF3C)
        ['A', '\\', 'B', '\\'] false true).2 = .ok () ∧
      (loadPartialImpl testCollaborators testLoaderEnv testPartialEnv
        (loadPartialImpl testCollaborators testLoaderEnv testPartialEnv (emptyListing true)
          (listDocument [(sBase, ['/', 'A', '/', 'B', '/'])] entriesF3C)
          ['A', '\\', 'B', '\\'] false true).1
        (listDocument [(sBase, ['/', 'A', '/', 'B', '/'])] entriesF3C)
        ['A', '\\', 'B', '\\'] false true).1.root
        = (loadPartialImpl testCollaborators testLoaderEnv testPartialEnv (emptyListing true)
          (listDocument [(sBase, ['/', 'A', '/', 'B', '/'])] entriesF3C)
          ['A', '\\', 'B', '\\'] false true).1.root) ∧
    ((loadPartialImpl testCollaborators testLoaderEnv testPartialEnv visitedB
        (listDocument [(sBase, ['/', 'A', '/', 'B', '/'])] entriesF3C)
        ['A', '\\', 'B', '\\'] false true).2 = .ok () ∧
      (loadPartialImpl testCollaborators testLoaderEnv testPartialEnv
        (loadPartialImpl testCollaborators testLoaderEnv testPartialEnv visitedB
          (listDocument [(sBase, ['/', 'A', '/', 'B', '/'])] entriesF3C)
          ['A', '\\', 'B', '\\'] false true).1
        (listDocument [(sBase, ['/', 'A', '/', 'B', '/'])] entriesF3C)
        ['A', '\\', 'B', '\\'] false true).2 = .ok () ∧
      (loadPartialImpl testCollaborators testLoaderEnv testPartialEnv
        (loadPartialImpl testCollaborators testLoaderEnv testPartialEnv visitedB
          (listDocument [(sBase, ['/', 'A', '/', 'B', '/'])] entriesF3C)
          ['A', '\\', 'B', '\\'] false true).1
        (listDocument [(sBase, ['/', 'A', '/', 'B', '/'])] entriesF3C)
        ['A', '\\', 'B', '\\'] false true).1.root
        = (loadPartialImpl testCollaborators testLoaderEnv testPartialEnv visitedB
          (listDocument [(sBase, ['/', 'A', '/', 'B', '/'])] entriesF3C)
          ['A', '\\', 'B', '\\'] false true).1.root) ∧
    ((loadPartialImpl testCollaborators dupeLoaderEnv
        { testPartialEnv with dupesInFilelist := true } (emptyListing true)
        (listDocument [(sBase, ['/', 'B', '/'])] dupeEntries)
        ['B', '\\'] false true).2 = .ok () ∧
      (loadPartialImpl testCollaborators dupeLoaderEnv
        { testPartialEnv with dupesInFilelist := true }
        (loadPartialImpl testCollaborators dupeLoaderEnv
          { testPartialEnv with dupesInFilelist := true } (emptyListing true)
          (listDocument [(sBase, ['/', 'B', '/'])] dupeEntries)
          ['B', '\\'] false true).1
        (listDocument [(sBase, ['/', 'B', '/'])] dupeEntries)
        ['B', '\\'] false true).2 = .ok () ∧
      forgetDupes (loadPartialImpl testCollaborators dupeLoaderEnv
        { testPartialEnv with dupesInFilelist := true }
        (loadPartialImpl testCollaborators dupeLoaderEnv
          { testPartialEnv with dupesInFilelist := true } (emptyListing true)
          (listDocument [(sBase, ['/', 'B', '/'])] dupeEntries)
          ['B', '\\'] false true).1
        (listDocument [(sBase, ['/', 'B', '/'])] dupeEntries)
        ['B', '\\'] false true).1.root
        = forgetDupes (loadPartialImpl testCollaborators dupeLoaderEnv
          { testPartialEnv with dupesInFilelist := true } (emptyListing true)
          (listDocument [(sBase, ['/', 'B', '/'])] dupeEntries)
          ['B', '\\'] false true).1.root) ∧
    ((loadPartialImpl testCollaborators testLoaderEnv testPartialEnv visitedB
        (listDocument [(sBase, ['/', 'A', '/', 'B', '/'])] entriesF3C)
        ['A', '\\', 'B', '\\'] true true).2 = .ok () ∧
      (loadPartialImpl testCollaborators testLoaderEnv testPartialEnv
        (loadPartialImpl testCollaborators testLoaderEnv testPartialEnv visitedB
          (listDocument [(sBase, ['/', 'A', '/', 'B', '/'])] entriesF3C)
          ['A', '\\', 'B', '\\'] true true).1
        (listDocument [(sBase, ['/', 'A', '/', 'B', '/'])] entriesF3C)
        ['A', '\\', 'B', '\\'] true true).2 = .ok () ∧
      (loadPartialImpl testCollaborators testLoaderEnv testPartialEnv
        (loadPartialImpl testCollaborators testLoaderEnv testPartialEnv visitedB
          (listDocument [(sBase, ['/', 'A', '/', 'B', '/'])] entriesF3C)
          ['A', '\\', 'B', '\\'] true true).1
        (listDocument [(sBase, ['/', 'A', '/', 'B', '/'])] entriesF3C)
        ['A', '\\', 'B', '\\'] true true).1.root
        = (loadPartialImpl testCollaborators testLoaderEnv testPartialEnv visitedB
          (listDocument [(sBase, ['/', 'A', '/', 'B', '/'])] entriesF3C)
          ['A', '\\', 'B', '\\'] true true).1.root) ∧
    ((loadPartialImpl testCollaborators testLoaderEnv shareListEnv
        { visitedB with isOwnList := true } [] ['A', '\\', 'B', '\\'] false true).2
        = .ok () ∧
      (loadPartialImpl testCollaborators testLoaderEnv shareListEnv
        (loadPartialImpl testCollaborators testLoaderEnv shareListEnv
          { visitedB with isOwnList := true } [] ['A', '\\', 'B', '\\'] false true).1
        [] ['A', '\\', 'B', '\\'] false true).2 = .ok () ∧
      (loadPartialImpl testCollaborators testLoaderEnv shareListEnv
        (loadPartialImpl testCollaborators testLoaderEnv shareListEnv
          { visitedB with isOwnList := true } [] ['A', '\\', 'B', '\\'] false true).1
        [] ['A', '\\', 'B', '\\'] false true).1.root
        = (loadPartialImpl testCollaborators testLoaderEnv shareListEnv
          { visitedB with isOwnList := true } [] ['A', '\\', 'B', '\\'] false
          true).1.root) :=
  ⟨update_into_empty_base_twice_equals_once testCollaborators testLoaderEnv
      testPartialEnv (emptyListing true)
      (listDocument [(sBase, ['/', 'A', '/', 'B', '/'])] entriesF3C)
      [(sBase, ['/', 'A', '/', 'B', '/'])] entriesF3C
      ['A', '\\', 'B', '\\'] ['/', 'A', '/', 'B', '/'] false true
      ((resolveBase testLoaderEnv 0 [['A'], ['B']] (emptyListing true).root []
        (some [])).getD ((emptyListing true).root, [], none)).1
      ((resolveBase testLoaderEnv 0 [['A'], ['B']] (emptyListing true).root []
        (some [])).getD ((emptyListing true).root, [], none)).2.1
      [0, 0]
      ((deref ((resolveBase testLoaderEnv 0 [['A'], ['B']] (emptyListing true).root []
        (some [])).getD ((emptyListing true).root, [], none)).1 [0, 0]).getD scenarioB)
      (by decide) (by decide) (by decide) (by decide) rfl (by decide) (by decide) (by decide) rfl
      (by decide) (by decide) (by decide) (by decide) (by decide) (by decide),
    update_into_empty_base_twice_equals_once testCollaborators testLoaderEnv
      testPartialEnv visitedB
      (listDocument [(sBase, ['/', 'A', '/', 'B', '/'])] entriesF3C)
      [(sBase, ['/', 'A', '/', 'B', '/'])] entriesF3C
      ['A', '\\', 'B', '\\'] ['/', 'A', '/', 'B', '/'] false true
      (modifyAt visitedB.root [0, 0] Directory.clearAll)
      (visitedB.baseDirs.filter
        (fun x => !testPartialEnv.isSub x.1 ['/', 'A', '/', 'B', '/']))
      [0, 0]
      (Directory.clearAll scenarioB)
      (by decide) (by decide) (by decide) (by decide) rfl (by decide) (by decide) (by decide) rfl
      (by decide) (by decide) (by decide) (by decide) (by decide) (by decide),
    update_into_empty_base_twice_equals_once testCollaborators dupeLoaderEnv
      { testPartialEnv with dupesInFilelist := true } (emptyListing true)
      (listDocument [(sBase, ['/', 'B', '/'])] dupeEntries)
      [(sBase, ['/', 'B', '/'])] dupeEntries
      ['B', '\\'] ['/', 'B', '/'] false true
      ((resolveBase dupeLoaderEnv 0 [['B']] (emptyListing true).root []
        (some [])).getD ((emptyListing true).root, [], none)).1
      ((resolveBase dupeLoaderEnv 0 [['B']] (emptyListing true).root []
        (some [])).getD ((emptyListing true).root, [], none)).2.1
      [0]
      ((deref ((resolveBase dupeLoaderEnv 0 [['B']] (emptyListing true).root []
        (some [])).getD ((emptyListing true).root, [], none)).1 [0]).getD scenarioB)
      (by decide) (by decide) (by decide) (by decide) rfl (by decide) (by decide) (by decide) rfl
      (by decide) (by decide) (by decide) (by decide) (by decide) (by decide),
    update_into_empty_base_twice_equals_once testCollaborators testLoaderEnv
      testPartialEnv visitedB
      (listDocument [(sBase, ['/', 'A', '/', 'B', '/'])] entriesF3C)
      [(sBase, ['/', 'A', '/', 'B', '/'])] entriesF3C
      ['A', '\\', 'B', '\\'] ['/', 'A', '/', 'B', '/'] true true
      ((resolveBase testLoaderEnv 0 [['A'], ['B']]
        ((Directory.clearAll visitedB.root).setType DirType.TYPE_INCOMPLETE_CHILD) []
        (some [])).getD (visitedB.root, [], none)).1
      ((resolveBase testLoaderEnv 0 [['A'], ['B']]
        ((Directory.clearAll visitedB.root).setType DirType.TYPE_INCOMPLETE_CHILD) []
        (some [])).getD (visitedB.root, [], none)).2.1
      [0, 0]
      ((deref ((resolveBase testLoaderEnv 0 [['A'], ['B']]
        ((Directory.clearAll visitedB.root).setType DirType.TYPE_INCOMPLETE_CHILD) []
        (some [])).getD (visitedB.root, [], none)).1 [0, 0]).getD scenarioB)
      (by decide) (by decide) (by decide) (by decide) rfl (by decide) (by decide) (by decide) rfl
      (by decide) (by decide) (by decide) (by decide) (by decide) (by decide),
    update_into_empty_base_twice_equals_once testCollaborators testLoaderEnv
      shareListEnv { visitedB with isOwnList := true }
      []
      [(sBase, ['/', 'A', '/', 'B', '/'])] [fileEntry ['f', '4'] ['6'] ['4']]
      ['A', '\\', 'B', '\\'] ['/', 'A', '/', 'B', '/'] false true
      (modifyAt visitedB.root [0, 0] Directory.clearAll)
      (visitedB.baseDirs.filter
        (fun x => !shareListEnv.isSub x.1 ['/', 'A', '/', 'B', '/']))
      [0, 0]
      (Directory.clearAll scenarioB)
      (by decide) (by decide) (by decide) (by decide) rfl (by decide) (by decide) (by decide) rfl
      (by decide) (by decide) (by decide) (by decide) (by decide) (by decide)⟩
/-- Counterexample to C21, with two further instances. (1) The listing that has visited
`A/B/` only receives for `A` the list
`<FileListing Base="/A/"> <Directory Name="B" Incomplete="1"/> </FileListing>`. The first
application finds `A` not visited, clears nothing and reuses the registered `B`, which keeps
`f2` and stays complete. The second application finds `A` visited and holding content,
clears it and erases `/a/b/` from the registry, and the tag creates a new `B` that is empty
and incomplete. Both return normally; the two trees differ. (2) A partial listing that was
just opened receives for `A` a list whose listing root tag names `/X/`, with the file `f3`:
the file goes to `X`, and `A` is never registered, so the second application adds the file
again. (3) With dupe marking on, the list with a shared file and a queued file, applied to
a partial listing that was just opened, leaves `B` with the status `DUPE_SHARE_PARTIAL`;
applied again it leaves `B` with the status `DUPE_SHARE_QUEUE`, because the dupe pass
starts from the status it finds: the trees agree only up to the dupe statuses of
directories. -/
theorem second_application_differs_counterexample :
    ((loadPartialImpl testCollaborators testLoaderEnv testPartialEnv visitedB
        (listDocument [(sBase, ['/', 'A', '/'])]
          [Entry.dir [(sName, ['B']), (sIncomplete, ['1'])] true []])
        ['A', '\\'] false true).2 = .ok () ∧
      (deref (loadPartialImpl testCollaborators testLoaderEnv testPartialEnv visitedB
          (listDocument [(sBase, ['/', 'A', '/'])]
            [Entry.dir [(sName, ['B']), (sIncomplete, ['1'])] true []])
          ['A', '\\'] false true).1.root [0, 0]).map
        (fun d => (d.getName, d.files.map (fun f => (f.name, f.size)), d.isComplete))
        = some (['B'], [(['f', '2'], 20)], true) ∧
      (loadPartialImpl testCollaborators testLoaderEnv testPartialEnv
        (loadPartialImpl testCollaborators testLoaderEnv testPartialEnv visitedB
          (listDocument [(sBase, ['/', 'A', '/'])]
            [Entry.dir [(sName, ['B']), (sIncomplete, ['1'])] true []])
          ['A', '\\'] false true).1
        (listDocument [(sBase, ['/', 'A', '/'])]
          [Entry.dir [(sName, ['B']), (sIncomplete, ['1'])] true []])
        ['A', '\\'] false true).2 = .ok () ∧
      (deref (loadPartialImpl testCollaborators testLoaderEnv testPartialEnv
          (loadPartialImpl testCollaborators testLoaderEnv testPartialEnv visitedB
            (listDocument [(sBase, ['/', 'A', '/'])]
              [Entry.dir [(sName, ['B']), (sIncomplete, ['1'])] true []])
            ['A', '\\'] false true).1
          (listDocument [(sBase, ['/', 'A', '/'])]
            [Entry.dir [(sName, ['B']), (sIncomplete, ['1'])] true []])
          ['A', '\\'] false true).1.root [0, 0]).map
        (fun d => (d.getName, d.files.map (fun f => (f.name, f.size)), d.isComplete))
        = some (['B'], [], false)) ∧
    ((loadPartialImpl testCollaborators testLoaderEnv testPartialEnv (emptyListing true)
        (listDocument [(sBase, ['/', 'X', '/'])] [fileEntry ['f', '3'] ['5'] ['3']])
        ['A', '\\'] false true).2 = .ok () ∧
      (deref (loadPartialImpl testCollaborators testLoaderEnv testPartialEnv
          (emptyListing true)
          (listDocument [(sBase, ['/', 'X', '/'])] [fileEntry ['f', '3'] ['5'] ['3']])
          ['A', '\\'] false true).1.root [0]).map
        (fun d => (d.getName, d.files.map (fun f => f.name)))
        = some (['X'], [['f', '3']]) ∧
      (loadPartialImpl testCollaborators testLoaderEnv testPartialEnv
        (loadPartialImpl testCollaborators testLoaderEnv testPartialEnv (emptyListing true)
          (listDocument [(sBase, ['/', 'X', '/'])] [fileEntry ['f', '3'] ['5'] ['3']])
          ['A', '\\'] false true).1
        (listDocument [(sBase, ['/', 'X', '/'])] [fileEntry ['f', '3'] ['5'] ['3']])
        ['A', '\\'] false true).2 = .ok () ∧
      (deref (loadPartialImpl testCollaborators testLoaderEnv testPartialEnv
          (loadPartialImpl testCollaborators testLoaderEnv testPartialEnv (emptyListing true)
            (listDocument [(sBase, ['/', 'X', '/'])] [fileEntry ['f', '3'] ['5'] ['3']])
            ['A', '\\'] false true).1
          (listDocument [(sBase, ['/', 'X', '/'])] [fileEntry ['f', '3'] ['5'] ['3']])
          ['A', '\\'] false true).1.root [0]).map
        (fun d => (d.getName, d.files.map (fun f => f.name)))
        = some (['X'], [['f', '3'], ['f', '3']])) ∧
    ((deref (loadPartialImpl testCollaborators dupeLoaderEnv
          { testPartialEnv with dupesInFilelist := true } (emptyListing true)
          (listDocument [(sBase, ['/', 'B', '/'])] dupeEntries)
          ['B', '\\'] false true).1.root [0]).map
        (fun d => (d.getName, d.files.map (fun f => f.name), d.getDupe))
        = some (['B'], [['s'], ['q']], DupeType.DUPE_SHARE_PARTIAL) ∧
      (deref (loadPartialImpl testCollaborators dupeLoaderEnv
          { testPartialEnv with dupesInFilelist := true }
          (loadPartialImpl testCollaborators dupeLoaderEnv
            { testPartialEnv with dupesInFilelist := true } (emptyListing true)
            (listDocument [(sBase, ['/', 'B', '/'])] dupeEntries)
            ['B', '\\'] false true).1
          (listDocument [(sBase, ['/', 'B', '/'])] dupeEntries)
          ['B', '\\'] false true).1.root [0]).map
        (fun d => (d.getName, d.files.map (fun f => f.name), d.getDupe))
        = some (['B'], [['s'], ['q']], DupeType.DUPE_SHARE_QUEUE)) := by
  refine ⟨⟨by decide, by decide, by decide, by decide⟩,
    ⟨by decide, by decide, by decide, by decide⟩, ⟨by decide!, by decide!⟩⟩

end DirectoryListing
